import Mathlib

/-!
# OCM task-group orchestrator: a shallow embedding

The definitions below transcribe the C++ sources of the repository
(`src/ocm/src/executer.cpp`, `task.cpp`, `node_map.cpp`, `node.cpp`,
`task_base.cpp`, `timer.cpp` and the headers they use, among them
`task/rt/sched_rt.hpp` and `executer/desired_group_data.hpp`) into Lean
functions.

Conventions of the embedding.

* `std::string` is `String`.  `std::set<std::string>` is a list kept sorted and
  free of repetitions by `string_set.insert`; it is iterated in list order.
* `std::unordered_map<std::string, V>` is an association list; `find` returns the
  first entry stored under a key and iteration follows the list.
* Objects reached through `std::shared_ptr` live in a heap (`World`): a node is
  addressed by a `NodePtr`, a task by a `TaskPtr`.
* Calls whose effect lies outside the framework (the seven user methods of a
  node, thread start/stop requests, log lines) are recorded as `Event`s, in the
  order in which the code issues them.  The user methods are assumed to return
  normally and not to touch the framework fields of a node.
* A C++ exception is a `Fault` in the `Except` monad.  A loop that may spin for
  ever takes a `fuel` bound and reports `Fault.no_fuel` when it is exhausted.
* A value of type `double` is the rational number it stands for.  The period
  conversions (`TimerLoop.SetPeriod`, `SleepExternalTimer.SetPeriod`) round the
  result of each operation to the nearest `double` (`double_round`).
* Values of the signed integer types (`int`, `long`, `int32_t`, `int64_t`) are
  integers.  The sums of `TimerLoop.AddPeriod` are reduced to the 64 bits of
  `long` (`wrap_signed`) and the period conversions convert to a type of bounded
  width (`static_cast_signed`); elsewhere the values are taken to fit their
  types, and a conversion from `double` truncates toward zero
  (`static_cast_int`).
* The real-time settings (`SystemSetting`) play no role in the control flow of
  the orchestrator and are left out of the records.
-/

namespace ocm

/-! ## `common/enum.hpp` -/

/-- The life-cycle state of a node (`enum class NodeState`). -/
inductive NodeState where
  | INIT
  | RUNNING
  | STANDBY
  deriving DecidableEq

/-- The life-cycle state of a task thread (`enum class TaskState`). -/
inductive TaskState where
  | INIT
  | RUNNING
  | STANDBY
  deriving DecidableEq

/-- The wake-up source of a task (`enum class TimerType`). -/
inductive TimerType where
  | INTERNAL_TIMER
  | EXTERNAL_TIMER
  | TRIGGER
  deriving DecidableEq

/-! ## `common/struct_type.hpp` -/

/-- Timer of a task (`struct TimerSetting`); `period` is documented to be in
seconds.  The defaults are those of value initialisation. -/
structure TimerSetting where
  timer_type : TimerType := TimerType.INTERNAL_TIMER
  period : ℚ := 0
  deriving DecidableEq

/-- One entry of a task's node list (`struct NodeConfig`). -/
structure NodeConfig where
  node_name : String
  output_enable : Bool
  deriving DecidableEq

/-- Launch behaviour of a resident task (`struct LaunchSetting`); `delay` is
documented to be in seconds. -/
structure LaunchSetting where
  pre_node : List String
  delay : ℚ := 0
  deriving DecidableEq

/-- Settings of one task (`struct TaskSetting`, `system_setting` left out). -/
structure TaskSetting where
  task_name : String
  node_list : List NodeConfig
  timer_setting : TimerSetting := {}
  launch_setting : LaunchSetting
  deriving DecidableEq

/-- Settings of a task inside an exclusive group (`struct GroupTaskSetting`).
A default-constructed value has an empty name and empty lists. -/
structure GroupTaskSetting where
  task_name : String := ""
  force_init_node : List String := []
  pre_node : List String := []
  deriving DecidableEq

/-- An exclusive group (`struct GroupSetting`); `task_list` is an unordered map. -/
structure GroupSetting where
  group_name : String
  task_list : List (String × GroupTaskSetting)
  deriving DecidableEq

/-- The two task maps of the configuration (`struct TaskList`). -/
structure TaskList where
  resident_group : List (String × TaskSetting)
  standby_group : List (String × TaskSetting)
  deriving DecidableEq

/-- The configuration handed to the executer (`struct ExecuterConfig`). -/
structure ExecuterConfig where
  task_list : TaskList
  exclusive_task_group : List (String × GroupSetting)
  deriving DecidableEq

/-! ## Containers of the standard library -/

/-- Lexicographic comparison of two character sequences by code point, the order
of `std::string::operator<` on UTF-8 text. -/
def string_lt_chars : List Char → List Char → Bool
  | [], [] => false
  | [], _ :: _ => true
  | _ :: _, [] => false
  | a :: as, b :: bs =>
    if a.toNat < b.toNat then true
    else if b.toNat < a.toNat then false
    else string_lt_chars as bs

/-- The order `std::less<std::string>` used by `std::set<std::string>`. -/
def string_lt (a b : String) : Bool := string_lt_chars a.data b.data

namespace string_set

/-- Membership test `s.find(x) != s.end()`. -/
def contains (s : List String) (x : String) : Bool := decide (x ∈ s)

/-- The call `s.insert(x)`: the element is placed at its sorted position unless
it is already present. -/
def insert (x : String) : List String → List String
  | [] => [x]
  | y :: ys =>
    if string_lt x y then x :: y :: ys
    else if x = y then y :: ys
    else y :: insert x ys

/-- The call `s.insert(first, last)` for a range of strings. -/
def insert_range (s : List String) (xs : List String) : List String :=
  xs.foldl (fun acc x => insert x acc) s

/-- The call `s.erase(x)`. -/
def erase (s : List String) (x : String) : List String :=
  s.filter (fun y => decide (y ≠ x))

/-- The algorithm `std::set_difference(a, b)` on two sets, written into an empty set. -/
def set_difference (a b : List String) : List String :=
  a.filter (fun x => !contains b x)

/-- The algorithm `std::set_union(a, b)` on two sets, written into an empty set. -/
def set_union (a b : List String) : List String :=
  insert_range (insert_range [] a) b

end string_set

namespace unordered_map

/-- The lookup `m.find(k)`: the value stored under `k`, if any. -/
def find {α : Type} : List (String × α) → String → Option α
  | [], _ => none
  | (k', v) :: m, k => if k' = k then some v else find m k

/-- The assignment `m[k] = v`: overwrite the entry of `k` or add a new one. -/
def assign {α : Type} : List (String × α) → String → α → List (String × α)
  | [], k, v => [(k, v)]
  | (k', v') :: m, k, v => if k' = k then (k', v) :: m else (k', v') :: assign m k v

/-- The keys of the map, in iteration order. -/
def keys {α : Type} (m : List (String × α)) : List String := m.map Prod.fst

end unordered_map

/-! ## Faults, pointers, events -/

/-- The exceptions the modelled code can raise, and fuel exhaustion. -/
inductive Fault where
  /-- The `std::runtime_error` of `NodeMap::GetNodePtr` for the given key. -/
  | node_not_found (key : String)
  /-- The `std::out_of_range` of `unordered_map::at` for the given key. -/
  | out_of_range (key : String)
  /-- The loop did not finish within the granted number of sweeps. -/
  | no_fuel
  deriving DecidableEq

/-- The address of a node object (`std::shared_ptr<NodeBase>`). -/
abbrev NodePtr := Nat

/-- The address of a task object (`std::shared_ptr<Task>`).  `CreateTask` makes one
object per entry of its two task maps, so an object is identified by the map it
lives in and its key there. -/
inductive TaskPtr where
  | resident (task_name : String)
  | standby (task_name : String)
  deriving DecidableEq

/-- The observable calls issued by the framework, in program order. -/
inductive Event where
  | Construct (node : NodePtr)
  | Init (node : NodePtr)
  | Execute (node : NodePtr)
  | Output (node : NodePtr)
  | TryEnter (node : NodePtr) (result : Bool)
  | TryExit (node : NodePtr) (result : Bool)
  | AfterExit (node : NodePtr)
  | SetState (node : NodePtr) (state : NodeState)
  /-- The call `task->Init()`. -/
  | TaskInitAll (task : TaskPtr)
  /-- The call `task->Init(init_node_list)`. -/
  | TaskInit (task : TaskPtr) (init_node_list : List String)
  | TaskStart (task : TaskPtr)
  | TaskStop (task : TaskPtr)
  | logger_info (text : String) (args : List String)
  | logger_error (text : String) (args : List String)
  deriving DecidableEq

/-! ## `node/node.hpp`, `node.cpp` -/

/-- The framework members of a node object (`class NodeBase`). -/
structure NodeBase where
  node_name_ : String
  is_construct_ : Bool := false
  state_ : NodeState := NodeState.INIT

/-! ## `node/node_map.hpp`, `node_map.cpp` -/

/-- The node registry (`class NodeMap`). -/
structure NodeMap where
  node_map_ : List (String × NodePtr) := []

/-- The method `NodeMap::AddNode`: store the pointer unless the name is taken. -/
def NodeMap.AddNode (m : NodeMap) (node_name : String) (node_ptr : NodePtr) : NodeMap :=
  match unordered_map.find m.node_map_ node_name with
  | none => { node_map_ := unordered_map.assign m.node_map_ node_name node_ptr }
  | some _ => m

/-- The method `NodeMap::GetNodePtr`: the stored pointer, or a runtime error. -/
def NodeMap.GetNodePtr (m : NodeMap) (key : String) : Except Fault NodePtr :=
  match unordered_map.find m.node_map_ key with
  | none => Except.error (Fault.node_not_found key)
  | some p => Except.ok p

/-! ## `task/task.hpp`, `task.cpp`, `task_base.cpp` -/

/-- The members of a task object that never change after construction, together
with the address of the object. -/
structure Task where
  self : TaskPtr
  thread_name_ : String
  task_setting_ : TaskSetting
  node_list_ : List NodePtr

/-- The members of a task object that are written after construction; they are
shared between the orchestrator and the thread of the task. -/
structure TaskVars where
  state_ : TaskState := TaskState.INIT
  run_flag_ : Bool := false
  loop_run_ : Bool := false
  start_sem_ : Nat := 0
  node_output_flag_ : List (String × Bool) := []
  node_init_flag_ : List (String × Bool) := []

/-- The heap of shared objects. -/
structure World where
  nodes : NodePtr → NodeBase
  tasks : TaskPtr → TaskVars

/-- The accessor `TaskBase::GetTaskName`. -/
def Task.GetTaskName (t : Task) : String := t.thread_name_

/-- The accessor `Task::GetTaskSetting`. -/
def Task.GetTaskSetting (t : Task) : TaskSetting := t.task_setting_

/-- The loop of the constructor `Task::Task` that fills the two flag maps. -/
def Task.init_flags : List NodeConfig → TaskVars → TaskVars
  | [], v => v
  | node :: rest, v =>
    Task.init_flags rest
      { v with
        node_output_flag_ := unordered_map.assign v.node_output_flag_ node.node_name node.output_enable
        node_init_flag_ := unordered_map.assign v.node_init_flag_ node.node_name false }

/-- The constructor `Task::Task`, when it returns: the immutable members and the
initial variables (`TaskBase::TaskBase` stores state `INIT` and clears both run
flags).  The constructor can also throw, see `Executer.CreateTask_raising`. -/
def Task.ctor (self : TaskPtr) (task_setting : TaskSetting) (node_list : List NodePtr) :
    Task × TaskVars :=
  ({ self := self, thread_name_ := task_setting.task_name, task_setting_ := task_setting,
     node_list_ := node_list },
   Task.init_flags task_setting.node_list {})

/-- The method `Task::Init()`: raise every init flag. -/
def Task.Init (v : TaskVars) : TaskVars :=
  { v with node_init_flag_ := v.node_init_flag_.map (fun node => (node.1, true)) }

/-- The loop of `Task::Init(init_node_list)` over the flag map: the updated map and
the names inserted into the result set. -/
def Task.Init_loop (init_node_list : List String) :
    List (String × Bool) → List String → List (String × Bool) × List String
  | [], result => ([], result)
  | node :: rest, result =>
    if string_set.contains init_node_list node.1 then
      let r := Task.Init_loop init_node_list rest (string_set.insert node.1 result)
      ((node.1, true) :: r.1, r.2)
    else
      let r := Task.Init_loop init_node_list rest result
      (node :: r.1, r.2)

/-- The method `Task::Init(const std::set<std::string>&)`: raise the flags of the
listed names that the task owns and return those names. -/
def Task.Init_subset (v : TaskVars) (init_node_list : List String) : TaskVars × List String :=
  let r := Task.Init_loop init_node_list v.node_init_flag_ []
  ({ v with node_init_flag_ := r.1 }, r.2)

/-- The method `TaskBase::TaskStart`: its effect on the variables of the task.  The
info line that it writes is given by `Event.log_lines`. -/
def TaskBase.TaskStart (v : TaskVars) : TaskVars :=
  { v with run_flag_ := true, loop_run_ := true, start_sem_ := v.start_sem_ + 1 }

/-- The method `TaskBase::TaskStop`: its effect on the variables of the task.  The
info line that it writes is given by `Event.log_lines`. -/
def TaskBase.TaskStop (v : TaskVars) : TaskVars :=
  { v with run_flag_ := false, loop_run_ := false }

/-- The statement `if (!node->GetIsConstruct()) { node->Construct();
node->SetIsConstruct(true); }` of `Task::Run`. -/
def Task.Run_construct (node : NodePtr) (s : TaskVars × (NodePtr → NodeBase) × List Event) :
    TaskVars × (NodePtr → NodeBase) × List Event :=
  if (s.2.1 node).is_construct_ then s
  else (s.1, Function.update s.2.1 node { s.2.1 node with is_construct_ := true },
        s.2.2 ++ [Event.Construct node])

/-- The statement `if (node_init_flag_.at(node_name)) { node->Init();
node_init_flag_.at(node_name) = false; }` of `Task::Run`; `at` throws when the
name has no entry. -/
def Task.Run_init (node : NodePtr) (s : TaskVars × (NodePtr → NodeBase) × List Event) :
    Except Fault (TaskVars × (NodePtr → NodeBase) × List Event) :=
  match unordered_map.find s.1.node_init_flag_ (s.2.1 node).node_name_ with
  | none => Except.error (Fault.out_of_range (s.2.1 node).node_name_)
  | some true =>
    Except.ok
      ({ s.1 with
         node_init_flag_ := unordered_map.assign s.1.node_init_flag_ (s.2.1 node).node_name_ false },
       s.2.1, s.2.2 ++ [Event.Init node])
  | some false => Except.ok s

/-- The statement `node->Execute();` of `Task::Run`. -/
def Task.Run_execute (node : NodePtr) (s : TaskVars × (NodePtr → NodeBase) × List Event) :
    TaskVars × (NodePtr → NodeBase) × List Event :=
  (s.1, s.2.1, s.2.2 ++ [Event.Execute node])

/-- The statement `if (node_output_flag_[node_name]) { node->Output(); }` of
`Task::Run`; `operator[]` adds a false entry when the name has none. -/
def Task.Run_output (node : NodePtr) (s : TaskVars × (NodePtr → NodeBase) × List Event) :
    TaskVars × (NodePtr → NodeBase) × List Event :=
  match unordered_map.find s.1.node_output_flag_ (s.2.1 node).node_name_ with
  | some true => (s.1, s.2.1, s.2.2 ++ [Event.Output node])
  | some false => s
  | none =>
    ({ s.1 with
       node_output_flag_ := unordered_map.assign s.1.node_output_flag_ (s.2.1 node).node_name_ false },
     s.2.1, s.2.2)

/-- The statement `node->SetState(NodeState::RUNNING);` of `Task::Run`. -/
def Task.Run_set_state (node : NodePtr) (s : TaskVars × (NodePtr → NodeBase) × List Event) :
    TaskVars × (NodePtr → NodeBase) × List Event :=
  (s.1, Function.update s.2.1 node { s.2.1 node with state_ := NodeState.RUNNING },
   s.2.2 ++ [Event.SetState node NodeState.RUNNING])

/-- The body of the loop of `Task::Run` for one node of `node_list_`. -/
def Task.Run_node (node : NodePtr) (s : TaskVars × (NodePtr → NodeBase) × List Event) :
    Except Fault (TaskVars × (NodePtr → NodeBase) × List Event) :=
  match Task.Run_init node (Task.Run_construct node s) with
  | Except.error f => Except.error f
  | Except.ok s1 =>
    Except.ok (Task.Run_set_state node (Task.Run_output node (Task.Run_execute node s1)))

/-- The loop `for (auto& node : *node_list_)` of `Task::Run`. -/
def Task.Run_loop : List NodePtr → TaskVars × (NodePtr → NodeBase) × List Event →
    Except Fault (TaskVars × (NodePtr → NodeBase) × List Event)
  | [], s => Except.ok s
  | node :: rest, s =>
    match Task.Run_node node s with
    | Except.error f => Except.error f
    | Except.ok s1 => Task.Run_loop rest s1

/-- The method `Task::Run`: one pass over the nodes of the task.  The result holds
the variables of the task, the node heap and the calls made, in order. -/
def Task.Run (t : Task) (v : TaskVars) (nodes : NodePtr → NodeBase) :
    Except Fault (TaskVars × (NodePtr → NodeBase) × List Event) :=
  Task.Run_loop t.node_list_ (v, nodes, [])

/-! ## `log_anywhere/log_anywhere.hpp` -/

/-- The helper `JointStrSet`: the elements of a set joined by a delimiter. -/
def JointStrSet (s : List String) (delimiter : String) : String :=
  String.intercalate delimiter s

/-! ## `executer/executer.hpp`, `executer.cpp`

Log lines of the executer are recorded with their text (placeholders and colour
codes dropped) and the list of their arguments.  The info lines that
`TaskBase::TaskStart` and `TaskBase::TaskStop` write are part of the recorded
calls `Event.TaskStart` and `Event.TaskStop`; `Event.log_lines` gives, for each
recorded call, the lines written in its course. -/

namespace task_set

/-- The call `s.insert(task)` on a `std::set<std::shared_ptr<Task>>`: a pointer is
stored once.  The set is ordered by address; the model iterates in order of
insertion. -/
def insert (t : Task) (s : List Task) : List Task :=
  if s.any (fun u => decide (u.self = t.self)) then s else s ++ [t]

end task_set

/-- The members of `class Executer`. -/
structure Executer where
  node_map_ : NodeMap
  executer_config_ : ExecuterConfig
  desired_group_ : String
  current_group_ : String
  desired_group_history_ : String
  target_group_ : String
  is_transition_ : Bool
  all_node_exit_check_ : Bool
  all_node_enter_check_ : Bool
  task_stop_flag_ : Bool
  task_start_flag_ : Bool
  all_current_task_stop_ : Bool
  resident_group_task_list_ : List (String × Task)
  standby_group_task_list_ : List (String × Task)
  exclusive_group_set_ : List String
  target_task_set_ : List Task
  current_task_set_ : List Task
  target_node_set_ : List String
  current_node_set_ : List String
  enter_node_set_ : List String
  exit_node_set_ : List String

/-- The constructor `Executer::Executer` (member initialiser list). -/
def Executer.ctor (executer_config : ExecuterConfig) (node_map : NodeMap) : Executer :=
  { node_map_ := node_map
    executer_config_ := executer_config
    desired_group_ := "empty_init"
    current_group_ := "empty_init"
    desired_group_history_ := "empty_init"
    target_group_ := "empty_init"
    is_transition_ := false
    all_node_exit_check_ := false
    all_node_enter_check_ := false
    task_stop_flag_ := true
    task_start_flag_ := true
    all_current_task_stop_ := false
    resident_group_task_list_ := []
    standby_group_task_list_ := []
    exclusive_group_set_ := []
    target_task_set_ := []
    current_task_set_ := []
    target_node_set_ := []
    current_node_set_ := []
    enter_node_set_ := []
    exit_node_set_ := [] }

/-- The inner loop of `CreateTask`: resolve the node names of one task, in order. -/
def Executer.CreateTask_nodes (node_map : NodeMap) : List NodeConfig → Except Fault (List NodePtr)
  | [] => Except.ok []
  | node_config :: rest =>
    match node_map.GetNodePtr node_config.node_name with
    | Except.error f => Except.error f
    | Except.ok p =>
      match Executer.CreateTask_nodes node_map rest with
      | Except.error f => Except.error f
      | Except.ok ps => Except.ok (p :: ps)

/-- One of the two outer loops of `CreateTask`: build a task object for every entry
of a task map of the configuration and store it under its `task_name`.  The
constructors are taken to return; `Executer.CreateTask_group_raising` is the loop
with constructors that can throw. -/
def Executer.CreateTask_group (node_map : NodeMap) (address : String → TaskPtr) :
    List (String × TaskSetting) → List (String × Task) × World × List Event →
    Except Fault (List (String × Task) × World × List Event)
  | [], s => Except.ok s
  | task_setting :: rest, s =>
    match Executer.CreateTask_nodes node_map task_setting.2.node_list with
    | Except.error f => Except.error f
    | Except.ok node_list =>
      let made := Task.ctor (address task_setting.2.task_name) task_setting.2 node_list
      Executer.CreateTask_group node_map address rest
        (unordered_map.assign s.1 task_setting.2.task_name made.1,
         { s.2.1 with tasks := Function.update s.2.1.tasks made.1.self made.2 },
         s.2.2 ++ [Event.logger_info "[Executer] Task added." [task_setting.2.task_name]])

/-- The last loop of `CreateTask`: register the names of the exclusive groups. -/
def Executer.CreateTask_exclusive :
    List (String × GroupSetting) → List String × List Event → List String × List Event
  | [], s => s
  | exclusive_task_group :: rest, s =>
    Executer.CreateTask_exclusive rest
      (string_set.insert exclusive_task_group.2.group_name s.1,
       s.2 ++ [Event.logger_info "[Executer] Exclusive group added."
                 [exclusive_task_group.2.group_name]])

/-- The method `Executer::CreateTask`, with task constructors that return
(`Executer.CreateTask_raising` is the method with constructors that can throw, and
agrees with this one when none does). -/
def Executer.CreateTask (e : Executer) (w : World) : Except Fault (Executer × World × List Event) :=
  match Executer.CreateTask_group e.node_map_ TaskPtr.resident
      e.executer_config_.task_list.resident_group (e.resident_group_task_list_, w, []) with
  | Except.error f => Except.error f
  | Except.ok r1 =>
    match Executer.CreateTask_group e.node_map_ TaskPtr.standby
        e.executer_config_.task_list.standby_group (e.standby_group_task_list_, r1.2.1, r1.2.2) with
    | Except.error f => Except.error f
    | Except.ok r2 =>
      let r3 := Executer.CreateTask_exclusive e.executer_config_.exclusive_task_group
        (e.exclusive_group_set_, r2.2.2)
      Except.ok
        ({ e with
           resident_group_task_list_ := r1.1
           standby_group_task_list_ := r2.1
           exclusive_group_set_ := r3.1 },
         r2.2.1, r3.2)

/-- The state of the start loops of `InitTask` and `Transition`: the shared heap,
the calls issued so far and the set `all_init_node_set_log` (used by `Transition`
only). -/
structure StartState where
  w : World
  evs : List Event
  all_init_node_set_log : List String

/-- The readiness test `std::all_of(pre_node_list, GetState() == RUNNING)`; it stops
at the first node that is not running. -/
def Executer.pre_node_ready (node_map : NodeMap) (w : World) : List String → Except Fault Bool
  | [] => Except.ok true
  | pre_node_name :: rest =>
    match node_map.GetNodePtr pre_node_name with
    | Except.error f => Except.error f
    | Except.ok p =>
      if (w.nodes p).state_ = NodeState.RUNNING then Executer.pre_node_ready node_map w rest
      else Except.ok false

/-- The body of the start loop of `InitTask` for a task that is not started yet:
`none` when the task has to wait, the new state when it is started. -/
def Executer.InitTask_start (e : Executer) (t : Task) (s : StartState) :
    Except Fault (Option StartState) :=
  let is_pre_node_empty := t.GetTaskSetting.launch_setting.pre_node.isEmpty
  let pre_node_list := t.GetTaskSetting.launch_setting.pre_node
  match Executer.pre_node_ready e.node_map_ s.w pre_node_list with
  | Except.error f => Except.error f
  | Except.ok is_pre_node_ready =>
    if is_pre_node_empty || is_pre_node_ready then
      let v := TaskBase.TaskStart (Task.Init (s.w.tasks t.self))
      Except.ok (some
        { s with
          w := { s.w with tasks := Function.update s.w.tasks t.self v }
          evs := s.evs ++ [Event.TaskInitAll t.self, Event.TaskStart t.self,
            Event.logger_info "[Executer] Task start." [t.GetTaskName]] })
    else Except.ok none

/-- The settings of a task in the target group, as looked up by the start loop of
`Transition`; a default-constructed value when the group or the task is missing. -/
def Executer.target_task_setting (e : Executer) (task_name : String) : GroupTaskSetting :=
  match unordered_map.find e.executer_config_.exclusive_task_group e.target_group_ with
  | none => {}
  | some group =>
    match unordered_map.find group.task_list task_name with
    | none => {}
    | some task_setting => task_setting

/-- The set `all_init_node_set` computed by the start loop of `Transition`. -/
def Executer.all_init_node_set (e : Executer) (task_name : String) : List String :=
  string_set.set_union
    (string_set.insert_range [] (e.target_task_setting task_name).force_init_node)
    e.enter_node_set_

/-- The body of the start loop of `Transition` for a task that is not started yet:
`none` when the task has to wait, the new state when it is started.  A start
writes two log lines: the one of `TaskBase::TaskStart`, which belongs to the
recorded call `Event.TaskStart` (see `Event.log_lines`), and the info line of
the loop itself. -/
def Executer.Transition_start (e : Executer) (t : Task) (s : StartState) :
    Except Fault (Option StartState) :=
  let task_name := t.GetTaskName
  let task_setting := e.target_task_setting task_name
  let is_pre_node_empty := task_setting.pre_node.isEmpty
  let pre_node_list := task_setting.pre_node
  let all_init_node_set := e.all_init_node_set task_name
  match Executer.pre_node_ready e.node_map_ s.w pre_node_list with
  | Except.error f => Except.error f
  | Except.ok is_pre_node_ready =>
    if is_pre_node_empty || is_pre_node_ready then
      let init := Task.Init_subset (s.w.tasks t.self) all_init_node_set
      let v := TaskBase.TaskStart init.1
      Except.ok (some
        { w := { s.w with tasks := Function.update s.w.tasks t.self v }
          evs := s.evs ++ [Event.TaskInit t.self all_init_node_set, Event.TaskStart t.self,
            Event.logger_info "[Executer] Task start." [t.GetTaskName]]
          all_init_node_set_log := string_set.insert_range s.all_init_node_set_log init.2 })
    else Except.ok none

/-- One pass `for (auto& task : task_list_wait_to_start)` of a start loop.  The
argument `others` is the activity of the other threads on the shared heap before
the readiness check number `clock`; `body` is the body of the loop for a task
that is not started yet. -/
def Executer.start_sweep (others : Nat → World → World)
    (body : Task → StartState → Except Fault (Option StartState)) :
    List (Bool × Task) → Nat × List String × StartState →
    Except Fault (List (Bool × Task) × Nat × List String × StartState)
  | [], s => Except.ok ([], s)
  | task :: rest, s =>
    if task.1 then
      match Executer.start_sweep others body rest s with
      | Except.error f => Except.error f
      | Except.ok r => Except.ok (task :: r.1, r.2)
    else
      let now : StartState := { s.2.2 with w := others s.1 s.2.2.w }
      match body task.2 now with
      | Except.error f => Except.error f
      | Except.ok none =>
        match Executer.start_sweep others body rest (s.1 + 1, s.2.1, now) with
        | Except.error f => Except.error f
        | Except.ok r => Except.ok (task :: r.1, r.2)
      | Except.ok (some started) =>
        match Executer.start_sweep others body rest
            (s.1 + 1, string_set.erase s.2.1 task.2.GetTaskName, started) with
        | Except.error f => Except.error f
        | Except.ok r => Except.ok ((true, task.2) :: r.1, r.2)

/-- The loop `while (!task_set_wait_to_start.empty())` of `InitTask` and of
`Transition`, for at most `fuel` passes. -/
def Executer.start_loop (others : Nat → World → World)
    (body : Task → StartState → Except Fault (Option StartState)) :
    Nat → List (Bool × Task) → Nat × List String × StartState →
    Except Fault (List (Bool × Task) × Nat × List String × StartState)
  | 0, list, s => if s.2.1.isEmpty then Except.ok (list, s) else Except.error Fault.no_fuel
  | fuel + 1, list, s =>
    if s.2.1.isEmpty then Except.ok (list, s)
    else
      match Executer.start_sweep others body list s with
      | Except.error f => Except.error f
      | Except.ok r => Executer.start_loop others body fuel r.1 r.2

/-- The list `task_list_wait_to_start` as first filled by a start loop. -/
def Executer.wait_list (tasks : List Task) : List (Bool × Task) :=
  tasks.map (fun t => (false, t))

/-- The set `task_set_wait_to_start` as first filled by a start loop. -/
def Executer.wait_set (tasks : List Task) : List String :=
  string_set.insert_range [] (tasks.map Task.GetTaskName)

/-- The method `Executer::InitTask`, with at most `fuel` passes of its loop. -/
def Executer.InitTask (fuel : Nat) (others : Nat → World → World) (e : Executer) (w : World) :
    Except Fault (World × List Event) :=
  let tasks := e.resident_group_task_list_.map Prod.snd
  match Executer.start_loop others e.InitTask_start fuel (Executer.wait_list tasks)
      (0, Executer.wait_set tasks, { w := w, evs := [], all_init_node_set_log := [] }) with
  | Except.error f => Except.error f
  | Except.ok r => Except.ok (r.2.2.2.w, r.2.2.2.evs)

/-- The body of the two loops of `TransitionCheck` over the task list of a group:
collect the task objects and the node names of the standby tasks it lists. -/
def Executer.collect_group (e : Executer) :
    List (String × GroupTaskSetting) → List Task × List String → List Task × List String
  | [], s => s
  | task_config :: rest, s =>
    let task_name := task_config.2.task_name
    let task_set :=
      match unordered_map.find e.standby_group_task_list_ task_name with
      | some task => task_set.insert task s.1
      | none => s.1
    let node_set :=
      match unordered_map.find e.executer_config_.task_list.standby_group task_name with
      | some task_setting =>
        string_set.insert_range s.2 (task_setting.node_list.map NodeConfig.node_name)
      | none => s.2
    Executer.collect_group e rest (task_set, node_set)

/-- The task set and node set that `TransitionCheck` builds for the group stored
under a key of `exclusive_task_group`; both are empty when the key is absent. -/
def Executer.collect (e : Executer) (group : String) : List Task × List String :=
  match unordered_map.find e.executer_config_.exclusive_task_group group with
  | some group_setting => Executer.collect_group e group_setting.task_list ([], [])
  | none => ([], [])

/-- The method `Executer::TransitionCheck`: the new members and the log lines. -/
def Executer.TransitionCheck (e : Executer) : Executer × List Event :=
  if !e.is_transition_ then
    let desired_group := e.desired_group_
    let current_group := e.current_group_
    if desired_group ≠ current_group then
      if string_set.contains e.exclusive_group_set_ desired_group then
        let target := Executer.collect e desired_group
        let current : List Task × List String :=
          if current_group ≠ "empty_init" then Executer.collect e current_group else ([], [])
        ({ e with
           target_task_set_ := target.1
           current_task_set_ := current.1
           target_node_set_ := target.2
           current_node_set_ := current.2
           exit_node_set_ := string_set.set_difference current.2 target.2
           enter_node_set_ := string_set.set_difference target.2 current.2
           all_node_exit_check_ := false
           all_node_enter_check_ := false
           is_transition_ := true
           task_stop_flag_ := true
           task_start_flag_ := true
           all_current_task_stop_ := false
           target_group_ := desired_group },
         [Event.logger_info "[Executer] Transition from group to group"
            [current_group, desired_group]])
      else if e.desired_group_history_ ≠ desired_group then
        ({ e with desired_group_history_ := desired_group },
         [Event.logger_error "[Executer] Target group is not an exclusive group." [desired_group]])
      else (e, [])
    else (e, [])
  else (e, [])

/-- What one activation of `Executer::Run` receives from outside the executer. -/
structure TickEnv where
  /-- The message delivered by `SubscribeNoWait`, if one is pending. -/
  msg : Option String
  /-- The answer of `TryExit()` of the node registered under a name. -/
  TryExit : String → Bool
  /-- The answer of `TryEnter()` of the node registered under a name. -/
  TryEnter : String → Bool
  /-- The activity of the other threads during the start loop. -/
  others : Nat → World → World
  /-- The number of passes granted to the start loop. -/
  fuel : Nat
  /-- The activity of the other threads since the previous activation. -/
  before : World → World

/-- The poll `std::all_of(exit_node_set_, TryExit())`; it stops at the first node
that answers false. -/
def Executer.all_of_TryExit (node_map : NodeMap) (TryExit : String → Bool) :
    List String → Except Fault (Bool × List Event)
  | [] => Except.ok (true, [])
  | node :: rest =>
    match node_map.GetNodePtr node with
    | Except.error f => Except.error f
    | Except.ok p =>
      if TryExit node then
        match Executer.all_of_TryExit node_map TryExit rest with
        | Except.error f => Except.error f
        | Except.ok r => Except.ok (r.1, Event.TryExit p true :: r.2)
      else Except.ok (false, [Event.TryExit p false])

/-- The poll `std::all_of(enter_node_set_, TryEnter())`; it stops at the first node
that answers false. -/
def Executer.all_of_TryEnter (node_map : NodeMap) (TryEnter : String → Bool) :
    List String → Except Fault (Bool × List Event)
  | [] => Except.ok (true, [])
  | node :: rest =>
    match node_map.GetNodePtr node with
    | Except.error f => Except.error f
    | Except.ok p =>
      if TryEnter node then
        match Executer.all_of_TryEnter node_map TryEnter rest with
        | Except.error f => Except.error f
        | Except.ok r => Except.ok (r.1, Event.TryEnter p true :: r.2)
      else Except.ok (false, [Event.TryEnter p false])

/-- The loop of `Transition` that stops the tasks of `current_task_set_`. -/
def Executer.stop_tasks : List Task → World → World × List Event
  | [], w => (w, [])
  | task :: rest, w =>
    let r := Executer.stop_tasks rest
      { w with tasks := Function.update w.tasks task.self (TaskBase.TaskStop (w.tasks task.self)) }
    (r.1, Event.TaskStop task.self :: r.2)

/-- The loop of `Transition` over `exit_node_set_`: `AfterExit()` and then
`SetState(NodeState::STANDBY)` on each node. -/
def Executer.exit_nodes (node_map : NodeMap) : List String → World → Except Fault (World × List Event)
  | [], w => Except.ok (w, [])
  | node :: rest, w =>
    match node_map.GetNodePtr node with
    | Except.error f => Except.error f
    | Except.ok p =>
      match Executer.exit_nodes node_map rest
          { w with nodes := Function.update w.nodes p
                     { w.nodes p with state_ := NodeState.STANDBY } } with
      | Except.error f => Except.error f
      | Except.ok r => Except.ok (r.1, Event.AfterExit p :: Event.SetState p NodeState.STANDBY :: r.2)

/-- The test `std::all_of(current_task_set_, GetState() == TaskState::STANDBY)`. -/
def Executer.all_standby (w : World) (tasks : List Task) : Bool :=
  tasks.all (fun task => decide ((w.tasks task.self).state_ = TaskState.STANDBY))

/-- The set `running_node_set` of the final log line of `Transition`. -/
def Executer.running_node_set (tasks : List Task) : List String :=
  tasks.foldl
    (fun acc task => string_set.insert_range acc (task.GetTaskSetting.node_list.map NodeConfig.node_name))
    []

/-- The branch of `Transition` taken while a handshake is open: poll `TryExit` on
the exit nodes and `TryEnter` on the enter nodes and store both answers. -/
def Executer.Transition_poll (env : TickEnv) (e : Executer) (w : World) :
    Except Fault (Executer × World × List Event) :=
  match Executer.all_of_TryExit e.node_map_ env.TryExit e.exit_node_set_ with
  | Except.error f => Except.error f
  | Except.ok exit_check =>
    match Executer.all_of_TryEnter e.node_map_ env.TryEnter e.enter_node_set_ with
    | Except.error f => Except.error f
    | Except.ok enter_check =>
      Except.ok
        ({ e with all_node_exit_check_ := exit_check.1, all_node_enter_check_ := enter_check.1 },
         w, exit_check.2 ++ enter_check.2)

/-- The block `if (task_stop_flag_)` of `Transition`: stop the current tasks, once. -/
def Executer.Transition_stop (e : Executer) (w : World) : Executer × World × List Event :=
  if e.task_stop_flag_ then
    let r := Executer.stop_tasks e.current_task_set_ w
    ({ e with task_stop_flag_ := false }, r.1, r.2)
  else (e, w, [])

/-- The block `if (all_current_task_stop_)` of `Transition`: leave the exit nodes,
start the target tasks and make the target group the current one.  The argument
`evs` holds the calls already issued in this activation. -/
def Executer.Transition_finish (env : TickEnv) (e : Executer) (w : World) (evs : List Event) :
    Except Fault (Executer × World × List Event) :=
  match Executer.exit_nodes e.node_map_ e.exit_node_set_ w with
  | Except.error f => Except.error f
  | Except.ok exited =>
    match Executer.start_loop env.others e.Transition_start env.fuel
        (Executer.wait_list e.target_task_set_)
        (0, Executer.wait_set e.target_task_set_,
         { w := exited.1, evs := evs ++ exited.2, all_init_node_set_log := [] }) with
    | Except.error f => Except.error f
    | Except.ok r =>
      Except.ok
        ({ e with current_group_ := e.target_group_, is_transition_ := false },
         r.2.2.2.w,
         r.2.2.2.evs ++ [Event.logger_info "[Executer] Transition from to group finished."
           [e.current_group_, e.target_group_, JointStrSet e.exit_node_set_ ",",
            JointStrSet e.enter_node_set_ ",", JointStrSet r.2.2.2.all_init_node_set_log ",",
            JointStrSet (Executer.running_node_set e.target_task_set_) ","]])

/-- The method `Executer::Transition`. -/
def Executer.Transition (env : TickEnv) (e : Executer) (w : World) :
    Except Fault (Executer × World × List Event) :=
  if e.all_node_exit_check_ && e.all_node_enter_check_ then
    if (Executer.Transition_stop e w).1.all_current_task_stop_ then
      Executer.Transition_finish env (Executer.Transition_stop e w).1
        (Executer.Transition_stop e w).2.1 (Executer.Transition_stop e w).2.2
    else
      Except.ok
        ({ (Executer.Transition_stop e w).1 with
           all_current_task_stop_ :=
             Executer.all_standby (Executer.Transition_stop e w).2.1
               (Executer.Transition_stop e w).1.current_task_set_ },
         (Executer.Transition_stop e w).2.1, (Executer.Transition_stop e w).2.2)
  else Executer.Transition_poll env e w

/-- The call `SubscribeNoWait` at the head of `Run`: its callback stores the
delivered group name in `desired_group_`; nothing happens without a message. -/
def Executer.Subscribe (e : Executer) (msg : Option String) : Executer :=
  match msg with
  | some desired_group => { e with desired_group_ := desired_group }
  | none => e

/-- The method `Executer::Run`: take the pending message, check for a transition
and advance the transition in progress. -/
def Executer.Run (env : TickEnv) (e : Executer) (w : World) :
    Except Fault (Executer × World × List Event) :=
  if (e.Subscribe env.msg).TransitionCheck.1.is_transition_ then
    match (e.Subscribe env.msg).TransitionCheck.1.Transition env w with
    | Except.error f => Except.error f
    | Except.ok r => Except.ok (r.1, r.2.1, (e.Subscribe env.msg).TransitionCheck.2 ++ r.2.2)
  else Except.ok ((e.Subscribe env.msg).TransitionCheck.1, w, (e.Subscribe env.msg).TransitionCheck.2)

/-- The activations of `Executer::Run` made by the thread of the executer, one
per element of the list; each result holds the members, the heap and the calls of
that activation. -/
def Executer.Loop : List TickEnv → Executer → World →
    Except Fault (List (Executer × World × List Event))
  | [], _, _ => Except.ok []
  | env :: rest, e, w =>
    match e.Run env (env.before w) with
    | Except.error f => Except.error f
    | Except.ok r =>
      match Executer.Loop rest r.1 r.2.1 with
      | Except.error f => Except.error f
      | Except.ok rs => Except.ok (r :: rs)

/-! ## Notions of the specification, used to state the properties -/

/-- The set representation invariant of `std::set<std::string>`: strictly
increasing, hence free of repetitions. -/
def string_set.is_set (s : List String) : Prop :=
  s.Pairwise (fun a b => string_lt a b = true)

/-- The node-name list of the standby task stored under `task_name` in the
configuration; empty when there is no such task. -/
def spec_task_nodes (cfg : ExecuterConfig) (task_name : String) : List String :=
  match unordered_map.find cfg.task_list.standby_group task_name with
  | none => []
  | some task_setting => task_setting.node_list.map NodeConfig.node_name

/-- The union of the node-name lists of the standby tasks listed in the exclusive
group stored under `group` (specification, section 4.9, step 2). -/
def spec_group_nodes (cfg : ExecuterConfig) (group : String) : List String :=
  match unordered_map.find cfg.exclusive_task_group group with
  | none => []
  | some group_setting =>
    group_setting.task_list.flatMap (fun task_config => spec_task_nodes cfg task_config.2.task_name)

/-- The calls that section 4.7 of the specification prescribes for one node of a
task run: `Construct` when `construct` holds, `Init` when `init` holds,
`Execute`, `Output` when `output` holds, and last the promotion to RUNNING. -/
def spec_node_calls (node : NodePtr) (construct init output : Bool) : List Event :=
  (if construct then [Event.Construct node] else []) ++
  (if init then [Event.Init node] else []) ++
  [Event.Execute node] ++
  (if output then [Event.Output node] else []) ++
  [Event.SetState node NodeState.RUNNING]

/-- The calls that section 4.7 prescribes for a run over the nodes `todo`, in
order, as a function of the variables `v` and heap `nodes` at the entry of the
run and of the nodes `visited` earlier in the same run: a node is constructed
when it was not constructed at entry and was not visited before, it is
initialised when its init flag was set at entry and no node of the same name was
visited before, and its output is produced when its output flag is set. -/
def spec_run_calls (v : TaskVars) (nodes : NodePtr → NodeBase) :
    List NodePtr → List NodePtr → List Event
  | _, [] => []
  | visited, node :: todo =>
    spec_node_calls node
      (!(nodes node).is_construct_ && !decide (node ∈ visited))
      (decide (unordered_map.find v.node_init_flag_ (nodes node).node_name_ = some true) &&
        !decide ((nodes node).node_name_ ∈ visited.map (fun p => (nodes p).node_name_)))
      (decide (unordered_map.find v.node_output_flag_ (nodes node).node_name_ = some true))
    ++ spec_run_calls v nodes (visited ++ [node]) todo

/-- The node names listed in the node lists of the resident and standby tasks of
a configuration. -/
def spec_node_list_names (cfg : ExecuterConfig) : List String :=
  (cfg.task_list.resident_group ++ cfg.task_list.standby_group).flatMap
    (fun task_setting => task_setting.2.node_list.map NodeConfig.node_name)

/-- Every node name a configuration refers to: in the node list or the launch
`pre_node` list of a resident or standby task, or in the `pre_node` or
`force_init_node` list of a task of an exclusive group. -/
def spec_referenced_names (cfg : ExecuterConfig) : List String :=
  spec_node_list_names cfg ++
  (cfg.task_list.resident_group ++ cfg.task_list.standby_group).flatMap
    (fun task_setting => task_setting.2.launch_setting.pre_node) ++
  cfg.exclusive_task_group.flatMap (fun group =>
    group.2.task_list.flatMap (fun task_config =>
      task_config.2.pre_node ++ task_config.2.force_init_node))

/-- Whether a computation ended with an exception. -/
def failed {α : Type} (r : Except Fault α) : Bool :=
  match r with
  | Except.error _ => true
  | Except.ok _ => false

/-- The node objects registered under the given names, in order (names that the
registry does not hold are skipped). -/
def spec_node_ptrs (node_map : NodeMap) (names : List String) : List NodePtr :=
  names.filterMap (unordered_map.find node_map.node_map_)

/-- Whether an event is a call of `AfterExit` or a write of a node state. -/
def Event.is_exit_step : Event → Bool
  | Event.AfterExit _ => true
  | Event.SetState _ _ => true
  | _ => false

/-- Whether an event is a call of a method of a node or a write of a node state. -/
def Event.is_node_event : Event → Bool
  | Event.Construct _ => true
  | Event.Init _ => true
  | Event.Execute _ => true
  | Event.Output _ => true
  | Event.TryEnter _ _ => true
  | Event.TryExit _ _ => true
  | Event.AfterExit _ => true
  | Event.SetState _ _ => true
  | _ => false

/-- The task an event is addressed to, for the four calls made on a task. -/
def Event.task : Event → Option TaskPtr
  | Event.TaskInitAll t => some t
  | Event.TaskInit t _ => some t
  | Event.TaskStart t => some t
  | Event.TaskStop t => some t
  | _ => none

/-- The calls made by the start loop of `Transition` when it starts a task. -/
def Executer.Transition_start_calls (e : Executer) (t : Task) : List Event :=
  [Event.TaskInit t.self (e.all_init_node_set t.GetTaskName), Event.TaskStart t.self,
   Event.logger_info "[Executer] Task start." [t.GetTaskName]]

/-- The calls made by the start loop of `InitTask` when it starts a task. -/
def Executer.InitTask_start_calls (t : Task) : List Event :=
  [Event.TaskInitAll t.self, Event.TaskStart t.self,
   Event.logger_info "[Executer] Task start." [t.GetTaskName]]

/-- The loop invariant of a start loop: `task_set_wait_to_start` holds exactly the
names of the tasks of `task_list_wait_to_start` that are not started yet. -/
def Executer.wait_set_matches (list : List (Bool × Task)) (wait_set : List String) : Prop :=
  ∀ n, n ∈ wait_set ↔ ∃ x ∈ list, x.1 = false ∧ x.2.GetTaskName = n

/-- The condition a start loop tests before it starts a task: every node of the
`pre_node` list is registered and RUNNING (which holds for an empty list). -/
def spec_pre_nodes_running (node_map : NodeMap) (w : World) (pre_node : List String) : Prop :=
  ∀ n ∈ pre_node, ∃ p, node_map.GetNodePtr n = Except.ok p ∧ (w.nodes p).state_ = NodeState.RUNNING

/-- A set of task pointers as `TransitionCheck` builds it: no object occurs twice
and every object is the one stored in `standby_group_task_list_` under its name. -/
def Executer.is_task_set (e : Executer) (s : List Task) : Prop :=
  (s.map Task.self).Nodup ∧
  ∀ t ∈ s, unordered_map.find e.standby_group_task_list_ t.GetTaskName = some t

/-- The current-group part of `TransitionCheck`: the tasks and nodes of the current
group, both empty while the current group is `"empty_init"`. -/
def Executer.collect_current (e : Executer) : List Task × List String :=
  if e.current_group_ ≠ "empty_init" then Executer.collect e e.current_group_ else ([], [])

/-- The invariant of the reachable states of the orchestrator. -/
structure Executer.inv (e : Executer) : Prop where
  /-- A standby task object is stored under its name and lives at that address. -/
  standby : ∀ k t, unordered_map.find e.standby_group_task_list_ k = some t →
    t.self = TaskPtr.standby k ∧ t.thread_name_ = k
  /-- A resident task object is stored under its name and lives at that address. -/
  resident : ∀ x ∈ e.resident_group_task_list_,
    x.2.self = TaskPtr.resident x.1 ∧ x.2.thread_name_ = x.1
  /-- The keys of the resident task map are distinct. -/
  resident_keys : (e.resident_group_task_list_.map Prod.fst).Nodup
  target_tasks : e.is_task_set e.target_task_set_
  current_tasks : e.is_task_set e.current_task_set_
  target_nodes : string_set.is_set e.target_node_set_
  current_nodes : string_set.is_set e.current_node_set_
  exit_nodes : e.exit_node_set_ = string_set.set_difference e.current_node_set_ e.target_node_set_
  enter_nodes : e.enter_node_set_ = string_set.set_difference e.target_node_set_ e.current_node_set_
  /-- During a transition the current task set is the one of the current group. -/
  current_group : e.is_transition_ = true → e.current_task_set_ = e.collect_current.1

/-- The exception a computation ended with, if any. -/
def fault_of {α : Type} (r : Except Fault α) : Option Fault :=
  match r with
  | Except.error f => some f
  | Except.ok _ => none

/-- The result of a computation, or `d` when it ended with an exception. -/
def got {α : Type} (r : Except Fault α) (d : α) : α :=
  match r with
  | Except.error _ => d
  | Except.ok a => a

/-- The states of the orchestrator that can occur: the one left by `CreateTask` on
a freshly constructed executer, and every state left by an activation of `Run`
from such a state, whatever the other threads have done to the shared heap. -/
inductive Executer.Reachable : Executer → Prop where
  | boot (cfg : ExecuterConfig) (node_map : NodeMap) (w : World)
      (r : Executer × World × List Event)
      (h : (Executer.ctor cfg node_map).CreateTask w = Except.ok r) : Executer.Reachable r.1
  | tick (env : TickEnv) (e : Executer) (w : World) (r : Executer × World × List Event)
      (he : Executer.Reachable e) (h : e.Run env w = Except.ok r) : Executer.Reachable r.1

/-! ## Concrete configurations used by the witnesses and counterexamples -/

/-- The heap before any task exists: node object number `k` carries the `k`-th
name of the list (the last name for larger addresses), and no task variable is
set. -/
def demo_world (names : List String) : World :=
  { nodes := fun p => { node_name_ := names.getD p (names.getLastD "") }
    tasks := fun _ => {} }

/-- A registry holding the nodes `A`, `B`, `C`, `D` at the addresses 0 to 3. -/
def demo_node_map : NodeMap :=
  (((({} : NodeMap).AddNode "A" 0).AddNode "B" 1).AddNode "C" 2).AddNode "D" 3

/-- A configuration with one resident task whose launch `pre_node` names a node
`Z` that the registry does not hold. -/
def demo_config_unknown_pre_node : ExecuterConfig :=
  { task_list :=
      { resident_group :=
          [("R", { task_name := "R", node_list := [{ node_name := "A", output_enable := true }],
                   launch_setting := { pre_node := ["Z"] } })]
        standby_group := [] }
    exclusive_task_group := [] }

/-- The state left by `CreateTask` on `demo_config_unknown_pre_node`. -/
def demo_boot_unknown_pre_node : Executer × World × List Event :=
  got ((Executer.ctor demo_config_unknown_pre_node demo_node_map).CreateTask
        (demo_world ["A", "B", "C", "D"]))
    (Executer.ctor demo_config_unknown_pre_node demo_node_map, demo_world [], [])

/-- A configuration with a resident task `R` on node `A`, the standby tasks `T1`
on nodes `B`, `C` and `T2` on nodes `C`, `D`, and the exclusive groups `G1` with
task `T1` and `G2` with task `T2`, which forces the initialisation of `C`. -/
def demo_config : ExecuterConfig :=
  { task_list :=
      { resident_group :=
          [("R", { task_name := "R", node_list := [{ node_name := "A", output_enable := true }],
                   launch_setting := { pre_node := [] } })]
        standby_group :=
          [("T1", { task_name := "T1",
                    node_list := [{ node_name := "B", output_enable := true },
                                  { node_name := "C", output_enable := false }],
                    launch_setting := { pre_node := [] } }),
           ("T2", { task_name := "T2",
                    node_list := [{ node_name := "C", output_enable := true },
                                  { node_name := "D", output_enable := false }],
                    launch_setting := { pre_node := [] } })] }
    exclusive_task_group :=
      [("G1", { group_name := "G1", task_list := [("T1", { task_name := "T1" })] }),
       ("G2", { group_name := "G2",
                task_list := [("T2", { task_name := "T2", force_init_node := ["C"] })] })] }

/-- A stand-in for the task threads: a task that was told to stop is in STANDBY,
any other task is RUNNING. -/
def demo_threads (w : World) : World :=
  { w with
    tasks := fun t =>
      { w.tasks t with
        state_ := if (w.tasks t).loop_run_ then TaskState.RUNNING else TaskState.STANDBY } }

/-- An activation in which the message `msg` is pending, every node agrees to
enter and to exit, and the task threads have reacted as in `demo_threads`. -/
def demo_env (msg : Option String) : TickEnv :=
  { msg := msg
    TryExit := fun _ => true
    TryEnter := fun _ => true
    others := fun _ w => w
    fuel := 2
    before := demo_threads }

/-- The state left by `CreateTask` on `demo_config`. -/
def demo_boot : Executer × World × List Event :=
  got ((Executer.ctor demo_config demo_node_map).CreateTask (demo_world ["A", "B", "C", "D"]))
    (Executer.ctor demo_config demo_node_map, demo_world [], [])

/-- One activation of `Run` from the state `s` in the environment `env`. -/
def demo_tick (env : TickEnv) (s : Executer × World × List Event) :
    Executer × World × List Event :=
  got (s.1.Run env (env.before s.2.1)) s

/-- The state in which the transition from `"empty_init"` to `G1` has been decided
and the handshake has succeeded. -/
def demo_g1_polled : Executer × World × List Event :=
  demo_tick (demo_env (some "G1")) demo_boot

/-- The state in which the (empty) set of current tasks has been stopped. -/
def demo_g1_stopped : Executer × World × List Event :=
  demo_tick (demo_env none) demo_g1_polled

/-- The state in which the transition to `G1` is complete. -/
def demo_g1 : Executer × World × List Event :=
  demo_tick (demo_env none) demo_g1_stopped

/-- The state in which the transition from `G1` to `G2` has been decided and the
handshake has succeeded. -/
def demo_g2_polled : Executer × World × List Event :=
  demo_tick (demo_env (some "G2")) demo_g1

/-- The state in which the task `T1` of the group `G1` has been told to stop. -/
def demo_g2_stopped : Executer × World × List Event :=
  demo_tick (demo_env none) demo_g2_polled

/-- The state in which the task `T1` has been seen in STANDBY. -/
def demo_g2_checked : Executer × World × List Event :=
  demo_tick (demo_env none) demo_g2_stopped

/-- The state in which the transition from `G1` to `G2` is complete. -/
def demo_g2 : Executer × World × List Event :=
  demo_tick (demo_env none) demo_g2_checked

/-- The task `T1` of `demo_config` as its constructor makes it, on the nodes at the
addresses 1 and 2. -/
def demo_task : Task × TaskVars :=
  Task.ctor (TaskPtr.standby "T1")
    { task_name := "T1",
      node_list := [{ node_name := "B", output_enable := true },
                    { node_name := "C", output_enable := false }],
      launch_setting := { pre_node := [] } }
    [1, 2]

/-- A sequence of `AddNode` calls, made one after another on the registry `m`. -/
def NodeMap.AddNode_calls : List (String × NodePtr) → NodeMap → NodeMap
  | [], m => m
  | call :: rest, m => NodeMap.AddNode_calls rest (m.AddNode call.1 call.2)

/-- The pointer passed by the first call of a sequence of `AddNode` calls that has
the key `k`, if there is one. -/
def spec_first_added (calls : List (String × NodePtr)) (k : String) : Option NodePtr :=
  (calls.find? (fun call => decide (call.1 = k))).map Prod.snd

/-- A call made on a task object: an activation of `Task::Run` by the thread of
the task, or one of the two init requests made by the executer. -/
inductive TaskCall where
  | Run (t : Task)
  | Init (t : Task)
  | Init_subset (t : Task) (init_node_list : List String)

/-- The task a call is made on. -/
def TaskCall.task : TaskCall → Task
  | TaskCall.Run t => t
  | TaskCall.Init t => t
  | TaskCall.Init_subset t _ => t

/-- The effect of one call on a task: the heap after it and the calls that it made
on nodes (an init request makes none). -/
def TaskCall.apply (w : World) : TaskCall → Except Fault (World × List Event)
  | TaskCall.Run t =>
    match t.Run (w.tasks t.self) w.nodes with
    | Except.error f => Except.error f
    | Except.ok r =>
      Except.ok ({ nodes := r.2.1, tasks := Function.update w.tasks t.self r.1 }, r.2.2)
  | TaskCall.Init t =>
    Except.ok
      ({ w with tasks := Function.update w.tasks t.self (Task.Init (w.tasks t.self)) }, [])
  | TaskCall.Init_subset t init_node_list =>
    Except.ok
      ({ w with
         tasks := Function.update w.tasks t.self
           (Task.Init_subset (w.tasks t.self) init_node_list).1 }, [])

/-- A sequence of calls on tasks that share the heap, made one after another.  The
result holds the heap after the last call and, for each call in order, the call
and the calls that it made on nodes. -/
def Task.calls : List TaskCall → World → Except Fault (World × List (TaskCall × List Event))
  | [], w => Except.ok (w, [])
  | c :: rest, w =>
    match c.apply w with
    | Except.error f => Except.error f
    | Except.ok r =>
      match Task.calls rest r.1 with
      | Except.error f => Except.error f
      | Except.ok r' => Except.ok (r'.1, (c, r.2) :: r'.2)

/-- Whether a call is an activation of `Run` of a task that has the node in its
node list. -/
def TaskCall.reaches (node : NodePtr) : TaskCall → Bool
  | TaskCall.Run t => decide (node ∈ t.node_list_)
  | _ => false

/-- Whether an init request for the node name `n` is pending on the task at address
`task` after a sequence of calls, given whether one was pending before it: an
`Init()` on the task and an `Init(names)` that lists `n` make a request pending,
an activation of `Run` of the task serves it. -/
def spec_init_pending (task : TaskPtr) (n : String) : Bool → List TaskCall → Bool
  | b, [] => b
  | b, TaskCall.Run t :: rest =>
    spec_init_pending task n (if t.self = task then false else b) rest
  | b, TaskCall.Init t :: rest =>
    spec_init_pending task n (if t.self = task then true else b) rest
  | b, TaskCall.Init_subset t init_node_list :: rest =>
    spec_init_pending task n (if t.self = task then b || decide (n ∈ init_node_list) else b) rest

/-- Whether a trace calls `Init` and `Execute` on the node only when the node is
constructed; `constructed` says whether the node is constructed at the start of
the trace, and a call of `Construct` makes it so. -/
def spec_construct_first (node : NodePtr) : Bool → List Event → Bool
  | _, [] => true
  | constructed, ev :: rest =>
    if ev = Event.Construct node then spec_construct_first node true rest
    else if ev = Event.Init node ∨ ev = Event.Execute node then
      constructed && spec_construct_first node constructed rest
    else spec_construct_first node constructed rest

/-- The conditions under which a sequence of calls is considered: every node of a
task that is run has an init flag in the task (the constructor makes one per
configured node), the nodes of such a task have distinct names, and two calls
on the same task object name the same task. -/
structure Task.calls_wf (calls : List TaskCall) (w : World) : Prop where
  flags : ∀ c ∈ calls, ∀ p ∈ c.task.node_list_,
    ∃ b, unordered_map.find (w.tasks c.task.self).node_init_flag_ (w.nodes p).node_name_ = some b
  names : ∀ c ∈ calls, (c.task.node_list_.map (fun p => (w.nodes p).node_name_)).Nodup
  objects : ∀ c ∈ calls, ∀ c' ∈ calls, c.task.self = c'.task.self → c.task = c'.task

/-! ## `Task::Run` and `TaskBase::Loop` when a user method raises

The definitions of `Task.Run` above take the user methods of a node to return.
Here a user method may end with an exception: `raises call` tells whether the
call does.  An activation then yields the state reached when it ended together
with the exception that ended it, if any. -/

/-- An exception that ends an activation of `Task::Run`: one thrown by the
framework itself, or one raised by the user method called by `call`. -/
inductive Thrown where
  | fault (f : Fault)
  | user (call : Event)
  deriving DecidableEq

/-- The variables of the task, the node heap and the calls made so far. -/
abbrev RunState := TaskVars × (NodePtr → NodeBase) × List Event

/-- Sequencing of two statements: the second runs unless the first has thrown. -/
def Task.and_then (r : RunState × Option Thrown) (f : RunState → RunState × Option Thrown) :
    RunState × Option Thrown :=
  match r.2 with
  | some _ => r
  | none => f r.1

/-- The statement `if (!node->GetIsConstruct()) { node->Construct();
node->SetIsConstruct(true); }`: the flag is set only once `Construct()` has
returned. -/
def Task.Run_construct_raising (raises : Event → Bool) (node : NodePtr) (s : RunState) :
    RunState × Option Thrown :=
  if (s.2.1 node).is_construct_ then (s, none)
  else if raises (Event.Construct node) then
    ((s.1, s.2.1, s.2.2 ++ [Event.Construct node]), some (Thrown.user (Event.Construct node)))
  else (Task.Run_construct node s, none)

/-- The statement `if (node_init_flag_.at(node_name)) { node->Init();
node_init_flag_.at(node_name) = false; }`: the flag is lowered only once `Init()`
has returned. -/
def Task.Run_init_raising (raises : Event → Bool) (node : NodePtr) (s : RunState) :
    RunState × Option Thrown :=
  match unordered_map.find s.1.node_init_flag_ (s.2.1 node).node_name_ with
  | none => (s, some (Thrown.fault (Fault.out_of_range (s.2.1 node).node_name_)))
  | some true =>
    if raises (Event.Init node) then
      ((s.1, s.2.1, s.2.2 ++ [Event.Init node]), some (Thrown.user (Event.Init node)))
    else
      (({ s.1 with
          node_init_flag_ :=
            unordered_map.assign s.1.node_init_flag_ (s.2.1 node).node_name_ false },
        s.2.1, s.2.2 ++ [Event.Init node]), none)
  | some false => (s, none)

/-- The statement `node->Execute();`. -/
def Task.Run_execute_raising (raises : Event → Bool) (node : NodePtr) (s : RunState) :
    RunState × Option Thrown :=
  (Task.Run_execute node s,
   if raises (Event.Execute node) then some (Thrown.user (Event.Execute node)) else none)

/-- The statement `if (node_output_flag_[node_name]) { node->Output(); }`. -/
def Task.Run_output_raising (raises : Event → Bool) (node : NodePtr) (s : RunState) :
    RunState × Option Thrown :=
  (Task.Run_output node s,
   if unordered_map.find s.1.node_output_flag_ (s.2.1 node).node_name_ = some true ∧
      raises (Event.Output node) = true
   then some (Thrown.user (Event.Output node)) else none)

/-- The body of the loop of `Task::Run` for one node. -/
def Task.Run_node_raising (raises : Event → Bool) (node : NodePtr) (s : RunState) :
    RunState × Option Thrown :=
  Task.and_then
    (Task.and_then
      (Task.and_then
        (Task.and_then (Task.Run_construct_raising raises node s)
          (Task.Run_init_raising raises node))
        (Task.Run_execute_raising raises node))
      (Task.Run_output_raising raises node))
    (fun s4 => (Task.Run_set_state node s4, none))

/-- The loop `for (auto& node : *node_list_)` of `Task::Run`. -/
def Task.Run_loop_raising (raises : Event → Bool) : List NodePtr → RunState →
    RunState × Option Thrown
  | [], s => (s, none)
  | node :: rest, s =>
    Task.and_then (Task.Run_node_raising raises node s) (Task.Run_loop_raising raises rest)

/-- The method `Task::Run` when user methods may raise. -/
def Task.Run_raising (raises : Event → Bool) (t : Task) (v : TaskVars)
    (nodes : NodePtr → NodeBase) : RunState × Option Thrown :=
  Task.Run_loop_raising raises t.node_list_ (v, nodes, [])

/-- What the thread of a task works on: the variables of the task, the flag
`thread_alive_`, the node heap, and the calls made so far. -/
structure LoopState where
  v : TaskVars
  thread_alive_ : Bool := true
  nodes : NodePtr → NodeBase
  evs : List Event := []

/-- The blocking calls of `TaskBase::Loop`, at which the thread waits to be woken:
`start_sem_.acquire()`, the `sleep_for` that follows it, and `timer_->Sleep()`. -/
inductive LoopPc where
  | acquire
  | sleep_for
  | Sleep
  deriving DecidableEq

/-- How `TaskBase::Loop` stands after a number of wakes: blocked in a call,
returned, or left by an exception. -/
inductive LoopEnd where
  | blocked (pc : LoopPc)
  | returned
  | thrown (e : Thrown)
  deriving DecidableEq

/-- A wake of the thread out of a blocking call: what the other threads have done
to the shared state since the thread blocked, and which user methods raise when
they are called after this wake. -/
structure Wake where
  before : LoopState → LoopState
  raises : Event → Bool

/-- The head of the outer loop, `while (thread_alive_.load())`, up to the call
`start_sem_.acquire()`. -/
def TaskBase.Loop_outer_head (s : LoopState) : LoopState × LoopEnd :=
  if s.thread_alive_ then
    ({ s with v := { s.v with state_ := TaskState.STANDBY } }, LoopEnd.blocked LoopPc.acquire)
  else (s, LoopEnd.returned)

/-- The head of the inner loop, `while (loop_run_.load())`, up to the call
`timer_->Sleep()`; the outer loop goes on when the inner one is left. -/
def TaskBase.Loop_inner_head (s : LoopState) : LoopState × LoopEnd :=
  if s.v.loop_run_ then (s, LoopEnd.blocked LoopPc.Sleep) else TaskBase.Loop_outer_head s

/-- The statement `if (run_flag_.load()) { Run(); state_.store(TaskState::RUNNING); }`
of the inner loop, followed by the head of the inner loop.  No handler encloses
the call of `Run`: an exception leaves `Loop`. -/
def TaskBase.Loop_body (raises : Event → Bool) (t : Task) (s : LoopState) :
    LoopState × LoopEnd :=
  if s.v.run_flag_ then
    match Task.Run_raising raises t s.v s.nodes with
    | (r, some e) =>
      ({ s with v := r.1, nodes := r.2.1, evs := s.evs ++ r.2.2 }, LoopEnd.thrown e)
    | (r, none) =>
      TaskBase.Loop_inner_head
        { s with v := { r.1 with state_ := TaskState.RUNNING }, nodes := r.2.1,
                 evs := s.evs ++ r.2.2 }
  else TaskBase.Loop_inner_head s

/-- The thread of the task from the blocking call `pc`, for the given wakes. -/
def TaskBase.Loop_from (t : Task) : LoopPc → List Wake → LoopState → LoopState × LoopEnd
  | pc, [], s => (s, LoopEnd.blocked pc)
  | LoopPc.acquire, wake :: rest, s =>
    if (wake.before s).v.start_sem_ = 0 then
      TaskBase.Loop_from t LoopPc.acquire rest (wake.before s)
    else
      TaskBase.Loop_from t LoopPc.sleep_for rest
        { wake.before s with
          v := { (wake.before s).v with start_sem_ := (wake.before s).v.start_sem_ - 1 } }
  | LoopPc.sleep_for, wake :: rest, s =>
    match TaskBase.Loop_inner_head (wake.before s) with
    | (s1, LoopEnd.blocked pc) => TaskBase.Loop_from t pc rest s1
    | r => r
  | LoopPc.Sleep, wake :: rest, s =>
    match TaskBase.Loop_body wake.raises t (wake.before s) with
    | (s1, LoopEnd.blocked pc) => TaskBase.Loop_from t pc rest s1
    | r => r

/-- The method `TaskBase::Loop`, run by the thread of the task, for the given
wakes. -/
def TaskBase.Loop (t : Task) (wakes : List Wake) (s : LoopState) : LoopState × LoopEnd :=
  match TaskBase.Loop_outer_head s with
  | (s1, LoopEnd.blocked pc) => TaskBase.Loop_from t pc wakes s1
  | r => r

/-- What holds of the body of the loop of `Task::Run` for a node as long as the
promotion to RUNNING is not reached, from the state `s` to the result `r`: the
state of every node is as in `s`, every other node is untouched, the calls made
do not include the promotion, an exception of a user method was raised by the
last call made, which is one of the four calls on the node, and an exception of
the framework is the `std::out_of_range` of the flag lookup. -/
def Task.short_of_promotion (raises : Event → Bool) (node : NodePtr) (s : RunState)
    (r : RunState × Option Thrown) : Prop :=
  (∀ q, (r.1.2.1 q).state_ = (s.2.1 q).state_) ∧
  (∀ q, (r.1.2.1 q).node_name_ = (s.2.1 q).node_name_) ∧
  (∀ q, q ≠ node → r.1.2.1 q = s.2.1 q) ∧
  (∃ evs, r.1.2.2 = s.2.2 ++ evs ∧ Event.SetState node NodeState.RUNNING ∉ evs ∧
    ∀ call, r.2 = some (Thrown.user call) → ∃ init, evs = init ++ [call]) ∧
  (∀ call, r.2 = some (Thrown.user call) →
    (call = Event.Construct node ∨ call = Event.Init node ∨ call = Event.Execute node ∨
      call = Event.Output node) ∧ raises call = true) ∧
  (∀ f, r.2 = some (Thrown.fault f) → f = Fault.out_of_range (s.2.1 node).node_name_)

/-- The thread of the task `demo_task` once the executer has made `Init()` and
`TaskStart` on it, over the nodes `A` to `D`. -/
def demo_loop_state : LoopState :=
  { v := TaskBase.TaskStart (Task.Init demo_task.2)
    nodes := (demo_world ["A", "B", "C", "D"]).nodes }

/-- A wake before which the other threads have done nothing and after which the
given call, if any, raises. -/
def demo_wake (raising : Option Event) : Wake :=
  { before := fun s => s
    raises := fun call => decide (some call = raising) }

/-- Four wakes of the thread of `demo_task`: out of `acquire`, out of `sleep_for`,
and twice out of `Sleep`; `Execute()` of node `B` raises after the third. -/
def demo_wakes : List Wake :=
  [demo_wake none, demo_wake none, demo_wake (some (Event.Execute 1)), demo_wake none]

/-- The activation of `Run` of `demo_task` on `demo_loop_state` in which
`Execute()` of node `B` raises. -/
def demo_raised : RunState × Option Thrown :=
  Task.Run_raising (demo_wake (some (Event.Execute 1))).raises demo_task.1
    demo_loop_state.v demo_loop_state.nodes

/-- The task `T2` of `demo_config` as its constructor makes it, on the nodes at the
addresses 2 and 3; it shares the node `C` with `demo_task`. -/
def demo_task2 : Task × TaskVars :=
  Task.ctor (TaskPtr.standby "T2")
    { task_name := "T2",
      node_list := [{ node_name := "C", output_enable := true },
                    { node_name := "D", output_enable := false }],
      launch_setting := { pre_node := [] } }
    [2, 3]

/-- The heap holding the nodes `A` to `D` and the freshly constructed tasks
`demo_task` and `demo_task2`. -/
def demo_task_world : World :=
  { nodes := (demo_world ["A", "B", "C", "D"]).nodes
    tasks := fun tp =>
      if tp = demo_task.1.self then demo_task.2
      else if tp = demo_task2.1.self then demo_task2.2
      else {} }

/-- A sequence of calls on the two tasks: `T1` is asked to initialise all its nodes
and runs, `T2` is asked to initialise `C` twice and runs, `T1` runs again. -/
def demo_calls : List TaskCall :=
  [TaskCall.Init demo_task.1, TaskCall.Run demo_task.1,
   TaskCall.Init_subset demo_task2.1 ["C"], TaskCall.Init_subset demo_task2.1 ["C", "Z"],
   TaskCall.Run demo_task2.1, TaskCall.Run demo_task.1]

/-! ## `common/prefix_string.hpp` -/

/-- The helper `GetNamePrefix`: the name with `NAME_PREFIX` in front. -/
def GetNamePrefix (name : String) : String := "openrobot_ocm_" ++ name

/-! ## The system calls under `ocm/`

The shared memory layer works on named POSIX semaphores and named shared memory
objects.  The state of the operating system holds the count of every semaphore
and the bytes of every object, by name.  A handle of the program (`sem_t*`, a
mapping) is identified with the name it was opened under: nothing here unlinks a
name.  Whether a system call fails for a reason outside the program (a
permission, a limit, an invalid argument such as a mapping of length zero, an
interrupt) is given by `fails`.  A call on a handle whose name the state does not
hold fails.  Lengths are taken to fit the types `int` and `size_t` of the
program. -/

/-- The system calls made by `ocm.cpp` and `shard_memory_data.hpp` on behalf of the
topics.  `shm_open` is the call with `O_RDWR` and its failure is one other than
`ENOENT`; `shm_open_creat` is the call with `O_RDWR | O_CREAT`. -/
inductive Syscall where
  | sem_open
  | sem_post
  | sem_getvalue
  | sem_wait
  | sem_trywait
  | sem_timedwait
  | clock_gettime
  | shm_open
  | shm_open_creat
  | ftruncate
  | fstat
  | mmap
  deriving DecidableEq

/-- The exceptions of the shared memory layer. -/
inductive IpcError where
  /-- The `std::runtime_error` thrown after the failure of the given call. -/
  | runtime_error (call : Syscall)
  /-- The `std::runtime_error` of `SharedMemoryData::Init` for an existing object
  whose size is not the expected one. -/
  | size_mismatch (expected actual : Nat)
  /-- The `std::out_of_range` of `unordered_map::at` for the given key. -/
  | out_of_range (key : String)
  /-- The exception raised by `deserialize_message`. -/
  | deserialize
  deriving DecidableEq

/-- How a call ends: it returns a value, it waits on a semaphore whose count is
zero, or it is left by an exception. -/
inductive Res (α : Type) where
  | ok (a : α)
  | blocked
  | thrown (e : IpcError)
  deriving DecidableEq

/-- Sequencing: the second statement runs on the state left by the first if the
first returned. -/
def Res.and_then {σ α β : Type} (r : σ × Res α) (f : σ → α → σ × Res β) : σ × Res β :=
  match r with
  | (s, Res.ok a) => f s a
  | (s, Res.blocked) => (s, Res.blocked)
  | (s, Res.thrown e) => (s, Res.thrown e)

/-- The state of the operating system: the count of each named semaphore, the
bytes of each shared memory object, and the bytes that `memcpy` calls have
written past the end of an object, in order. -/
structure Posix where
  sems : List (String × Nat) := []
  shms : List (String × List Nat) := []
  overrun : List (String × List Nat) := []
  deriving DecidableEq

/-- The call `sem_open(name, O_CREAT, 0644, value)` when it succeeds: an existing
semaphore is opened as it is, otherwise one is created with the count `value`. -/
def Posix.sem_open (s : Posix) (name : String) (value : Nat) : Posix :=
  match unordered_map.find s.sems name with
  | some _ => s
  | none => { s with sems := unordered_map.assign s.sems name value }

/-- The call `ftruncate(fd, size)` when it succeeds: the object gets the length
`size`; bytes that are added read as zero. -/
def Posix.ftruncate (s : Posix) (name : String) (size : Nat) : Posix :=
  { s with
    shms := unordered_map.assign s.shms name
      (((unordered_map.find s.shms name).getD []).take size ++
        List.replicate (size - ((unordered_map.find s.shms name).getD []).length) 0) }

/-- The call `memset(mem, 0, size)` on the mapping of the object. -/
def Posix.memset (s : Posix) (name : String) (size : Nat) : Posix :=
  match unordered_map.find s.shms name with
  | none => s
  | some bytes =>
    { s with shms := unordered_map.assign s.shms name (List.replicate size 0 ++ bytes.drop size) }

/-- The call `memcpy(Get(), buffer, datalen)` on the mapping of the object: the
bytes that fit are written from the start of the object, the bytes that do not
fit are written past its end. -/
def Posix.memcpy (s : Posix) (name : String) (buffer : List Nat) : Posix :=
  match unordered_map.find s.shms name with
  | none => { s with overrun := s.overrun ++ [(name, buffer)] }
  | some bytes =>
    { s with
      shms := unordered_map.assign s.shms name
        (buffer.take bytes.length ++ bytes.drop buffer.length)
      overrun :=
        if bytes.length < buffer.length then s.overrun ++ [(name, buffer.drop bytes.length)]
        else s.overrun }

/-- The first `length` bytes of the mapping of the object, as handed to the
deserializer (`buffer = Get()`, `buffer_length = GetSize()`). -/
def Posix.buffer (s : Posix) (name : String) (length : Nat) : List Nat :=
  ((unordered_map.find s.shms name).getD []).take length

/-! ## `ocm/shared_memory_semaphore.hpp`, `ocm.cpp` -/

/-- An object of the class `SharedMemorySemaphore`. -/
structure SharedMemorySemaphore where
  name_ : String
  deriving DecidableEq

/-- The method `SharedMemorySemaphore::Init`; the constructor only calls it. -/
def SharedMemorySemaphore.Init (fails : Syscall → Bool) (name : String) (value : Nat)
    (s : Posix) : Posix × Res SharedMemorySemaphore :=
  if fails Syscall.sem_open then (s, Res.thrown (IpcError.runtime_error Syscall.sem_open))
  else (s.sem_open (GetNamePrefix name) value, Res.ok { name_ := GetNamePrefix name })

/-- The method `SharedMemorySemaphore::Increment()`. -/
def SharedMemorySemaphore.Increment (fails : Syscall → Bool) (self : SharedMemorySemaphore)
    (s : Posix) : Posix × Res Unit :=
  match unordered_map.find s.sems self.name_ with
  | none => (s, Res.thrown (IpcError.runtime_error Syscall.sem_post))
  | some c =>
    if fails Syscall.sem_post then (s, Res.thrown (IpcError.runtime_error Syscall.sem_post))
    else ({ s with sems := unordered_map.assign s.sems self.name_ (c + 1) }, Res.ok ())

/-- The method `SharedMemorySemaphore::IncrementWhenZero`. -/
def SharedMemorySemaphore.IncrementWhenZero (fails : Syscall → Bool)
    (self : SharedMemorySemaphore) (s : Posix) : Posix × Res Unit :=
  match unordered_map.find s.sems self.name_ with
  | none => (s, Res.thrown (IpcError.runtime_error Syscall.sem_getvalue))
  | some value =>
    if fails Syscall.sem_getvalue then
      (s, Res.thrown (IpcError.runtime_error Syscall.sem_getvalue))
    else if value = 0 then
      if fails Syscall.sem_post then (s, Res.thrown (IpcError.runtime_error Syscall.sem_post))
      else ({ s with sems := unordered_map.assign s.sems self.name_ (value + 1) }, Res.ok ())
    else (s, Res.ok ())

/-- The method `SharedMemorySemaphore::Decrement`: `sem_wait` waits while the count
is zero. -/
def SharedMemorySemaphore.Decrement (fails : Syscall → Bool) (self : SharedMemorySemaphore)
    (s : Posix) : Posix × Res Unit :=
  match unordered_map.find s.sems self.name_ with
  | none => (s, Res.thrown (IpcError.runtime_error Syscall.sem_wait))
  | some c =>
    if fails Syscall.sem_wait then (s, Res.thrown (IpcError.runtime_error Syscall.sem_wait))
    else if c = 0 then (s, Res.blocked)
    else ({ s with sems := unordered_map.assign s.sems self.name_ (c - 1) }, Res.ok ())

/-- The method `SharedMemorySemaphore::TryDecrement`: whether `sem_trywait`
returned 0. -/
def SharedMemorySemaphore.TryDecrement (fails : Syscall → Bool) (self : SharedMemorySemaphore)
    (s : Posix) : Posix × Res Bool :=
  match unordered_map.find s.sems self.name_ with
  | none => (s, Res.ok false)
  | some c =>
    if fails Syscall.sem_trywait then (s, Res.ok false)
    else if c = 0 then (s, Res.ok false)
    else ({ s with sems := unordered_map.assign s.sems self.name_ (c - 1) }, Res.ok true)

/-- The method `SharedMemorySemaphore::DecrementTimeout`: whether `sem_timedwait`
returned 0.  No other thread runs during the wait, so a count of zero stays zero
until the time is out. -/
def SharedMemorySemaphore.DecrementTimeout (fails : Syscall → Bool)
    (self : SharedMemorySemaphore) (_milliseconds : Nat) (s : Posix) : Posix × Res Bool :=
  if fails Syscall.clock_gettime then
    (s, Res.thrown (IpcError.runtime_error Syscall.clock_gettime))
  else
    match unordered_map.find s.sems self.name_ with
    | none => (s, Res.ok false)
    | some c =>
      if fails Syscall.sem_timedwait then (s, Res.ok false)
      else if c = 0 then (s, Res.ok false)
      else ({ s with sems := unordered_map.assign s.sems self.name_ (c - 1) }, Res.ok true)

/-! ## `ocm/shard_memory_data.hpp` -/

/-- An object of the class `SharedMemoryData`; `data_` is the mapping of the object
named `name_`. -/
structure SharedMemoryData where
  sem_ : SharedMemorySemaphore
  name_ : String
  size_ : Nat
  deriving DecidableEq

/-- The method `SharedMemoryData::Init`, called by the constructor on the object
whose member `sem_` is constructed. -/
def SharedMemoryData.Init (fails : Syscall → Bool) (sem_ : SharedMemorySemaphore)
    (name : String) (check_size : Bool) (size : Nat) (s : Posix) :
    Posix × Res SharedMemoryData :=
  if fails Syscall.shm_open then (s, Res.thrown (IpcError.runtime_error Syscall.shm_open))
  else
    match unordered_map.find s.shms (GetNamePrefix name) with
    | none =>
      if fails Syscall.shm_open_creat then
        (s, Res.thrown (IpcError.runtime_error Syscall.shm_open_creat))
      else if fails Syscall.ftruncate then
        ({ s with shms := unordered_map.assign s.shms (GetNamePrefix name) [] },
          Res.thrown (IpcError.runtime_error Syscall.ftruncate))
      else if fails Syscall.mmap then
        (s.ftruncate (GetNamePrefix name) size, Res.thrown (IpcError.runtime_error Syscall.mmap))
      else
        ((s.ftruncate (GetNamePrefix name) size).memset (GetNamePrefix name) size,
          Res.ok { sem_ := sem_, name_ := GetNamePrefix name, size_ := size })
    | some bytes =>
      if fails Syscall.fstat then (s, Res.thrown (IpcError.runtime_error Syscall.fstat))
      else if check_size = true ∧ bytes.length ≠ size then
        (s, Res.thrown (IpcError.size_mismatch size bytes.length))
      else if fails Syscall.mmap then (s, Res.thrown (IpcError.runtime_error Syscall.mmap))
      else
        (s, Res.ok { sem_ := sem_, name_ := GetNamePrefix name,
                     size_ := if check_size then size else bytes.length })

/-- The constructor `SharedMemoryData(name, check_size, size)`: the member
initialiser `sem_(name + "_shm", 1)`, then `Init`. -/
def SharedMemoryData.ctor (fails : Syscall → Bool) (name : String) (check_size : Bool)
    (size : Nat) (s : Posix) : Posix × Res SharedMemoryData :=
  Res.and_then (SharedMemorySemaphore.Init fails (name ++ "_shm") 1 s)
    (fun s1 sem_ => SharedMemoryData.Init fails sem_ name check_size size s1)

/-- The method `SharedMemoryData::Lock`. -/
def SharedMemoryData.Lock (fails : Syscall → Bool) (self : SharedMemoryData) (s : Posix) :
    Posix × Res Unit :=
  self.sem_.Decrement fails s

/-- The method `SharedMemoryData::UnLock`. -/
def SharedMemoryData.UnLock (fails : Syscall → Bool) (self : SharedMemoryData) (s : Posix) :
    Posix × Res Unit :=
  self.sem_.Increment fails s

/-! ## `ocm/shared_memory_topic_ros2.hpp`

A message is published in its serialized form, a list of bytes; `decode` is
`deserialize_message` for the message type of a subscriber and yields `none`
when it raises.  A subscribe call returns the message it has passed to the
callback, if any. -/

/-- An object of the class `SharedMemoryTopicRos2`. -/
structure SharedMemoryTopicRos2 where
  shm_map_ : List (String × SharedMemoryData) := []
  sem_map_ : List (String × SharedMemorySemaphore) := []
  deriving DecidableEq

/-- The operating system together with one `SharedMemoryTopicRos2` object. -/
abbrev TopicState := Posix × SharedMemoryTopicRos2

/-- A call on a semaphore or a buffer made by the object `m`. -/
def SharedMemoryTopicRos2.lift {α : Type} (m : SharedMemoryTopicRos2) (r : Posix × Res α) :
    TopicState × Res α :=
  ((r.1, m), r.2)

/-- The method `CheckSHMExist`. -/
def SharedMemoryTopicRos2.CheckSHMExist (fails : Syscall → Bool) (shm_name : String)
    (check_size : Bool) (size : Nat) (st : TopicState) : TopicState × Res Unit :=
  match unordered_map.find st.2.shm_map_ shm_name with
  | some _ => (st, Res.ok ())
  | none =>
    Res.and_then (st.2.lift (SharedMemoryData.ctor fails shm_name check_size size st.1))
      (fun st1 d =>
        ((st1.1, { st1.2 with shm_map_ := unordered_map.assign st1.2.shm_map_ shm_name d }),
          Res.ok ()))

/-- The method `CheckSemExist`. -/
def SharedMemoryTopicRos2.CheckSemExist (fails : Syscall → Bool) (topic_name : String)
    (st : TopicState) : TopicState × Res Unit :=
  match unordered_map.find st.2.sem_map_ topic_name with
  | some _ => (st, Res.ok ())
  | none =>
    Res.and_then (st.2.lift (SharedMemorySemaphore.Init fails topic_name 0 st.1))
      (fun st1 h =>
        ((st1.1, { st1.2 with sem_map_ := unordered_map.assign st1.2.sem_map_ topic_name h }),
          Res.ok ()))

/-- The lookup `shm_map_.at(shm_name)`. -/
def SharedMemoryTopicRos2.shm_at (shm_name : String) (st : TopicState) :
    TopicState × Res SharedMemoryData :=
  match unordered_map.find st.2.shm_map_ shm_name with
  | none => (st, Res.thrown (IpcError.out_of_range shm_name))
  | some d => (st, Res.ok d)

/-- The lookup `sem_map_.at(topic_name)`. -/
def SharedMemoryTopicRos2.sem_at (topic_name : String) (st : TopicState) :
    TopicState × Res SharedMemorySemaphore :=
  match unordered_map.find st.2.sem_map_ topic_name with
  | none => (st, Res.thrown (IpcError.out_of_range topic_name))
  | some h => (st, Res.ok h)

/-- The method `WriteDataToSHM` for the serialized message `buffer`. -/
def SharedMemoryTopicRos2.WriteDataToSHM (fails : Syscall → Bool) (shm_name : String)
    (buffer : List Nat) (st : TopicState) : TopicState × Res Unit :=
  Res.and_then (SharedMemoryTopicRos2.CheckSHMExist fails shm_name true buffer.length st)
    (fun st1 _ =>
      Res.and_then (SharedMemoryTopicRos2.shm_at shm_name st1)
        (fun st2 d =>
          Res.and_then (st2.2.lift (d.Lock fails st2.1))
            (fun st3 _ => st3.2.lift (d.UnLock fails (st3.1.memcpy d.name_ buffer)))))

/-- The method `PublishSem`. -/
def SharedMemoryTopicRos2.PublishSem (fails : Syscall → Bool) (topic_name : String)
    (st : TopicState) : TopicState × Res Unit :=
  Res.and_then (SharedMemoryTopicRos2.CheckSemExist fails topic_name st)
    (fun st1 _ =>
      Res.and_then (SharedMemoryTopicRos2.sem_at topic_name st1)
        (fun st2 h => st2.2.lift (h.IncrementWhenZero fails st2.1)))

/-- The method `Publish`. -/
def SharedMemoryTopicRos2.Publish (fails : Syscall → Bool) (topic_name shm_name : String)
    (msg : List Nat) (st : TopicState) : TopicState × Res Unit :=
  Res.and_then (SharedMemoryTopicRos2.WriteDataToSHM fails shm_name msg st)
    (fun st1 _ => SharedMemoryTopicRos2.PublishSem fails topic_name st1)

/-- The loop `for (const auto& topic : topic_names) PublishSem(topic);` of
`PublishList`. -/
def SharedMemoryTopicRos2.PublishList_loop (fails : Syscall → Bool) :
    List String → TopicState → TopicState × Res Unit
  | [], st => (st, Res.ok ())
  | topic :: rest, st =>
    Res.and_then (SharedMemoryTopicRos2.PublishSem fails topic st)
      (fun st1 _ => SharedMemoryTopicRos2.PublishList_loop fails rest st1)

/-- The method `PublishList`; `msgs` is the serialized form of the message list. -/
def SharedMemoryTopicRos2.PublishList (fails : Syscall → Bool) (topic_names : List String)
    (shm_name : String) (msgs : List Nat) (st : TopicState) : TopicState × Res Unit :=
  Res.and_then (SharedMemoryTopicRos2.WriteDataToSHM fails shm_name msgs st)
    (fun st1 _ => SharedMemoryTopicRos2.PublishList_loop fails topic_names st1)

/-- The statements that `Subscribe`, `SubscribeNoWait` and `SubscribeTimeout` make
once the topic semaphore is decremented, from `CheckSHMExist(shm_name, false)` to
`callback(msg)`.  No statement releases the lock when `deserialize_message`
raises. -/
def SharedMemoryTopicRos2.Subscribe_read {μ : Type} (decode : List Nat → Option μ)
    (fails : Syscall → Bool) (shm_name : String) (st : TopicState) :
    TopicState × Res (Option μ) :=
  Res.and_then (SharedMemoryTopicRos2.CheckSHMExist fails shm_name false 0 st)
    (fun st1 _ =>
      Res.and_then (SharedMemoryTopicRos2.shm_at shm_name st1)
        (fun st2 d =>
          Res.and_then (st2.2.lift (d.Lock fails st2.1))
            (fun st3 _ =>
              match decode (st3.1.buffer d.name_ d.size_) with
              | none => (st3, Res.thrown IpcError.deserialize)
              | some msg =>
                Res.and_then (st3.2.lift (d.UnLock fails st3.1))
                  (fun st4 _ => (st4, Res.ok (some msg))))))

/-- The method `Subscribe`. -/
def SharedMemoryTopicRos2.Subscribe {μ : Type} (decode : List Nat → Option μ)
    (fails : Syscall → Bool) (topic_name shm_name : String) (st : TopicState) :
    TopicState × Res (Option μ) :=
  Res.and_then (SharedMemoryTopicRos2.CheckSemExist fails topic_name st)
    (fun st1 _ =>
      Res.and_then (SharedMemoryTopicRos2.sem_at topic_name st1)
        (fun st2 h =>
          Res.and_then (st2.2.lift (h.Decrement fails st2.1))
            (fun st3 _ => SharedMemoryTopicRos2.Subscribe_read decode fails shm_name st3)))

/-- The method `SubscribeNoWait`. -/
def SharedMemoryTopicRos2.SubscribeNoWait {μ : Type} (decode : List Nat → Option μ)
    (fails : Syscall → Bool) (topic_name shm_name : String) (st : TopicState) :
    TopicState × Res (Option μ) :=
  Res.and_then (SharedMemoryTopicRos2.CheckSemExist fails topic_name st)
    (fun st1 _ =>
      Res.and_then (SharedMemoryTopicRos2.sem_at topic_name st1)
        (fun st2 h =>
          Res.and_then (st2.2.lift (h.TryDecrement fails st2.1))
            (fun st3 taken =>
              if taken then SharedMemoryTopicRos2.Subscribe_read decode fails shm_name st3
              else (st3, Res.ok none))))

/-- The method `SubscribeTimeout`. -/
def SharedMemoryTopicRos2.SubscribeTimeout {μ : Type} (decode : List Nat → Option μ)
    (fails : Syscall → Bool) (topic_name shm_name : String) (timeout : Nat) (st : TopicState) :
    TopicState × Res (Option μ) :=
  Res.and_then (SharedMemoryTopicRos2.CheckSemExist fails topic_name st)
    (fun st1 _ =>
      Res.and_then (SharedMemoryTopicRos2.sem_at topic_name st1)
        (fun st2 h =>
          Res.and_then (st2.2.lift (h.DecrementTimeout fails timeout st2.1))
            (fun st3 taken =>
              if taken then SharedMemoryTopicRos2.Subscribe_read decode fails shm_name st3
              else (st3, Res.ok none))))

/-- A call of a public method of `SharedMemoryTopicRos2`. -/
inductive TopicCall where
  | Publish (topic_name shm_name : String) (msg : List Nat)
  | PublishList (topic_names : List String) (shm_name : String) (msgs : List Nat)
  | Subscribe (topic_name shm_name : String)
  | SubscribeNoWait (topic_name shm_name : String)
  | SubscribeTimeout (topic_name shm_name : String) (timeout : Nat)
  deriving DecidableEq

/-- The buffer name of a call. -/
def TopicCall.shm_name : TopicCall → String
  | TopicCall.Publish _ shm_name _ => shm_name
  | TopicCall.PublishList _ shm_name _ => shm_name
  | TopicCall.Subscribe _ shm_name => shm_name
  | TopicCall.SubscribeNoWait _ shm_name => shm_name
  | TopicCall.SubscribeTimeout _ shm_name _ => shm_name

/-- The topic names of a call. -/
def TopicCall.topic_names : TopicCall → List String
  | TopicCall.Publish topic_name _ _ => [topic_name]
  | TopicCall.PublishList topic_names _ _ => topic_names
  | TopicCall.Subscribe topic_name _ => [topic_name]
  | TopicCall.SubscribeNoWait topic_name _ => [topic_name]
  | TopicCall.SubscribeTimeout topic_name _ _ => [topic_name]

/-- The effect of a call. -/
def TopicCall.apply {μ : Type} (decode : List Nat → Option μ) (fails : Syscall → Bool) :
    TopicCall → TopicState → TopicState × Res (Option μ)
  | TopicCall.Publish topic_name shm_name msg, st =>
    Res.and_then (SharedMemoryTopicRos2.Publish fails topic_name shm_name msg st)
      (fun st1 _ => (st1, Res.ok none))
  | TopicCall.PublishList topic_names shm_name msgs, st =>
    Res.and_then (SharedMemoryTopicRos2.PublishList fails topic_names shm_name msgs st)
      (fun st1 _ => (st1, Res.ok none))
  | TopicCall.Subscribe topic_name shm_name, st =>
    SharedMemoryTopicRos2.Subscribe decode fails topic_name shm_name st
  | TopicCall.SubscribeNoWait topic_name shm_name, st =>
    SharedMemoryTopicRos2.SubscribeNoWait decode fails topic_name shm_name st
  | TopicCall.SubscribeTimeout topic_name shm_name timeout, st =>
    SharedMemoryTopicRos2.SubscribeTimeout decode fails topic_name shm_name timeout st

/-- A call made by one of the processes: the process, the system calls that fail
during the call, and the call. -/
structure TopicStep where
  proc : Nat
  fails : Syscall → Bool
  call : TopicCall

/-- A sequence of calls made one after another by processes that share the
operating system; each process has its own `SharedMemoryTopicRos2` object.  A
call that ends waiting is abandoned.  The result lists the state and the outcome
after each call. -/
def TopicStep.run {μ : Type} (decode : List Nat → Option μ) :
    List TopicStep → Posix × (Nat → SharedMemoryTopicRos2) →
    List ((Posix × (Nat → SharedMemoryTopicRos2)) × Res (Option μ))
  | [], _ => []
  | c :: rest, w =>
    ((((c.call.apply decode c.fails (w.1, w.2 c.proc)).1.1,
        Function.update w.2 c.proc (c.call.apply decode c.fails (w.1, w.2 c.proc)).1.2),
      (c.call.apply decode c.fails (w.1, w.2 c.proc)).2) ::
     TopicStep.run decode rest
       ((c.call.apply decode c.fails (w.1, w.2 c.proc)).1.1,
        Function.update w.2 c.proc (c.call.apply decode c.fails (w.1, w.2 c.proc)).1.2))

/-- The pending count of the semaphore of a topic; a topic whose semaphore does
not exist yet has nothing pending. -/
def Posix.pending (s : Posix) (topic_name : String) : Nat :=
  (unordered_map.find s.sems (GetNamePrefix topic_name)).getD 0

/-- Publishes of the given serialized messages on one topic and buffer, one after
another; the sequence ends with the first publish that does not return. -/
def SharedMemoryTopicRos2.Publish_all (fails : Syscall → Bool) (topic_name shm_name : String) :
    List (List Nat) → TopicState → TopicState × Res Unit
  | [], st => (st, Res.ok ())
  | msg :: rest, st =>
    Res.and_then (SharedMemoryTopicRos2.Publish fails topic_name shm_name msg st)
      (fun st1 _ => SharedMemoryTopicRos2.Publish_all fails topic_name shm_name rest st1)

/-- The handles of a `SharedMemoryTopicRos2` object are stored under the names they
were made for: this holds of a new object and is kept by every method. -/
structure SharedMemoryTopicRos2.wf (m : SharedMemoryTopicRos2) : Prop where
  shm : ∀ k d, unordered_map.find m.shm_map_ k = some d →
    d.name_ = GetNamePrefix k ∧ d.sem_.name_ = GetNamePrefix (k ++ "_shm")
  sem : ∀ k h, unordered_map.find m.sem_map_ k = some h → h.name_ = GetNamePrefix k

/-- The count of the semaphore `name` in `s1` is at most 1 or at most its count in
`s`: no post has raised it above 1. -/
def Posix.sem_bound (name : String) (s s1 : Posix) : Prop :=
  ∀ c1, unordered_map.find s1.sems name = some c1 →
    c1 ≤ 1 ∨ ∃ c, unordered_map.find s.sems name = some c ∧ c1 ≤ c

/-- The count of the lock semaphore `name` in `s1` is its count in `s`, or the
semaphore did not exist in `s` and is free in `s1`. -/
def Posix.lock_kept (name : String) (s s1 : Posix) : Prop :=
  unordered_map.find s1.sems name = unordered_map.find s.sems name ∨
  (unordered_map.find s.sems name = none ∧ unordered_map.find s1.sems name = some 1)

/-- The count of the lock semaphore `name` in `s1` is one less than its count in
`s`, or the semaphore did not exist in `s` and is taken in `s1`. -/
def Posix.lock_taken (name : String) (s s1 : Posix) : Prop :=
  ∃ c, unordered_map.find s1.sems name = some c ∧
    (unordered_map.find s.sems name = some (c + 1) ∨
      (unordered_map.find s.sems name = none ∧ c = 0))

/-- What a call that started in the operating system state `s` has done to the
lock semaphore `name` when it ends with `r`: the lock is as it was unless the
call was left by the exception of the deserializer, and it is taken when it
was. -/
def SharedMemoryTopicRos2.lock_spec {α : Type} (name : String) (s : Posix)
    (r : TopicState × Res α) : Prop :=
  r.1.2.wf ∧
  (r.2 ≠ Res.thrown IpcError.deserialize → Posix.lock_kept name s r.1.1) ∧
  (r.2 = Res.thrown IpcError.deserialize → Posix.lock_taken name s r.1.1)

/-- The system calls that fail when none does. -/
def Syscall.none_fails : Syscall → Bool := fun _ => false

/-- The conditions under which a publish of `n` bytes on the topic and the buffer
is considered: the lock of the buffer is free or does not exist yet; the shared
memory object of the buffer, if it exists, has `n` bytes; a handle that the
`SharedMemoryTopicRos2` object holds for the buffer or for the topic was made
for it, by `CheckSHMExist` or `CheckSemExist`, and what it refers to exists. -/
structure SharedMemoryTopicRos2.ready (topic_name shm_name : String) (n : Nat)
    (st : TopicState) : Prop where
  lock : unordered_map.find st.1.sems (GetNamePrefix (shm_name ++ "_shm")) = none ∨
    unordered_map.find st.1.sems (GetNamePrefix (shm_name ++ "_shm")) = some 1
  region : ∀ bytes, unordered_map.find st.1.shms (GetNamePrefix shm_name) = some bytes →
    bytes.length = n
  shm_handle : ∀ d, unordered_map.find st.2.shm_map_ shm_name = some d →
    d.name_ = GetNamePrefix shm_name ∧ d.sem_.name_ = GetNamePrefix (shm_name ++ "_shm") ∧
    d.size_ = n ∧
    unordered_map.find st.1.sems (GetNamePrefix (shm_name ++ "_shm")) = some 1 ∧
    ∃ bytes, unordered_map.find st.1.shms (GetNamePrefix shm_name) = some bytes
  sem_handle : ∀ h, unordered_map.find st.2.sem_map_ topic_name = some h →
    h.name_ = GetNamePrefix topic_name ∧
    ∃ c, unordered_map.find st.1.sems (GetNamePrefix topic_name) = some c

/-- The state left by a publish of the serialized message `msg` on the topic and
the buffer: the object of the buffer holds the bytes of `msg`, its lock is free,
one message is pending on the topic, and the `SharedMemoryTopicRos2` object holds
the handles of the buffer and of the topic. -/
structure SharedMemoryTopicRos2.published (topic_name shm_name : String) (msg : List Nat)
    (st : TopicState) : Prop where
  region : unordered_map.find st.1.shms (GetNamePrefix shm_name) = some msg
  lock : unordered_map.find st.1.sems (GetNamePrefix (shm_name ++ "_shm")) = some 1
  pending : unordered_map.find st.1.sems (GetNamePrefix topic_name) = some 1
  shm_handle : ∃ d, unordered_map.find st.2.shm_map_ shm_name = some d ∧
    d.name_ = GetNamePrefix shm_name ∧ d.sem_.name_ = GetNamePrefix (shm_name ++ "_shm") ∧
    d.size_ = msg.length
  sem_handle : ∃ h, unordered_map.find st.2.sem_map_ topic_name = some h ∧
    h.name_ = GetNamePrefix topic_name

/-- The three subscribe calls on a topic and a buffer. -/
def TopicCall.subscribes (topic_name shm_name : String) (call : TopicCall) : Prop :=
  call = TopicCall.Subscribe topic_name shm_name ∨
  call = TopicCall.SubscribeNoWait topic_name shm_name ∨
  ∃ timeout, call = TopicCall.SubscribeTimeout topic_name shm_name timeout

/-- The state left by one publish of the four bytes 1, 2, 3, 4 on the topic `t`
and the buffer `b`, made through a new object on a system without semaphores
and shared memory objects. -/
def demo_published : TopicState :=
  (SharedMemoryTopicRos2.Publish Syscall.none_fails "t" "b" [1, 2, 3, 4] ({}, {})).1

/-- A deserializer that raises on every buffer. -/
def demo_decode_raises : List Nat → Option (List Nat) := fun _ => none

/-- Calls of two processes on the topic `t` and the buffer `b`: process 0 publishes
twice, process 1 subscribes three times, process 0 publishes to two topics. -/
def demo_steps : List TopicStep :=
  [{ proc := 0, fails := Syscall.none_fails, call := TopicCall.Publish "t" "b" [1, 2, 3, 4] },
   { proc := 0, fails := Syscall.none_fails, call := TopicCall.Publish "t" "b" [5, 6, 7, 8] },
   { proc := 1, fails := Syscall.none_fails, call := TopicCall.Subscribe "t" "b" },
   { proc := 1, fails := Syscall.none_fails, call := TopicCall.SubscribeNoWait "t" "b" },
   { proc := 1, fails := Syscall.none_fails, call := TopicCall.SubscribeTimeout "t" "b" 10 },
   { proc := 0, fails := Syscall.none_fails,
     call := TopicCall.PublishList ["t", "u"] "b" [9, 9, 9, 9] }]

/-! ## The start order of the resident tasks -/

/-- The assumption on the threads of the tasks under which the start loop is
considered: before a readiness check, the thread of every task that has been
started has brought the nodes of the task to RUNNING. -/
def spec_task_threads (tasks : List Task) : Nat → World → World :=
  fun _ w =>
    { w with
      nodes := fun p =>
        if tasks.any (fun t => (w.tasks t.self).loop_run_ && decide (p ∈ t.node_list_)) then
          { w.nodes p with state_ := NodeState.RUNNING }
        else w.nodes p }

/-- Every launch `pre_node` of the task `t` is a registered node that is run by one
of the tasks `earlier`. -/
def spec_pre_nodes_run (node_map : NodeMap) (earlier : List Task) (t : Task) : Prop :=
  ∀ n ∈ t.GetTaskSetting.launch_setting.pre_node,
    ∃ p, node_map.GetNodePtr n = Except.ok p ∧ ∃ u ∈ earlier, p ∈ u.node_list_

/-- In the list `order`, every `pre_node` of each task is a node run by a task
earlier in the list. -/
def spec_start_order (node_map : NodeMap) (order : List Task) : Prop :=
  ∀ pre t post, order = pre ++ t :: post → spec_pre_nodes_run node_map pre t

/-- The tasks can be ordered so that every `pre_node` of each task is a node run
by a task earlier in the order. -/
def spec_orderable (node_map : NodeMap) (tasks : List Task) : Prop :=
  ∃ order, List.Perm order tasks ∧ spec_start_order node_map order

/-- The relation between the heap and the list `started` of the tasks started so
far, in the order of their start, that the start loop keeps under
`spec_task_threads`: a task of `tasks` has its `loop_run_` flag set exactly if
it is in `started`; a node that is RUNNING is run by a task of `started`; and
`started` is a start order. -/
structure spec_started (node_map : NodeMap) (tasks started : List Task) (w : World) :
    Prop where
  flags : ∀ t ∈ tasks, (w.tasks t.self).loop_run_ = true ↔ t ∈ started
  running : ∀ p, (w.nodes p).state_ = NodeState.RUNNING → ∃ u ∈ started, p ∈ u.node_list_
  order : spec_start_order node_map started
  sub : ∀ t ∈ started, t ∈ tasks
  nodup : started.Nodup

/-- A configuration with three resident tasks: `R3` on node `C` waits for `B`,
`R2` on node `B` waits for `A`, and `R1` on node `A` waits for nothing. -/
def demo_config_chain : ExecuterConfig :=
  { task_list :=
      { resident_group :=
          [("R3", { task_name := "R3",
                    node_list := [{ node_name := "C", output_enable := true }],
                    launch_setting := { pre_node := ["B"] } }),
           ("R2", { task_name := "R2",
                    node_list := [{ node_name := "B", output_enable := true }],
                    launch_setting := { pre_node := ["A"] } }),
           ("R1", { task_name := "R1",
                    node_list := [{ node_name := "A", output_enable := true }],
                    launch_setting := { pre_node := [] } })]
        standby_group := [] }
    exclusive_task_group := [] }

/-- The state left by `CreateTask` on `demo_config_chain`. -/
def demo_boot_chain : Executer × World × List Event :=
  got ((Executer.ctor demo_config_chain demo_node_map).CreateTask
        (demo_world ["A", "B", "C", "D"]))
    (Executer.ctor demo_config_chain demo_node_map, demo_world [], [])

/-! ## Numbers of the timing code -/

/-- The conversion `static_cast<T>(x)` of a `double` to an integer type `T`, for a
value whose integral part fits `T`: the fractional part is discarded. -/
def static_cast_int (x : ℚ) : Int := Int.tdiv x.num x.den

/-- The conversion `static_cast<T>(x)` of a `double` to a signed integer type `T`
of `w` bits: the fractional part is discarded.  When the integral part does not
fit `T` the behaviour is undefined in C++; the value that the conversion
instruction of x86-64 delivers, the least value of `T`, is taken. -/
def static_cast_signed (w : Nat) (x : ℚ) : Int :=
  if -2 ^ (w - 1) ≤ static_cast_int x ∧ static_cast_int x < 2 ^ (w - 1) then static_cast_int x
  else -2 ^ (w - 1)

/-- The value that a signed integer type of `w` bits holds for the arithmetic
result `x`: `x` itself when it fits.  Signed overflow is undefined in C++; the
value that two's complement hardware delivers is taken, which is `x` reduced
modulo `2^w` into the range of the type. -/
def wrap_signed (w : Nat) (x : Int) : Int := (x + 2 ^ (w - 1)) % 2 ^ w - 2 ^ (w - 1)

/-- Rounding of a rational number to the nearest integer, a tie going to the even
one. -/
def round_half_even (x : ℚ) : Int :=
  if x - ⌊x⌋ < 1 / 2 then ⌊x⌋
  else if 1 / 2 < x - ⌊x⌋ then ⌊x⌋ + 1
  else if ⌊x⌋ % 2 = 0 then ⌊x⌋ else ⌊x⌋ + 1

/-- The value of type `double` nearest to a rational number that is not negative:
with `2^e <= x < 2^(e+1)`, the multiple of `2^(e-52)` nearest to `x`, a tie going
to the even multiple. -/
def double_round_abs (x : ℚ) : ℚ :=
  (round_half_even (x / 2 ^ (Int.log 2 x - 52)) : ℚ) * 2 ^ (Int.log 2 x - 52)

/-- The value of type `double` (IEEE 754 binary64) nearest to a rational number, a
tie going to the value with an even significand: the rounding that every
arithmetic operation on `double` applies to its exact result.  The range of the
exponent is not bounded: overflow to infinity and the subnormal numbers are not
modelled. -/
def double_round (x : ℚ) : ℚ :=
  if 0 ≤ x then double_round_abs x else -double_round_abs (-x)


/-! ## `task/timer.hpp`, `timer.cpp` -/

/-- The type `struct timespec` of `<time.h>`. -/
structure timespec where
  tv_sec : Int
  tv_nsec : Int
  deriving DecidableEq

/-- The members of `class TimerLoop`. -/
structure TimerLoop where
  wake_abs_time_ : timespec
  time_ns_ : Int
  time_s_ : Int
  period_ms_ : ℚ
  period_ns_ : Int
  deriving DecidableEq

/-- The constant `TimerLoop::NS_CARRY`. -/
def TimerLoop.NS_CARRY : Int := 999999999

/-- The constant `TimerLoop::NS_TO_S`. -/
def TimerLoop.NS_TO_S : Int := 1000000000

/-- The method `TimerLoop::ResetClock`; `now` is the time that
`clock_gettime(CLOCK_MONOTONIC)` delivers, `none` when the call fails. -/
def TimerLoop.ResetClock (t : TimerLoop) (now : Option timespec) : TimerLoop :=
  match now with
  | none => t
  | some ts => { t with wake_abs_time_ := ts, time_ns_ := ts.tv_nsec, time_s_ := ts.tv_sec }

/-- The method `TimerLoop::AddPeriod`.  The members `time_ns_`, `time_s_` and
`period_ns_` are of type `long`, of 64 bits: the two sums are reduced by
`wrap_signed 64`; `/` and `%` on `long` truncate. -/
def TimerLoop.AddPeriod (t : TimerLoop) : TimerLoop :=
  if wrap_signed 64 (t.time_ns_ + t.period_ns_) > TimerLoop.NS_CARRY then
    { t with
      time_s_ :=
        wrap_signed 64
          (t.time_s_ + Int.tdiv (wrap_signed 64 (t.time_ns_ + t.period_ns_)) TimerLoop.NS_TO_S)
      time_ns_ := Int.tmod (wrap_signed 64 (t.time_ns_ + t.period_ns_)) TimerLoop.NS_TO_S
      wake_abs_time_ :=
        { tv_sec :=
            wrap_signed 64
              (t.time_s_ +
                Int.tdiv (wrap_signed 64 (t.time_ns_ + t.period_ns_)) TimerLoop.NS_TO_S)
          tv_nsec := Int.tmod (wrap_signed 64 (t.time_ns_ + t.period_ns_)) TimerLoop.NS_TO_S } }
  else
    { t with
      time_ns_ := wrap_signed 64 (t.time_ns_ + t.period_ns_)
      wake_abs_time_ :=
        { tv_sec := t.time_s_, tv_nsec := wrap_signed 64 (t.time_ns_ + t.period_ns_) } }

/-- The method `TimerLoop::SetPeriod`: `period_ms_ = period * 1000.0` and
`period_ns_ = static_cast<long>(period * 1e9)`, each product rounded to
`double`. -/
def TimerLoop.SetPeriod (t : TimerLoop) (period : ℚ) (now : Option timespec) : TimerLoop :=
  (TimerLoop.ResetClock
    { t with
      period_ms_ := double_round (period * 1000)
      period_ns_ := static_cast_signed 64 (double_round (period * 1000000000)) }
    now).AddPeriod

/-- The method `TimerLoop::GetPeriod`. -/
def TimerLoop.GetPeriod (t : TimerLoop) : ℚ := t.period_ms_

/-- The method `TimerLoop::SleepUntilNextLoop`: the thread sleeps until the
absolute time `wake_abs_time_` (second component; a failure of `clock_nanosleep`
is only reported), then the next wake time is scheduled. -/
def TimerLoop.SleepUntilNextLoop (t : TimerLoop) : TimerLoop × timespec :=
  (t.AddPeriod, t.wake_abs_time_)

/-- The timer after `n` calls of `SleepUntilNextLoop` in a row. -/
def TimerLoop.SleepUntilNextLoop_times : Nat → TimerLoop → TimerLoop
  | 0, t => t
  | n + 1, t => TimerLoop.SleepUntilNextLoop_times n t.SleepUntilNextLoop.1

/-- A point in time as a number of nanoseconds. -/
def timespec.ns (ts : timespec) : Int := ts.tv_sec * 1000000000 + ts.tv_nsec

/-! ## The sleep strategies of `task/task_base.hpp`, `task_base.cpp` -/

/-- A call by which a sleep strategy waits or wakes a waiting thread. -/
inductive TimerCall where
  /-- The call `clock_nanosleep(CLOCK_MONOTONIC, TIMER_ABSTIME, &wake)`. -/
  | clock_nanosleep (wake : timespec)
  /-- The call `sem_.Decrement()` on the semaphore of the given name. -/
  | Decrement (sem_name : String)
  /-- The call `sem_.Increment()` on the semaphore of the given name. -/
  | Increment (sem_name : String)
  deriving DecidableEq

/-- The members of `class SleepInternalTimer`. -/
structure SleepInternalTimer where
  timer_loop_ : TimerLoop
  deriving DecidableEq

/-- The method `SleepInternalTimer::SetPeriod`. -/
def SleepInternalTimer.SetPeriod (t : SleepInternalTimer) (period : ℚ) (now : Option timespec) :
    SleepInternalTimer :=
  { timer_loop_ := t.timer_loop_.SetPeriod period now }

/-- The constructor `SleepInternalTimer::SleepInternalTimer`, which calls
`SetPeriod(0.01)`; `raw` holds the members of the timer loop before they are
first written. -/
def SleepInternalTimer.ctor (raw : TimerLoop) (now : Option timespec) : SleepInternalTimer :=
  SleepInternalTimer.SetPeriod { timer_loop_ := raw } (double_round (1 / 100)) now

/-- The method `SleepInternalTimer::GetPeriod`. -/
def SleepInternalTimer.GetPeriod (t : SleepInternalTimer) : ℚ := t.timer_loop_.GetPeriod

/-- The method `SleepInternalTimer::Sleep`; `now` is the clock reading of the
`ResetClock` made after an overrun. -/
def SleepInternalTimer.Sleep (t : SleepInternalTimer) (duration : ℚ) (now : Option timespec) :
    SleepInternalTimer × List TimerCall :=
  if duration > t.timer_loop_.SleepUntilNextLoop.1.GetPeriod then
    ({ timer_loop_ := t.timer_loop_.SleepUntilNextLoop.1.ResetClock now },
     [TimerCall.clock_nanosleep t.timer_loop_.SleepUntilNextLoop.2])
  else
    ({ timer_loop_ := t.timer_loop_.SleepUntilNextLoop.1 },
     [TimerCall.clock_nanosleep t.timer_loop_.SleepUntilNextLoop.2])

/-- The method `SleepInternalTimer::Continue`. -/
def SleepInternalTimer.Continue (t : SleepInternalTimer) (now : Option timespec) :
    SleepInternalTimer :=
  { timer_loop_ := t.timer_loop_.ResetClock now }

/-- The members of `class SleepExternalTimer`; the semaphore and the shared
buffer are given by their names. -/
structure SleepExternalTimer where
  dt_ : Nat
  interval_time_ : Int
  interval_count_ : Int
  sem_ : String
  shm_ : String
  deriving DecidableEq

/-- The constructor `SleepExternalTimer::SleepExternalTimer`; `dt` is the byte
found in the shared buffer.  Both counters are value-initialised atomics. -/
def SleepExternalTimer.ctor (sem_name shm_name : String) (dt : Nat) : SleepExternalTimer :=
  { dt_ := dt % 256, interval_time_ := 0, interval_count_ := 0, sem_ := sem_name,
    shm_ := shm_name }

/-- The method `SleepExternalTimer::SetPeriod`: the interval target is
`static_cast<int>(period * 1000 / dt_)`, where the product and the quotient are
each rounded to `double` and `int` has 32 bits. -/
def SleepExternalTimer.SetPeriod (t : SleepExternalTimer) (period : ℚ) : SleepExternalTimer :=
  { t with
    dt_ := if t.dt_ < 1 then 1 else t.dt_
    interval_time_ :=
      static_cast_signed 32
        (double_round
          (double_round (period * 1000) / ((if t.dt_ < 1 then 1 else t.dt_ : Nat) : ℚ)))
    interval_count_ := 0 }

/-- The method `SleepExternalTimer::GetPeriod`. -/
def SleepExternalTimer.GetPeriod (t : SleepExternalTimer) : ℚ :=
  ((t.interval_time_ * (t.dt_ : Int) : Int) : ℚ)

/-- The loop of `SleepExternalTimer::Sleep`, for at most `fuel` rounds: a wait on
the semaphore for each round.  The calls made are collected in order. -/
def SleepExternalTimer.Sleep_loop (duration : ℚ) :
    Nat → SleepExternalTimer → List TimerCall → SleepExternalTimer × List TimerCall
  | 0, t, calls => (t, calls)
  | fuel + 1, t, calls =>
    if t.interval_count_ < t.interval_time_ ∧ duration < t.GetPeriod then
      SleepExternalTimer.Sleep_loop duration fuel
        { t with interval_count_ := t.interval_count_ + 1 }
        (calls ++ [TimerCall.Decrement t.sem_])
    else (t, calls)

/-- The method `SleepExternalTimer::Sleep`, run while no other thread writes the
counters and with a tick arriving for every wait: the loop ends within
`interval_time_ - interval_count_` rounds. -/
def SleepExternalTimer.Sleep (t : SleepExternalTimer) (duration : ℚ) :
    SleepExternalTimer × List TimerCall :=
  ({ (SleepExternalTimer.Sleep_loop duration (t.interval_time_ - t.interval_count_).toNat t []).1
       with interval_count_ := 0 },
   (SleepExternalTimer.Sleep_loop duration (t.interval_time_ - t.interval_count_).toNat t []).2)

/-- The method `SleepExternalTimer::Continue`. -/
def SleepExternalTimer.Continue (t : SleepExternalTimer) :
    SleepExternalTimer × List TimerCall :=
  ({ t with interval_time_ := 0 }, [TimerCall.Increment t.sem_])

/-- The members of `class SleepTrigger`; the semaphore is given by its name. -/
structure SleepTrigger where
  sem_ : String
  deriving DecidableEq

/-- The constructor `SleepTrigger::SleepTrigger`. -/
def SleepTrigger.ctor (sem_name : String) : SleepTrigger := { sem_ := sem_name }

/-- The method `SleepTrigger::Sleep`. -/
def SleepTrigger.Sleep (t : SleepTrigger) : SleepTrigger × List TimerCall :=
  (t, [TimerCall.Decrement t.sem_])

/-- The method `SleepTrigger::Continue`. -/
def SleepTrigger.Continue (t : SleepTrigger) : SleepTrigger × List TimerCall :=
  (t, [TimerCall.Increment t.sem_])

/-- An object of a class derived from `SleepBase`, as held by `timer_`. -/
inductive SleepBase where
  | internal (t : SleepInternalTimer)
  | external (t : SleepExternalTimer)
  | trigger (t : SleepTrigger)
  deriving DecidableEq

/-- The virtual method `SleepBase::Sleep`. -/
def SleepBase.Sleep (duration : ℚ) (now : Option timespec) :
    SleepBase → SleepBase × List TimerCall
  | SleepBase.internal t => (SleepBase.internal (t.Sleep duration now).1, (t.Sleep duration now).2)
  | SleepBase.external t => (SleepBase.external (t.Sleep duration).1, (t.Sleep duration).2)
  | SleepBase.trigger t => (SleepBase.trigger t.Sleep.1, t.Sleep.2)

/-- The virtual method `SleepBase::SetPeriod`; `SleepTrigger` inherits the empty
body of the base class. -/
def SleepBase.SetPeriod (period : ℚ) (now : Option timespec) : SleepBase → SleepBase
  | SleepBase.internal t => SleepBase.internal (t.SetPeriod period now)
  | SleepBase.external t => SleepBase.external (t.SetPeriod period)
  | SleepBase.trigger t => SleepBase.trigger t

/-- The virtual method `SleepBase::GetPeriod`; `SleepTrigger` inherits the body
`return 0` of the base class. -/
def SleepBase.GetPeriod : SleepBase → ℚ
  | SleepBase.internal t => t.GetPeriod
  | SleepBase.external t => t.GetPeriod
  | SleepBase.trigger _ => 0

/-- The virtual method `SleepBase::Continue`. -/
def SleepBase.Continue (now : Option timespec) : SleepBase → SleepBase × List TimerCall
  | SleepBase.internal t => (SleepBase.internal (t.Continue now), [])
  | SleepBase.external t => (SleepBase.external t.Continue.1, t.Continue.2)
  | SleepBase.trigger t => (SleepBase.trigger t.Continue.1, t.Continue.2)

/-! ## The timing members of `TaskBase` and `Task` -/

/-- What the constructors of the sleep strategies read from outside the object:
the members of the timer loop before they are first written, the clock reading
of the first `ResetClock`, and the tick length found in the shared buffer. -/
structure TimerEnv where
  raw : TimerLoop
  now : Option timespec
  dt : Nat

/-- The members of `class TaskBase` that govern the timing of the thread. -/
structure TaskTimer where
  sleep_duration_ : ℚ
  timer_ : SleepBase
  deriving DecidableEq

/-- The constructor `TaskBase::TaskBase`, timing members: the start delay is
stored and the sleep strategy is chosen by the timer type. -/
def TaskBase.ctor (thread_name : String) (type : TimerType) (sleep_duration : ℚ)
    (env : TimerEnv) : TaskTimer :=
  { sleep_duration_ := sleep_duration
    timer_ :=
      match type with
      | TimerType.INTERNAL_TIMER => SleepBase.internal (SleepInternalTimer.ctor env.raw env.now)
      | TimerType.EXTERNAL_TIMER =>
        SleepBase.external (SleepExternalTimer.ctor thread_name thread_name env.dt)
      | TimerType.TRIGGER => SleepBase.trigger (SleepTrigger.ctor thread_name) }

/-- The method `TaskBase::SetPeriod`. -/
def TaskBase.SetPeriod (t : TaskTimer) (period : ℚ) (now : Option timespec) : TaskTimer :=
  { t with timer_ := t.timer_.SetPeriod period now }

/-- The constructor `Task::Task`, timing members: the base class is built from
the task name, the timer type and the launch delay, then the configured period
is set. -/
def Task.ctor_timer (task_setting : TaskSetting) (env : TimerEnv) (now : Option timespec) :
    TaskTimer :=
  TaskBase.SetPeriod
    (TaskBase.ctor task_setting.task_name task_setting.timer_setting.timer_type
      task_setting.launch_setting.delay env)
    task_setting.timer_setting.period now

/-- The effect of `TaskBase::TaskStop` on the timing members: `timer_->Continue()`. -/
def TaskBase.TaskStop_timer (t : TaskTimer) (now : Option timespec) :
    TaskTimer × List TimerCall :=
  ({ t with timer_ := (t.timer_.Continue now).1 }, (t.timer_.Continue now).2)

/-- The effect of `TaskBase::TaskStart` on the timing members: none. -/
def TaskBase.TaskStart_timer (t : TaskTimer) : TaskTimer := t

/-- The statement `std::this_thread::sleep_for(std::chrono::microseconds(
static_cast<int64_t>(sleep_duration_ * 1000)))` that `TaskBase::Loop` executes
after each `start_sem_.acquire()`: the number of microseconds slept.  The product
is taken as it is: for a delay of a whole number of seconds it is a whole number,
which is a value of type `double` and fits `int64_t` for every delay of less than
`2^53 / 1000` seconds. -/
def TaskBase.Loop_sleep_for (t : TaskTimer) : Int := static_cast_int (t.sleep_duration_ * 1000)

/-- The call `timer_->Sleep(GetRunDuration())` at the head of the inner loop of
`TaskBase::Loop`. -/
def TaskBase.Loop_Sleep (t : TaskTimer) (run_duration : ℚ) (now : Option timespec) :
    TaskTimer × List TimerCall :=
  ({ t with timer_ := (t.timer_.Sleep run_duration now).1 }, (t.timer_.Sleep run_duration now).2)

/-- A timer whose next wake time is 5.999999999 s, with a period of 10 ms. -/
def demo_timer_loop : TimerLoop :=
  { wake_abs_time_ := { tv_sec := 5, tv_nsec := 999999999 }
    time_ns_ := 999999999
    time_s_ := 5
    period_ms_ := 10
    period_ns_ := 10000000 }

/-- A timer loop whose members are all zero. -/
def demo_raw_timer_loop : TimerLoop :=
  { wake_abs_time_ := { tv_sec := 0, tv_nsec := 0 }, time_ns_ := 0, time_s_ := 0,
    period_ms_ := 0, period_ns_ := 0 }

/-- A clock that reads 5 s and a shared buffer that holds a tick length of 1 ms. -/
def demo_timer_env : TimerEnv :=
  { raw := demo_raw_timer_loop, now := some { tv_sec := 5, tv_nsec := 0 }, dt := 1 }

/-- The settings of a task `T` that is woken by external ticks, has a period of
3 ms and a start delay of one second. -/
def demo_task_setting_external : TaskSetting :=
  { task_name := "T"
    node_list := []
    timer_setting := { timer_type := TimerType.EXTERNAL_TIMER, period := 3 / 1000 }
    launch_setting := { pre_node := [], delay := 1 } }

/-- The timing members of the task of `demo_task_setting_external` as its
constructor leaves them. -/
def demo_task_timer : TaskTimer :=
  Task.ctor_timer demo_task_setting_external demo_timer_env none

/-- The timing members of that task after `TaskStop` followed by `TaskStart`. -/
def demo_task_timer_restarted : TaskTimer :=
  TaskBase.TaskStart_timer (TaskBase.TaskStop_timer demo_task_timer none).1

/-! ## `task/rt/sched_rt.hpp` -/

namespace int_set

/-- The call `s.insert(x)` on a `std::set<int>`: the element is placed at its
sorted position unless it is already present. -/
def insert (x : Int) : List Int → List Int
  | [] => [x]
  | y :: ys =>
    if x < y then x :: y :: ys
    else if x = y then y :: ys
    else y :: insert x ys

/-- The constructor `std::set<int>(first, last)`. -/
def of_range (xs : List Int) : List Int :=
  xs.foldl (fun acc x => insert x acc) []

end int_set

/-- The macro `CPU_SET(cpu, &set)`; a value of type `cpu_set_t` is given by the
set of the CPU numbers whose bit is set (the capacity `CPU_SETSIZE` of the type
is not modelled). -/
def CPU_SET (cpu : Int) (set : List Int) : List Int := int_set.insert cpu set

/-- The loop of `set_thread_cpu_affinity` over `unique_cpus`: the mask, or `none`
when the loop is left by `return -1` at an index out of range. -/
def set_thread_cpu_affinity_loop (num_cpus : Int) : List Int → List Int → Option (List Int)
  | [], set => some set
  | cpu :: rest, set =>
    if cpu < 0 ∨ cpu ≥ num_cpus then none
    else set_thread_cpu_affinity_loop num_cpus rest (CPU_SET cpu set)

/-- The function `ocm::rt::set_thread_cpu_affinity`.  The argument `num_cpus` is
the value of `sysconf(_SC_NPROCESSORS_ONLN)` and `sched_setaffinity pid set` the
value that the system call returns for a mask.  The result holds the returned
value and the calls of `sched_setaffinity` made, each with its thread and mask. -/
def set_thread_cpu_affinity (num_cpus : Int) (sched_setaffinity : Int → List Int → Int)
    (pid : Int) (cpu_list : List Int) : Int × List (Int × List Int) :=
  if num_cpus = -1 then (-1, [])
  else
    match set_thread_cpu_affinity_loop num_cpus (int_set.of_range cpu_list) [] with
    | none => (-1, [])
    | some set =>
      if sched_setaffinity pid set = -1 then (-1, [(pid, set)]) else (0, [(pid, set)])

/-- A system on which `sched_setaffinity` succeeds for a mask that is not empty
and fails for the empty mask. -/
def demo_sched_setaffinity : Int → List Int → Int :=
  fun _ set => if set = [] then -1 else 0

/-! ## `lcm/lcm_coretypes.h` and `executer/desired_group_data.hpp`

A buffer `const void *buf` is given by the byte found at each index from the
pointer; a decoder reports the indices it reads. -/

/-- The outcome of a decoding function: the value returned, the value decoded
and the indices of the buffer that were read. -/
structure Decoded (α : Type) where
  ret : Int
  value : α
  reads : List Int
  deriving DecidableEq

/-- The unsigned number held by the bytes at `pos`, ..., `pos + n - 1`, the most
significant byte first. -/
def big_endian (buf : Int → Nat) (pos : Int) : Nat → Nat
  | 0 => 0
  | n + 1 => big_endian buf pos n * 256 + buf (pos + n) % 256

/-- The indices `pos`, ..., `pos + n - 1`. -/
def byte_range (pos : Int) (n : Nat) : List Int :=
  (List.range n).map (fun (i : Nat) => pos + (i : Int))

/-- The library function `__int64_t_decode_array` for one element: it fails when
fewer than 8 bytes may be read, and reads a 64 bit two's complement number
otherwise. -/
def int64_t_decode_array (buf : Int → Nat) (offset maxlen : Int) : Decoded Int :=
  if maxlen < 8 then { ret := -1, value := 0, reads := [] }
  else
    { ret := 8
      value :=
        if big_endian buf offset 8 < 2 ^ 63 then (big_endian buf offset 8 : Int)
        else (big_endian buf offset 8 : Int) - 2 ^ 64
      reads := byte_range offset 8 }

/-- The library function `__int32_t_decode_array` for one element: it fails when
fewer than 4 bytes may be read, and reads a 32 bit two's complement number
otherwise. -/
def int32_t_decode_array (buf : Int → Nat) (offset maxlen : Int) : Decoded Int :=
  if maxlen < 4 then { ret := -1, value := 0, reads := [] }
  else
    { ret := 4
      value :=
        if big_endian buf offset 4 < 2 ^ 31 then (big_endian buf offset 4 : Int)
        else (big_endian buf offset 4 : Int) - 2 ^ 32
      reads := byte_range offset 4 }

/-- The function `DesiredGroupData::_computeHash`, in arithmetic modulo `2^64`. -/
def DesiredGroupData._computeHash : Nat :=
  (0xe21c68d2e41b458d * 2 % 2 ^ 64 + 0xe21c68d2e41b458d / 2 ^ 63 % 2) % 2 ^ 64

/-- The function `DesiredGroupData::getHash`: the hash converted to `int64_t`. -/
def DesiredGroupData.getHash : Int :=
  if DesiredGroupData._computeHash < 2 ^ 63 then (DesiredGroupData._computeHash : Int)
  else (DesiredGroupData._computeHash : Int) - 2 ^ 64

/-- How a call of `decode` ends: with a returned value, or with the
`std::length_error` that `std::string::assign` throws for a count above
`max_size()`. -/
inductive DecodeEnd where
  | returned (ret : Int)
  | length_error
  deriving DecidableEq

/-- The outcome of `decode`: how the call ends, the bytes assigned to the member
`desired_group` if the assignment is reached, and the indices of the buffer
that were read. -/
structure DecodeResult where
  result : DecodeEnd
  desired_group : Option (List Nat)
  reads : List Int
  deriving DecidableEq

/-- The method `DesiredGroupData::_decodeNoHash`.  The count `len - 1` given to
`assign` is converted to `size_t`: a negative count is above `max_size()`. -/
def DesiredGroupData._decodeNoHash (buf : Int → Nat) (offset maxlen : Int) : DecodeResult :=
  if (int32_t_decode_array buf offset maxlen).ret < 0 then
    { result := DecodeEnd.returned (int32_t_decode_array buf offset maxlen).ret
      desired_group := none
      reads := (int32_t_decode_array buf offset maxlen).reads }
  else if (int32_t_decode_array buf offset maxlen).value >
      maxlen - (int32_t_decode_array buf offset maxlen).ret then
    { result := DecodeEnd.returned (-1)
      desired_group := none
      reads := (int32_t_decode_array buf offset maxlen).reads }
  else if (int32_t_decode_array buf offset maxlen).value - 1 < 0 then
    { result := DecodeEnd.length_error
      desired_group := none
      reads := (int32_t_decode_array buf offset maxlen).reads }
  else
    { result := DecodeEnd.returned
        ((int32_t_decode_array buf offset maxlen).ret +
          (int32_t_decode_array buf offset maxlen).value)
      desired_group := some
        ((byte_range (offset + (int32_t_decode_array buf offset maxlen).ret)
            ((int32_t_decode_array buf offset maxlen).value - 1).toNat).map
          (fun i => buf i % 256))
      reads := (int32_t_decode_array buf offset maxlen).reads ++
        byte_range (offset + (int32_t_decode_array buf offset maxlen).ret)
          ((int32_t_decode_array buf offset maxlen).value - 1).toNat }

/-- The method `DesiredGroupData::decode`. -/
def DesiredGroupData.decode (buf : Int → Nat) (offset maxlen : Int) : DecodeResult :=
  if (int64_t_decode_array buf offset maxlen).ret < 0 then
    { result := DecodeEnd.returned (int64_t_decode_array buf offset maxlen).ret
      desired_group := none
      reads := (int64_t_decode_array buf offset maxlen).reads }
  else if (int64_t_decode_array buf offset maxlen).value ≠ DesiredGroupData.getHash then
    { result := DecodeEnd.returned (-1)
      desired_group := none
      reads := (int64_t_decode_array buf offset maxlen).reads }
  else
    match DesiredGroupData._decodeNoHash buf
        (offset + (int64_t_decode_array buf offset maxlen).ret)
        (maxlen - (int64_t_decode_array buf offset maxlen).ret) with
    | { result := DecodeEnd.length_error, desired_group := d, reads := r } =>
      { result := DecodeEnd.length_error
        desired_group := d
        reads := (int64_t_decode_array buf offset maxlen).reads ++ r }
    | { result := DecodeEnd.returned thislen, desired_group := d, reads := r } =>
      if thislen < 0 then
        { result := DecodeEnd.returned thislen
          desired_group := d
          reads := (int64_t_decode_array buf offset maxlen).reads ++ r }
      else
        { result := DecodeEnd.returned ((int64_t_decode_array buf offset maxlen).ret + thislen)
          desired_group := d
          reads := (int64_t_decode_array buf offset maxlen).reads ++ r }

/-- A buffer that holds the given bytes from index 0 on, and zero elsewhere. -/
def demo_buffer (bytes : List Nat) : Int → Nat :=
  fun i => if i < 0 then 0 else bytes.getD i.toNat 0

/-- The eight bytes of the type hash of `DesiredGroupData`. -/
def demo_hash_bytes : List Nat := [0xc4, 0x38, 0xd1, 0xa5, 0xc8, 0x36, 0x8b, 0x1b]

/-- A message whose length field is 0. -/
def demo_message_length_zero : Int → Nat := demo_buffer (demo_hash_bytes ++ [0, 0, 0, 0])

/-- The message that `encode` writes for the group name `G1`: the hash, the
length 3 and the bytes of the name with the closing zero byte. -/
def demo_message_G1 : Int → Nat := demo_buffer (demo_hash_bytes ++ [0, 0, 0, 3, 0x47, 0x31, 0])

/-- The state after an activation that receives the message `G1` while the
transition from `G1` to `G2` is in progress. -/
def demo_g2_redirected : Executer × World × List Event :=
  demo_tick (demo_env (some "G1")) demo_g2_polled

/-! ## The start loop while a task waits -/

/-- The levels at which the program writes log lines, `info` and `err`, and the
level `warn` of a warning. -/
inductive LogLevel where
  | info
  | warn
  | err
  deriving DecidableEq

/-- A line written to the log: its level, its text (placeholders and colour codes
dropped) and its arguments. -/
structure LogLine where
  level : LogLevel
  text : String
  args : List String
  deriving DecidableEq

/-- The name under which the task object at an address was made by `CreateTask`:
its `task_name`, which the constructor stores as `thread_name_`. -/
def TaskPtr.task_name : TaskPtr → String
  | TaskPtr.resident task_name => task_name
  | TaskPtr.standby task_name => task_name

/-- The log lines written in the course of a recorded call: a call of `logger_`
writes its line; `TaskBase::TaskStart` ends with `logger_->info("[TASK] {} task
thread ready to run!", thread_name_)` and `TaskBase::TaskStop` with
`logger_->info("[TASK] {} task thread ready to stop!", thread_name_)`; the other
recorded calls of the framework write none (a call of a user method of a node
is not part of them). -/
def Event.log_lines : Event → List LogLine
  | Event.TaskStart task =>
    [{ level := LogLevel.info, text := "[TASK] task thread ready to run!",
       args := [task.task_name] }]
  | Event.TaskStop task =>
    [{ level := LogLevel.info, text := "[TASK] task thread ready to stop!",
       args := [task.task_name] }]
  | Event.logger_info text args => [{ level := LogLevel.info, text := text, args := args }]
  | Event.logger_error text args => [{ level := LogLevel.err, text := text, args := args }]
  | _ => []

/-- The loop `while (!task_set_wait_to_start.empty())` of `InitTask` and of
`Transition`, stopped after at most `n` passes: the state in which the loop
then is, whether or not it has been left. -/
def Executer.start_passes (others : Nat → World → World)
    (body : Task → StartState → Except Fault (Option StartState)) :
    Nat → List (Bool × Task) → Nat × List String × StartState →
    Except Fault (List (Bool × Task) × Nat × List String × StartState)
  | 0, list, s => Except.ok (list, s)
  | n + 1, list, s =>
    if s.2.1.isEmpty then Except.ok (list, s)
    else
      match Executer.start_sweep others body list s with
      | Except.error f => Except.error f
      | Except.ok r => Executer.start_passes others body n r.1 r.2

/-- The configuration `demo_config` with a `pre_node` `D` for the task `T1` in the
group `G1`; `D` is a node of the task `T2`, which is not in `G1`. -/
def demo_config_stall : ExecuterConfig :=
  { task_list := demo_config.task_list
    exclusive_task_group :=
      [("G1", { group_name := "G1",
                task_list := [("T1", { task_name := "T1", pre_node := ["D"] })] }),
       ("G2", { group_name := "G2",
                task_list := [("T2", { task_name := "T2", force_init_node := ["C"] })] })] }

/-- The state left by `CreateTask` on `demo_config_stall`. -/
def demo_stall_boot : Executer × World × List Event :=
  got ((Executer.ctor demo_config_stall demo_node_map).CreateTask
        (demo_world ["A", "B", "C", "D"]))
    (Executer.ctor demo_config_stall demo_node_map, demo_world [], [])

/-- The state in which the transition to `G1` has been decided and the handshake
has succeeded. -/
def demo_stall_polled : Executer × World × List Event :=
  demo_tick (demo_env (some "G1")) demo_stall_boot

/-- The state in which the (empty) set of current tasks has been stopped; the
next activation enters the start loop. -/
def demo_stall_stopped : Executer × World × List Event :=
  demo_tick (demo_env none) demo_stall_polled

/-- The task object `T1` of `demo_stall_stopped`. -/
def demo_stall_task : Task :=
  (Task.ctor (TaskPtr.standby "T1")
    { task_name := "T1",
      node_list := [{ node_name := "B", output_enable := true },
                    { node_name := "C", output_enable := false }],
      launch_setting := { pre_node := [] } }
    [1, 2]).1

/-- The state of the start loop of `demo_stall_stopped` at its entry. -/
def demo_stall_start : StartState :=
  { w := demo_threads demo_stall_stopped.2.1, evs := [], all_init_node_set_log := [] }

/-! ## Transitions while the task threads are parked -/

/-- A stand-in for task threads that have not run a node since they were
started: each is parked, in STANDBY, at its start semaphore or in its start
delay, so it has called no `Run` and lowered no init flag. -/
def demo_parked (w : World) : World :=
  { w with tasks := fun t => { w.tasks t with state_ := TaskState.STANDBY } }

/-- An activation as in `demo_env`, with the task threads parked. -/
def demo_env_parked (msg : Option String) : TickEnv :=
  { demo_env msg with before := demo_parked }

/-- Activations of `Run` one after another, from the state `s`. -/
def demo_ticks (envs : List TickEnv) (s : Executer × World × List Event) :
    Executer × World × List Event :=
  envs.foldl (fun s env => demo_tick env s) s

/-- The state, with parked task threads, in which the transitions to `G1` and from
`G1` to `G2` are complete, and the transition from `G2` back to `G1` has been
decided and has told `T2` to stop. -/
def demo_g1_again_stopped : Executer × World × List Event :=
  demo_ticks
    [demo_env_parked (some "G1"), demo_env_parked none, demo_env_parked none,
     demo_env_parked (some "G2"), demo_env_parked none, demo_env_parked none,
     demo_env_parked (some "G1"), demo_env_parked none]
    demo_boot

/-- The state in which the transition from `G2` back to `G1` is complete. -/
def demo_g1_again : Executer × World × List Event :=
  demo_tick (demo_env_parked none) demo_g1_again_stopped

/-! ## Init requests in a sequence of calls -/

/-- Whether a call is an init request for the node at address `node`, of name `n`:
an `Init()` on a task that has the node in its node list, or an `Init(names)`
on such a task that lists `n`. -/
def TaskCall.requests_init (node : NodePtr) (n : String) : TaskCall → Bool
  | TaskCall.Run _ => false
  | TaskCall.Init t => decide (node ∈ t.node_list_)
  | TaskCall.Init_subset t init_node_list =>
    decide (node ∈ t.node_list_) && decide (n ∈ init_node_list)

/-! ## `CreateTask` with constructors that throw

The constructor `Task::Task` runs `TaskBase::TaskBase`, which opens a named
semaphore and a shared memory object for an external timer, opens a named
semaphore for a trigger, and creates the thread of the task; each of these can
throw.  Whether the constructor throws for a task is decided outside the program
and is given by `ctor_throws`.  `Executer.CreateTask` above is the case in which
no constructor throws. -/

/-- An exception that leaves `CreateTask`: the one of `GetNodePtr`, or one thrown
by the constructor of the task of the given name. -/
inductive CreateTaskThrown where
  | fault (f : Fault)
  | task_constructor (task_name : String)
  deriving DecidableEq

/-- One of the two outer loops of `CreateTask`, with constructors that can throw:
the node names of a task are resolved first, then the task is constructed. -/
def Executer.CreateTask_group_raising (ctor_throws : TaskSetting → Bool) (node_map : NodeMap)
    (address : String → TaskPtr) :
    List (String × TaskSetting) → List (String × Task) × World × List Event →
    Except CreateTaskThrown (List (String × Task) × World × List Event)
  | [], s => Except.ok s
  | task_setting :: rest, s =>
    match Executer.CreateTask_nodes node_map task_setting.2.node_list with
    | Except.error f => Except.error (CreateTaskThrown.fault f)
    | Except.ok node_list =>
      if ctor_throws task_setting.2 then
        Except.error (CreateTaskThrown.task_constructor task_setting.2.task_name)
      else
        let made := Task.ctor (address task_setting.2.task_name) task_setting.2 node_list
        Executer.CreateTask_group_raising ctor_throws node_map address rest
          (unordered_map.assign s.1 task_setting.2.task_name made.1,
           { s.2.1 with tasks := Function.update s.2.1.tasks made.1.self made.2 },
           s.2.2 ++ [Event.logger_info "[Executer] Task added." [task_setting.2.task_name]])

/-- The method `Executer::CreateTask`, with constructors that can throw. -/
def Executer.CreateTask_raising (ctor_throws : TaskSetting → Bool) (e : Executer) (w : World) :
    Except CreateTaskThrown (Executer × World × List Event) :=
  match Executer.CreateTask_group_raising ctor_throws e.node_map_ TaskPtr.resident
      e.executer_config_.task_list.resident_group (e.resident_group_task_list_, w, []) with
  | Except.error x => Except.error x
  | Except.ok r1 =>
    match Executer.CreateTask_group_raising ctor_throws e.node_map_ TaskPtr.standby
        e.executer_config_.task_list.standby_group (e.standby_group_task_list_, r1.2.1, r1.2.2) with
    | Except.error x => Except.error x
    | Except.ok r2 =>
      let r3 := Executer.CreateTask_exclusive e.executer_config_.exclusive_task_group
        (e.exclusive_group_set_, r2.2.2)
      Except.ok
        ({ e with
           resident_group_task_list_ := r1.1
           standby_group_task_list_ := r2.1
           exclusive_group_set_ := r3.1 },
         r2.2.1, r3.2)

/-- The exception of `GetNodePtr` seen as one that leaves `CreateTask`. -/
def CreateTaskThrown.lift {α : Type} : Except Fault α → Except CreateTaskThrown α
  | Except.error f => Except.error (CreateTaskThrown.fault f)
  | Except.ok a => Except.ok a

/-! ## A period near the end of the range of `long` -/

/-- A timer whose next wake time is 5.999999999 s, with a period of `2^63 - 1024`
nanoseconds, the greatest value of type `double` that fits `long`. -/
def demo_timer_loop_overflow : TimerLoop :=
  { wake_abs_time_ := { tv_sec := 5, tv_nsec := 999999999 }
    time_ns_ := 999999999
    time_s_ := 5
    period_ms_ := 9223372036854774784 / 1000000
    period_ns_ := 9223372036854774784 }

/-! # Properties -/

/-! ## Containers -/

theorem char_toNat_inj (a b : Char) (h : a.toNat = b.toNat) : a = b := by
  apply Char.ext
  apply UInt32.ext
  exact h

theorem string_lt_chars_irrefl (a : List Char) : string_lt_chars a a = false := by
  induction a with
  | nil => rfl
  | cons c cs ih => simp [string_lt_chars, ih]

theorem string_lt_chars_trans (a b c : List Char)
    (h1 : string_lt_chars a b = true) (h2 : string_lt_chars b c = true) :
    string_lt_chars a c = true := by
  induction a generalizing b c with
  | nil =>
    cases b with
    | nil => simp [string_lt_chars] at h1
    | cons y ys =>
      cases c with
      | nil => simp [string_lt_chars] at h2
      | cons z zs => simp [string_lt_chars]
  | cons x xs ih =>
    cases b with
    | nil => simp [string_lt_chars] at h1
    | cons y ys =>
      cases c with
      | nil => simp [string_lt_chars] at h2
      | cons z zs =>
        simp only [string_lt_chars] at h1 h2 ⊢
        split_ifs at h1 h2 ⊢ with g1 g2 g3 g4 g5 g6 g7 g8 <;> first | rfl | omega | skip
        all_goals exact ih ys zs h1 h2

theorem string_lt_chars_total (a b : List Char)
    (h1 : string_lt_chars a b = false) (h2 : a ≠ b) : string_lt_chars b a = true := by
  induction a generalizing b with
  | nil =>
    cases b with
    | nil => exact absurd rfl h2
    | cons y ys => simp [string_lt_chars] at h1
  | cons x xs ih =>
    cases b with
    | nil => simp [string_lt_chars]
    | cons y ys =>
      simp only [string_lt_chars] at h1 ⊢
      split_ifs at h1 ⊢ with g1 g2 g3
      · rfl
      · have hxy : x = y := char_toNat_inj x y (by omega)
        subst hxy
        exact ih ys h1 (fun h => h2 (by rw [h]))

theorem string_lt_irrefl (a : String) : string_lt a a = false :=
  string_lt_chars_irrefl a.data

theorem string_lt_trans (a b c : String) (h1 : string_lt a b = true)
    (h2 : string_lt b c = true) : string_lt a c = true :=
  string_lt_chars_trans a.data b.data c.data h1 h2

theorem string_lt_total (a b : String) (h1 : string_lt a b = false) (h2 : a ≠ b) :
    string_lt b a = true :=
  string_lt_chars_total a.data b.data h1 (fun h => h2 (String.ext h))

theorem string_set.mem_insert (a x : String) (s : List String) :
    a ∈ string_set.insert x s ↔ a = x ∨ a ∈ s := by
  induction s with
  | nil => simp [string_set.insert]
  | cons y ys ih =>
    simp only [string_set.insert]
    split_ifs with h1 h2
    · simp
    · subst h2; simp
    · simp only [List.mem_cons, ih]; tauto

theorem string_set.mem_insert_range (a : String) (xs s : List String) :
    a ∈ string_set.insert_range s xs ↔ a ∈ s ∨ a ∈ xs := by
  induction xs generalizing s with
  | nil => simp [string_set.insert_range]
  | cons x xs ih =>
    have h := ih (string_set.insert x s)
    simp only [string_set.insert_range, List.foldl_cons] at h ⊢
    rw [h, string_set.mem_insert]; simp only [List.mem_cons]; tauto

theorem string_set.contains_eq_true (s : List String) (x : String) :
    string_set.contains s x = true ↔ x ∈ s := by
  simp [string_set.contains]

theorem string_set.mem_set_difference (a : String) (s t : List String) :
    a ∈ string_set.set_difference s t ↔ a ∈ s ∧ a ∉ t := by
  simp [string_set.set_difference, string_set.contains]

theorem string_set.mem_set_union (a : String) (s t : List String) :
    a ∈ string_set.set_union s t ↔ a ∈ s ∨ a ∈ t := by
  simp [string_set.set_union, string_set.mem_insert_range]

theorem string_set.mem_erase (a x : String) (s : List String) :
    a ∈ string_set.erase s x ↔ a ∈ s ∧ a ≠ x := by
  simp [string_set.erase]

theorem string_set.is_set_nil : string_set.is_set [] := List.Pairwise.nil

theorem string_set.is_set_insert (x : String) (s : List String) (h : string_set.is_set s) :
    string_set.is_set (string_set.insert x s) := by
  induction s with
  | nil => simp [string_set.insert, string_set.is_set]
  | cons y ys ih =>
    have hy := List.pairwise_cons.mp h
    simp only [string_set.insert]
    split_ifs with h1 h2
    · refine List.pairwise_cons.mpr ⟨?_, h⟩
      intro b hb
      rcases List.mem_cons.mp hb with hb | hb
      · rw [hb]; exact h1
      · exact string_lt_trans x y b h1 (hy.1 b hb)
    · exact h
    · refine List.pairwise_cons.mpr ⟨?_, ih hy.2⟩
      intro b hb
      rcases (string_set.mem_insert b x ys).mp hb with hb | hb
      · rw [hb]
        exact string_lt_total x y (by simpa using h1) h2
      · exact hy.1 b hb

theorem string_set.is_set_insert_range (xs s : List String) (h : string_set.is_set s) :
    string_set.is_set (string_set.insert_range s xs) := by
  induction xs generalizing s with
  | nil => simpa [string_set.insert_range] using h
  | cons x xs ih =>
    have h1 := ih (string_set.insert x s) (string_set.is_set_insert x s h)
    simpa [string_set.insert_range] using h1

theorem string_set.is_set_set_difference (s t : List String) (h : string_set.is_set s) :
    string_set.is_set (string_set.set_difference s t) :=
  List.Pairwise.filter _ h

theorem string_set.is_set_erase (s : List String) (x : String) (h : string_set.is_set s) :
    string_set.is_set (string_set.erase s x) :=
  List.Pairwise.filter _ h

theorem string_set.is_set_set_union (s t : List String) :
    string_set.is_set (string_set.set_union s t) :=
  string_set.is_set_insert_range t _
    (string_set.is_set_insert_range s [] string_set.is_set_nil)

theorem string_set.nodup_of_is_set (s : List String) (h : string_set.is_set s) : s.Nodup := by
  refine List.Pairwise.imp ?_ h
  intro a b hab heq
  rw [heq, string_lt_irrefl] at hab
  exact Bool.noConfusion hab

/-! ## `TransitionCheck` -/

theorem Executer.mem_collect_group_nodes (e : Executer) (n : String)
    (l : List (String × GroupTaskSetting)) (s : List Task × List String) :
    n ∈ (Executer.collect_group e l s).2 ↔
      n ∈ s.2 ∨ n ∈ l.flatMap (fun task_config =>
        spec_task_nodes e.executer_config_ task_config.2.task_name) := by
  induction l generalizing s with
  | nil => simp [Executer.collect_group]
  | cons c rest ih =>
    simp only [Executer.collect_group, List.flatMap_cons, List.mem_append]
    rw [ih]
    unfold spec_task_nodes
    cases hf : unordered_map.find e.executer_config_.task_list.standby_group c.2.task_name with
    | none => simp
    | some ts => simp only [string_set.mem_insert_range]; tauto

theorem Executer.mem_collect_nodes (e : Executer) (group n : String) :
    n ∈ (Executer.collect e group).2 ↔ n ∈ spec_group_nodes e.executer_config_ group := by
  unfold Executer.collect spec_group_nodes
  cases unordered_map.find e.executer_config_.exclusive_task_group group with
  | none => simp
  | some g => simp [Executer.mem_collect_group_nodes]

/-- The members written by a `TransitionCheck` that decides a transition. -/
theorem Executer.TransitionCheck_decide (e : Executer) (h1 : e.is_transition_ = false)
    (h2 : e.desired_group_ ≠ e.current_group_)
    (h3 : e.desired_group_ ∈ e.exclusive_group_set_) :
    e.TransitionCheck =
      ({ e with
         target_task_set_ := (Executer.collect e e.desired_group_).1
         current_task_set_ :=
           (if e.current_group_ ≠ "empty_init" then Executer.collect e e.current_group_
            else ([], [])).1
         target_node_set_ := (Executer.collect e e.desired_group_).2
         current_node_set_ :=
           (if e.current_group_ ≠ "empty_init" then Executer.collect e e.current_group_
            else ([], [])).2
         exit_node_set_ := string_set.set_difference
           (if e.current_group_ ≠ "empty_init" then Executer.collect e e.current_group_
            else ([], [])).2 (Executer.collect e e.desired_group_).2
         enter_node_set_ := string_set.set_difference (Executer.collect e e.desired_group_).2
           (if e.current_group_ ≠ "empty_init" then Executer.collect e e.current_group_
            else ([], [])).2
         all_node_exit_check_ := false
         all_node_enter_check_ := false
         is_transition_ := true
         task_stop_flag_ := true
         task_start_flag_ := true
         all_current_task_stop_ := false
         target_group_ := e.desired_group_ },
       [Event.logger_info "[Executer] Transition from group to group"
          [e.current_group_, e.desired_group_]]) := by
  have h3' : string_set.contains e.exclusive_group_set_ e.desired_group_ = true :=
    (string_set.contains_eq_true _ _).mpr h3
  simp [Executer.TransitionCheck, h1, h2, h3']

/-- C2: when no transition is in progress and the desired group differs from the
current one and is an exclusive group, `TransitionCheck` starts a transition to
it, `target_node_set_` is the union of the node names of the standby tasks listed
in the desired group, `current_node_set_` is that union for the current group
(empty when the current group is `"empty_init"`), `exit_node_set_` is current
minus target and `enter_node_set_` is target minus current; hence the enter and
exit sets are disjoint and contain no node shared by both groups. -/
theorem C2_transition_check_node_sets (e : Executer) (h1 : e.is_transition_ = false)
    (h2 : e.desired_group_ ≠ e.current_group_)
    (h3 : e.desired_group_ ∈ e.exclusive_group_set_) :
    e.TransitionCheck.1.is_transition_ = true ∧
    e.TransitionCheck.1.target_group_ = e.desired_group_ ∧
    (∀ n, n ∈ e.TransitionCheck.1.target_node_set_ ↔
      n ∈ spec_group_nodes e.executer_config_ e.desired_group_) ∧
    (∀ n, n ∈ e.TransitionCheck.1.current_node_set_ ↔
      e.current_group_ ≠ "empty_init" ∧
        n ∈ spec_group_nodes e.executer_config_ e.current_group_) ∧
    e.TransitionCheck.1.exit_node_set_ =
      string_set.set_difference e.TransitionCheck.1.current_node_set_
        e.TransitionCheck.1.target_node_set_ ∧
    e.TransitionCheck.1.enter_node_set_ =
      string_set.set_difference e.TransitionCheck.1.target_node_set_
        e.TransitionCheck.1.current_node_set_ ∧
    (∀ n, n ∈ e.TransitionCheck.1.exit_node_set_ ↔
      n ∈ e.TransitionCheck.1.current_node_set_ ∧ n ∉ e.TransitionCheck.1.target_node_set_) ∧
    (∀ n, n ∈ e.TransitionCheck.1.enter_node_set_ ↔
      n ∈ e.TransitionCheck.1.target_node_set_ ∧ n ∉ e.TransitionCheck.1.current_node_set_) ∧
    (∀ n, ¬ (n ∈ e.TransitionCheck.1.enter_node_set_ ∧ n ∈ e.TransitionCheck.1.exit_node_set_)) ∧
    (∀ n, n ∈ e.TransitionCheck.1.target_node_set_ → n ∈ e.TransitionCheck.1.current_node_set_ →
      n ∉ e.TransitionCheck.1.enter_node_set_ ∧ n ∉ e.TransitionCheck.1.exit_node_set_) := by
  rw [Executer.TransitionCheck_decide e h1 h2 h3]
  refine ⟨rfl, rfl, ?_, ?_, rfl, rfl, ?_, ?_, ?_, ?_⟩
  · intro n
    exact Executer.mem_collect_nodes e _ n
  · intro n
    by_cases hc : e.current_group_ = "empty_init"
    · simp [hc]
    · simp [hc, Executer.mem_collect_nodes]
  · intro n
    exact string_set.mem_set_difference _ _ _
  · intro n
    exact string_set.mem_set_difference _ _ _
  · intro n
    simp only [string_set.mem_set_difference]
    tauto
  · intro n
    simp only [string_set.mem_set_difference]
    tauto

/-! ## Atomicity of a transition -/

theorem Executer.TransitionCheck_in_transition (e : Executer) (h : e.is_transition_ = true) :
    e.TransitionCheck = (e, []) := by
  simp [Executer.TransitionCheck, h]

theorem Executer.TransitionCheck_current_group (e : Executer) :
    e.TransitionCheck.1.current_group_ = e.current_group_ := by
  simp only [Executer.TransitionCheck]
  split_ifs <;> rfl

/-- A `TransitionCheck` that turns `is_transition_` on clears both handshake flags. -/
theorem Executer.TransitionCheck_started (e : Executer) (h : e.is_transition_ = false)
    (h' : e.TransitionCheck.1.is_transition_ = true) :
    e.TransitionCheck.1.all_node_exit_check_ = false ∧
    e.TransitionCheck.1.all_node_enter_check_ = false ∧
    e.TransitionCheck.1.target_group_ = e.desired_group_ := by
  simp only [Executer.TransitionCheck] at h' ⊢
  split_ifs at h' ⊢ <;> simp_all

theorem Executer.Transition_stop_fst (e : Executer) (w : World) :
    (Executer.Transition_stop e w).1 =
      { e with task_stop_flag_ := e.task_stop_flag_ && false } := by
  unfold Executer.Transition_stop
  split_ifs with h
  · simp
  · cases e
    simp_all

theorem Executer.Transition_poll_fst (env : TickEnv) (e : Executer) (w : World)
    (r : Executer × World × List Event) (h : Executer.Transition_poll env e w = Except.ok r) :
    r.1 = { e with all_node_exit_check_ := r.1.all_node_exit_check_,
                   all_node_enter_check_ := r.1.all_node_enter_check_ } ∧ r.2.1 = w := by
  unfold Executer.Transition_poll at h
  split at h
  · exact Except.noConfusion h
  · split at h
    · exact Except.noConfusion h
    · cases h
      exact ⟨rfl, rfl⟩

theorem Executer.Transition_finish_fst (env : TickEnv) (e : Executer) (w : World)
    (evs : List Event) (r : Executer × World × List Event)
    (h : Executer.Transition_finish env e w evs = Except.ok r) :
    r.1 = { e with current_group_ := e.target_group_, is_transition_ := false } := by
  unfold Executer.Transition_finish at h
  split at h
  · exact Except.noConfusion h
  · split at h
    · exact Except.noConfusion h
    · cases h
      rfl

/-- The outcomes of `Transition` on `current_group_`, `target_group_` and
`is_transition_`: the completing activation, and every other one. -/
theorem Executer.Transition_groups (env : TickEnv) (e : Executer) (w : World)
    (r : Executer × World × List Event) (h : e.Transition env w = Except.ok r) :
    r.1.target_group_ = e.target_group_ ∧
    ((e.all_node_exit_check_ = true ∧ e.all_node_enter_check_ = true ∧
        e.all_current_task_stop_ = true ∧
        r.1.current_group_ = e.target_group_ ∧ r.1.is_transition_ = false) ∨
     (¬ (e.all_node_exit_check_ = true ∧ e.all_node_enter_check_ = true ∧
          e.all_current_task_stop_ = true) ∧
        r.1.current_group_ = e.current_group_ ∧ r.1.is_transition_ = e.is_transition_)) := by
  unfold Executer.Transition at h
  split_ifs at h with h1 h2
  · have h3 := Executer.Transition_finish_fst env _ _ _ r h
    rw [Executer.Transition_stop_fst] at h3 h2
    simp only [Bool.and_eq_true] at h1
    rw [h3]
    exact ⟨rfl, Or.inl ⟨h1.1, h1.2, h2, rfl, rfl⟩⟩
  · cases h
    rw [Executer.Transition_stop_fst] at h2 ⊢
    refine ⟨rfl, Or.inr ⟨?_, rfl, rfl⟩⟩
    intro h3
    exact h2 h3.2.2
  · have h3 := (Executer.Transition_poll_fst env e w r h).1
    rw [h3]
    refine ⟨rfl, Or.inr ⟨?_, rfl, rfl⟩⟩
    intro h4
    exact h1 (by simp [h4.1, h4.2.1])

theorem Executer.Subscribe_is_transition (e : Executer) (msg : Option String) :
    (e.Subscribe msg).is_transition_ = e.is_transition_ := by
  cases msg <;> rfl

theorem Executer.Subscribe_current_group (e : Executer) (msg : Option String) :
    (e.Subscribe msg).current_group_ = e.current_group_ := by
  cases msg <;> rfl

theorem Executer.Subscribe_target_group (e : Executer) (msg : Option String) :
    (e.Subscribe msg).target_group_ = e.target_group_ := by
  cases msg <;> rfl

/-- The two shapes of a finished activation of `Run`. -/
theorem Executer.Run_cases (env : TickEnv) (e : Executer) (w : World)
    (r : Executer × World × List Event) (h : e.Run env w = Except.ok r) :
    ((e.Subscribe env.msg).TransitionCheck.1.is_transition_ = true ∧
      ∃ r', (e.Subscribe env.msg).TransitionCheck.1.Transition env w = Except.ok r' ∧
        r = (r'.1, r'.2.1, (e.Subscribe env.msg).TransitionCheck.2 ++ r'.2.2)) ∨
    ((e.Subscribe env.msg).TransitionCheck.1.is_transition_ = false ∧
      r = ((e.Subscribe env.msg).TransitionCheck.1, w, (e.Subscribe env.msg).TransitionCheck.2)) := by
  unfold Executer.Run at h
  split_ifs at h with h1
  · split at h
    · exact Except.noConfusion h
    · rename_i r' hr'
      cases h
      exact Or.inl ⟨h1, r', hr', rfl⟩
  · cases h
    exact Or.inr ⟨by simpa using h1, rfl⟩

/-- The outcomes of one activation of `Run` on `current_group_`. -/
theorem Executer.Run_groups (env : TickEnv) (e : Executer) (w : World)
    (r : Executer × World × List Event) (h : e.Run env w = Except.ok r) :
    (r.1.is_transition_ = true → r.1.current_group_ = e.current_group_) ∧
    (r.1.current_group_ ≠ e.current_group_ →
      e.is_transition_ = true ∧ r.1.is_transition_ = false ∧
        r.1.current_group_ = e.target_group_) := by
  rcases Executer.Run_cases env e w r h with ⟨h1, r', hr', rfl⟩ | ⟨h1, rfl⟩
  · have hg := Executer.Transition_groups env _ w r' hr'
    simp only [Executer.TransitionCheck_current_group, Executer.Subscribe_current_group] at hg
    by_cases ht : e.is_transition_ = true
    · have ht1 : (e.Subscribe env.msg).is_transition_ = true := by
        rw [Executer.Subscribe_is_transition]; exact ht
      rw [Executer.TransitionCheck_in_transition _ ht1] at hg
      simp only [Executer.Subscribe_target_group] at hg
      rcases hg with ⟨_, hg | hg⟩
      · simp [hg.2.2.2.1, hg.2.2.2.2, ht]
      · simp [hg.2.1]
    · have ht1 : (e.Subscribe env.msg).is_transition_ = false := by
        rw [Executer.Subscribe_is_transition]; simpa using ht
      have hx := (Executer.TransitionCheck_started _ ht1 h1).1
      rcases hg with ⟨_, hg | hg⟩
      · rw [hx] at hg; exact absurd hg.1 (by simp)
      · simp [hg.2.1]
  · simp only [Executer.TransitionCheck_current_group, Executer.Subscribe_current_group]
    simp

/-- C1 (transition atomicity).  First part: an activation of `Run` that ends with a
transition in progress leaves `current_group_` as it was, and an activation that
changes `current_group_` started inside a transition, ends outside of it and
stores `target_group_`.  Second part: along any run of activations that all end
with a transition in progress, `current_group_` keeps the value it had before
the first of them, that is, before the transition was decided. -/
theorem C1_transition_atomicity :
    (∀ (env : TickEnv) (e : Executer) (w : World) (r : Executer × World × List Event),
      e.Run env w = Except.ok r →
        (r.1.is_transition_ = true → r.1.current_group_ = e.current_group_) ∧
        (r.1.current_group_ ≠ e.current_group_ →
          e.is_transition_ = true ∧ r.1.is_transition_ = false ∧
            r.1.current_group_ = e.target_group_)) ∧
    (∀ (envs : List TickEnv) (e : Executer) (w : World)
        (rs : List (Executer × World × List Event)),
      Executer.Loop envs e w = Except.ok rs →
        (∀ r ∈ rs, r.1.is_transition_ = true) →
        ∀ r ∈ rs, r.1.current_group_ = e.current_group_) := by
  refine ⟨Executer.Run_groups, ?_⟩
  intro envs
  induction envs with
  | nil =>
    intro e w rs h _ r hr
    cases h
    simp at hr
  | cons env rest ih =>
    intro e w rs h hall r hr
    unfold Executer.Loop at h
    split at h
    · exact Except.noConfusion h
    · rename_i r1 hr1
      split at h
      · exact Except.noConfusion h
      · rename_i rs1 hrs1
        cases h
        have h1 := (Executer.Run_groups env e _ r1 hr1).1 (hall r1 (List.mem_cons_self _ _))
        rcases List.mem_cons.mp hr with hr | hr
        · rw [hr]; exact h1
        · rw [← h1]
          exact ih r1.1 r1.2.1 rs1 hrs1 (fun x hx => hall x (List.mem_cons_of_mem _ hx)) r hr

/-! ## `Task::Run` -/

theorem unordered_map.find_assign {α : Type} (m : List (String × α)) (k k' : String) (x : α) :
    unordered_map.find (unordered_map.assign m k x) k' =
      if k' = k then some x else unordered_map.find m k' := by
  induction m with
  | nil =>
    simp only [unordered_map.assign, unordered_map.find]
    by_cases h : k = k'
    · simp [h]
    · simp [h, Ne.symm h]
  | cons a m ih =>
    obtain ⟨ka, va⟩ := a
    simp only [unordered_map.assign]
    by_cases h1 : ka = k
    · subst h1
      simp only [if_true, unordered_map.find]
      by_cases h2 : ka = k'
      · simp [h2]
      · simp [h2, Ne.symm h2]
    · simp only [h1, if_false, unordered_map.find, ih]
      by_cases h2 : ka = k'
      · subst h2
        simp [h1]
      · simp [h2]

/-- The effect of the body of `Task::Run` on one node whose name has an init flag. -/
theorem Task.Run_node_ok (node : NodePtr) (v : TaskVars) (nodes : NodePtr → NodeBase)
    (evs : List Event) (b : Bool)
    (hb : unordered_map.find v.node_init_flag_ (nodes node).node_name_ = some b) :
    ∃ v' nodes',
      Task.Run_node node (v, nodes, evs) = Except.ok (v', nodes',
        evs ++ spec_node_calls node (!(nodes node).is_construct_) b
          (decide (unordered_map.find v.node_output_flag_ (nodes node).node_name_ = some true))) ∧
      (∀ k, unordered_map.find v'.node_init_flag_ k =
        if k = (nodes node).node_name_ then some false
        else unordered_map.find v.node_init_flag_ k) ∧
      (∀ k, unordered_map.find v'.node_output_flag_ k = some true ↔
        unordered_map.find v.node_output_flag_ k = some true) ∧
      (∀ p, p ≠ node → nodes' p = nodes p) ∧
      (nodes' node).node_name_ = (nodes node).node_name_ ∧
      (nodes' node).is_construct_ = true ∧
      (nodes' node).state_ = NodeState.RUNNING := by
  cases hc : (nodes node).is_construct_ <;> cases b <;>
    cases ho : unordered_map.find v.node_output_flag_ (nodes node).node_name_ with
    | none =>
      simp [Task.Run_node, Task.Run_construct, Task.Run_init, Task.Run_execute, Task.Run_output,
        Task.Run_set_state, hb, hc, ho, spec_node_calls, unordered_map.find_assign]
      all_goals
        refine ⟨_, _, ⟨rfl, rfl⟩, ?_, ?_, ?_, ?_, ?_, ?_⟩
        · intro k
          by_cases hk : k = (nodes node).node_name_ <;>
            simp [hk, hb, unordered_map.find_assign]
        · intro k
          by_cases hk : k = (nodes node).node_name_ <;>
            simp [hk, ho, unordered_map.find_assign]
        · intro p hp
          simp [Function.update, hp]
        · simp
        · simp
        · simp
    | some o =>
      cases o <;>
      simp [Task.Run_node, Task.Run_construct, Task.Run_init, Task.Run_execute, Task.Run_output,
        Task.Run_set_state, hb, hc, ho, spec_node_calls, unordered_map.find_assign]
      all_goals
        refine ⟨_, _, ⟨rfl, rfl⟩, ?_, ?_, ?_, ?_, ?_, ?_⟩
        · intro k
          by_cases hk : k = (nodes node).node_name_ <;>
            simp [hk, hb, unordered_map.find_assign]
        · intro k
          by_cases hk : k = (nodes node).node_name_ <;>
            simp [hk, ho, unordered_map.find_assign]
        · intro p hp
          simp [Function.update, hp]
        · simp
        · simp
        · simp

/-- The relation between the state of a run after the nodes `visited` and the
variables `v` and heap `nodes` at its entry. -/
theorem Task.Run_loop_ok (v : TaskVars) (nodes : NodePtr → NodeBase) (todo : List NodePtr) :
    ∀ (visited : List NodePtr) (v1 : TaskVars) (nodes1 : NodePtr → NodeBase) (evs1 : List Event),
    (∀ p ∈ todo, ∃ b, unordered_map.find v.node_init_flag_ (nodes p).node_name_ = some b) →
    (∀ p, (nodes1 p).node_name_ = (nodes p).node_name_) →
    (∀ p, (nodes1 p).is_construct_ = ((nodes p).is_construct_ || decide (p ∈ visited))) →
    (∀ k, k ∈ visited.map (fun p => (nodes p).node_name_) →
      unordered_map.find v1.node_init_flag_ k = some false) →
    (∀ k, k ∉ visited.map (fun p => (nodes p).node_name_) →
      unordered_map.find v1.node_init_flag_ k = unordered_map.find v.node_init_flag_ k) →
    (∀ k, unordered_map.find v1.node_output_flag_ k = some true ↔
      unordered_map.find v.node_output_flag_ k = some true) →
    (∀ p ∈ visited, (nodes1 p).state_ = NodeState.RUNNING) →
    (∀ p, p ∉ visited → nodes1 p = nodes p) →
    ∃ v' nodes',
      Task.Run_loop todo (v1, nodes1, evs1) =
        Except.ok (v', nodes', evs1 ++ spec_run_calls v nodes visited todo) ∧
      (∀ p, (nodes' p).node_name_ = (nodes p).node_name_) ∧
      (∀ p, (nodes' p).is_construct_ = ((nodes p).is_construct_ || decide (p ∈ visited ++ todo))) ∧
      (∀ k, k ∈ (visited ++ todo).map (fun p => (nodes p).node_name_) →
        unordered_map.find v'.node_init_flag_ k = some false) ∧
      (∀ k, k ∉ (visited ++ todo).map (fun p => (nodes p).node_name_) →
        unordered_map.find v'.node_init_flag_ k = unordered_map.find v.node_init_flag_ k) ∧
      (∀ k, unordered_map.find v'.node_output_flag_ k = some true ↔
        unordered_map.find v.node_output_flag_ k = some true) ∧
      (∀ p ∈ visited ++ todo, (nodes' p).state_ = NodeState.RUNNING) ∧
      (∀ p, p ∉ visited ++ todo → nodes' p = nodes p) := by
  induction todo with
  | nil =>
    intro visited v1 nodes1 evs1 _ r1 r2 r3 r4 r5 r6 r7
    refine ⟨v1, nodes1, ?_, r1, ?_, ?_, ?_, r5, ?_, ?_⟩
    · simp [Task.Run_loop, spec_run_calls]
    · simpa using r2
    · simpa using r3
    · simpa using r4
    · simpa using r6
    · simpa using r7
  | cons node rest ih =>
    intro visited v1 nodes1 evs1 hflag r1 r2 r3 r4 r5 r6 r7
    -- the flag read by the body for this node
    have hb : ∃ b, unordered_map.find v1.node_init_flag_ (nodes1 node).node_name_ = some b ∧
        b = (decide (unordered_map.find v.node_init_flag_ (nodes node).node_name_ = some true) &&
          !decide ((nodes node).node_name_ ∈ visited.map (fun p => (nodes p).node_name_))) := by
      rw [r1 node]
      by_cases hv : (nodes node).node_name_ ∈ visited.map (fun p => (nodes p).node_name_)
      · exact ⟨false, r3 _ hv, by simp [hv]⟩
      · obtain ⟨b, hb⟩ := hflag node (List.mem_cons_self _ _)
        refine ⟨b, by rw [r4 _ hv, hb], ?_⟩
        cases b <;> simp [hv, hb]
    obtain ⟨b, hb1, hb2⟩ := hb
    obtain ⟨v2, nodes2, hrun, s1, s2, s3, s4, s5, s6⟩ :=
      Task.Run_node_ok node v1 nodes1 evs1 b hb1
    have hspec : spec_node_calls node (!(nodes1 node).is_construct_) b
        (decide (unordered_map.find v1.node_output_flag_ (nodes1 node).node_name_ = some true)) =
        spec_node_calls node (!(nodes node).is_construct_ && !decide (node ∈ visited))
          (decide (unordered_map.find v.node_init_flag_ (nodes node).node_name_ = some true) &&
            !decide ((nodes node).node_name_ ∈ visited.map (fun p => (nodes p).node_name_)))
          (decide (unordered_map.find v.node_output_flag_ (nodes node).node_name_ = some true)) := by
      rw [r2 node, r1 node, ← hb2]
      congr 1
      · simp
      · simp only [r5]
    have hname2 : ∀ p, (nodes2 p).node_name_ = (nodes p).node_name_ := by
      intro p
      by_cases hp : p = node
      · rw [hp, s4, r1]
      · rw [s3 p hp, r1]
    obtain ⟨v', nodes', hloop, t1, t2, t3, t4, t5, t6, t7⟩ :=
      ih (visited ++ [node]) v2 nodes2
        (evs1 ++ spec_node_calls node (!(nodes1 node).is_construct_) b
          (decide (unordered_map.find v1.node_output_flag_ (nodes1 node).node_name_ = some true)))
        (fun p hp => hflag p (List.mem_cons_of_mem _ hp))
        hname2
        (by
          intro p
          by_cases hp : p = node
          · rw [hp, s5]; simp
          · rw [s3 p hp, r2 p]; simp [hp])
        (by
          intro k hk
          rw [s1 k, r1 node]
          by_cases hkn : k = (nodes node).node_name_
          · simp [hkn]
          · simp only [hkn, if_false]
            apply r3
            simp only [List.map_append, List.map_cons, List.map_nil, List.mem_append,
              List.mem_singleton] at hk
            rcases hk with hk | hk
            · exact hk
            · exact absurd hk hkn)
        (by
          intro k hk
          simp only [List.map_append, List.map_cons, List.map_nil, List.mem_append,
            List.mem_singleton, not_or] at hk
          rw [s1 k, r1 node]
          simp only [hk.2, if_false]
          exact r4 k hk.1)
        (by
          intro k
          rw [s2 k, r5 k])
        (by
          intro p hp
          by_cases hpn : p = node
          · rw [hpn, s6]
          · rw [s3 p hpn]
            apply r6
            simp only [List.mem_append, List.mem_singleton] at hp
            rcases hp with hp | hp
            · exact hp
            · exact absurd hp hpn)
        (by
          intro p hp
          simp only [List.mem_append, List.mem_singleton, not_or] at hp
          rw [s3 p hp.2]
          exact r7 p hp.1)
    refine ⟨v', nodes', ?_, t1, ?_, ?_, ?_, t5, ?_, ?_⟩
    · rw [hspec] at hrun hloop
      simp only [Task.Run_loop, hrun, hloop, spec_run_calls, List.append_assoc]
    · simpa using t2
    · simpa using t3
    · simpa using t4
    · simpa using t6
    · simpa using t7

/-- C10: for a task whose nodes each have an init flag under their own name,
`Task::Run` returns normally; the calls it makes are, node by node in the
configured order, `Construct()` iff the node is not constructed yet, `Init()` iff
the init flag of the node is set (the flag is cleared), `Execute()`, `Output()`
iff the output flag of the node is set, and then the promotion of the node to
RUNNING.  After the run every node of the task is constructed and RUNNING, the
init flag of every node of the task is cleared, the other nodes are untouched,
and no init flag of the task is set when every flag belongs to a node of the
task. -/
theorem C10_task_run (t : Task) (v : TaskVars) (nodes : NodePtr → NodeBase)
    (hflag : ∀ p ∈ t.node_list_,
      ∃ b, unordered_map.find v.node_init_flag_ (nodes p).node_name_ = some b) :
    ∃ v' nodes',
      t.Run v nodes = Except.ok (v', nodes', spec_run_calls v nodes [] t.node_list_) ∧
      (∀ p ∈ t.node_list_, (nodes' p).state_ = NodeState.RUNNING ∧
        (nodes' p).is_construct_ = true ∧
        unordered_map.find v'.node_init_flag_ (nodes p).node_name_ = some false) ∧
      (∀ p, p ∉ t.node_list_ → nodes' p = nodes p) ∧
      (∀ p, (nodes' p).node_name_ = (nodes p).node_name_) ∧
      ((∀ k b, unordered_map.find v.node_init_flag_ k = some b →
          ∃ p ∈ t.node_list_, (nodes p).node_name_ = k) →
        ∀ k, unordered_map.find v'.node_init_flag_ k ≠ some true) := by
  obtain ⟨v', nodes', hrun, t1, t2, t3, t4, _, t6, t7⟩ :=
    Task.Run_loop_ok v nodes t.node_list_ [] v nodes [] hflag (fun _ => rfl)
      (by intro p; simp) (by intro k hk; simp at hk) (fun _ _ => rfl) (fun _ => Iff.rfl)
      (by intro p hp; simp at hp) (fun _ _ => rfl)
  simp only [List.nil_append] at hrun t2 t3 t4 t6 t7
  refine ⟨v', nodes', hrun, ?_, t7, t1, ?_⟩
  · intro p hp
    refine ⟨t6 p hp, ?_, t3 _ (List.mem_map.mpr ⟨p, hp, rfl⟩)⟩
    rw [t2 p]
    simp [hp]
  · intro hcover k hk
    by_cases hm : k ∈ t.node_list_.map (fun p => (nodes p).node_name_)
    · rw [t3 k hm] at hk
      exact absurd hk (by simp)
    · rw [t4 k hm] at hk
      obtain ⟨p, hp, hpk⟩ := hcover k true hk
      exact hm (List.mem_map.mpr ⟨p, hp, hpk⟩)

/-! ## `CreateTask` and unknown node names -/

theorem NodeMap.GetNodePtr_failed (m : NodeMap) (key : String) :
    failed (m.GetNodePtr key) = true ↔ unordered_map.find m.node_map_ key = none := by
  unfold NodeMap.GetNodePtr
  cases unordered_map.find m.node_map_ key <;> simp [failed]

theorem Executer.CreateTask_nodes_failed (node_map : NodeMap) (l : List NodeConfig) :
    failed (Executer.CreateTask_nodes node_map l) = true ↔
      ∃ c ∈ l, unordered_map.find node_map.node_map_ c.node_name = none := by
  induction l with
  | nil => simp [Executer.CreateTask_nodes, failed]
  | cons c rest ih =>
    simp only [Executer.CreateTask_nodes, List.mem_cons, exists_eq_or_imp]
    rw [← ih, ← NodeMap.GetNodePtr_failed]
    cases node_map.GetNodePtr c.node_name with
    | error f => simp [failed]
    | ok p =>
      cases Executer.CreateTask_nodes node_map rest with
      | error f => simp [failed]
      | ok ps => simp [failed]

theorem Executer.CreateTask_group_failed (node_map : NodeMap) (address : String → TaskPtr)
    (l : List (String × TaskSetting)) (s : List (String × Task) × World × List Event) :
    failed (Executer.CreateTask_group node_map address l s) = true ↔
      ∃ t ∈ l, ∃ c ∈ t.2.node_list, unordered_map.find node_map.node_map_ c.node_name = none := by
  induction l generalizing s with
  | nil => simp [Executer.CreateTask_group, failed]
  | cons t rest ih =>
    simp only [Executer.CreateTask_group, List.mem_cons, exists_eq_or_imp]
    rw [← Executer.CreateTask_nodes_failed]
    cases h : Executer.CreateTask_nodes node_map t.2.node_list with
    | error f => simp [failed]
    | ok ps =>
      simp only [ih]
      simp [failed]

/-- When no constructor throws, `CreateTask` fails exactly when the node list of
some resident or standby task names a node that the registry does not hold. -/
theorem Executer.CreateTask_failed (e : Executer) (w : World) :
    failed (e.CreateTask w) = true ↔
      ∃ n ∈ spec_node_list_names e.executer_config_,
        unordered_map.find e.node_map_.node_map_ n = none := by
  have key : (∃ n ∈ spec_node_list_names e.executer_config_,
        unordered_map.find e.node_map_.node_map_ n = none) ↔
      ((∃ t ∈ e.executer_config_.task_list.resident_group, ∃ c ∈ t.2.node_list,
          unordered_map.find e.node_map_.node_map_ c.node_name = none) ∨
       (∃ t ∈ e.executer_config_.task_list.standby_group, ∃ c ∈ t.2.node_list,
          unordered_map.find e.node_map_.node_map_ c.node_name = none)) := by
    simp only [spec_node_list_names, List.mem_flatMap, List.mem_append, List.mem_map]
    constructor
    · rintro ⟨n, ⟨t, ht | ht, c, hc, rfl⟩, hn⟩
      · exact Or.inl ⟨t, ht, c, hc, hn⟩
      · exact Or.inr ⟨t, ht, c, hc, hn⟩
    · rintro (⟨t, ht, c, hc, hn⟩ | ⟨t, ht, c, hc, hn⟩)
      · exact ⟨_, ⟨t, Or.inl ht, c, hc, rfl⟩, hn⟩
      · exact ⟨_, ⟨t, Or.inr ht, c, hc, rfl⟩, hn⟩
  rw [key, ← Executer.CreateTask_group_failed e.node_map_ TaskPtr.resident _
    (e.resident_group_task_list_, w, [])]
  unfold Executer.CreateTask
  cases h1 : Executer.CreateTask_group e.node_map_ TaskPtr.resident
      e.executer_config_.task_list.resident_group (e.resident_group_task_list_, w, []) with
  | error f => simp [failed]
  | ok r1 =>
    simp only
    rw [← Executer.CreateTask_group_failed e.node_map_ TaskPtr.standby _
      (e.standby_group_task_list_, r1.2.1, r1.2.2)]
    cases h2 : Executer.CreateTask_group e.node_map_ TaskPtr.standby
        e.executer_config_.task_list.standby_group (e.standby_group_task_list_, r1.2.1, r1.2.2) with
    | error f => simp [failed]
    | ok r2 => simp [failed]

/-- C9 fails as stated: the configuration `demo_config_unknown_pre_node` refers to
the unknown node `Z` in a launch `pre_node` list, yet `CreateTask` succeeds on
it; the name is reported only by the first readiness check of `InitTask`. -/
theorem C9_counterexample :
    (¬ ∀ (cfg : ExecuterConfig) (node_map : NodeMap) (w : World),
      (∃ n ∈ spec_referenced_names cfg, unordered_map.find node_map.node_map_ n = none) →
        failed ((Executer.ctor cfg node_map).CreateTask w) = true) ∧
    fault_of ((Executer.ctor demo_config_unknown_pre_node demo_node_map).CreateTask
      (demo_world ["A", "B", "C", "D"])) = none ∧
    fault_of (demo_boot_unknown_pre_node.1.InitTask 1 (fun _ w => w)
      demo_boot_unknown_pre_node.2.1) = some (Fault.node_not_found "Z") := by
  refine ⟨?_, by decide, by decide⟩
  intro h
  have h1 := h demo_config_unknown_pre_node demo_node_map (demo_world ["A", "B", "C", "D"])
    ⟨"Z", by decide, by decide⟩
  revert h1
  decide

/-! ## A desired group that is not an exclusive group -/

theorem got_eq {α : Type} (r : Except Fault α) (d : α) (h : failed r = false) :
    r = Except.ok (got r d) := by
  cases r with
  | error f => simp [failed] at h
  | ok a => rfl

theorem Executer.eta_history (e : Executer) (x y : String) (hx : e.desired_group_ = x)
    (hy : e.desired_group_history_ = y) :
    { e with desired_group_ := x, desired_group_history_ := y } = e := by
  cases e
  subst hx
  subst hy
  rfl

/-- The effect of `TransitionCheck` when the desired group is rejected. -/
theorem Executer.TransitionCheck_reject (e : Executer) (h1 : e.is_transition_ = false)
    (h2 : e.desired_group_ ≠ e.current_group_)
    (h3 : e.desired_group_ ∉ e.exclusive_group_set_) :
    e.TransitionCheck =
      ({ e with desired_group_history_ := e.desired_group_ },
       if e.desired_group_ = e.desired_group_history_ then []
       else [Event.logger_error "[Executer] Target group is not an exclusive group."
              [e.desired_group_]]) := by
  have h3' : ¬ string_set.contains e.exclusive_group_set_ e.desired_group_ = true := by
    simpa [string_set.contains] using h3
  simp only [Executer.TransitionCheck]
  rw [if_pos (by simp [h1]), if_pos h2, if_neg h3']
  by_cases h4 : e.desired_group_history_ = e.desired_group_
  · rw [if_neg (not_not.mpr h4), if_pos h4.symm]
    have h5 := Executer.eta_history e _ _ rfl h4
    exact Prod.ext h5.symm rfl
  · rw [if_pos h4, if_neg (Ne.symm h4)]

/-- An activation of `Run` that takes a rejected group name from the topic. -/
theorem Executer.Run_reject (env : TickEnv) (e : Executer) (w : World) (d : String)
    (h1 : e.is_transition_ = false) (h2 : d ≠ e.current_group_)
    (h3 : d ∉ e.exclusive_group_set_) (h4 : env.msg = some d) :
    e.Run env w = Except.ok
      ({ e with desired_group_ := d, desired_group_history_ := d }, w,
       if d = e.desired_group_history_ then []
       else [Event.logger_error "[Executer] Target group is not an exclusive group." [d]]) := by
  have hc := Executer.TransitionCheck_reject { e with desired_group_ := d } h1 h2 h3
  unfold Executer.Run
  rw [h4]
  simp only [Executer.Subscribe]
  rw [hc]
  simp only [h1, Bool.false_eq_true, if_false]

/-- The later activations after a rejected group name, while the topic delivers
nothing or the same name again: no call is made and no member changes. -/
theorem Executer.Loop_rejected (d : String) (envs : List TickEnv) :
    ∀ (e : Executer) (w : World), e.is_transition_ = false → e.desired_group_ = d →
      e.desired_group_history_ = d → d ≠ e.current_group_ → d ∉ e.exclusive_group_set_ →
      (∀ env ∈ envs, env.msg = none ∨ env.msg = some d) →
      ∃ rs, Executer.Loop envs e w = Except.ok rs ∧ rs.length = envs.length ∧
        ∀ r ∈ rs, r.1 = e ∧ r.2.2 = [] := by
  induction envs with
  | nil =>
    intro e w _ _ _ _ _ _
    exact ⟨[], rfl, rfl, by simp⟩
  | cons env rest ih =>
    intro e w h1 hd hh h2 h3 hm
    have hself : { e with desired_group_ := d, desired_group_history_ := d } = e :=
      Executer.eta_history e d d hd hh
    have hrun : e.Run env (env.before w) = Except.ok (e, env.before w, []) := by
      rcases hm env (List.mem_cons_self _ _) with hmsg | hmsg
      · have hc : e.TransitionCheck = (e, []) := by
          rw [Executer.TransitionCheck_reject e h1 (by rw [hd]; exact h2) (by rw [hd]; exact h3)]
          exact Prod.ext (Executer.eta_history e _ _ rfl (hh.trans hd.symm))
            (if_pos (hd.trans hh.symm))
        unfold Executer.Run
        rw [hmsg]
        simp only [Executer.Subscribe]
        rw [hc]
        simp only [h1, Bool.false_eq_true, if_false]
      · rw [Executer.Run_reject env e _ d h1 h2 h3 hmsg, hself]
        simp [hh]
    obtain ⟨rs, hrs, hlen, hall⟩ := ih e (env.before w) h1 hd hh h2 h3
      (fun x hx => hm x (List.mem_cons_of_mem _ hx))
    refine ⟨(e, env.before w, []) :: rs, ?_, by simp [hlen], ?_⟩
    · simp only [Executer.Loop, hrun, hrs]
    · intro r hr
      rcases List.mem_cons.mp hr with hr | hr
      · rw [hr]; exact ⟨rfl, rfl⟩
      · exact hall r hr

/-- C7 as amended: when no transition is in progress and the topic delivers a
name `d` that differs from the current group and is not an exclusive group, the
activation of `Run` that takes it logs exactly one error naming `d` if `d` differs
from the last rejected name `desired_group_history_`, and logs nothing if `d`
equals it; it changes no member other than `desired_group_` and
`desired_group_history_` and leaves the heap alone.  Every later activation in
which the topic delivers nothing or `d` again makes no call and changes nothing. -/
theorem C7_rejected_desired_group (e : Executer) (env : TickEnv) (w : World) (d : String)
    (envs : List TickEnv)
    (h1 : e.is_transition_ = false) (h2 : d ≠ e.current_group_)
    (h3 : d ∉ e.exclusive_group_set_) (h4 : env.msg = some d)
    (h5 : ∀ env' ∈ envs, env'.msg = none ∨ env'.msg = some d) :
    ∃ r rs,
      e.Run env w = Except.ok r ∧
      r.1 = { e with desired_group_ := d, desired_group_history_ := d } ∧
      r.2.1 = w ∧
      (d ≠ e.desired_group_history_ →
        r.2.2 = [Event.logger_error "[Executer] Target group is not an exclusive group." [d]]) ∧
      (d = e.desired_group_history_ → r.2.2 = []) ∧
      Executer.Loop envs r.1 r.2.1 = Except.ok rs ∧
      rs.length = envs.length ∧
      ∀ r' ∈ rs, r'.1 = r.1 ∧ r'.2.2 = [] := by
  obtain ⟨rs, hrs, hlen, hall⟩ :=
    Executer.Loop_rejected d envs { e with desired_group_ := d, desired_group_history_ := d } w
      h1 rfl rfl h2 h3 h5
  refine ⟨_, rs, Executer.Run_reject env e w d h1 h2 h3 h4, rfl, rfl, ?_, ?_, hrs, hlen, hall⟩
  · intro h
    simp [h]
  · intro h
    simp [h]

theorem demo_g1_reachable : Executer.Reachable demo_g1.1 := by
  have h0 : Executer.Reachable demo_boot.1 :=
    Executer.Reachable.boot demo_config demo_node_map _ _ (got_eq _ _ (by decide))
  have h1 : Executer.Reachable demo_g1_polled.1 :=
    Executer.Reachable.tick (demo_env (some "G1")) _ _ _ h0 (got_eq _ demo_boot (by decide))
  have h2 : Executer.Reachable demo_g1_stopped.1 :=
    Executer.Reachable.tick (demo_env none) _ _ _ h1 (got_eq _ demo_g1_polled (by decide))
  exact Executer.Reachable.tick (demo_env none) _ _ _ h2 (got_eq _ demo_g1_stopped (by decide))

/-- C7 fails as stated: in the reachable state `demo_g1` (current group `G1`, no
transition in progress, last rejected name still the initial `"empty_init"`) the
name `"empty_init"` arrives for the first time; it differs from the current group
and is not an exclusive group, yet the activation that takes it logs no error. -/
theorem C7_counterexample :
    ¬ ∀ (e : Executer) (env : TickEnv) (w : World) (r : Executer × World × List Event)
        (d : String),
      Executer.Reachable e → e.is_transition_ = false → e.desired_group_ ≠ d →
      d ≠ e.current_group_ → d ∉ e.exclusive_group_set_ → env.msg = some d →
      e.Run env w = Except.ok r →
      r.2.2.count
        (Event.logger_error "[Executer] Target group is not an exclusive group." [d]) = 1 := by
  intro h
  have h1 := h demo_g1.1 (demo_env (some "empty_init")) (demo_threads demo_g1.2.1)
    (demo_tick (demo_env (some "empty_init")) demo_g1) "empty_init" demo_g1_reachable
    (by decide) (by decide) (by decide) (by decide) rfl (got_eq _ demo_g1 (by decide))
  revert h1
  decide

/-! ## The steps of `Transition` -/

theorem NodeMap.GetNodePtr_ok (m : NodeMap) (key : String) (p : NodePtr) :
    m.GetNodePtr key = Except.ok p ↔ unordered_map.find m.node_map_ key = some p := by
  unfold NodeMap.GetNodePtr
  cases unordered_map.find m.node_map_ key <;> simp

/-- The poll of `TryExit`: the answer is true exactly when every node answered
true; each call is made on the object registered under a name of the list; when
the answer is true every node of the list was called. -/
theorem Executer.all_of_TryExit_spec (node_map : NodeMap) (TryExit : String → Bool)
    (names : List String) (r : Bool × List Event)
    (h : Executer.all_of_TryExit node_map TryExit names = Except.ok r) :
    (r.1 = true ↔ ∀ n ∈ names, TryExit n = true) ∧
    (∀ ev ∈ r.2, ∃ n ∈ names, ∃ p, node_map.GetNodePtr n = Except.ok p ∧
      ev = Event.TryExit p (TryExit n)) ∧
    (r.1 = true → ∀ n ∈ names, ∃ p, node_map.GetNodePtr n = Except.ok p ∧
      Event.TryExit p true ∈ r.2) := by
  induction names generalizing r with
  | nil =>
    cases h
    simp
  | cons n rest ih =>
    unfold Executer.all_of_TryExit at h
    cases hp : node_map.GetNodePtr n with
    | error f => rw [hp] at h; exact Except.noConfusion h
    | ok p =>
      rw [hp] at h
      simp only at h
      by_cases hn : TryExit n = true
      · rw [if_pos hn] at h
        cases hr : Executer.all_of_TryExit node_map TryExit rest with
        | error f => rw [hr] at h; exact Except.noConfusion h
        | ok r' =>
          rw [hr] at h
          cases h
          obtain ⟨i1, i2, i3⟩ := ih r' hr
          refine ⟨?_, ?_, ?_⟩
          · simp [i1, hn]
          · intro ev hev
            rcases List.mem_cons.mp hev with hev | hev
            · exact ⟨n, List.mem_cons_self _ _, p, hp, by rw [hev, hn]⟩
            · obtain ⟨m, hm, q, hq, he⟩ := i2 ev hev
              exact ⟨m, List.mem_cons_of_mem _ hm, q, hq, he⟩
          · intro hb m hm
            rcases List.mem_cons.mp hm with hm | hm
            · exact ⟨p, by rw [hm]; exact hp, List.mem_cons_self _ _⟩
            · obtain ⟨q, hq, he⟩ := i3 hb m hm
              exact ⟨q, hq, List.mem_cons_of_mem _ he⟩
      · rw [if_neg hn] at h
        cases h
        refine ⟨?_, ?_, ?_⟩
        · simp [hn]
        · intro ev hev
          simp only [List.mem_singleton] at hev
          refine ⟨n, List.mem_cons_self _ _, p, hp, ?_⟩
          rw [hev]
          simp at hn
          rw [hn]
        · intro hb
          exact absurd hb (by simp)

/-- The poll of `TryEnter`, as `all_of_TryExit_spec`. -/
theorem Executer.all_of_TryEnter_spec (node_map : NodeMap) (TryEnter : String → Bool)
    (names : List String) (r : Bool × List Event)
    (h : Executer.all_of_TryEnter node_map TryEnter names = Except.ok r) :
    (r.1 = true ↔ ∀ n ∈ names, TryEnter n = true) ∧
    (∀ ev ∈ r.2, ∃ n ∈ names, ∃ p, node_map.GetNodePtr n = Except.ok p ∧
      ev = Event.TryEnter p (TryEnter n)) ∧
    (r.1 = true → ∀ n ∈ names, ∃ p, node_map.GetNodePtr n = Except.ok p ∧
      Event.TryEnter p true ∈ r.2) := by
  induction names generalizing r with
  | nil =>
    cases h
    simp
  | cons n rest ih =>
    unfold Executer.all_of_TryEnter at h
    cases hp : node_map.GetNodePtr n with
    | error f => rw [hp] at h; exact Except.noConfusion h
    | ok p =>
      rw [hp] at h
      simp only at h
      by_cases hn : TryEnter n = true
      · rw [if_pos hn] at h
        cases hr : Executer.all_of_TryEnter node_map TryEnter rest with
        | error f => rw [hr] at h; exact Except.noConfusion h
        | ok r' =>
          rw [hr] at h
          cases h
          obtain ⟨i1, i2, i3⟩ := ih r' hr
          refine ⟨?_, ?_, ?_⟩
          · simp [i1, hn]
          · intro ev hev
            rcases List.mem_cons.mp hev with hev | hev
            · exact ⟨n, List.mem_cons_self _ _, p, hp, by rw [hev, hn]⟩
            · obtain ⟨m, hm, q, hq, he⟩ := i2 ev hev
              exact ⟨m, List.mem_cons_of_mem _ hm, q, hq, he⟩
          · intro hb m hm
            rcases List.mem_cons.mp hm with hm | hm
            · exact ⟨p, by rw [hm]; exact hp, List.mem_cons_self _ _⟩
            · obtain ⟨q, hq, he⟩ := i3 hb m hm
              exact ⟨q, hq, List.mem_cons_of_mem _ he⟩
      · rw [if_neg hn] at h
        cases h
        refine ⟨?_, ?_, ?_⟩
        · simp [hn]
        · intro ev hev
          simp only [List.mem_singleton] at hev
          refine ⟨n, List.mem_cons_self _ _, p, hp, ?_⟩
          rw [hev]
          simp at hn
          rw [hn]
        · intro hb
          exact absurd hb (by simp)

/-- The stop loop: one `TaskStop` per task of the list, in order; the nodes and the
variables of the other tasks are untouched. -/
theorem Executer.stop_tasks_spec (tasks : List Task) (w : World) :
    (Executer.stop_tasks tasks w).2 = tasks.map (fun t => Event.TaskStop t.self) ∧
    (Executer.stop_tasks tasks w).1.nodes = w.nodes ∧
    ∀ p, p ∉ tasks.map Task.self → (Executer.stop_tasks tasks w).1.tasks p = w.tasks p := by
  induction tasks generalizing w with
  | nil => simp [Executer.stop_tasks]
  | cons t rest ih =>
    obtain ⟨i1, i2, i3⟩ := ih
      { w with tasks := Function.update w.tasks t.self (TaskBase.TaskStop (w.tasks t.self)) }
    simp only [Executer.stop_tasks, List.map_cons, i1, i2, true_and]
    intro p hp
    simp only [List.mem_cons, not_or] at hp
    rw [i3 p hp.2]
    simp [Function.update, hp.1]

/-- The exit loop: every name of the list is registered; the calls are `AfterExit`
and `SetState(STANDBY)` on each node in order; the task variables are untouched
and so is every node that is not registered under a name of the list. -/
theorem Executer.exit_nodes_spec (node_map : NodeMap) (names : List String) (w : World)
    (r : World × List Event) (h : Executer.exit_nodes node_map names w = Except.ok r) :
    (∀ n ∈ names, ∃ p, node_map.GetNodePtr n = Except.ok p) ∧
    r.2 = (spec_node_ptrs node_map names).flatMap
      (fun p => [Event.AfterExit p, Event.SetState p NodeState.STANDBY]) ∧
    r.1.tasks = w.tasks ∧
    (∀ p, p ∉ spec_node_ptrs node_map names → r.1.nodes p = w.nodes p) ∧
    (∀ p, p ∈ spec_node_ptrs node_map names → (r.1.nodes p).state_ = NodeState.STANDBY) := by
  induction names generalizing w r with
  | nil =>
    cases h
    simp [spec_node_ptrs]
  | cons n rest ih =>
    unfold Executer.exit_nodes at h
    cases hp : node_map.GetNodePtr n with
    | error f => rw [hp] at h; exact Except.noConfusion h
    | ok p =>
      rw [hp] at h
      simp only at h
      cases hr : Executer.exit_nodes node_map rest
          { w with nodes := Function.update w.nodes p
                     { w.nodes p with state_ := NodeState.STANDBY } } with
      | error f => rw [hr] at h; exact Except.noConfusion h
      | ok r' =>
        rw [hr] at h
        cases h
        obtain ⟨i1, i2, i3, i4, i5⟩ := ih _ r' hr
        have hf : unordered_map.find node_map.node_map_ n = some p :=
          (NodeMap.GetNodePtr_ok node_map n p).mp hp
        have hptrs : spec_node_ptrs node_map (n :: rest) = p :: spec_node_ptrs node_map rest := by
          simp [spec_node_ptrs, List.filterMap_cons, hf]
        refine ⟨?_, ?_, i3, ?_, ?_⟩
        · intro m hm
          rcases List.mem_cons.mp hm with hm | hm
          · exact ⟨p, by rw [hm]; exact hp⟩
          · exact i1 m hm
        · rw [hptrs, i2]
          simp
        · intro q hq
          rw [hptrs] at hq
          simp only [List.mem_cons, not_or] at hq
          rw [i4 q hq.2]
          simp [Function.update, hq.1]
        · intro q hq
          rw [hptrs] at hq
          by_cases hq' : q ∈ spec_node_ptrs node_map rest
          · exact i5 q hq'
          · rcases List.mem_cons.mp hq with hq | hq
            · rw [i4 q hq', hq]
              simp
            · exact absurd hq hq'

/-! ## The start loops -/

/-- The tasks of a wait list that are not started yet. -/
theorem Executer.start_sweep_spec (others : Nat → World → World)
    (body : Task → StartState → Except Fault (Option StartState)) (f : Task → List Event)
    (hbody : ∀ t s s', body t s = Except.ok (some s') → s'.evs = s.evs ++ f t)
    (list : List (Bool × Task)) :
    ∀ (c : Nat) (ws : List String) (s : StartState)
      (r : List (Bool × Task) × Nat × List String × StartState),
    Executer.start_sweep others body list (c, ws, s) = Except.ok r →
    ∃ started : List Task,
      r.2.2.2.evs = s.evs ++ started.flatMap f ∧
      r.1.map Prod.snd = list.map Prod.snd ∧
      List.Perm ((list.filter (fun x => !x.1)).map Prod.snd)
        (started ++ (r.1.filter (fun x => !x.1)).map Prod.snd) ∧
      (∀ n, n ∈ r.2.2.1 ↔ n ∈ ws ∧ n ∉ started.map Task.GetTaskName) := by
  induction list with
  | nil =>
    intro c ws s r h
    cases h
    exact ⟨[], by simp, rfl, by simp, by simp⟩
  | cons x rest ih =>
    intro c ws s r h
    unfold Executer.start_sweep at h
    by_cases hx : x.1 = true
    · rw [if_pos hx] at h
      cases hr : Executer.start_sweep others body rest (c, ws, s) with
      | error e => rw [hr] at h; exact Except.noConfusion h
      | ok r' =>
        rw [hr] at h
        cases h
        obtain ⟨started, i1, i2, i3, i4⟩ := ih c ws s r' hr
        refine ⟨started, i1, by simp [i2], ?_, i4⟩
        simpa [List.filter_cons, hx] using i3
    · rw [if_neg hx] at h
      simp only at h
      have hx' : x.1 = false := by simpa using hx
      cases hb : body x.2 { s with w := others c s.w } with
      | error e => rw [hb] at h; exact Except.noConfusion h
      | ok o =>
        rw [hb] at h
        cases o with
        | none =>
          simp only at h
          cases hr : Executer.start_sweep others body rest
              (c + 1, ws, { s with w := others c s.w }) with
          | error e => rw [hr] at h; exact Except.noConfusion h
          | ok r' =>
            rw [hr] at h
            cases h
            obtain ⟨started, i1, i2, i3, i4⟩ := ih _ _ _ r' hr
            refine ⟨started, i1, by simp [i2], ?_, i4⟩
            simp only [List.filter_cons, hx', Bool.not_false, if_true, List.map_cons]
            exact (List.Perm.cons x.2 i3).trans List.perm_middle.symm
        | some s1 =>
          simp only at h
          cases hr : Executer.start_sweep others body rest
              (c + 1, string_set.erase ws x.2.GetTaskName, s1) with
          | error e => rw [hr] at h; exact Except.noConfusion h
          | ok r' =>
            rw [hr] at h
            cases h
            obtain ⟨started, i1, i2, i3, i4⟩ := ih _ _ _ r' hr
            have hs1 := hbody x.2 _ s1 hb
            refine ⟨x.2 :: started, ?_, by simp [i2], ?_, ?_⟩
            · rw [i1, hs1]
              simp
            · simp only [List.filter_cons, hx', Bool.not_false, if_true, List.map_cons,
                Bool.not_true, Bool.false_eq_true, if_false, List.cons_append]
              exact List.Perm.cons x.2 i3
            · intro n
              rw [i4 n, string_set.mem_erase]
              simp only [List.map_cons, List.mem_cons, not_or]
              tauto

/-- A property of the heap that the other threads and the body of a start loop
preserve is preserved by a pass of the loop. -/
theorem Executer.start_sweep_preserves (others : Nat → World → World)
    (body : Task → StartState → Except Fault (Option StartState)) (Q : World → Prop)
    (hothers : ∀ k w, Q w → Q (others k w))
    (list : List (Bool × Task))
    (hbody : ∀ x ∈ list, ∀ s s', Q s.w → body x.2 s = Except.ok (some s') → Q s'.w) :
    ∀ (c : Nat) (ws : List String) (s : StartState)
      (r : List (Bool × Task) × Nat × List String × StartState),
    Executer.start_sweep others body list (c, ws, s) = Except.ok r → Q s.w → Q r.2.2.2.w := by
  induction list with
  | nil =>
    intro c ws s r h hq
    cases h
    exact hq
  | cons x rest ih =>
    have ih' := ih (fun y hy => hbody y (List.mem_cons_of_mem _ hy))
    intro c ws s r h hq
    unfold Executer.start_sweep at h
    by_cases hx : x.1 = true
    · rw [if_pos hx] at h
      cases hr : Executer.start_sweep others body rest (c, ws, s) with
      | error e => rw [hr] at h; exact Except.noConfusion h
      | ok r' =>
        rw [hr] at h
        cases h
        exact ih' c ws s r' hr hq
    · rw [if_neg hx] at h
      simp only at h
      cases hb : body x.2 { s with w := others c s.w } with
      | error e => rw [hb] at h; exact Except.noConfusion h
      | ok o =>
        rw [hb] at h
        cases o with
        | none =>
          simp only at h
          cases hr : Executer.start_sweep others body rest
              (c + 1, ws, { s with w := others c s.w }) with
          | error e => rw [hr] at h; exact Except.noConfusion h
          | ok r' =>
            rw [hr] at h
            cases h
            exact ih' _ _ _ r' hr (hothers c s.w hq)
        | some s1 =>
          simp only at h
          cases hr : Executer.start_sweep others body rest
              (c + 1, string_set.erase ws x.2.GetTaskName, s1) with
          | error e => rw [hr] at h; exact Except.noConfusion h
          | ok r' =>
            rw [hr] at h
            cases h
            exact ih' _ _ _ r' hr
              (hbody x (List.mem_cons_self _ _) _ s1 (hothers c s.w hq) hb)

/-- A pass of a start loop keeps the wait set in step with the wait list. -/
theorem Executer.wait_set_matches_step (list list' : List (Bool × Task))
    (ws ws' : List String) (started : List Task)
    (hnd : (list.map (fun x => x.2.GetTaskName)).Nodup)
    (i3 : List.Perm ((list.filter (fun x => !x.1)).map Prod.snd)
      (started ++ (list'.filter (fun x => !x.1)).map Prod.snd))
    (i4 : ∀ n, n ∈ ws' ↔ n ∈ ws ∧ n ∉ started.map Task.GetTaskName)
    (hm : Executer.wait_set_matches list ws) : Executer.wait_set_matches list' ws' := by
  have hsub : ((list.filter (fun x => !x.1)).map Prod.snd).map Task.GetTaskName
      |>.Nodup := by
    have h1 : List.Sublist (((list.filter (fun x => !x.1)).map Prod.snd).map Task.GetTaskName)
        (list.map (fun x => x.2.GetTaskName)) := by
      rw [List.map_map]
      exact List.Sublist.map _ (List.filter_sublist _)
    exact List.Nodup.sublist h1 hnd
  have hnd2 : ((started ++ (list'.filter (fun x => !x.1)).map Prod.snd).map
      Task.GetTaskName).Nodup := (List.Perm.nodup_iff (i3.map _)).mp hsub
  rw [List.map_append, List.nodup_append] at hnd2
  have hmem : ∀ t : Task, t ∈ (list.filter (fun x => !x.1)).map Prod.snd ↔
      t ∈ started ∨ t ∈ (list'.filter (fun x => !x.1)).map Prod.snd := by
    intro t
    rw [i3.mem_iff, List.mem_append]
  have hun : ∀ (l : List (Bool × Task)) (t : Task),
      t ∈ (l.filter (fun x => !x.1)).map Prod.snd ↔ ∃ x ∈ l, x.1 = false ∧ x.2 = t := by
    intro l t
    simp only [List.mem_map, List.mem_filter, Bool.not_eq_true', and_assoc]
  intro n
  rw [i4 n, hm n]
  constructor
  · rintro ⟨⟨x, hx, hx1, hxn⟩, hns⟩
    have h1 : x.2 ∈ (list.filter (fun x => !x.1)).map Prod.snd := (hun list x.2).mpr ⟨x, hx, hx1, rfl⟩
    rcases (hmem x.2).mp h1 with h2 | h2
    · exact absurd (List.mem_map.mpr ⟨x.2, h2, hxn⟩) hns
    · obtain ⟨y, hy, hy1, hy2⟩ := (hun list' x.2).mp h2
      exact ⟨y, hy, hy1, by rw [hy2]; exact hxn⟩
  · rintro ⟨x, hx, hx1, hxn⟩
    have h1 : x.2 ∈ (list'.filter (fun x => !x.1)).map Prod.snd :=
      (hun list' x.2).mpr ⟨x, hx, hx1, rfl⟩
    have h2 : x.2 ∈ (list.filter (fun x => !x.1)).map Prod.snd := (hmem x.2).mpr (Or.inr h1)
    obtain ⟨y, hy, hy1, hy2⟩ := (hun list x.2).mp h2
    refine ⟨⟨y, hy, hy1, by rw [hy2]; exact hxn⟩, ?_⟩
    intro hns
    exact hnd2.2.2 hns (List.mem_map.mpr ⟨x.2, h1, hxn⟩)

/-- The exit test of a start loop: under the loop invariant the wait set is empty
exactly when every task of the wait list is started. -/
theorem Executer.wait_set_empty_iff (list : List (Bool × Task)) (ws : List String)
    (hm : Executer.wait_set_matches list ws) :
    ws.isEmpty = true ↔ ∀ x ∈ list, x.1 = true := by
  rw [List.isEmpty_iff]
  constructor
  · intro h x hx
    by_contra hx1
    have h1 : x.2.GetTaskName ∈ ws := (hm _).mpr ⟨x, hx, by simpa using hx1, rfl⟩
    rw [h] at h1
    simp at h1
  · intro h
    apply List.eq_nil_iff_forall_not_mem.mpr
    intro n hn
    obtain ⟨x, hx, hx1, _⟩ := (hm n).mp hn
    rw [h x hx] at hx1
    exact Bool.noConfusion hx1

/-- The start loop as a whole: when it returns, every task of the wait list is
started, the wait set is empty, and the calls it made are those of the body, once
for each task that was not started at its entry. -/
theorem Executer.start_loop_spec (others : Nat → World → World)
    (body : Task → StartState → Except Fault (Option StartState)) (f : Task → List Event)
    (hbody : ∀ t s s', body t s = Except.ok (some s') → s'.evs = s.evs ++ f t)
    (fuel : Nat) :
    ∀ (list : List (Bool × Task)) (c : Nat) (ws : List String) (s : StartState)
      (r : List (Bool × Task) × Nat × List String × StartState),
    Executer.start_loop others body fuel list (c, ws, s) = Except.ok r →
    Executer.wait_set_matches list ws →
    (list.map (fun x => x.2.GetTaskName)).Nodup →
    ∃ started : List Task,
      r.2.2.2.evs = s.evs ++ started.flatMap f ∧
      r.1.map Prod.snd = list.map Prod.snd ∧
      List.Perm ((list.filter (fun x => !x.1)).map Prod.snd) started ∧
      (∀ x ∈ r.1, x.1 = true) ∧
      r.2.2.1 = [] := by
  have hdone : ∀ (list : List (Bool × Task)) (c : Nat) (ws : List String) (s : StartState),
      ws.isEmpty = true → Executer.wait_set_matches list ws →
      ∃ started : List Task,
        s.evs = s.evs ++ started.flatMap f ∧
        list.map Prod.snd = list.map Prod.snd ∧
        List.Perm ((list.filter (fun x => !x.1)).map Prod.snd) started ∧
        (∀ x ∈ list, x.1 = true) ∧ ws = [] := by
    intro list c ws s he hm
    have hall := (Executer.wait_set_empty_iff list ws hm).mp he
    refine ⟨[], by simp, rfl, ?_, hall, List.isEmpty_iff.mp he⟩
    have : list.filter (fun x => !x.1) = [] := by
      apply List.filter_eq_nil_iff.mpr
      intro x hx
      simp [hall x hx]
    rw [this]
    exact List.Perm.refl _
  induction fuel with
  | zero =>
    intro list c ws s r h hm _
    unfold Executer.start_loop at h
    by_cases he : ws.isEmpty = true
    · simp only [he, if_true] at h
      cases h
      exact hdone list c ws s he hm
    · simp only [he, if_false] at h
      exact Except.noConfusion h
  | succ fuel ih =>
    intro list c ws s r h hm hnd
    unfold Executer.start_loop at h
    by_cases he : ws.isEmpty = true
    · simp only [he, if_true] at h
      cases h
      exact hdone list c ws s he hm
    · simp only [he, if_false] at h
      cases hs : Executer.start_sweep others body list (c, ws, s) with
      | error e => rw [hs] at h; exact Except.noConfusion h
      | ok r1 =>
        rw [hs] at h
        simp only at h
        obtain ⟨started1, i1, i2, i3, i4⟩ :=
          Executer.start_sweep_spec others body f hbody list c ws s r1 hs
        have hm1 : Executer.wait_set_matches r1.1 r1.2.2.1 :=
          Executer.wait_set_matches_step list r1.1 ws r1.2.2.1 started1 hnd i3 i4 hm
        have hnd1 : (r1.1.map (fun x => x.2.GetTaskName)).Nodup := by
          have : r1.1.map (fun x => x.2.GetTaskName) = (r1.1.map Prod.snd).map Task.GetTaskName := by
            rw [List.map_map]; rfl
          rw [this, i2, List.map_map]
          exact hnd
        obtain ⟨started2, j1, j2, j3, j4, j5⟩ :=
          ih r1.1 r1.2.1 r1.2.2.1 r1.2.2.2 r h hm1 hnd1
        refine ⟨started1 ++ started2, ?_, by rw [j2, i2], ?_, j4, j5⟩
        · rw [j1, i1]
          simp
        · exact i3.trans (List.Perm.append_left started1 j3)

/-- A pass of a start loop keeps the tasks of the wait list. -/
theorem Executer.start_sweep_tasks (others : Nat → World → World)
    (body : Task → StartState → Except Fault (Option StartState)) (list : List (Bool × Task)) :
    ∀ (s : Nat × List String × StartState)
      (r : List (Bool × Task) × Nat × List String × StartState),
    Executer.start_sweep others body list s = Except.ok r →
    r.1.map Prod.snd = list.map Prod.snd := by
  induction list with
  | nil =>
    intro s r h
    cases h
    rfl
  | cons x rest ih =>
    intro s r h
    unfold Executer.start_sweep at h
    split_ifs at h with hx
    · split at h
      · exact Except.noConfusion h
      · rename_i r' hr
        cases h
        simp [ih _ r' hr]
    · simp only at h
      split at h
      · exact Except.noConfusion h
      · split at h
        · exact Except.noConfusion h
        · rename_i r' hr
          cases h
          simp [ih _ r' hr]
      · split at h
        · exact Except.noConfusion h
        · rename_i r' hr
          cases h
          simp [ih _ r' hr]

/-- A property of the heap that the other threads and the body of a start loop
preserve is preserved by the loop. -/
theorem Executer.start_loop_preserves (others : Nat → World → World)
    (body : Task → StartState → Except Fault (Option StartState)) (Q : World → Prop)
    (hothers : ∀ k w, Q w → Q (others k w)) (tasks : List Task)
    (hbody : ∀ t ∈ tasks, ∀ s s', Q s.w → body t s = Except.ok (some s') → Q s'.w)
    (fuel : Nat) :
    ∀ (list : List (Bool × Task)) (c : Nat) (ws : List String) (s : StartState)
      (r : List (Bool × Task) × Nat × List String × StartState),
    list.map Prod.snd = tasks →
    Executer.start_loop others body fuel list (c, ws, s) = Except.ok r → Q s.w → Q r.2.2.2.w := by
  have hb : ∀ list : List (Bool × Task), list.map Prod.snd = tasks →
      ∀ x ∈ list, ∀ s s', Q s.w → body x.2 s = Except.ok (some s') → Q s'.w := by
    intro list hl x hx
    exact hbody x.2 (by rw [← hl]; exact List.mem_map.mpr ⟨x, hx, rfl⟩)
  induction fuel with
  | zero =>
    intro list c ws s r _ h hq
    unfold Executer.start_loop at h
    by_cases he : ws.isEmpty = true
    · simp only [he, if_true] at h
      cases h
      exact hq
    · simp only [he, if_false] at h
      exact Except.noConfusion h
  | succ fuel ih =>
    intro list c ws s r hl h hq
    unfold Executer.start_loop at h
    by_cases he : ws.isEmpty = true
    · simp only [he, if_true] at h
      cases h
      exact hq
    · simp only [he, if_false] at h
      cases hs : Executer.start_sweep others body list (c, ws, s) with
      | error e => rw [hs] at h; exact Except.noConfusion h
      | ok r1 =>
        rw [hs] at h
        simp only at h
        have hq1 := Executer.start_sweep_preserves others body Q hothers list (hb list hl)
          c ws s r1 hs hq
        have hl1 : r1.1.map Prod.snd = tasks := by
          rw [Executer.start_sweep_tasks others body list _ r1 hs, hl]
        exact ih r1.1 r1.2.1 r1.2.2.1 r1.2.2.2 r hl1 h hq1

/-- The readiness test answers true exactly when every node of the list is
registered and RUNNING. -/
theorem Executer.pre_node_ready_spec (node_map : NodeMap) (w : World) (l : List String)
    (b : Bool) (h : Executer.pre_node_ready node_map w l = Except.ok b) :
    b = true ↔ spec_pre_nodes_running node_map w l := by
  induction l generalizing b with
  | nil =>
    cases h
    simp [spec_pre_nodes_running]
  | cons n rest ih =>
    unfold Executer.pre_node_ready at h
    cases hp : node_map.GetNodePtr n with
    | error f => rw [hp] at h; exact Except.noConfusion h
    | ok p =>
      rw [hp] at h
      simp only at h
      have hsplit : spec_pre_nodes_running node_map w (n :: rest) ↔
          (w.nodes p).state_ = NodeState.RUNNING ∧ spec_pre_nodes_running node_map w rest := by
        unfold spec_pre_nodes_running
        constructor
        · intro hall
          obtain ⟨q, hq, hs⟩ := hall n (List.mem_cons_self _ _)
          rw [hp] at hq
          cases hq
          exact ⟨hs, fun m hm => hall m (List.mem_cons_of_mem _ hm)⟩
        · rintro ⟨hs, hall⟩ m hm
          rcases List.mem_cons.mp hm with hm | hm
          · exact ⟨p, by rw [hm]; exact hp, hs⟩
          · exact hall m hm
      by_cases hs : (w.nodes p).state_ = NodeState.RUNNING
      · rw [if_pos hs] at h
        rw [hsplit, ih b h]
        simp [hs]
      · rw [if_neg hs] at h
        cases h
        rw [hsplit]
        simp [hs]

/-- The body of the start loop of `InitTask`: the task is started exactly when its
`pre_node` list is empty or all its nodes are RUNNING; a start raises every init
flag of the task, then requests the start, and touches nothing else. -/
theorem Executer.InitTask_start_spec (e : Executer) (t : Task) (s : StartState)
    (o : Option StartState) (h : e.InitTask_start t s = Except.ok o) :
    (o.isSome = true ↔ (t.GetTaskSetting.launch_setting.pre_node = [] ∨
      spec_pre_nodes_running e.node_map_ s.w t.GetTaskSetting.launch_setting.pre_node)) ∧
    ∀ s', o = some s' →
      s'.evs = s.evs ++ Executer.InitTask_start_calls t ∧
      s'.w.nodes = s.w.nodes ∧
      s'.w.tasks t.self = TaskBase.TaskStart (Task.Init (s.w.tasks t.self)) ∧
      ∀ p, p ≠ t.self → s'.w.tasks p = s.w.tasks p := by
  unfold Executer.InitTask_start at h
  simp only at h
  cases hr : Executer.pre_node_ready e.node_map_ s.w t.GetTaskSetting.launch_setting.pre_node with
  | error f => rw [hr] at h; exact Except.noConfusion h
  | ok b =>
    rw [hr] at h
    simp only at h
    have hb := Executer.pre_node_ready_spec _ _ _ b hr
    have hor : (t.GetTaskSetting.launch_setting.pre_node = [] ∨
        spec_pre_nodes_running e.node_map_ s.w t.GetTaskSetting.launch_setting.pre_node) ↔
        spec_pre_nodes_running e.node_map_ s.w t.GetTaskSetting.launch_setting.pre_node := by
      constructor
      · rintro (h1 | h1)
        · rw [h1]
          intro n hn
          simp at hn
        · exact h1
      · exact Or.inr
    by_cases hc : (t.GetTaskSetting.launch_setting.pre_node.isEmpty || b) = true
    · rw [if_pos hc] at h
      cases h
      refine ⟨?_, ?_⟩
      · rw [hor, ← hb]
        simp only [Option.isSome_some, true_iff]
        rcases Bool.or_eq_true _ _ |>.mp hc with h1 | h1
        · rw [hb, List.isEmpty_iff.mp h1]
          intro n hn
          simp at hn
        · exact h1
      · intro s' hs'
        cases hs'
        refine ⟨rfl, rfl, by simp, ?_⟩
        intro p hp
        simp [Function.update, hp]
    · rw [if_neg hc] at h
      cases h
      refine ⟨?_, by intro s' hs'; cases hs'⟩
      rw [hor, ← hb]
      simp only [Option.isSome_none, Bool.false_eq_true, false_iff]
      intro hbt
      exact hc (by simp [hbt])

theorem unordered_map.find_map_raise (c : String → Bool) (m : List (String × Bool)) (k : String) :
    unordered_map.find (m.map (fun kv => if c kv.1 then (kv.1, true) else kv)) k =
      (unordered_map.find m k).map (fun b => b || c k) := by
  induction m with
  | nil => simp [unordered_map.find]
  | cons a m ih =>
    obtain ⟨ka, va⟩ := a
    simp only [List.map_cons]
    by_cases hc : c ka = true
    · rw [if_pos hc]
      simp only [unordered_map.find]
      by_cases hk : ka = k
      · subst hk
        simp [hc]
      · simp only [hk, if_false]
        exact ih
    · rw [if_neg hc]
      simp only [unordered_map.find]
      by_cases hk : ka = k
      · subst hk
        simp [hc]
      · simp only [hk, if_false]
        exact ih

/-- The loop of `Task::Init(init_node_list)`: the flags of the listed names are
raised, the others are kept, and the names returned are the listed names that
have a flag. -/
theorem Task.Init_loop_spec (init_node_list : List String) (m : List (String × Bool)) :
    ∀ result : List String,
    (Task.Init_loop init_node_list m result).1 =
      m.map (fun kv => if string_set.contains init_node_list kv.1 then (kv.1, true) else kv) ∧
    ∀ n, n ∈ (Task.Init_loop init_node_list m result).2 ↔
      n ∈ result ∨ (n ∈ init_node_list ∧ n ∈ unordered_map.keys m) := by
  induction m with
  | nil =>
    intro result
    simp [Task.Init_loop, unordered_map.keys]
  | cons a m ih =>
    intro result
    unfold Task.Init_loop
    by_cases hc : string_set.contains init_node_list a.1 = true
    · rw [if_pos hc]
      obtain ⟨i1, i2⟩ := ih (string_set.insert a.1 result)
      refine ⟨by simp [i1, hc], ?_⟩
      intro n
      simp only [i2, string_set.mem_insert, unordered_map.keys, List.map_cons, List.mem_cons]
      have hc' := (string_set.contains_eq_true _ _).mp hc
      constructor
      · rintro ((h | h) | h)
        · exact Or.inr ⟨by rw [h]; exact hc', Or.inl h⟩
        · exact Or.inl h
        · exact Or.inr ⟨h.1, Or.inr h.2⟩
      · rintro (h | ⟨h1, h2 | h2⟩)
        · exact Or.inl (Or.inr h)
        · exact Or.inl (Or.inl h2)
        · exact Or.inr ⟨h1, h2⟩
    · rw [if_neg hc]
      obtain ⟨i1, i2⟩ := ih result
      refine ⟨by simp [i1, hc], ?_⟩
      intro n
      simp only [i2, unordered_map.keys, List.map_cons, List.mem_cons]
      have hc' : a.1 ∉ init_node_list := fun h => hc ((string_set.contains_eq_true _ _).mpr h)
      constructor
      · rintro (h | h)
        · exact Or.inl h
        · exact Or.inr ⟨h.1, Or.inr h.2⟩
      · rintro (h | ⟨h1, h2 | h2⟩)
        · exact Or.inl h
        · exact absurd (h2 ▸ h1) hc'
        · exact Or.inr ⟨h1, h2⟩

/-- The method `Task::Init(init_node_list)`: a flag is set afterwards exactly when
its name is listed or it was set before; the names returned are the listed names
that have a flag; no other variable changes. -/
theorem Task.Init_subset_spec (v : TaskVars) (init_node_list : List String) :
    (∀ k, unordered_map.find (Task.Init_subset v init_node_list).1.node_init_flag_ k =
      (unordered_map.find v.node_init_flag_ k).map (fun b => b || decide (k ∈ init_node_list))) ∧
    (∀ n, n ∈ (Task.Init_subset v init_node_list).2 ↔
      n ∈ init_node_list ∧ n ∈ unordered_map.keys v.node_init_flag_) ∧
    (Task.Init_subset v init_node_list).1.state_ = v.state_ ∧
    (Task.Init_subset v init_node_list).1.node_output_flag_ = v.node_output_flag_ := by
  obtain ⟨i1, i2⟩ := Task.Init_loop_spec init_node_list v.node_init_flag_ []
  refine ⟨?_, ?_, rfl, rfl⟩
  · intro k
    simp only [Task.Init_subset, i1]
    exact unordered_map.find_map_raise (string_set.contains init_node_list) _ k
  · intro n
    simp only [Task.Init_subset, i2]
    simp

/-- The body of the start loop of `Transition`: the task is started exactly when
its `pre_node` list in the target group is empty or all its nodes are RUNNING; a
start first raises the init flags of `all_init_node_set`, then requests the
start, and touches nothing else. -/
theorem Executer.Transition_start_spec (e : Executer) (t : Task) (s : StartState)
    (o : Option StartState) (h : e.Transition_start t s = Except.ok o) :
    (o.isSome = true ↔ ((e.target_task_setting t.GetTaskName).pre_node = [] ∨
      spec_pre_nodes_running e.node_map_ s.w (e.target_task_setting t.GetTaskName).pre_node)) ∧
    ∀ s', o = some s' →
      s'.evs = s.evs ++ e.Transition_start_calls t ∧
      s'.w.nodes = s.w.nodes ∧
      s'.w.tasks t.self = TaskBase.TaskStart
        (Task.Init_subset (s.w.tasks t.self) (e.all_init_node_set t.GetTaskName)).1 ∧
      (∀ p, p ≠ t.self → s'.w.tasks p = s.w.tasks p) ∧
      s'.all_init_node_set_log = string_set.insert_range s.all_init_node_set_log
        (Task.Init_subset (s.w.tasks t.self) (e.all_init_node_set t.GetTaskName)).2 := by
  unfold Executer.Transition_start at h
  simp only at h
  cases hr : Executer.pre_node_ready e.node_map_ s.w
      (e.target_task_setting t.GetTaskName).pre_node with
  | error f => rw [hr] at h; exact Except.noConfusion h
  | ok b =>
    rw [hr] at h
    simp only at h
    have hb := Executer.pre_node_ready_spec _ _ _ b hr
    have hor : ((e.target_task_setting t.GetTaskName).pre_node = [] ∨
        spec_pre_nodes_running e.node_map_ s.w (e.target_task_setting t.GetTaskName).pre_node) ↔
        spec_pre_nodes_running e.node_map_ s.w (e.target_task_setting t.GetTaskName).pre_node := by
      constructor
      · rintro (h1 | h1)
        · rw [h1]
          intro n hn
          simp at hn
        · exact h1
      · exact Or.inr
    by_cases hc : ((e.target_task_setting t.GetTaskName).pre_node.isEmpty || b) = true
    · rw [if_pos hc] at h
      cases h
      refine ⟨?_, ?_⟩
      · rw [hor, ← hb]
        simp only [Option.isSome_some, true_iff]
        rcases Bool.or_eq_true _ _ |>.mp hc with h1 | h1
        · rw [hb, List.isEmpty_iff.mp h1]
          intro n hn
          simp at hn
        · exact h1
      · intro s' hs'
        cases hs'
        refine ⟨rfl, rfl, by simp, ?_, rfl⟩
        intro p hp
        simp [Function.update, hp]
    · rw [if_neg hc] at h
      cases h
      refine ⟨?_, by intro s' hs'; cases hs'⟩
      rw [hor, ← hb]
      simp only [Option.isSome_none, Bool.false_eq_true, false_iff]
      intro hbt
      exact hc (by simp [hbt])

theorem Executer.mem_all_init_node_set (e : Executer) (task_name n : String) :
    n ∈ e.all_init_node_set task_name ↔
      n ∈ (e.target_task_setting task_name).force_init_node ∨ n ∈ e.enter_node_set_ := by
  simp [Executer.all_init_node_set, string_set.mem_set_union, string_set.mem_insert_range]

/-! ## The invariant of the reachable states -/

theorem unordered_map.mem_of_find {α : Type} (m : List (String × α)) (k : String) (x : α)
    (h : unordered_map.find m k = some x) : (k, x) ∈ m := by
  induction m with
  | nil => simp [unordered_map.find] at h
  | cons a m ih =>
    obtain ⟨ka, va⟩ := a
    simp only [unordered_map.find] at h
    by_cases hk : ka = k
    · rw [if_pos hk] at h
      cases h
      rw [hk]
      exact List.mem_cons_self _ _
    · rw [if_neg hk] at h
      exact List.mem_cons_of_mem _ (ih h)

theorem unordered_map.mem_assign {α : Type} (m : List (String × α)) (k : String) (x : α)
    (y : String × α) (h : y ∈ unordered_map.assign m k x) : y ∈ m ∨ y = (k, x) := by
  induction m with
  | nil =>
    simp only [unordered_map.assign, List.mem_singleton] at h
    exact Or.inr h
  | cons a m ih =>
    obtain ⟨ka, va⟩ := a
    simp only [unordered_map.assign] at h
    by_cases hk : ka = k
    · rw [if_pos hk] at h
      rcases List.mem_cons.mp h with h | h
      · exact Or.inr (by rw [h, hk])
      · exact Or.inl (List.mem_cons_of_mem _ h)
    · rw [if_neg hk] at h
      rcases List.mem_cons.mp h with h | h
      · exact Or.inl (by rw [h]; exact List.mem_cons_self _ _)
      · rcases ih h with h | h
        · exact Or.inl (List.mem_cons_of_mem _ h)
        · exact Or.inr h

theorem unordered_map.nodup_keys_assign {α : Type} (m : List (String × α)) (k : String) (x : α)
    (h : (m.map Prod.fst).Nodup) : ((unordered_map.assign m k x).map Prod.fst).Nodup := by
  induction m with
  | nil => simp [unordered_map.assign]
  | cons a m ih =>
    obtain ⟨ka, va⟩ := a
    simp only [List.map_cons, List.nodup_cons] at h
    simp only [unordered_map.assign]
    by_cases hk : ka = k
    · rw [if_pos hk]
      simpa using h
    · rw [if_neg hk]
      simp only [List.map_cons, List.nodup_cons]
      refine ⟨?_, ih h.2⟩
      intro hmem
      obtain ⟨y, hy, hy1⟩ := List.mem_map.mp hmem
      rcases unordered_map.mem_assign m k x y hy with hy | hy
      · exact h.1 (List.mem_map.mpr ⟨y, hy, hy1⟩)
      · rw [hy] at hy1
        exact hk hy1.symm

/-- The task map built by one outer loop of `CreateTask`: distinct keys, and every
task object is stored under its name and lives at the address of that name. -/
theorem Executer.CreateTask_group_spec (node_map : NodeMap) (address : String → TaskPtr)
    (l : List (String × TaskSetting)) :
    ∀ (s r : List (String × Task) × World × List Event),
    Executer.CreateTask_group node_map address l s = Except.ok r →
    (s.1.map Prod.fst).Nodup →
    (∀ x ∈ s.1, x.2.self = address x.1 ∧ x.2.thread_name_ = x.1) →
    (r.1.map Prod.fst).Nodup ∧ ∀ x ∈ r.1, x.2.self = address x.1 ∧ x.2.thread_name_ = x.1 := by
  induction l with
  | nil =>
    intro s r h h1 h2
    cases h
    exact ⟨h1, h2⟩
  | cons c rest ih =>
    intro s r h h1 h2
    unfold Executer.CreateTask_group at h
    cases hn : Executer.CreateTask_nodes node_map c.2.node_list with
    | error f => rw [hn] at h; exact Except.noConfusion h
    | ok ps =>
      rw [hn] at h
      simp only at h
      refine ih _ r h (unordered_map.nodup_keys_assign _ _ _ h1) ?_
      intro x hx
      rcases unordered_map.mem_assign _ _ _ x hx with hx | hx
      · exact h2 x hx
      · rw [hx]
        exact ⟨rfl, rfl⟩

theorem Executer.CreateTask_fields (e : Executer) (w : World) (r : Executer × World × List Event)
    (h : e.CreateTask w = Except.ok r) :
    ∃ l1 l2 x,
      r.1 = { e with resident_group_task_list_ := l1, standby_group_task_list_ := l2,
                     exclusive_group_set_ := x } ∧
      ((e.resident_group_task_list_.map Prod.fst).Nodup →
        (∀ x ∈ e.resident_group_task_list_,
          x.2.self = TaskPtr.resident x.1 ∧ x.2.thread_name_ = x.1) →
        (l1.map Prod.fst).Nodup ∧
          ∀ x ∈ l1, x.2.self = TaskPtr.resident x.1 ∧ x.2.thread_name_ = x.1) ∧
      ((e.standby_group_task_list_.map Prod.fst).Nodup →
        (∀ x ∈ e.standby_group_task_list_,
          x.2.self = TaskPtr.standby x.1 ∧ x.2.thread_name_ = x.1) →
        (l2.map Prod.fst).Nodup ∧
          ∀ x ∈ l2, x.2.self = TaskPtr.standby x.1 ∧ x.2.thread_name_ = x.1) := by
  unfold Executer.CreateTask at h
  cases h1 : Executer.CreateTask_group e.node_map_ TaskPtr.resident
      e.executer_config_.task_list.resident_group (e.resident_group_task_list_, w, []) with
  | error f => rw [h1] at h; exact Except.noConfusion h
  | ok r1 =>
    rw [h1] at h
    simp only at h
    cases h2 : Executer.CreateTask_group e.node_map_ TaskPtr.standby
        e.executer_config_.task_list.standby_group
        (e.standby_group_task_list_, r1.2.1, r1.2.2) with
    | error f => rw [h2] at h; exact Except.noConfusion h
    | ok r2 =>
      rw [h2] at h
      simp only at h
      cases h
      exact ⟨r1.1, r2.1, _, rfl,
        Executer.CreateTask_group_spec _ _ _ _ r1 h1,
        Executer.CreateTask_group_spec _ _ _ _ r2 h2⟩

/-- The invariant depends on the task maps, the task and node sets, and, during a
transition, on the current group only. -/
theorem Executer.inv_transfer (e e' : Executer) (h : e.inv)
    (h1 : e'.standby_group_task_list_ = e.standby_group_task_list_)
    (h2 : e'.resident_group_task_list_ = e.resident_group_task_list_)
    (h3 : e'.executer_config_ = e.executer_config_)
    (h4 : e'.target_task_set_ = e.target_task_set_)
    (h5 : e'.current_task_set_ = e.current_task_set_)
    (h6 : e'.target_node_set_ = e.target_node_set_)
    (h7 : e'.current_node_set_ = e.current_node_set_)
    (h8 : e'.exit_node_set_ = e.exit_node_set_)
    (h9 : e'.enter_node_set_ = e.enter_node_set_)
    (h10 : e'.is_transition_ = true →
      e.is_transition_ = true ∧ e'.current_group_ = e.current_group_) : e'.inv := by
  obtain ⟨a1, a2, a3, a4, a5, a6, a7, a8, a9, a10⟩ := h
  refine ⟨?_, ?_, ?_, ?_, ?_, ?_, ?_, ?_, ?_, ?_⟩
  · rw [h1]; exact a1
  · rw [h2]; exact a2
  · rw [h2]; exact a3
  · unfold Executer.is_task_set at a4 ⊢
    rw [h1, h4]; exact a4
  · unfold Executer.is_task_set at a5 ⊢
    rw [h1, h5]; exact a5
  · rw [h6]; exact a6
  · rw [h7]; exact a7
  · rw [h8, h7, h6]; exact a8
  · rw [h9, h7, h6]; exact a9
  · intro ht
    obtain ⟨ht1, hc⟩ := h10 ht
    rw [h5, a10 ht1]
    unfold Executer.collect_current Executer.collect
    rw [hc, h3]
    have hcg : ∀ l s, Executer.collect_group e' l s = Executer.collect_group e l s := by
      intro l
      induction l with
      | nil => intro s; rfl
      | cons c rest ih =>
        intro s
        simp only [Executer.collect_group, h1, h3, ih]
    simp only [hcg]

theorem Executer.inv_boot (cfg : ExecuterConfig) (node_map : NodeMap) (w : World)
    (r : Executer × World × List Event)
    (h : (Executer.ctor cfg node_map).CreateTask w = Except.ok r) : r.1.inv := by
  obtain ⟨l1, l2, x, hr, g1, g2⟩ := Executer.CreateTask_fields _ w r h
  have g1' := g1 (by simp [Executer.ctor]) (by simp [Executer.ctor])
  have g2' := g2 (by simp [Executer.ctor]) (by simp [Executer.ctor])
  rw [hr]
  refine ⟨?_, g1'.2, g1'.1, ?_, ?_, ?_, ?_, ?_, ?_, ?_⟩
  · intro k t hk
    exact g2'.2 (k, t) (unordered_map.mem_of_find l2 k t hk)
  · exact ⟨by simp [Executer.ctor], by simp [Executer.ctor]⟩
  · exact ⟨by simp [Executer.ctor], by simp [Executer.ctor]⟩
  · exact string_set.is_set_nil
  · exact string_set.is_set_nil
  · rfl
  · rfl
  · intro ht
    simp [Executer.ctor] at ht

/-- The task set collected by `TransitionCheck` for a group is a set of standby
task objects. -/
theorem Executer.collect_group_task_set (e : Executer)
    (hs : ∀ k t, unordered_map.find e.standby_group_task_list_ k = some t →
      t.self = TaskPtr.standby k ∧ t.thread_name_ = k)
    (l : List (String × GroupTaskSetting)) :
    ∀ s : List Task × List String, e.is_task_set s.1 →
      e.is_task_set (Executer.collect_group e l s).1 := by
  induction l with
  | nil =>
    intro s h
    exact h
  | cons c rest ih =>
    intro s h
    simp only [Executer.collect_group]
    apply ih
    simp only
    cases hf : unordered_map.find e.standby_group_task_list_ c.2.task_name with
    | none => exact h
    | some task =>
      simp only
      unfold task_set.insert
      split_ifs with hany
      · exact h
      · obtain ⟨n1, n2⟩ := h
        refine ⟨?_, ?_⟩
        · rw [List.map_append, List.nodup_append]
          refine ⟨n1, by simp, ?_⟩
          intro p hp1 hp2
          simp only [List.map_cons, List.map_nil, List.mem_singleton] at hp2
          obtain ⟨u, hu, hup⟩ := List.mem_map.mp hp1
          apply hany
          rw [List.any_eq_true]
          exact ⟨u, hu, by simp [hup, hp2]⟩
        · intro t ht
          rcases List.mem_append.mp ht with ht | ht
          · exact n2 t ht
          · simp only [List.mem_singleton] at ht
            rw [ht]
            have := (hs _ _ hf).2
            unfold Task.GetTaskName
            rw [this]
            exact hf

theorem Executer.collect_group_node_set (e : Executer) (l : List (String × GroupTaskSetting)) :
    ∀ s : List Task × List String, string_set.is_set s.2 →
      string_set.is_set (Executer.collect_group e l s).2 := by
  induction l with
  | nil =>
    intro s h
    exact h
  | cons c rest ih =>
    intro s h
    simp only [Executer.collect_group]
    apply ih
    simp only
    cases unordered_map.find e.executer_config_.task_list.standby_group c.2.task_name with
    | none => exact h
    | some ts => exact string_set.is_set_insert_range _ _ h

theorem Executer.collect_sets (e : Executer)
    (hs : ∀ k t, unordered_map.find e.standby_group_task_list_ k = some t →
      t.self = TaskPtr.standby k ∧ t.thread_name_ = k) (group : String) :
    e.is_task_set (Executer.collect e group).1 ∧ string_set.is_set (Executer.collect e group).2 := by
  unfold Executer.collect
  cases unordered_map.find e.executer_config_.exclusive_task_group group with
  | none => exact ⟨⟨by simp, by simp⟩, string_set.is_set_nil⟩
  | some g =>
    exact ⟨Executer.collect_group_task_set e hs _ _ ⟨by simp, by simp⟩,
      Executer.collect_group_node_set e _ _ string_set.is_set_nil⟩

theorem Executer.collect_current_sets (e : Executer)
    (hs : ∀ k t, unordered_map.find e.standby_group_task_list_ k = some t →
      t.self = TaskPtr.standby k ∧ t.thread_name_ = k) :
    e.is_task_set e.collect_current.1 ∧ string_set.is_set e.collect_current.2 := by
  unfold Executer.collect_current
  split_ifs
  · exact Executer.collect_sets e hs _
  · exact ⟨⟨by simp, by simp⟩, string_set.is_set_nil⟩

/-- The collected sets depend on the task map, the configuration and the current
group only. -/
theorem Executer.collect_current_congr (e e' : Executer)
    (h1 : e'.standby_group_task_list_ = e.standby_group_task_list_)
    (h3 : e'.executer_config_ = e.executer_config_)
    (hc : e'.current_group_ = e.current_group_) :
    e'.collect_current = e.collect_current := by
  unfold Executer.collect_current Executer.collect
  rw [hc, h3]
  have hcg : ∀ l s, Executer.collect_group e' l s = Executer.collect_group e l s := by
    intro l
    induction l with
    | nil => intro s; rfl
    | cons c rest ih =>
      intro s
      simp only [Executer.collect_group, h1, h3, ih]
  simp only [hcg]

/-- The three outcomes of `TransitionCheck`: nothing, a rejected name that is
logged, and a decided transition. -/
theorem Executer.TransitionCheck_cases (e : Executer) :
    e.TransitionCheck = (e, []) ∨
    (e.is_transition_ = false ∧ e.desired_group_ ≠ e.current_group_ ∧
      e.desired_group_ ∉ e.exclusive_group_set_ ∧
      e.TransitionCheck =
        ({ e with desired_group_history_ := e.desired_group_ },
         [Event.logger_error "[Executer] Target group is not an exclusive group."
            [e.desired_group_]])) ∨
    (e.is_transition_ = false ∧ e.desired_group_ ≠ e.current_group_ ∧
      e.desired_group_ ∈ e.exclusive_group_set_ ∧
      e.TransitionCheck =
        ({ e with
           target_task_set_ := (Executer.collect e e.desired_group_).1
           current_task_set_ := e.collect_current.1
           target_node_set_ := (Executer.collect e e.desired_group_).2
           current_node_set_ := e.collect_current.2
           exit_node_set_ := string_set.set_difference e.collect_current.2
             (Executer.collect e e.desired_group_).2
           enter_node_set_ := string_set.set_difference (Executer.collect e e.desired_group_).2
             e.collect_current.2
           all_node_exit_check_ := false
           all_node_enter_check_ := false
           is_transition_ := true
           task_stop_flag_ := true
           task_start_flag_ := true
           all_current_task_stop_ := false
           target_group_ := e.desired_group_ },
         [Event.logger_info "[Executer] Transition from group to group"
            [e.current_group_, e.desired_group_]])) := by
  by_cases h1 : e.is_transition_ = true
  · exact Or.inl (Executer.TransitionCheck_in_transition e h1)
  · have h1' : e.is_transition_ = false := by simpa using h1
    by_cases h2 : e.desired_group_ = e.current_group_
    · left
      simp [Executer.TransitionCheck, h2]
    · by_cases h3 : e.desired_group_ ∈ e.exclusive_group_set_
      · right; right
        exact ⟨h1', h2, h3, Executer.TransitionCheck_decide e h1' h2 h3⟩
      · have hr := Executer.TransitionCheck_reject e h1' h2 h3
        by_cases h4 : e.desired_group_ = e.desired_group_history_
        · left
          rw [hr, if_pos h4]
          exact Prod.ext (Executer.eta_history e _ _ rfl h4.symm) rfl
        · right; left
          rw [if_neg h4] at hr
          exact ⟨h1', h2, h3, hr⟩

theorem Executer.TransitionCheck_inv (e : Executer) (h : e.inv) : e.TransitionCheck.1.inv := by
  rcases Executer.TransitionCheck_cases e with hc | ⟨_, _, _, hc⟩ | ⟨_, _, _, hc⟩
  · rw [hc]; exact h
  · rw [hc]
    exact Executer.inv_transfer e _ h rfl rfl rfl rfl rfl rfl rfl rfl rfl (fun ht => ⟨ht, rfl⟩)
  · rw [hc]
    have c1 := Executer.collect_sets e h.standby e.desired_group_
    have c2 := Executer.collect_current_sets e h.standby
    refine ⟨h.standby, h.resident, h.resident_keys, c1.1, c2.1, c1.2, c2.2, rfl, rfl, ?_⟩
    intro _
    show e.collect_current.1 = _
    refine congrArg Prod.fst (Eq.symm ?_)
    apply Executer.collect_current_congr <;> rfl

theorem Executer.Transition_inv (env : TickEnv) (e : Executer) (w : World)
    (r : Executer × World × List Event) (h : e.inv) (hr : e.Transition env w = Except.ok r) :
    r.1.inv := by
  unfold Executer.Transition at hr
  split_ifs at hr with h1 h2
  · have h3 := Executer.Transition_finish_fst env _ _ _ r hr
    rw [Executer.Transition_stop_fst] at h3
    rw [h3]
    exact Executer.inv_transfer e _ h rfl rfl rfl rfl rfl rfl rfl rfl rfl
      (fun ht => by simp at ht)
  · cases hr
    rw [Executer.Transition_stop_fst]
    exact Executer.inv_transfer e _ h rfl rfl rfl rfl rfl rfl rfl rfl rfl (fun ht => ⟨ht, rfl⟩)
  · rw [(Executer.Transition_poll_fst env e w r hr).1]
    exact Executer.inv_transfer e _ h rfl rfl rfl rfl rfl rfl rfl rfl rfl (fun ht => ⟨ht, rfl⟩)

theorem Executer.Subscribe_inv (e : Executer) (msg : Option String) (h : e.inv) :
    (e.Subscribe msg).inv := by
  cases msg with
  | none => exact h
  | some d =>
    exact Executer.inv_transfer e _ h rfl rfl rfl rfl rfl rfl rfl rfl rfl (fun ht => ⟨ht, rfl⟩)

theorem Executer.Run_inv (env : TickEnv) (e : Executer) (w : World)
    (r : Executer × World × List Event) (h : e.inv) (hr : e.Run env w = Except.ok r) :
    r.1.inv := by
  have h1 := Executer.TransitionCheck_inv _ (Executer.Subscribe_inv e env.msg h)
  rcases Executer.Run_cases env e w r hr with ⟨_, r', hr', rfl⟩ | ⟨_, rfl⟩
  · exact Executer.Transition_inv env _ w r' h1 hr'
  · exact h1

/-- Every reachable state of the orchestrator satisfies the invariant. -/
theorem Executer.Reachable.inv (e : Executer) (h : Executer.Reachable e) : e.inv := by
  induction h with
  | boot cfg node_map w r h => exact Executer.inv_boot cfg node_map w r h
  | tick env e w r _ h ih => exact Executer.Run_inv env e w r ih h

/-! ## The shape of one activation of `Run` -/

theorem Executer.Subscribe_eq (e : Executer) (msg : Option String) :
    e.Subscribe msg = { e with desired_group_ := (e.Subscribe msg).desired_group_ } := by
  cases msg <;> rfl

/-- The start loop makes the calls of its body only, each for a task of its list. -/
theorem Executer.start_loop_events (others : Nat → World → World)
    (body : Task → StartState → Except Fault (Option StartState)) (f : Task → List Event)
    (hbody : ∀ t s s', body t s = Except.ok (some s') → s'.evs = s.evs ++ f t)
    (fuel : Nat) :
    ∀ (list : List (Bool × Task)) (c : Nat) (ws : List String) (s : StartState)
      (r : List (Bool × Task) × Nat × List String × StartState),
    Executer.start_loop others body fuel list (c, ws, s) = Except.ok r →
    ∃ started : List Task,
      r.2.2.2.evs = s.evs ++ started.flatMap f ∧ ∀ t ∈ started, t ∈ list.map Prod.snd := by
  induction fuel with
  | zero =>
    intro list c ws s r h
    unfold Executer.start_loop at h
    split_ifs at h
    cases h
    exact ⟨[], by simp, by simp⟩
  | succ fuel ih =>
    intro list c ws s r h
    unfold Executer.start_loop at h
    split_ifs at h
    · cases h
      exact ⟨[], by simp, by simp⟩
    · cases hs : Executer.start_sweep others body list (c, ws, s) with
      | error e => rw [hs] at h; exact Except.noConfusion h
      | ok r1 =>
        rw [hs] at h
        simp only at h
        obtain ⟨started1, i1, i2, i3, _⟩ :=
          Executer.start_sweep_spec others body f hbody list c ws s r1 hs
        obtain ⟨started2, j1, j2⟩ := ih r1.1 r1.2.1 r1.2.2.1 r1.2.2.2 r h
        refine ⟨started1 ++ started2, ?_, ?_⟩
        · rw [j1, i1]
          simp
        · intro t ht
          rcases List.mem_append.mp ht with ht | ht
          · have h1 : t ∈ (list.filter (fun x => !x.1)).map Prod.snd :=
              i3.mem_iff.mpr (List.mem_append_left _ ht)
            obtain ⟨x, hx, hxt⟩ := List.mem_map.mp h1
            exact List.mem_map.mpr ⟨x, (List.mem_filter.mp hx).1, hxt⟩
          · rw [← i2]
            exact j2 t ht

theorem Executer.wait_set_matches_init (tasks : List Task) :
    Executer.wait_set_matches (Executer.wait_list tasks) (Executer.wait_set tasks) := by
  intro n
  simp only [Executer.wait_set, Executer.wait_list, string_set.mem_insert_range, List.mem_map,
    List.not_mem_nil, false_or]
  constructor
  · rintro ⟨t, ht, rfl⟩
    exact ⟨(false, t), ⟨t, ht, rfl⟩, rfl, rfl⟩
  · rintro ⟨x, ⟨t, ht, rfl⟩, _, hn⟩
    exact ⟨t, ht, hn⟩

theorem Executer.wait_list_unstarted (tasks : List Task) :
    ((Executer.wait_list tasks).filter (fun x => !x.1)).map Prod.snd = tasks := by
  induction tasks with
  | nil => rfl
  | cons t rest ih =>
    simp only [Executer.wait_list, List.map_cons, List.filter_cons, Bool.not_false, if_true]
    simp only [Executer.wait_list] at ih
    rw [ih]

theorem Executer.wait_list_tasks (tasks : List Task) :
    (Executer.wait_list tasks).map Prod.snd = tasks := by
  simp [Executer.wait_list]

/-- The poll branch of `Transition`. -/
theorem Executer.Transition_poll_spec (env : TickEnv) (e : Executer) (w : World)
    (r : Executer × World × List Event) (h : Executer.Transition_poll env e w = Except.ok r) :
    ∃ x y, Executer.all_of_TryExit e.node_map_ env.TryExit e.exit_node_set_ = Except.ok x ∧
      Executer.all_of_TryEnter e.node_map_ env.TryEnter e.enter_node_set_ = Except.ok y ∧
      r = ({ e with all_node_exit_check_ := x.1, all_node_enter_check_ := y.1 }, w, x.2 ++ y.2) := by
  unfold Executer.Transition_poll at h
  split at h
  · exact Except.noConfusion h
  · rename_i x hx
    split at h
    · exact Except.noConfusion h
    · rename_i y hy
      cases h
      exact ⟨x, y, hx, hy, rfl⟩

/-- The stop block of `Transition`. -/
theorem Executer.Transition_stop_spec (e : Executer) (w : World) :
    (Executer.Transition_stop e w).2.2 =
      (if e.task_stop_flag_ then e.current_task_set_.map (fun t => Event.TaskStop t.self)
       else []) ∧
    (Executer.Transition_stop e w).2.1.nodes = w.nodes ∧
    ∀ p, p ∉ e.current_task_set_.map Task.self →
      (Executer.Transition_stop e w).2.1.tasks p = w.tasks p := by
  unfold Executer.Transition_stop
  obtain ⟨i1, i2, i3⟩ := Executer.stop_tasks_spec e.current_task_set_ w
  split_ifs with h
  · exact ⟨i1, i2, i3⟩
  · exact ⟨rfl, rfl, fun _ _ => rfl⟩

theorem Executer.Transition_start_calls_shape (e : Executer) (t : Task) (s s' : StartState)
    (h : e.Transition_start t s = Except.ok (some s')) :
    s'.evs = s.evs ++ e.Transition_start_calls t :=
  ((Executer.Transition_start_spec e t s (some s') h).2 s' rfl).1

theorem Executer.InitTask_start_calls_shape (e : Executer) (t : Task) (s s' : StartState)
    (h : e.InitTask_start t s = Except.ok (some s')) :
    s'.evs = s.evs ++ Executer.InitTask_start_calls t :=
  ((Executer.InitTask_start_spec e t s (some s') h).2 s' rfl).1

/-- The completing block of `Transition`: the members written, and the calls made:
the exit calls of every exit node, then the start calls of target tasks, then
the final log line. -/
theorem Executer.Transition_finish_spec (env : TickEnv) (e : Executer) (w : World)
    (evs : List Event) (r : Executer × World × List Event)
    (h : Executer.Transition_finish env e w evs = Except.ok r) :
    r.1 = { e with current_group_ := e.target_group_, is_transition_ := false } ∧
    (∀ n ∈ e.exit_node_set_, ∃ p, e.node_map_.GetNodePtr n = Except.ok p) ∧
    ∃ (started : List Task) (text : String) (args : List String),
      r.2.2 = evs ++
        (spec_node_ptrs e.node_map_ e.exit_node_set_).flatMap
          (fun p => [Event.AfterExit p, Event.SetState p NodeState.STANDBY]) ++
        started.flatMap e.Transition_start_calls ++ [Event.logger_info text args] ∧
      (∀ t ∈ started, t ∈ e.target_task_set_) ∧
      ((e.target_task_set_.map Task.GetTaskName).Nodup → List.Perm e.target_task_set_ started) := by
  have h0 := Executer.Transition_finish_fst env e w evs r h
  unfold Executer.Transition_finish at h
  cases hx : Executer.exit_nodes e.node_map_ e.exit_node_set_ w with
  | error f => rw [hx] at h; exact Except.noConfusion h
  | ok exited =>
    rw [hx] at h
    simp only at h
    obtain ⟨x1, x2, _, _, _⟩ := Executer.exit_nodes_spec _ _ _ exited hx
    cases hl : Executer.start_loop env.others e.Transition_start env.fuel
        (Executer.wait_list e.target_task_set_)
        (0, Executer.wait_set e.target_task_set_,
         { w := exited.1, evs := evs ++ exited.2, all_init_node_set_log := [] }) with
    | error f => rw [hl] at h; exact Except.noConfusion h
    | ok r1 =>
      rw [hl] at h
      simp only at h
      cases h
      obtain ⟨started, j1, j2⟩ := Executer.start_loop_events env.others e.Transition_start
        e.Transition_start_calls (Executer.Transition_start_calls_shape e) _ _ _ _ _ r1 hl
      by_cases hnd : (e.target_task_set_.map Task.GetTaskName).Nodup
      · obtain ⟨started', k1, _, k3, _, _⟩ := Executer.start_loop_spec env.others
          e.Transition_start e.Transition_start_calls (Executer.Transition_start_calls_shape e)
          _ _ _ _ _ r1 hl (Executer.wait_set_matches_init _)
          (by
            have : (Executer.wait_list e.target_task_set_).map (fun x => x.2.GetTaskName) =
                e.target_task_set_.map Task.GetTaskName := by
              simp [Executer.wait_list]
            rw [this]
            exact hnd)
        rw [Executer.wait_list_unstarted] at k3
        refine ⟨h0, x1, started', "[Executer] Transition from to group finished.",
          [e.current_group_, e.target_group_, JointStrSet e.exit_node_set_ ",",
           JointStrSet e.enter_node_set_ ",", JointStrSet r1.2.2.2.all_init_node_set_log ",",
           JointStrSet (Executer.running_node_set e.target_task_set_) ","], ?_, ?_, fun _ => k3⟩
        · simp only
          rw [k1, x2]
        · intro t ht
          exact k3.mem_iff.mpr ht
      · refine ⟨h0, x1, started, "[Executer] Transition from to group finished.",
          [e.current_group_, e.target_group_, JointStrSet e.exit_node_set_ ",",
           JointStrSet e.enter_node_set_ ",", JointStrSet r1.2.2.2.all_init_node_set_log ",",
           JointStrSet (Executer.running_node_set e.target_task_set_) ","], ?_, ?_, fun hn => absurd hn hnd⟩
        · simp only
          rw [j1, x2]
        · intro t ht
          have := j2 t ht
          rwa [Executer.wait_list_tasks] at this

/-- The four kinds of activation of `Run`: no transition in progress afterwards;
a poll of the handshakes; a wait for the current tasks to stop; the completion.
The state `e1` is the one left by the subscription and `TransitionCheck`. -/
theorem Executer.Run_phases (env : TickEnv) (e : Executer) (w : World)
    (r : Executer × World × List Event) (h : e.Run env w = Except.ok r) :
    ((e.Subscribe env.msg).TransitionCheck.1.is_transition_ = false ∧
      r = ((e.Subscribe env.msg).TransitionCheck.1, w, (e.Subscribe env.msg).TransitionCheck.2)) ∨
    ((e.Subscribe env.msg).TransitionCheck.1.is_transition_ = true ∧
      ¬ ((e.Subscribe env.msg).TransitionCheck.1.all_node_exit_check_ = true ∧
         (e.Subscribe env.msg).TransitionCheck.1.all_node_enter_check_ = true) ∧
      ∃ x, Executer.Transition_poll env (e.Subscribe env.msg).TransitionCheck.1 w = Except.ok x ∧
        r = (x.1, x.2.1, (e.Subscribe env.msg).TransitionCheck.2 ++ x.2.2)) ∨
    (e.is_transition_ = true ∧ e.all_node_exit_check_ = true ∧ e.all_node_enter_check_ = true ∧
      e.all_current_task_stop_ = false ∧
      r = ({ (Executer.Transition_stop (e.Subscribe env.msg) w).1 with
             all_current_task_stop_ :=
               Executer.all_standby (Executer.Transition_stop (e.Subscribe env.msg) w).2.1
                 e.current_task_set_ },
           (Executer.Transition_stop (e.Subscribe env.msg) w).2.1,
           (Executer.Transition_stop (e.Subscribe env.msg) w).2.2)) ∨
    (e.is_transition_ = true ∧ e.all_node_exit_check_ = true ∧ e.all_node_enter_check_ = true ∧
      e.all_current_task_stop_ = true ∧
      ∃ x, Executer.Transition_finish env (Executer.Transition_stop (e.Subscribe env.msg) w).1
          (Executer.Transition_stop (e.Subscribe env.msg) w).2.1
          (Executer.Transition_stop (e.Subscribe env.msg) w).2.2 = Except.ok x ∧
        r = x) := by
  rcases Executer.Run_cases env e w r h with ⟨h1, r', hr', rfl⟩ | ⟨h1, rfl⟩
  · by_cases hflags : (e.Subscribe env.msg).TransitionCheck.1.all_node_exit_check_ = true ∧
        (e.Subscribe env.msg).TransitionCheck.1.all_node_enter_check_ = true
    · -- the flags are set, so the transition was in progress before this activation
      have ht : (e.Subscribe env.msg).is_transition_ = true := by
        by_contra hn
        have := Executer.TransitionCheck_started _ (by simpa using hn) h1
        rw [this.1] at hflags
        exact absurd hflags.1 (by simp)
      have hc := Executer.TransitionCheck_in_transition _ ht
      rw [hc] at hr' hflags ⊢
      simp only at hr' hflags ⊢
      have ht' : e.is_transition_ = true := by
        rw [← Executer.Subscribe_is_transition e env.msg]; exact ht
      have hf1 : e.all_node_exit_check_ = true := by
        have := hflags.1
        rw [Executer.Subscribe_eq] at this
        exact this
      have hf2 : e.all_node_enter_check_ = true := by
        have := hflags.2
        rw [Executer.Subscribe_eq] at this
        exact this
      unfold Executer.Transition at hr'
      rw [if_pos (by simp [hflags.1, hflags.2])] at hr'
      by_cases hs : (Executer.Transition_stop (e.Subscribe env.msg) w).1.all_current_task_stop_ = true
      · rw [if_pos hs] at hr'
        right; right; right
        refine ⟨ht', hf1, hf2, ?_, r', hr', by simp⟩
        rw [Executer.Transition_stop_fst, Executer.Subscribe_eq] at hs
        exact hs
      · rw [if_neg hs] at hr'
        cases hr'
        right; right; left
        refine ⟨ht', hf1, hf2, ?_, ?_⟩
        · rw [Executer.Transition_stop_fst, Executer.Subscribe_eq] at hs
          simpa using hs
        · have hcur : (Executer.Transition_stop (e.Subscribe env.msg) w).1.current_task_set_ =
              e.current_task_set_ := by
            rw [Executer.Transition_stop_fst, Executer.Subscribe_eq]
          simp [hcur]
    · right; left
      unfold Executer.Transition at hr'
      rw [if_neg (by simpa using hflags)] at hr'
      exact ⟨h1, hflags, r', hr', rfl⟩
  · exact Or.inl ⟨h1, rfl⟩

/-! ## The handshake and the one-shot stop -/

/-- `TransitionCheck` makes no call besides writing a log line. -/
theorem Executer.TransitionCheck_events (e : Executer) :
    ∀ ev ∈ e.TransitionCheck.2, ∃ text args,
      ev = Event.logger_info text args ∨ ev = Event.logger_error text args := by
  rcases Executer.TransitionCheck_cases e with hc | ⟨_, _, _, hc⟩ | ⟨_, _, _, hc⟩ <;>
    rw [hc] <;> intro ev hev
  · simp at hev
  · simp only [List.mem_singleton] at hev
    exact ⟨_, _, Or.inr hev⟩
  · simp only [List.mem_singleton] at hev
    exact ⟨_, _, Or.inl hev⟩

/-- The poll branch makes `TryExit` and `TryEnter` calls only. -/
theorem Executer.Transition_poll_events (env : TickEnv) (e : Executer) (w : World)
    (r : Executer × World × List Event) (h : Executer.Transition_poll env e w = Except.ok r) :
    ∀ ev ∈ r.2.2,
      (∃ n ∈ e.exit_node_set_, ∃ p, e.node_map_.GetNodePtr n = Except.ok p ∧
        ev = Event.TryExit p (env.TryExit n)) ∨
      (∃ n ∈ e.enter_node_set_, ∃ p, e.node_map_.GetNodePtr n = Except.ok p ∧
        ev = Event.TryEnter p (env.TryEnter n)) := by
  obtain ⟨x, y, hx, hy, rfl⟩ := Executer.Transition_poll_spec env e w r h
  intro ev hev
  rcases List.mem_append.mp hev with hev | hev
  · exact Or.inl ((Executer.all_of_TryExit_spec _ _ _ x hx).2.1 ev hev)
  · exact Or.inr ((Executer.all_of_TryEnter_spec _ _ _ y hy).2.1 ev hev)

theorem Executer.Transition_start_calls_count_stop (e : Executer) (started : List Task)
    (t : TaskPtr) : (started.flatMap e.Transition_start_calls).count (Event.TaskStop t) = 0 := by
  apply List.count_eq_zero.mpr
  intro hmem
  obtain ⟨task, _, ht⟩ := List.mem_flatMap.mp hmem
  simp [Executer.Transition_start_calls] at ht

theorem Executer.exit_calls_count_stop (ptrs : List NodePtr) (t : TaskPtr) :
    (ptrs.flatMap (fun p => [Event.AfterExit p, Event.SetState p NodeState.STANDBY])).count
      (Event.TaskStop t) = 0 := by
  apply List.count_eq_zero.mpr
  intro hmem
  obtain ⟨p, _, ht⟩ := List.mem_flatMap.mp hmem
  simp at ht

theorem Executer.stop_calls_count (tasks : List Task) (t : TaskPtr) :
    (tasks.map (fun task => Event.TaskStop task.self)).count (Event.TaskStop t) =
      (tasks.map Task.self).count t := by
  induction tasks with
  | nil => rfl
  | cons a rest ih =>
    simp only [List.map_cons, List.count_cons, ih]
    by_cases h : a.self = t
    · simp [h]
    · simp [h]

/-- The `TaskStop` calls of one activation: one for each task of the current task
set when the activation clears `task_stop_flag_`, none otherwise; the flag is
never raised while a transition is in progress and is down after the completion. -/
theorem Executer.Run_stop_count (env : TickEnv) (e : Executer) (w : World)
    (r : Executer × World × List Event) (h : e.Run env w = Except.ok r) :
    (∀ t, r.2.2.count (Event.TaskStop t) =
      if e.is_transition_ = true ∧ e.task_stop_flag_ = true ∧ r.1.task_stop_flag_ = false then
        (e.current_task_set_.map Task.self).count t
      else 0) ∧
    (e.is_transition_ = true → r.1.current_task_set_ = e.current_task_set_ ∧
      (r.1.task_stop_flag_ = true → e.task_stop_flag_ = true) ∧
      (r.1.is_transition_ = false → r.1.task_stop_flag_ = false)) ∧
    (e.is_transition_ = false → r.1.is_transition_ = true → r.1.task_stop_flag_ = true) := by
  have hlog : ∀ (l : List Event) (t : TaskPtr),
      (∀ ev ∈ l, ∃ text args,
        ev = Event.logger_info text args ∨ ev = Event.logger_error text args) →
      l.count (Event.TaskStop t) = 0 := by
    intro l t hl
    apply List.count_eq_zero.mpr
    intro hmem
    obtain ⟨_, _, h1 | h1⟩ := hl _ hmem <;> exact Event.noConfusion h1
  have hsub_t : (e.Subscribe env.msg).is_transition_ = e.is_transition_ :=
    Executer.Subscribe_is_transition e env.msg
  have hflag : (e.Subscribe env.msg).task_stop_flag_ = e.task_stop_flag_ := by
    rw [Executer.Subscribe_eq]
  have hcur : (e.Subscribe env.msg).current_task_set_ = e.current_task_set_ := by
    rw [Executer.Subscribe_eq]
  rcases Executer.Run_phases env e w r h with ⟨h1, hr⟩ | ⟨h1, hflags, x, hx, hr⟩ |
      ⟨ht, hf1, hf2, hs, hr⟩ | ⟨ht, hf1, hf2, hs, x, hx, hr⟩
  · -- no transition in progress after the activation
    have hnt : e.is_transition_ = false := by
      by_contra hn
      have hn' : (e.Subscribe env.msg).is_transition_ = true := by
        rw [hsub_t]; simpa using hn
      rw [Executer.TransitionCheck_in_transition _ hn'] at h1
      rw [hn'] at h1
      exact Bool.noConfusion h1
    have hr1 : r.1.is_transition_ = false := by rw [hr]; exact h1
    have hr2 : r.2.2 = (e.Subscribe env.msg).TransitionCheck.2 := by rw [hr]
    refine ⟨?_, ?_, ?_⟩
    · intro t
      rw [hr2, hlog _ t (Executer.TransitionCheck_events _), if_neg]
      rw [hnt]
      simp
    · intro ht
      rw [hnt] at ht
      exact Bool.noConfusion ht
    · intro _ ht
      rw [hr1] at ht
      exact Bool.noConfusion ht
  · -- a poll
    have hx1 := (Executer.Transition_poll_fst env _ w x hx).1
    have hr2 : r.2.2 = (e.Subscribe env.msg).TransitionCheck.2 ++ x.2.2 := by rw [hr]
    have hrf : r.1.task_stop_flag_ = (e.Subscribe env.msg).TransitionCheck.1.task_stop_flag_ := by
      rw [hr]; simp only; rw [hx1]
    have hrc : r.1.current_task_set_ =
        (e.Subscribe env.msg).TransitionCheck.1.current_task_set_ := by
      rw [hr]; simp only; rw [hx1]
    have hrt : r.1.is_transition_ = true := by
      rw [hr]; simp only; rw [hx1]; exact h1
    have hcount : ∀ t, r.2.2.count (Event.TaskStop t) = 0 := by
      intro t
      rw [hr2, List.count_append, hlog _ t (Executer.TransitionCheck_events _), zero_add]
      apply List.count_eq_zero.mpr
      intro hmem
      rcases Executer.Transition_poll_events env _ w _ hx _ hmem with
        ⟨_, _, _, _, h2⟩ | ⟨_, _, _, _, h2⟩ <;> exact Event.noConfusion h2
    by_cases ht : e.is_transition_ = true
    · have hc := Executer.TransitionCheck_in_transition _ (hsub_t.trans ht)
      rw [hc] at hrf hrc
      simp only at hrf hrc
      rw [hflag] at hrf
      rw [hcur] at hrc
      refine ⟨?_, ?_, ?_⟩
      · intro t
        rw [hcount t, if_neg]
        rintro ⟨_, h2, h3⟩
        rw [hrf, h2] at h3
        exact Bool.noConfusion h3
      · intro _
        refine ⟨hrc, fun h2 => by rw [← hrf]; exact h2, fun h2 => ?_⟩
        rw [hrt] at h2
        exact Bool.noConfusion h2
      · intro hn
        rw [ht] at hn
        exact Bool.noConfusion hn
    · have ht' : e.is_transition_ = false := by simpa using ht
      refine ⟨?_, ?_, ?_⟩
      · intro t
        rw [hcount t, if_neg]
        rintro ⟨h2, _⟩
        exact ht h2
      · intro hn
        exact absurd hn ht
      · intro _ _
        rw [hrf]
        rcases Executer.TransitionCheck_cases (e.Subscribe env.msg) with
          hc | ⟨_, _, _, hc⟩ | ⟨_, _, _, hc⟩
        · rw [hc] at h1
          simp only at h1
          rw [hsub_t, ht'] at h1
          exact Bool.noConfusion h1
        · rw [hc] at h1
          simp only at h1
          rw [hsub_t, ht'] at h1
          exact Bool.noConfusion h1
        · rw [hc]
  · -- a wait for the current tasks
    have hstop := (Executer.Transition_stop_spec (e.Subscribe env.msg) w).1
    have hfst := Executer.Transition_stop_fst (e.Subscribe env.msg) w
    have hr2 : r.2.2 = (if e.task_stop_flag_ = true then
        e.current_task_set_.map (fun t => Event.TaskStop t.self) else []) := by
      rw [hr]; simp only; rw [hstop, hflag, hcur]
    have hrf : r.1.task_stop_flag_ = false := by
      rw [hr]; simp only; rw [hfst]; simp
    have hrc : r.1.current_task_set_ = e.current_task_set_ := by
      rw [hr]; simp only; rw [hfst]; exact hcur
    refine ⟨?_, ?_, ?_⟩
    · intro t
      rw [hr2]
      by_cases hf : e.task_stop_flag_ = true
      · rw [if_pos hf, if_pos ⟨ht, hf, hrf⟩]
        exact Executer.stop_calls_count _ t
      · rw [if_neg hf, if_neg]
        · rfl
        · rintro ⟨_, h2, _⟩
          exact hf h2
    · intro _
      refine ⟨hrc, fun h2 => ?_, fun _ => hrf⟩
      rw [hrf] at h2
      exact Bool.noConfusion h2
    · intro hn
      rw [ht] at hn
      exact Bool.noConfusion hn
  · -- the completion
    have hstop := (Executer.Transition_stop_spec (e.Subscribe env.msg) w).1
    have hfst := Executer.Transition_stop_fst (e.Subscribe env.msg) w
    obtain ⟨y1, _, started, text, args, y3, _, _⟩ :=
      Executer.Transition_finish_spec env _ _ _ x hx
    rw [hfst] at y1
    have hrf : r.1.task_stop_flag_ = false := by
      rw [hr, y1]; simp
    have hrc : r.1.current_task_set_ = e.current_task_set_ := by
      rw [hr, y1]; exact hcur
    have hr2 : ∀ t, r.2.2.count (Event.TaskStop t) =
        (if e.task_stop_flag_ = true then
          e.current_task_set_.map (fun t => Event.TaskStop t.self) else []).count
          (Event.TaskStop t) := by
      intro t
      rw [hr, y3, List.count_append, List.count_append, List.count_append,
        Executer.exit_calls_count_stop, Executer.Transition_start_calls_count_stop, hstop,
        hflag, hcur]
      simp
    refine ⟨?_, ?_, ?_⟩
    · intro t
      rw [hr2]
      by_cases hf : e.task_stop_flag_ = true
      · rw [if_pos hf, if_pos ⟨ht, hf, hrf⟩]
        exact Executer.stop_calls_count _ t
      · rw [if_neg hf, if_neg]
        · rfl
        · rintro ⟨_, h2, _⟩
          exact hf h2
    · intro _
      refine ⟨hrc, fun h2 => ?_, fun _ => hrf⟩
      rw [hrf] at h2
      exact Bool.noConfusion h2
    · intro hn
      rw [ht] at hn
      exact Bool.noConfusion hn

theorem Executer.Loop_cons (env : TickEnv) (rest : List TickEnv) (e : Executer) (w : World)
    (rs : List (Executer × World × List Event))
    (h : Executer.Loop (env :: rest) e w = Except.ok rs) :
    ∃ r1 rs', e.Run env (env.before w) = Except.ok r1 ∧
      Executer.Loop rest r1.1 r1.2.1 = Except.ok rs' ∧ rs = r1 :: rs' := by
  unfold Executer.Loop at h
  split at h
  · exact Except.noConfusion h
  · rename_i r1 hr1
    split at h
    · exact Except.noConfusion h
    · rename_i rs' hrs'
      cases h
      exact ⟨r1, rs', hr1, hrs', rfl⟩

/-- The `TaskStop` calls of a run of activations that starts inside a transition
and stays inside it until its last activation at the earliest. -/
theorem Executer.Loop_stop_count (envs : List TickEnv) :
    ∀ (e : Executer) (w : World) (rs mid : List (Executer × World × List Event))
      (last : Executer × World × List Event),
    e.is_transition_ = true → Executer.Loop envs e w = Except.ok rs → rs = mid ++ [last] →
    (∀ r ∈ mid, r.1.is_transition_ = true) →
    (∀ t, (rs.flatMap (fun r => r.2.2)).count (Event.TaskStop t) =
      if e.task_stop_flag_ = true ∧ last.1.task_stop_flag_ = false then
        (e.current_task_set_.map Task.self).count t
      else 0) ∧
    (last.1.task_stop_flag_ = true → e.task_stop_flag_ = true) ∧
    (last.1.is_transition_ = false → last.1.task_stop_flag_ = false) ∧
    last.1.current_task_set_ = e.current_task_set_ := by
  induction envs with
  | nil =>
    intro e w rs mid last _ h hrs _
    cases h
    simp at hrs
  | cons env rest ih =>
    intro e w rs mid last ht h hrs hmid
    obtain ⟨r1, rs', hr1, hrs', rfl⟩ := Executer.Loop_cons env rest e w rs h
    obtain ⟨s1, s2, _⟩ := Executer.Run_stop_count env e _ r1 hr1
    obtain ⟨s2a, s2b, s2c⟩ := s2 ht
    cases mid with
    | nil =>
      simp only [List.nil_append, List.cons.injEq] at hrs
      obtain ⟨rfl, rfl⟩ := hrs
      refine ⟨?_, s2b, s2c, s2a⟩
      intro t
      simp only [List.flatMap_cons, List.flatMap_nil, List.append_nil]
      rw [s1 t]
      simp [ht]
    | cons m mid' =>
      simp only [List.cons_append, List.cons.injEq] at hrs
      obtain ⟨rfl, hrs2⟩ := hrs
      have ht1 : r1.1.is_transition_ = true := hmid r1 (List.mem_cons_self _ _)
      obtain ⟨i1, i2, i3, i4⟩ := ih r1.1 r1.2.1 rs' mid' last ht1 hrs' hrs2
        (fun r hr => hmid r (List.mem_cons_of_mem _ hr))
      refine ⟨?_, fun h2 => s2b (i2 h2), i3, i4.trans s2a⟩
      intro t
      simp only [List.flatMap_cons, List.count_append]
      rw [s1 t, i1 t, s2a]
      by_cases hf : e.task_stop_flag_ = true
      · by_cases hf1 : r1.1.task_stop_flag_ = true
        · simp [ht, hf, hf1]
        · have hf1' : r1.1.task_stop_flag_ = false := by simpa using hf1
          have hl : last.1.task_stop_flag_ = false := by
            by_contra hn
            have := i2 (by simpa using hn)
            rw [hf1'] at this
            exact Bool.noConfusion this
          simp [ht, hf, hf1', hl]
      · have hf1 : ¬ r1.1.task_stop_flag_ = true := fun h2 => hf (s2b h2)
        simp [hf, hf1]

/-- C3: (1) an activation of `Run` calls `TaskStop` only when it starts inside a
transition with both handshake flags and `task_stop_flag_` set; the tasks stopped
are tasks of `current_task_set_` and the activation clears `task_stop_flag_`.
(2) Both handshake flags are set inside a transition only by an activation that
polled every exit node with `TryExit` and every enter node with `TryEnter` and got
the answer true from each.  (3) An activation that ends inside a transition with
a handshake flag down leaves the heap as it found it and makes no call on a task,
no `AfterExit` call and no write of a node state.  (4) Along the activations from
a reachable state outside a transition up to the first activation that ends
outside a transition again, every task is stopped at most once, and when a
transition took place and is complete, each task of the current task set has been
stopped exactly once and no other task has been stopped. -/
theorem C3_stop_after_handshake :
    (∀ (env : TickEnv) (e : Executer) (w : World) (r : Executer × World × List Event)
        (t : TaskPtr),
      e.Run env w = Except.ok r → Event.TaskStop t ∈ r.2.2 →
      e.is_transition_ = true ∧ e.all_node_exit_check_ = true ∧
        e.all_node_enter_check_ = true ∧ e.task_stop_flag_ = true ∧
        r.1.task_stop_flag_ = false ∧ ∃ task ∈ e.current_task_set_, task.self = t) ∧
    (∀ (env : TickEnv) (e : Executer) (w : World) (r : Executer × World × List Event),
      e.Run env w = Except.ok r → r.1.is_transition_ = true →
      r.1.all_node_exit_check_ = true → r.1.all_node_enter_check_ = true →
      ¬ (e.is_transition_ = true ∧ e.all_node_exit_check_ = true ∧
          e.all_node_enter_check_ = true) →
      (∀ n ∈ r.1.exit_node_set_, env.TryExit n = true ∧
        ∃ p, r.1.node_map_.GetNodePtr n = Except.ok p ∧ Event.TryExit p true ∈ r.2.2) ∧
      (∀ n ∈ r.1.enter_node_set_, env.TryEnter n = true ∧
        ∃ p, r.1.node_map_.GetNodePtr n = Except.ok p ∧ Event.TryEnter p true ∈ r.2.2)) ∧
    (∀ (env : TickEnv) (e : Executer) (w : World) (r : Executer × World × List Event),
      e.Run env w = Except.ok r → r.1.is_transition_ = true →
      ¬ (r.1.all_node_exit_check_ = true ∧ r.1.all_node_enter_check_ = true) →
      r.2.1 = w ∧ ∀ ev ∈ r.2.2, ev.task = none ∧ ev.is_exit_step = false) ∧
    (∀ (envs : List TickEnv) (e : Executer) (w : World)
        (rs mid : List (Executer × World × List Event)) (last : Executer × World × List Event),
      Executer.Reachable e → e.is_transition_ = false →
      Executer.Loop envs e w = Except.ok rs → rs = mid ++ [last] →
      (∀ r ∈ mid, r.1.is_transition_ = true) →
      (∀ t, (rs.flatMap (fun r => r.2.2)).count (Event.TaskStop t) ≤ 1) ∧
      (mid ≠ [] → last.1.is_transition_ = false →
        ∀ t, (rs.flatMap (fun r => r.2.2)).count (Event.TaskStop t) =
          if t ∈ last.1.current_task_set_.map Task.self then 1 else 0)) := by
  refine ⟨?_, ?_, ?_, ?_⟩
  · -- (1)
    intro env e w r t h hmem
    obtain ⟨s1, s2, _⟩ := Executer.Run_stop_count env e w r h
    have hpos : 0 < r.2.2.count (Event.TaskStop t) := List.count_pos_iff.mpr hmem
    rw [s1 t] at hpos
    split_ifs at hpos with hc
    · obtain ⟨ht, hf, hrf⟩ := hc
      have hin : t ∈ e.current_task_set_.map Task.self := List.count_pos_iff.mp hpos
      obtain ⟨task, htask, hself⟩ := List.mem_map.mp hin
      refine ⟨ht, ?_, ?_, hf, hrf, task, htask, hself⟩
      · rcases Executer.Run_phases env e w r h with ⟨h1, hr⟩ | ⟨h1, hflags, x, hx, hr⟩ |
          ⟨_, hf1, _, _, _⟩ | ⟨_, hf1, _, _, _⟩
        · rw [Executer.TransitionCheck_in_transition _
            ((Executer.Subscribe_is_transition e env.msg).trans ht)] at h1
          simp only at h1
          rw [Executer.Subscribe_is_transition, ht] at h1
          exact Bool.noConfusion h1
        · exfalso
          have hx1 := (Executer.Transition_poll_fst env _ w x hx).1
          have : r.1.task_stop_flag_ = e.task_stop_flag_ := by
            rw [hr]; simp only; rw [hx1]
            rw [Executer.TransitionCheck_in_transition _
              ((Executer.Subscribe_is_transition e env.msg).trans ht)]
            simp only
            rw [Executer.Subscribe_eq]
          rw [this, hf] at hrf
          exact Bool.noConfusion hrf
        · exact hf1
        · exact hf1
      · rcases Executer.Run_phases env e w r h with ⟨h1, hr⟩ | ⟨h1, hflags, x, hx, hr⟩ |
          ⟨_, _, hf2, _, _⟩ | ⟨_, _, hf2, _, _⟩
        · rw [Executer.TransitionCheck_in_transition _
            ((Executer.Subscribe_is_transition e env.msg).trans ht)] at h1
          simp only at h1
          rw [Executer.Subscribe_is_transition, ht] at h1
          exact Bool.noConfusion h1
        · exfalso
          have hx1 := (Executer.Transition_poll_fst env _ w x hx).1
          have : r.1.task_stop_flag_ = e.task_stop_flag_ := by
            rw [hr]; simp only; rw [hx1]
            rw [Executer.TransitionCheck_in_transition _
              ((Executer.Subscribe_is_transition e env.msg).trans ht)]
            simp only
            rw [Executer.Subscribe_eq]
          rw [this, hf] at hrf
          exact Bool.noConfusion hrf
        · exact hf2
        · exact hf2
    · exact absurd hpos (by simp)
  · -- (2)
    intro env e w r h ht hx1 hx2 hnot
    rcases Executer.Run_phases env e w r h with ⟨h1, hr⟩ | ⟨h1, hflags, x, hx, hr⟩ |
      ⟨ht', hf1, hf2, _, _⟩ | ⟨ht', hf1, hf2, _, _⟩
    · rw [hr] at ht
      simp only at ht
      rw [h1] at ht
      exact Bool.noConfusion ht
    · obtain ⟨a, b, ha, hb, hxe⟩ := Executer.Transition_poll_spec env _ w x hx
      have hr1 : r.1 = { (e.Subscribe env.msg).TransitionCheck.1 with
          all_node_exit_check_ := a.1, all_node_enter_check_ := b.1 } := by
        rw [hr, hxe]
      have hr2 : r.2.2 = (e.Subscribe env.msg).TransitionCheck.2 ++ (a.2 ++ b.2) := by
        rw [hr, hxe]
      obtain ⟨a1, _, a3⟩ := Executer.all_of_TryExit_spec _ _ _ a ha
      obtain ⟨b1, _, b3⟩ := Executer.all_of_TryEnter_spec _ _ _ b hb
      rw [hr1] at hx1 hx2
      simp only at hx1 hx2
      rw [hr1, hr2]
      refine ⟨?_, ?_⟩
      · intro n hn
        obtain ⟨p, hp, hev⟩ := a3 hx1 n hn
        exact ⟨a1.mp hx1 n hn, p, hp,
          List.mem_append_right _ (List.mem_append_left _ hev)⟩
      · intro n hn
        obtain ⟨p, hp, hev⟩ := b3 hx2 n hn
        exact ⟨b1.mp hx2 n hn, p, hp,
          List.mem_append_right _ (List.mem_append_right _ hev)⟩
    · exact absurd ⟨ht', hf1, hf2⟩ hnot
    · exact absurd ⟨ht', hf1, hf2⟩ hnot
  · -- (3)
    intro env e w r h ht hopen
    rcases Executer.Run_phases env e w r h with ⟨h1, hr⟩ | ⟨h1, hflags, x, hx, hr⟩ |
      ⟨ht', hf1, hf2, _, hr⟩ | ⟨ht', hf1, hf2, _, x, hx, hr⟩
    · rw [hr] at ht
      simp only at ht
      rw [h1] at ht
      exact Bool.noConfusion ht
    · have hw := (Executer.Transition_poll_fst env _ w x hx).2
      refine ⟨by rw [hr]; exact hw, ?_⟩
      intro ev hev
      rw [hr] at hev
      simp only at hev
      rcases List.mem_append.mp hev with hev | hev
      · obtain ⟨_, _, h2 | h2⟩ := Executer.TransitionCheck_events _ ev hev <;>
          rw [h2] <;> exact ⟨rfl, rfl⟩
      · rcases Executer.Transition_poll_events env _ w x hx ev hev with
          ⟨_, _, _, _, h2⟩ | ⟨_, _, _, _, h2⟩ <;> rw [h2] <;> exact ⟨rfl, rfl⟩
    · exfalso
      apply hopen
      rw [hr]
      simp only
      rw [Executer.Transition_stop_fst, Executer.Subscribe_eq]
      exact ⟨hf1, hf2⟩
    · exfalso
      have := (Executer.Transition_finish_fst env _ _ _ x hx)
      rw [hr, this] at ht
      exact Bool.noConfusion ht
  · -- (4)
    intro envs e w rs mid last hreach hnt h hrs hmid
    cases envs with
    | nil =>
      cases h
      simp at hrs
    | cons env rest =>
      obtain ⟨r1, rs', hr1, hrs', rfl⟩ := Executer.Loop_cons env rest e w rs h
      obtain ⟨s1, _, s3⟩ := Executer.Run_stop_count env e _ r1 hr1
      have hz : ∀ t, r1.2.2.count (Event.TaskStop t) = 0 := by
        intro t
        rw [s1 t, if_neg]
        rintro ⟨h2, _⟩
        rw [hnt] at h2
        exact Bool.noConfusion h2
      cases mid with
      | nil =>
        simp only [List.nil_append, List.cons.injEq] at hrs
        obtain ⟨rfl, rfl⟩ := hrs
        refine ⟨?_, fun hne => absurd rfl hne⟩
        intro t
        simp only [List.flatMap_cons, List.flatMap_nil, List.append_nil]
        rw [hz t]
        exact Nat.zero_le _
      | cons m mid' =>
        simp only [List.cons_append, List.cons.injEq] at hrs
        obtain ⟨rfl, hrs2⟩ := hrs
        have ht1 : r1.1.is_transition_ = true := hmid r1 (List.mem_cons_self _ _)
        have hflag1 : r1.1.task_stop_flag_ = true := s3 hnt ht1
        have hinv : r1.1.inv :=
          Executer.Reachable.inv _ (Executer.Reachable.tick env e _ r1 hreach hr1)
        have hnd : (r1.1.current_task_set_.map Task.self).Nodup := hinv.current_tasks.1
        obtain ⟨i1, _, i3, i4⟩ := Executer.Loop_stop_count rest r1.1 r1.2.1 rs' mid' last ht1
          hrs' hrs2 (fun r hr => hmid r (List.mem_cons_of_mem _ hr))
        have htotal : ∀ t, ((r1 :: rs').flatMap (fun r => r.2.2)).count (Event.TaskStop t) =
            if last.1.task_stop_flag_ = false then
              (r1.1.current_task_set_.map Task.self).count t
            else 0 := by
          intro t
          simp only [List.flatMap_cons, List.count_append]
          rw [hz t, i1 t, zero_add]
          simp [hflag1]
        refine ⟨?_, ?_⟩
        · intro t
          rw [htotal t]
          split_ifs
          · exact List.nodup_iff_count_le_one.mp hnd t
          · exact Nat.zero_le _
        · intro _ hlast t
          rw [htotal t, if_pos (i3 hlast), i4]
          by_cases hin : t ∈ r1.1.current_task_set_.map Task.self
          · rw [if_pos hin]
            exact List.count_eq_one_of_mem hnd hin
          · rw [if_neg hin]
            exact List.count_eq_zero_of_not_mem hin

/-! ## The frame of a transition -/

/-- The heap after the completing block: a node that is not an exit node and a
task that is not a target task are as before, provided the other threads leave
them alone during the start loop. -/
theorem Executer.Transition_finish_world (env : TickEnv) (e : Executer) (w : World)
    (evs : List Event) (r : Executer × World × List Event)
    (h : Executer.Transition_finish env e w evs = Except.ok r) :
    (∀ p, (∀ k w', (env.others k w').nodes p = w'.nodes p) →
      p ∉ spec_node_ptrs e.node_map_ e.exit_node_set_ → r.2.1.nodes p = w.nodes p) ∧
    (∀ tp, (∀ k w', (env.others k w').tasks tp = w'.tasks tp) →
      tp ∉ e.target_task_set_.map Task.self → r.2.1.tasks tp = w.tasks tp) := by
  unfold Executer.Transition_finish at h
  cases hx : Executer.exit_nodes e.node_map_ e.exit_node_set_ w with
  | error f => rw [hx] at h; exact Except.noConfusion h
  | ok exited =>
    rw [hx] at h
    simp only at h
    obtain ⟨_, _, x3, x4, _⟩ := Executer.exit_nodes_spec _ _ _ exited hx
    cases hl : Executer.start_loop env.others e.Transition_start env.fuel
        (Executer.wait_list e.target_task_set_)
        (0, Executer.wait_set e.target_task_set_,
         { w := exited.1, evs := evs ++ exited.2, all_init_node_set_log := [] }) with
    | error f => rw [hl] at h; exact Except.noConfusion h
    | ok r1 =>
      rw [hl] at h
      simp only at h
      cases h
      refine ⟨?_, ?_⟩
      · intro p hothers hp
        have := Executer.start_loop_preserves env.others e.Transition_start
          (fun w' => w'.nodes p = w.nodes p)
          (fun k w' hq => (hothers k w').trans hq) e.target_task_set_
          (fun t _ s s' hq hb => by
            have := ((Executer.Transition_start_spec e t s (some s') hb).2 s' rfl).2.1
            simp only
            rw [this]
            exact hq)
          env.fuel _ _ _ _ r1 (Executer.wait_list_tasks _) hl (x4 p hp)
        exact this
      · intro tp hothers htp
        have := Executer.start_loop_preserves env.others e.Transition_start
          (fun w' => w'.tasks tp = w.tasks tp)
          (fun k w' hq => (hothers k w').trans hq) e.target_task_set_
          (fun t ht s s' hq hb => by
            have := ((Executer.Transition_start_spec e t s (some s') hb).2 s' rfl).2.2.2.1
            simp only
            rw [this tp (fun heq => htp (List.mem_map.mpr ⟨t, ht, heq.symm⟩))]
            exact hq)
          env.fuel _ _ _ _ r1 (Executer.wait_list_tasks _) hl (by simp only; rw [x3])
        exact this

theorem Executer.Transition_finish_exit_state (env : TickEnv) (e : Executer) (w : World)
    (evs : List Event) (r : Executer × World × List Event)
    (h : Executer.Transition_finish env e w evs = Except.ok r) (p : NodePtr)
    (hp : p ∈ spec_node_ptrs e.node_map_ e.exit_node_set_)
    (hothers : ∀ k w', ((env.others k w').nodes p).state_ = (w'.nodes p).state_) :
    (r.2.1.nodes p).state_ = NodeState.STANDBY := by
  unfold Executer.Transition_finish at h
  cases hx : Executer.exit_nodes e.node_map_ e.exit_node_set_ w with
  | error f => rw [hx] at h; exact Except.noConfusion h
  | ok exited =>
    rw [hx] at h
    simp only at h
    obtain ⟨_, _, _, _, x5⟩ := Executer.exit_nodes_spec _ _ _ exited hx
    cases hl : Executer.start_loop env.others e.Transition_start env.fuel
        (Executer.wait_list e.target_task_set_)
        (0, Executer.wait_set e.target_task_set_,
         { w := exited.1, evs := evs ++ exited.2, all_init_node_set_log := [] }) with
    | error f => rw [hl] at h; exact Except.noConfusion h
    | ok r1 =>
      rw [hl] at h
      simp only at h
      cases h
      exact Executer.start_loop_preserves env.others e.Transition_start
        (fun w' => (w'.nodes p).state_ = NodeState.STANDBY)
        (fun k w' hq => (hothers k w').trans hq) e.target_task_set_
        (fun t _ s s' hq hb => by
          have := ((Executer.Transition_start_spec e t s (some s') hb).2 s' rfl).2.1
          simp only
          rw [this]
          exact hq)
        env.fuel _ _ _ _ r1 (Executer.wait_list_tasks _) hl (x5 p hp)

theorem Executer.mem_spec_node_ptrs (node_map : NodeMap) (names : List String) (p : NodePtr) :
    p ∈ spec_node_ptrs node_map names ↔
      ∃ n ∈ names, node_map.GetNodePtr n = Except.ok p := by
  simp only [spec_node_ptrs, List.mem_filterMap, NodeMap.GetNodePtr_ok]

theorem Executer.filter_exit_calls (ptrs : List NodePtr) :
    (ptrs.flatMap (fun p => [Event.AfterExit p, Event.SetState p NodeState.STANDBY])).filter
      Event.is_exit_step =
    ptrs.flatMap (fun p => [Event.AfterExit p, Event.SetState p NodeState.STANDBY]) := by
  apply List.filter_eq_self.mpr
  intro ev hev
  obtain ⟨p, _, hp⟩ := List.mem_flatMap.mp hev
  simp only [List.mem_cons, List.mem_singleton, List.not_mem_nil, or_false] at hp
  rcases hp with hp | hp <;> rw [hp] <;> rfl

theorem Executer.filter_start_calls (e : Executer) (started : List Task) :
    (started.flatMap e.Transition_start_calls).filter Event.is_exit_step = [] := by
  apply List.filter_eq_nil_iff.mpr
  intro ev hev
  obtain ⟨t, _, ht⟩ := List.mem_flatMap.mp hev
  simp only [Executer.Transition_start_calls, List.mem_cons, List.mem_singleton,
    List.not_mem_nil, or_false] at ht
  rcases ht with ht | ht | ht <;> rw [ht] <;> simp [Event.is_exit_step]

theorem Executer.filter_stop_calls (e : Executer) (w : World) :
    (Executer.Transition_stop e w).2.2.filter Event.is_exit_step = [] := by
  apply List.filter_eq_nil_iff.mpr
  intro ev hev
  rw [(Executer.Transition_stop_spec e w).1] at hev
  split_ifs at hev
  · obtain ⟨t, _, ht⟩ := List.mem_map.mp hev
    rw [← ht]
    simp [Event.is_exit_step]
  · simp at hev

/-- C4: (1) the activation of `Run` that completes a transition, from a reachable
state, makes exactly the exit calls `AfterExit()` and `SetState(STANDBY)`, in this
order, for each element of the set `exit_node_set_`, whose elements are distinct
and all registered; and in the heap that the activation leaves, the state of each
of these nodes is STANDBY, provided the other threads do not write the state of
that node meanwhile.  (2) Every call of an activation that concerns a node is a
`TryExit`, an `AfterExit` or the write of STANDBY on the node registered under a
name of `exit_node_set_`, or a `TryEnter` on the node registered under a name of
`enter_node_set_`.  (3) A node object that is not registered under a name of
`exit_node_set_` is left as it was by the activation, provided the other threads
leave it alone meanwhile.  (4) In a reachable state a node name that is in both
`current_node_set_` and `target_node_set_` is in neither `exit_node_set_` nor
`enter_node_set_`; so when the registry holds a distinct object under each name,
the object of such a shared node keeps its state. -/
theorem C4_exit_nodes_and_frame :
    (∀ (env : TickEnv) (e : Executer) (w : World) (r : Executer × World × List Event),
      Executer.Reachable e → e.Run env w = Except.ok r →
      e.is_transition_ = true → r.1.is_transition_ = false →
      e.exit_node_set_.Nodup ∧
      (∀ n ∈ e.exit_node_set_, ∃ p, e.node_map_.GetNodePtr n = Except.ok p) ∧
      r.2.2.filter Event.is_exit_step =
        (spec_node_ptrs e.node_map_ e.exit_node_set_).flatMap
          (fun p => [Event.AfterExit p, Event.SetState p NodeState.STANDBY]) ∧
      ∀ p ∈ spec_node_ptrs e.node_map_ e.exit_node_set_,
        (∀ k w', ((env.others k w').nodes p).state_ = (w'.nodes p).state_) →
        (r.2.1.nodes p).state_ = NodeState.STANDBY) ∧
    (∀ (env : TickEnv) (e : Executer) (w : World) (r : Executer × World × List Event),
      e.Run env w = Except.ok r →
      ∀ ev ∈ r.2.2, ev.is_node_event = true →
        (∃ n ∈ r.1.exit_node_set_, ∃ p, r.1.node_map_.GetNodePtr n = Except.ok p ∧
          (ev = Event.TryExit p (env.TryExit n) ∨ ev = Event.AfterExit p ∨
            ev = Event.SetState p NodeState.STANDBY)) ∨
        (∃ n ∈ r.1.enter_node_set_, ∃ p, r.1.node_map_.GetNodePtr n = Except.ok p ∧
          ev = Event.TryEnter p (env.TryEnter n))) ∧
    (∀ (env : TickEnv) (e : Executer) (w : World) (r : Executer × World × List Event)
        (p : NodePtr),
      e.Run env w = Except.ok r →
      (∀ k w', (env.others k w').nodes p = w'.nodes p) →
      (∀ n ∈ r.1.exit_node_set_, r.1.node_map_.GetNodePtr n ≠ Except.ok p) →
      r.2.1.nodes p = w.nodes p) ∧
    (∀ (e : Executer), Executer.Reachable e →
      ∀ n, n ∈ e.current_node_set_ → n ∈ e.target_node_set_ →
        n ∉ e.exit_node_set_ ∧ n ∉ e.enter_node_set_) ∧
    (∀ (env : TickEnv) (e : Executer) (w : World) (r : Executer × World × List Event)
        (n : String) (p : NodePtr),
      Executer.Reachable e → e.Run env w = Except.ok r →
      (∀ a b q, r.1.node_map_.GetNodePtr a = Except.ok q →
        r.1.node_map_.GetNodePtr b = Except.ok q → a = b) →
      (∀ k w', (env.others k w').nodes p = w'.nodes p) →
      n ∈ r.1.current_node_set_ → n ∈ r.1.target_node_set_ →
      r.1.node_map_.GetNodePtr n = Except.ok p →
      r.2.1.nodes p = w.nodes p) := by
  have part3 : ∀ (env : TickEnv) (e : Executer) (w : World)
      (r : Executer × World × List Event) (p : NodePtr),
      e.Run env w = Except.ok r →
      (∀ k w', (env.others k w').nodes p = w'.nodes p) →
      (∀ n ∈ r.1.exit_node_set_, r.1.node_map_.GetNodePtr n ≠ Except.ok p) →
      r.2.1.nodes p = w.nodes p := by
    intro env e w r p h hothers hp
    rcases Executer.Run_phases env e w r h with ⟨h1, hr⟩ | ⟨h1, hflags, x, hx, hr⟩ |
      ⟨ht, _, _, _, hr⟩ | ⟨ht, _, _, _, x, hx, hr⟩
    · rw [hr]
    · rw [hr]
      simp only
      rw [(Executer.Transition_poll_fst env _ w x hx).2]
    · rw [hr]
      simp only
      rw [(Executer.Transition_stop_spec _ w).2.1]
    · have hx1 := Executer.Transition_finish_fst env _ _ _ x hx
      have hsets : r.1.exit_node_set_ = (Executer.Transition_stop (e.Subscribe env.msg) w).1.exit_node_set_ ∧
          r.1.node_map_ = (Executer.Transition_stop (e.Subscribe env.msg) w).1.node_map_ := by
        rw [hr, hx1]
        exact ⟨rfl, rfl⟩
      rw [hsets.1, hsets.2] at hp
      have := (Executer.Transition_finish_world env _ _ _ x hx).1 p hothers
        (by
          rw [Executer.mem_spec_node_ptrs]
          rintro ⟨n, hn, hnp⟩
          exact hp n hn hnp)
      rw [hr, this, (Executer.Transition_stop_spec _ w).2.1]
  have part4 : ∀ (e : Executer), Executer.Reachable e →
      ∀ n, n ∈ e.current_node_set_ → n ∈ e.target_node_set_ →
        n ∉ e.exit_node_set_ ∧ n ∉ e.enter_node_set_ := by
    intro e hreach n hc ht
    have hinv := Executer.Reachable.inv e hreach
    rw [hinv.exit_nodes, hinv.enter_nodes]
    simp only [string_set.mem_set_difference]
    tauto
  refine ⟨?_, ?_, part3, part4, ?_⟩
  · -- (1)
    intro env e w r hreach h ht hdone
    have hinv := Executer.Reachable.inv e hreach
    have hnd : e.exit_node_set_.Nodup := by
      apply string_set.nodup_of_is_set
      rw [hinv.exit_nodes]
      exact string_set.is_set_set_difference _ _ hinv.current_nodes
    have hsub : (e.Subscribe env.msg).is_transition_ = true :=
      (Executer.Subscribe_is_transition e env.msg).trans ht
    have hc := Executer.TransitionCheck_in_transition _ hsub
    rcases Executer.Run_phases env e w r h with ⟨h1, hr⟩ | ⟨h1, hflags, x, hx, hr⟩ |
      ⟨_, _, _, _, hr⟩ | ⟨_, _, _, _, x, hx, hr⟩
    · rw [hc] at h1
      simp only at h1
      rw [hsub] at h1
      exact Bool.noConfusion h1
    · exfalso
      have hx1 := (Executer.Transition_poll_fst env _ w x hx).1
      rw [hr] at hdone
      simp only at hdone
      rw [hx1] at hdone
      simp only at hdone
      rw [h1] at hdone
      exact Bool.noConfusion hdone
    · exfalso
      rw [hr] at hdone
      simp only at hdone
      rw [Executer.Transition_stop_fst] at hdone
      simp only at hdone
      rw [hsub] at hdone
      exact Bool.noConfusion hdone
    · obtain ⟨_, y2, started, text, args, y3, _, _⟩ :=
        Executer.Transition_finish_spec env _ _ _ x hx
      have hsets : (Executer.Transition_stop (e.Subscribe env.msg) w).1.exit_node_set_ =
          e.exit_node_set_ ∧
          (Executer.Transition_stop (e.Subscribe env.msg) w).1.node_map_ = e.node_map_ := by
        rw [Executer.Transition_stop_fst, Executer.Subscribe_eq]
        exact ⟨rfl, rfl⟩
      rw [hsets.1, hsets.2] at y2 y3
      refine ⟨hnd, y2, ?_, ?_⟩
      · rw [hr, y3]
        simp only [List.filter_append, Executer.filter_stop_calls, Executer.filter_exit_calls,
          Executer.filter_start_calls, List.nil_append]
        simp [Event.is_exit_step]
      · intro p hp hothers
        rw [← hsets.1, ← hsets.2] at hp
        rw [hr]
        exact Executer.Transition_finish_exit_state env _ _ _ x hx p hp hothers
  · -- (2)
    intro env e w r h ev hev hnode
    rcases Executer.Run_phases env e w r h with ⟨h1, hr⟩ | ⟨h1, hflags, x, hx, hr⟩ |
      ⟨_, _, _, _, hr⟩ | ⟨_, _, _, _, x, hx, hr⟩
    · exfalso
      rw [hr] at hev
      obtain ⟨_, _, h2 | h2⟩ := Executer.TransitionCheck_events _ ev hev <;>
        rw [h2] at hnode <;> exact Bool.noConfusion hnode
    · have hx1 := (Executer.Transition_poll_fst env _ w x hx).1
      have hsets : r.1.exit_node_set_ = (e.Subscribe env.msg).TransitionCheck.1.exit_node_set_ ∧
          r.1.enter_node_set_ = (e.Subscribe env.msg).TransitionCheck.1.enter_node_set_ ∧
          r.1.node_map_ = (e.Subscribe env.msg).TransitionCheck.1.node_map_ := by
        rw [hr]
        simp only
        rw [hx1]
        exact ⟨rfl, rfl, rfl⟩
      rw [hsets.1, hsets.2.1, hsets.2.2]
      rw [hr] at hev
      simp only at hev
      rcases List.mem_append.mp hev with hev | hev
      · exfalso
        obtain ⟨_, _, h2 | h2⟩ := Executer.TransitionCheck_events _ ev hev <;>
          rw [h2] at hnode <;> exact Bool.noConfusion hnode
      · rcases Executer.Transition_poll_events env _ w x hx ev hev with
          ⟨n, hn, p, hp, h2⟩ | ⟨n, hn, p, hp, h2⟩
        · exact Or.inl ⟨n, hn, p, hp, Or.inl h2⟩
        · exact Or.inr ⟨n, hn, p, hp, h2⟩
    · exfalso
      rw [hr] at hev
      simp only at hev
      rw [(Executer.Transition_stop_spec _ w).1] at hev
      split_ifs at hev
      · obtain ⟨t, _, ht⟩ := List.mem_map.mp hev
        rw [← ht] at hnode
        exact Bool.noConfusion hnode
      · simp at hev
    · obtain ⟨y1, _, started, text, args, y3, _, _⟩ :=
        Executer.Transition_finish_spec env _ _ _ x hx
      have hsets : r.1.exit_node_set_ =
          (Executer.Transition_stop (e.Subscribe env.msg) w).1.exit_node_set_ ∧
          r.1.node_map_ = (Executer.Transition_stop (e.Subscribe env.msg) w).1.node_map_ := by
        rw [hr, y1]
        exact ⟨rfl, rfl⟩
      rw [hsets.1, hsets.2]
      rw [hr, y3] at hev
      simp only [List.mem_append] at hev
      rcases hev with ((hev | hev) | hev) | hev
      · exfalso
        rw [(Executer.Transition_stop_spec _ w).1] at hev
        split_ifs at hev
        · obtain ⟨t, _, ht⟩ := List.mem_map.mp hev
          rw [← ht] at hnode
          exact Bool.noConfusion hnode
        · simp at hev
      · obtain ⟨p, hp, hev⟩ := List.mem_flatMap.mp hev
        obtain ⟨n, hn, hnp⟩ := (Executer.mem_spec_node_ptrs _ _ p).mp hp
        simp only [List.mem_cons, List.mem_singleton, List.not_mem_nil, or_false] at hev
        rcases hev with hev | hev
        · exact Or.inl ⟨n, hn, p, hnp, Or.inr (Or.inl hev)⟩
        · exact Or.inl ⟨n, hn, p, hnp, Or.inr (Or.inr hev)⟩
      · exfalso
        obtain ⟨t, _, ht⟩ := List.mem_flatMap.mp hev
        simp only [Executer.Transition_start_calls, List.mem_cons, List.mem_singleton,
          List.not_mem_nil, or_false] at ht
        rcases ht with ht | ht | ht <;> rw [ht] at hnode <;> exact Bool.noConfusion hnode
      · exfalso
        simp only [List.mem_singleton] at hev
        rw [hev] at hnode
        exact Bool.noConfusion hnode
  · -- (5)
    intro env e w r n p hreach h hinj hothers hc ht hp
    have hr := Executer.Reachable.tick env e w r hreach h
    have hno := part4 r.1 hr n hc ht
    apply part3 env e w r p h hothers
    intro m hm hmp
    have := hinj m n p hmp hp
    rw [this] at hm
    exact hno.1 hm

/-! ## The start loops -/

/-- A pass of a start loop, seen at one position of the wait list: the tasks in
front of it are handled first; a task that is started already is kept as it is,
and a task that is not started is handed to the body in the heap left by the
other threads at that moment, and is marked as started exactly when the body
starts it. -/
theorem Executer.start_sweep_at (others : Nat → World → World)
    (body : Task → StartState → Except Fault (Option StartState))
    (task : Bool × Task) (rest : List (Bool × Task)) (pre : List (Bool × Task)) :
    ∀ (c : Nat) (ws : List String) (s : StartState)
      (r : List (Bool × Task) × Nat × List String × StartState),
    Executer.start_sweep others body (pre ++ task :: rest) (c, ws, s) = Except.ok r →
    ∃ r1, Executer.start_sweep others body pre (c, ws, s) = Except.ok r1 ∧
      (task.1 = true → r.1[pre.length]? = some task) ∧
      (task.1 = false → ∃ o,
        body task.2 { r1.2.2.2 with w := others r1.2.1 r1.2.2.2.w } = Except.ok o ∧
        r.1[pre.length]? = some (o.isSome, task.2)) := by
  induction pre with
  | nil =>
    intro c ws s r h
    refine ⟨([], c, ws, s), rfl, ?_, ?_⟩
    · intro ht
      simp only [List.nil_append] at h
      unfold Executer.start_sweep at h
      rw [if_pos ht] at h
      cases hr : Executer.start_sweep others body rest (c, ws, s) with
      | error f => rw [hr] at h; exact Except.noConfusion h
      | ok r2 =>
        rw [hr] at h
        cases h
        simp
    · intro hf
      simp only [List.nil_append] at h
      unfold Executer.start_sweep at h
      rw [if_neg (by simp [hf])] at h
      simp only at h
      cases hb : body task.2 { s with w := others c s.w } with
      | error f => rw [hb] at h; exact Except.noConfusion h
      | ok o =>
        rw [hb] at h
        refine ⟨o, rfl, ?_⟩
        cases o with
        | none =>
          simp only at h
          cases hr : Executer.start_sweep others body rest
              (c + 1, ws, { s with w := others c s.w }) with
          | error f => rw [hr] at h; exact Except.noConfusion h
          | ok r2 =>
            rw [hr] at h
            cases h
            simp only [List.length_nil, List.getElem?_cons_zero, Option.isSome_none]
            rw [← hf]
        | some s1 =>
          simp only at h
          cases hr : Executer.start_sweep others body rest
              (c + 1, string_set.erase ws task.2.GetTaskName, s1) with
          | error f => rw [hr] at h; exact Except.noConfusion h
          | ok r2 =>
            rw [hr] at h
            cases h
            simp
  | cons x pre ih =>
    intro c ws s r h
    simp only [List.cons_append] at h
    unfold Executer.start_sweep at h
    by_cases hx : x.1 = true
    · rw [if_pos hx] at h
      cases hr : Executer.start_sweep others body (pre ++ task :: rest) (c, ws, s) with
      | error f => rw [hr] at h; exact Except.noConfusion h
      | ok r2 =>
        rw [hr] at h
        cases h
        obtain ⟨r1, h1, a, b⟩ := ih c ws s r2 hr
        refine ⟨(x :: r1.1, r1.2), ?_, ?_, ?_⟩
        · unfold Executer.start_sweep
          rw [if_pos hx, h1]
        · intro ht
          simpa using a ht
        · intro hf
          obtain ⟨o, ho, hget⟩ := b hf
          exact ⟨o, ho, by simpa using hget⟩
    · rw [if_neg hx] at h
      simp only at h
      cases hb : body x.2 { s with w := others c s.w } with
      | error f => rw [hb] at h; exact Except.noConfusion h
      | ok o =>
        rw [hb] at h
        cases o with
        | none =>
          simp only at h
          cases hr : Executer.start_sweep others body (pre ++ task :: rest)
              (c + 1, ws, { s with w := others c s.w }) with
          | error f => rw [hr] at h; exact Except.noConfusion h
          | ok r2 =>
            rw [hr] at h
            cases h
            obtain ⟨r1, h1, a, b⟩ := ih _ _ _ r2 hr
            refine ⟨(x :: r1.1, r1.2), ?_, ?_, ?_⟩
            · unfold Executer.start_sweep
              rw [if_neg hx]
              simp only
              rw [hb]
              simp only
              rw [h1]
            · intro ht
              simpa using a ht
            · intro hf
              obtain ⟨o, ho, hget⟩ := b hf
              exact ⟨o, ho, by simpa using hget⟩
        | some s1 =>
          simp only at h
          cases hr : Executer.start_sweep others body (pre ++ task :: rest)
              (c + 1, string_set.erase ws x.2.GetTaskName, s1) with
          | error f => rw [hr] at h; exact Except.noConfusion h
          | ok r2 =>
            rw [hr] at h
            cases h
            obtain ⟨r1, h1, a, b⟩ := ih _ _ _ r2 hr
            refine ⟨((true, x.2) :: r1.1, r1.2), ?_, ?_, ?_⟩
            · unfold Executer.start_sweep
              rw [if_neg hx]
              simp only
              rw [hb]
              simp only
              rw [h1]
            · intro ht
              simpa using a ht
            · intro hf
              obtain ⟨o, ho, hget⟩ := b hf
              exact ⟨o, ho, by simpa using hget⟩

/-- A pass in which the body starts every task it is given returns with every
task marked as started. -/
theorem Executer.start_sweep_total (others : Nat → World → World)
    (body : Task → StartState → Except Fault (Option StartState)) (list : List (Bool × Task))
    (hbody : ∀ x ∈ list, ∀ s, ∃ s', body x.2 s = Except.ok (some s')) :
    ∀ (c : Nat) (ws : List String) (s : StartState),
    ∃ r, Executer.start_sweep others body list (c, ws, s) = Except.ok r ∧
      ∀ x ∈ r.1, x.1 = true := by
  induction list with
  | nil =>
    intro c ws s
    exact ⟨([], c, ws, s), rfl, by simp⟩
  | cons x rest ih =>
    have ih' := ih (fun y hy => hbody y (List.mem_cons_of_mem _ hy))
    intro c ws s
    by_cases hx : x.1 = true
    · obtain ⟨r1, h1, a⟩ := ih' c ws s
      refine ⟨(x :: r1.1, r1.2), ?_, ?_⟩
      · unfold Executer.start_sweep
        rw [if_pos hx, h1]
      · intro y hy
        rcases List.mem_cons.mp hy with hy | hy
        · rw [hy]; exact hx
        · exact a y hy
    · obtain ⟨s1, hb⟩ := hbody x (List.mem_cons_self _ _) { s with w := others c s.w }
      obtain ⟨r1, h1, a⟩ := ih' (c + 1) (string_set.erase ws x.2.GetTaskName) s1
      refine ⟨((true, x.2) :: r1.1, r1.2), ?_, ?_⟩
      · unfold Executer.start_sweep
        rw [if_neg hx]
        simp only
        rw [hb]
        simp only
        rw [h1]
      · intro y hy
        rcases List.mem_cons.mp hy with hy | hy
        · rw [hy]
        · exact a y hy

/-- A start loop that finds its wait set empty returns at once. -/
theorem Executer.start_loop_of_empty (others : Nat → World → World)
    (body : Task → StartState → Except Fault (Option StartState)) (fuel : Nat)
    (list : List (Bool × Task)) (s : Nat × List String × StartState)
    (he : s.2.1.isEmpty = true) :
    Executer.start_loop others body fuel list s = Except.ok (list, s) := by
  cases fuel with
  | zero =>
    unfold Executer.start_loop
    rw [if_pos he]
  | succ n =>
    unfold Executer.start_loop
    rw [if_pos he]

/-- A start loop that finds its wait set not empty makes a pass and goes on. -/
theorem Executer.start_loop_pass (others : Nat → World → World)
    (body : Task → StartState → Except Fault (Option StartState)) (fuel : Nat)
    (list : List (Bool × Task)) (s : Nat × List String × StartState)
    (r1 : List (Bool × Task) × Nat × List String × StartState)
    (he : ¬ s.2.1.isEmpty = true)
    (h1 : Executer.start_sweep others body list s = Except.ok r1) :
    Executer.start_loop others body (fuel + 1) list s =
      Executer.start_loop others body fuel r1.1 r1.2 := by
  conv => lhs; unfold Executer.start_loop
  rw [if_neg he, h1]

/-- A start loop whose body starts every task it is given returns after one pass. -/
theorem Executer.start_loop_total (others : Nat → World → World)
    (body : Task → StartState → Except Fault (Option StartState)) (f : Task → List Event)
    (hf : ∀ t s s', body t s = Except.ok (some s') → s'.evs = s.evs ++ f t)
    (tasks : List Task) (hnd : (tasks.map Task.GetTaskName).Nodup)
    (hbody : ∀ t ∈ tasks, ∀ s, ∃ s', body t s = Except.ok (some s'))
    (fuel : Nat) (s : StartState) :
    ∃ r, Executer.start_loop others body (fuel + 1) (Executer.wait_list tasks)
      (0, Executer.wait_set tasks, s) = Except.ok r := by
  by_cases he : (Executer.wait_set tasks).isEmpty = true
  · exact ⟨_, Executer.start_loop_of_empty others body _ _ _ he⟩
  · obtain ⟨r1, h1, a⟩ := Executer.start_sweep_total others body (Executer.wait_list tasks)
      (fun x hx => hbody x.2 (by
        rw [← Executer.wait_list_tasks tasks]
        exact List.mem_map.mpr ⟨x, hx, rfl⟩)) 0 (Executer.wait_set tasks) s
    obtain ⟨started, _, _, i3, i4⟩ :=
      Executer.start_sweep_spec others body f hf _ _ _ _ r1 h1
    have hnd' : ((Executer.wait_list tasks).map (fun x => x.2.GetTaskName)).Nodup := by
      simpa [Executer.wait_list, Function.comp_def] using hnd
    have hm := Executer.wait_set_matches_step _ r1.1 _ r1.2.2.1 started hnd' i3 i4
      (Executer.wait_set_matches_init tasks)
    have he1 := (Executer.wait_set_empty_iff r1.1 r1.2.2.1 hm).mpr a
    rw [Executer.start_loop_pass others body fuel _ _ r1 he h1]
    exact ⟨_, Executer.start_loop_of_empty others body _ _ _ he1⟩

/-- A start loop leaves at a loop head without a further pass exactly when every
task of its list is marked as started. -/
theorem Executer.start_loop_exit_iff (others : Nat → World → World)
    (body : Task → StartState → Except Fault (Option StartState))
    (list : List (Bool × Task)) (c : Nat) (ws : List String) (s : StartState)
    (hm : Executer.wait_set_matches list ws) :
    Executer.start_loop others body 0 list (c, ws, s) = Except.ok (list, c, ws, s) ↔
      ∀ x ∈ list, x.1 = true := by
  rw [← Executer.wait_set_empty_iff list ws hm]
  unfold Executer.start_loop
  by_cases he : ws.isEmpty = true
  · simp only [he, if_true]
  · simp only [he, if_false]
    constructor
    · intro h
      exact Except.noConfusion h
    · intro h
      exact absurd h (by simp)

theorem Executer.names_nodup_of_is_task_set (e : Executer) (s : List Task)
    (h : e.is_task_set s) : (s.map Task.GetTaskName).Nodup := by
  have h1 : s.Nodup := List.Nodup.of_map _ h.1
  apply List.Nodup.map_on _ h1
  intro a ha b hb hab
  have := (h.2 a ha).symm.trans (hab ▸ h.2 b hb)
  exact Option.some.inj this

theorem Executer.resident_nodup (e : Executer) (h : e.inv) :
    ((e.resident_group_task_list_.map Prod.snd).map Task.GetTaskName).Nodup ∧
    ((e.resident_group_task_list_.map Prod.snd).map Task.self).Nodup := by
  have hn : (e.resident_group_task_list_.map Prod.snd).map Task.GetTaskName =
      e.resident_group_task_list_.map Prod.fst := by
    rw [List.map_map]
    apply List.map_congr_left
    intro x hx
    exact (h.resident x hx).2
  have hs : (e.resident_group_task_list_.map Prod.snd).map Task.self =
      (e.resident_group_task_list_.map Prod.fst).map TaskPtr.resident := by
    rw [List.map_map, List.map_map]
    apply List.map_congr_left
    intro x hx
    exact (h.resident x hx).1
  rw [hn, hs]
  refine ⟨h.resident_keys, List.Nodup.map ?_ h.resident_keys⟩
  intro a b hab
  exact TaskPtr.resident.inj hab

theorem Executer.Transition_start_calls_count (e : Executer) (started : List Task)
    (p : TaskPtr) :
    (started.flatMap e.Transition_start_calls).count (Event.TaskStart p) =
      (started.map Task.self).count p := by
  induction started with
  | nil => rfl
  | cons a rest ih =>
    simp only [List.flatMap_cons, List.count_append, ih, List.map_cons, List.count_cons,
      Executer.Transition_start_calls]
    by_cases h : a.self = p
    · simp [h, Nat.add_comm]
    · simp [h]

theorem Executer.InitTask_start_calls_count (started : List Task) (p : TaskPtr) :
    (started.flatMap Executer.InitTask_start_calls).count (Event.TaskStart p) =
      (started.map Task.self).count p := by
  induction started with
  | nil => rfl
  | cons a rest ih =>
    simp only [List.flatMap_cons, List.count_append, ih, List.map_cons, List.count_cons,
      Executer.InitTask_start_calls]
    by_cases h : a.self = p
    · simp [h, Nat.add_comm]
    · simp [h]

theorem Executer.InitTask_start_of_empty (e : Executer) (t : Task) (s : StartState)
    (h : t.GetTaskSetting.launch_setting.pre_node = []) :
    ∃ s', e.InitTask_start t s = Except.ok (some s') := by
  unfold Executer.InitTask_start
  simp only [h, Executer.pre_node_ready, List.isEmpty_nil, Bool.or_self, if_true]
  exact ⟨_, rfl⟩

theorem Executer.Transition_start_of_empty (e : Executer) (t : Task) (s : StartState)
    (h : (e.target_task_setting t.GetTaskName).pre_node = []) :
    ∃ s', e.Transition_start t s = Except.ok (some s') := by
  unfold Executer.Transition_start
  simp only [h, Executer.pre_node_ready, List.isEmpty_nil, Bool.or_self, if_true]
  exact ⟨_, rfl⟩

theorem Executer.wait_list_names (tasks : List Task) :
    (Executer.wait_list tasks).map (fun x => x.2.GetTaskName) = tasks.map Task.GetTaskName := by
  simp [Executer.wait_list, Function.comp_def]

/-- The loop of `InitTask`, when it returns, has started each resident task once. -/
theorem Executer.InitTask_spec (e : Executer) (fuel : Nat) (others : Nat → World → World)
    (w : World) (r : World × List Event) (hinv : e.inv)
    (h : e.InitTask fuel others w = Except.ok r) :
    ∃ started, List.Perm (e.resident_group_task_list_.map Prod.snd) started ∧
      r.2 = started.flatMap Executer.InitTask_start_calls := by
  unfold Executer.InitTask at h
  simp only at h
  cases hl : Executer.start_loop others e.InitTask_start fuel
      (Executer.wait_list (e.resident_group_task_list_.map Prod.snd))
      (0, Executer.wait_set (e.resident_group_task_list_.map Prod.snd),
       { w := w, evs := [], all_init_node_set_log := [] }) with
  | error f => rw [hl] at h; exact Except.noConfusion h
  | ok r1 =>
    rw [hl] at h
    cases h
    obtain ⟨started, i1, _, i3, _, _⟩ :=
      Executer.start_loop_spec others e.InitTask_start Executer.InitTask_start_calls
        (Executer.InitTask_start_calls_shape e) fuel _ _ _ _ r1 hl
        (Executer.wait_set_matches_init _)
        (by rw [Executer.wait_list_names]; exact (Executer.resident_nodup e hinv).1)
    rw [Executer.wait_list_unstarted] at i3
    exact ⟨started, i3, by simpa using i1⟩

/-- C6: (1), (2) in a pass of the start loop of `InitTask` and of `Transition`,
a task of the wait list that is marked as started is left as it is, and a task
that is not is started and marked so by the pass exactly when its `pre_node` list
(of its launch setting for `InitTask`, of its entry in the target group for
`Transition`) is empty or every node of it is registered and RUNNING in the heap
as the other threads have left it at the moment of the check; a start is the
call of `Init` followed by the call of `TaskStart`.  (3), (4) When
`InitTask` returns it has called `TaskStart` once on each resident task and on
nothing else, and the activation of `Run` that completes a transition has called
`TaskStart` once on each task of `target_task_set_` and on nothing else.  (5) At
a loop head where the wait set holds the names of the tasks not yet started, the
loop leaves without a further pass exactly when every task is marked as
started; (6) the wait sets are first filled so, (7), (8) a pass of either loop
keeps them so, and (9), (10) either loop returns only with every task marked and
the wait set empty.  (11), (12) When every `pre_node` list is empty, one pass is
enough for the loop to return. -/
theorem C6_start_fixpoint :
    (∀ (others : Nat → World → World) (e : Executer) (pre : List (Bool × Task))
        (task : Bool × Task) (rest : List (Bool × Task)) (c : Nat) (ws : List String)
        (s : StartState) (r : List (Bool × Task) × Nat × List String × StartState),
      Executer.start_sweep others e.InitTask_start (pre ++ task :: rest) (c, ws, s) =
        Except.ok r →
      ∃ r1, Executer.start_sweep others e.InitTask_start pre (c, ws, s) = Except.ok r1 ∧
        (task.1 = true → r.1[pre.length]? = some task) ∧
        (task.1 = false → ∃ o,
          e.InitTask_start task.2 { r1.2.2.2 with w := others r1.2.1 r1.2.2.2.w } =
            Except.ok o ∧
          r.1[pre.length]? = some (o.isSome, task.2) ∧
          (o.isSome = true ↔ task.2.GetTaskSetting.launch_setting.pre_node = [] ∨
            spec_pre_nodes_running e.node_map_ (others r1.2.1 r1.2.2.2.w)
              task.2.GetTaskSetting.launch_setting.pre_node) ∧
          ∀ s', o = some s' →
            s'.evs = r1.2.2.2.evs ++ [Event.TaskInitAll task.2.self,
              Event.TaskStart task.2.self,
              Event.logger_info "[Executer] Task start." [task.2.GetTaskName]])) ∧
    (∀ (others : Nat → World → World) (e : Executer) (pre : List (Bool × Task))
        (task : Bool × Task) (rest : List (Bool × Task)) (c : Nat) (ws : List String)
        (s : StartState) (r : List (Bool × Task) × Nat × List String × StartState),
      Executer.start_sweep others e.Transition_start (pre ++ task :: rest) (c, ws, s) =
        Except.ok r →
      ∃ r1, Executer.start_sweep others e.Transition_start pre (c, ws, s) = Except.ok r1 ∧
        (task.1 = true → r.1[pre.length]? = some task) ∧
        (task.1 = false → ∃ o,
          e.Transition_start task.2 { r1.2.2.2 with w := others r1.2.1 r1.2.2.2.w } =
            Except.ok o ∧
          r.1[pre.length]? = some (o.isSome, task.2) ∧
          (o.isSome = true ↔ (e.target_task_setting task.2.GetTaskName).pre_node = [] ∨
            spec_pre_nodes_running e.node_map_ (others r1.2.1 r1.2.2.2.w)
              (e.target_task_setting task.2.GetTaskName).pre_node) ∧
          ∀ s', o = some s' →
            s'.evs = r1.2.2.2.evs ++
              [Event.TaskInit task.2.self (e.all_init_node_set task.2.GetTaskName),
               Event.TaskStart task.2.self,
               Event.logger_info "[Executer] Task start." [task.2.GetTaskName]])) ∧
    (∀ (e : Executer) (fuel : Nat) (others : Nat → World → World) (w : World)
        (r : World × List Event),
      Executer.Reachable e → e.InitTask fuel others w = Except.ok r →
      (∀ x ∈ e.resident_group_task_list_, r.2.count (Event.TaskStart x.2.self) = 1) ∧
      (∀ p, Event.TaskStart p ∈ r.2 → ∃ x ∈ e.resident_group_task_list_, x.2.self = p)) ∧
    (∀ (env : TickEnv) (e : Executer) (w : World) (r : Executer × World × List Event),
      Executer.Reachable e → e.Run env w = Except.ok r →
      e.is_transition_ = true → r.1.is_transition_ = false →
      (∀ t ∈ r.1.target_task_set_, r.2.2.count (Event.TaskStart t.self) = 1) ∧
      (∀ p, Event.TaskStart p ∈ r.2.2 → ∃ t ∈ r.1.target_task_set_, t.self = p)) ∧
    (∀ (others : Nat → World → World)
        (body : Task → StartState → Except Fault (Option StartState))
        (list : List (Bool × Task)) (c : Nat) (ws : List String) (s : StartState),
      Executer.wait_set_matches list ws →
      (Executer.start_loop others body 0 list (c, ws, s) = Except.ok (list, c, ws, s) ↔
        ∀ x ∈ list, x.1 = true)) ∧
    (∀ tasks : List Task,
      Executer.wait_set_matches (Executer.wait_list tasks) (Executer.wait_set tasks)) ∧
    (∀ (others : Nat → World → World) (e : Executer) (list : List (Bool × Task)) (c : Nat)
        (ws : List String) (s : StartState)
        (r : List (Bool × Task) × Nat × List String × StartState),
      (list.map (fun x => x.2.GetTaskName)).Nodup → Executer.wait_set_matches list ws →
      Executer.start_sweep others e.InitTask_start list (c, ws, s) = Except.ok r →
      Executer.wait_set_matches r.1 r.2.2.1) ∧
    (∀ (others : Nat → World → World) (e : Executer) (list : List (Bool × Task)) (c : Nat)
        (ws : List String) (s : StartState)
        (r : List (Bool × Task) × Nat × List String × StartState),
      (list.map (fun x => x.2.GetTaskName)).Nodup → Executer.wait_set_matches list ws →
      Executer.start_sweep others e.Transition_start list (c, ws, s) = Except.ok r →
      Executer.wait_set_matches r.1 r.2.2.1) ∧
    (∀ (others : Nat → World → World) (e : Executer) (fuel : Nat) (list : List (Bool × Task))
        (c : Nat) (ws : List String) (s : StartState)
        (r : List (Bool × Task) × Nat × List String × StartState),
      (list.map (fun x => x.2.GetTaskName)).Nodup → Executer.wait_set_matches list ws →
      Executer.start_loop others e.InitTask_start fuel list (c, ws, s) = Except.ok r →
      (∀ x ∈ r.1, x.1 = true) ∧ r.1.map Prod.snd = list.map Prod.snd ∧ r.2.2.1 = []) ∧
    (∀ (others : Nat → World → World) (e : Executer) (fuel : Nat) (list : List (Bool × Task))
        (c : Nat) (ws : List String) (s : StartState)
        (r : List (Bool × Task) × Nat × List String × StartState),
      (list.map (fun x => x.2.GetTaskName)).Nodup → Executer.wait_set_matches list ws →
      Executer.start_loop others e.Transition_start fuel list (c, ws, s) = Except.ok r →
      (∀ x ∈ r.1, x.1 = true) ∧ r.1.map Prod.snd = list.map Prod.snd ∧ r.2.2.1 = []) ∧
    (∀ (e : Executer) (fuel : Nat) (others : Nat → World → World) (w : World),
      Executer.Reachable e →
      (∀ x ∈ e.resident_group_task_list_, x.2.GetTaskSetting.launch_setting.pre_node = []) →
      ∃ r, e.InitTask (fuel + 1) others w = Except.ok r) ∧
    (∀ (e : Executer) (fuel : Nat) (others : Nat → World → World) (s : StartState),
      Executer.Reachable e →
      (∀ t ∈ e.target_task_set_, (e.target_task_setting t.GetTaskName).pre_node = []) →
      ∃ r, Executer.start_loop others e.Transition_start (fuel + 1)
        (Executer.wait_list e.target_task_set_)
        (0, Executer.wait_set e.target_task_set_, s) = Except.ok r) := by
  refine ⟨?_, ?_, ?_, ?_, ?_, ?_, ?_, ?_, ?_, ?_, ?_, ?_⟩
  · intro others e pre task rest c ws s r h
    obtain ⟨r1, h1, a, b⟩ := Executer.start_sweep_at others _ task rest pre c ws s r h
    refine ⟨r1, h1, a, ?_⟩
    intro hf
    obtain ⟨o, ho, hget⟩ := b hf
    exact ⟨o, ho, hget, (Executer.InitTask_start_spec e task.2 _ o ho).1,
      fun s' hs' => ((Executer.InitTask_start_spec e task.2 _ o ho).2 s' hs').1⟩
  · intro others e pre task rest c ws s r h
    obtain ⟨r1, h1, a, b⟩ := Executer.start_sweep_at others _ task rest pre c ws s r h
    refine ⟨r1, h1, a, ?_⟩
    intro hf
    obtain ⟨o, ho, hget⟩ := b hf
    exact ⟨o, ho, hget, (Executer.Transition_start_spec e task.2 _ o ho).1,
      fun s' hs' => ((Executer.Transition_start_spec e task.2 _ o ho).2 s' hs').1⟩
  · intro e fuel others w r hreach h
    have hinv := Executer.Reachable.inv e hreach
    obtain ⟨started, hperm, hev⟩ := Executer.InitTask_spec e fuel others w r hinv h
    refine ⟨?_, ?_⟩
    · intro x hx
      rw [hev, Executer.InitTask_start_calls_count, ← (hperm.map Task.self).count_eq]
      apply List.count_eq_one_of_mem (Executer.resident_nodup e hinv).2
      exact List.mem_map.mpr ⟨x.2, List.mem_map.mpr ⟨x, hx, rfl⟩, rfl⟩
    · intro p hp
      rw [hev] at hp
      obtain ⟨t, ht, hpt⟩ := List.mem_flatMap.mp hp
      simp only [Executer.InitTask_start_calls, List.mem_cons, List.mem_singleton,
        List.not_mem_nil, or_false] at hpt
      rcases hpt with hpt | hpt | hpt
      · exact Event.noConfusion hpt
      · obtain ⟨x, hx, hxt⟩ := List.mem_map.mp (hperm.mem_iff.mpr ht)
        refine ⟨x, hx, ?_⟩
        rw [hxt]
        exact (Event.TaskStart.inj hpt).symm
      · exact Event.noConfusion hpt
  · intro env e w r hreach h ht hdone
    have hinv := Executer.Reachable.inv e hreach
    have hsub : (e.Subscribe env.msg).is_transition_ = true :=
      (Executer.Subscribe_is_transition e env.msg).trans ht
    have hc := Executer.TransitionCheck_in_transition _ hsub
    rcases Executer.Run_phases env e w r h with ⟨h1, hr⟩ | ⟨h1, hflags, x, hx, hr⟩ |
      ⟨_, _, _, _, hr⟩ | ⟨_, _, _, _, x, hx, hr⟩
    · rw [hc] at h1
      simp only at h1
      rw [hsub] at h1
      exact Bool.noConfusion h1
    · exfalso
      have hx1 := (Executer.Transition_poll_fst env _ w x hx).1
      rw [hr] at hdone
      simp only at hdone
      rw [hx1] at hdone
      simp only at hdone
      rw [h1] at hdone
      exact Bool.noConfusion hdone
    · exfalso
      rw [hr] at hdone
      simp only at hdone
      rw [Executer.Transition_stop_fst] at hdone
      simp only at hdone
      rw [hsub] at hdone
      exact Bool.noConfusion hdone
    · obtain ⟨y1, _, started, text, args, y3, _, y5⟩ :=
        Executer.Transition_finish_spec env _ _ _ x hx
      have htar : (Executer.Transition_stop (e.Subscribe env.msg) w).1.target_task_set_ =
          e.target_task_set_ := by
        rw [Executer.Transition_stop_fst, Executer.Subscribe_eq]
      have hrt : r.1.target_task_set_ = e.target_task_set_ := by
        rw [hr, y1]
        exact htar
      rw [htar] at y5
      have hperm := y5 (Executer.names_nodup_of_is_task_set e _ hinv.target_tasks)
      have hstop : ∀ p, Event.TaskStart p ∉
          (Executer.Transition_stop (e.Subscribe env.msg) w).2.2 := by
        intro p hp
        rw [(Executer.Transition_stop_spec _ w).1] at hp
        split_ifs at hp
        · obtain ⟨t, _, ht⟩ := List.mem_map.mp hp
          exact Event.noConfusion ht
        · simp at hp
      have hexit : ∀ p, Event.TaskStart p ∉
          (spec_node_ptrs (Executer.Transition_stop (e.Subscribe env.msg) w).1.node_map_
            (Executer.Transition_stop (e.Subscribe env.msg) w).1.exit_node_set_).flatMap
            (fun p => [Event.AfterExit p, Event.SetState p NodeState.STANDBY]) := by
        intro p hp
        obtain ⟨q, _, hq⟩ := List.mem_flatMap.mp hp
        simp at hq
      rw [hrt, hr, y3]
      refine ⟨?_, ?_⟩
      · intro t htm
        simp only [List.count_append]
        rw [List.count_eq_zero.mpr (hstop t.self), List.count_eq_zero.mpr (hexit t.self),
          Executer.Transition_start_calls_count, ← (hperm.map Task.self).count_eq,
          List.count_eq_one_of_mem hinv.target_tasks.1 (List.mem_map.mpr ⟨t, htm, rfl⟩)]
        simp
      · intro p hp
        simp only [List.mem_append, List.mem_singleton] at hp
        rcases hp with ((hp | hp) | hp) | hp
        · exact absurd hp (hstop p)
        · exact absurd hp (hexit p)
        · obtain ⟨t, ht, hpt⟩ := List.mem_flatMap.mp hp
          simp only [Executer.Transition_start_calls, List.mem_cons, List.mem_singleton,
            List.not_mem_nil, or_false] at hpt
          rcases hpt with hpt | hpt | hpt
          · exact Event.noConfusion hpt
          · exact ⟨t, hperm.mem_iff.mpr ht, (Event.TaskStart.inj hpt).symm⟩
          · exact Event.noConfusion hpt
        · exact Event.noConfusion hp
  · intro others body list c ws s hm
    exact Executer.start_loop_exit_iff others body list c ws s hm
  · exact Executer.wait_set_matches_init
  · intro others e list c ws s r hnd hm h
    obtain ⟨started, _, _, i3, i4⟩ :=
      Executer.start_sweep_spec others e.InitTask_start Executer.InitTask_start_calls
        (Executer.InitTask_start_calls_shape e) list c ws s r h
    exact Executer.wait_set_matches_step list r.1 ws r.2.2.1 started hnd i3 i4 hm
  · intro others e list c ws s r hnd hm h
    obtain ⟨started, _, _, i3, i4⟩ :=
      Executer.start_sweep_spec others e.Transition_start e.Transition_start_calls
        (Executer.Transition_start_calls_shape e) list c ws s r h
    exact Executer.wait_set_matches_step list r.1 ws r.2.2.1 started hnd i3 i4 hm
  · intro others e fuel list c ws s r hnd hm h
    obtain ⟨_, _, i2, _, i4, i5⟩ :=
      Executer.start_loop_spec others e.InitTask_start Executer.InitTask_start_calls
        (Executer.InitTask_start_calls_shape e) fuel list c ws s r h hm hnd
    exact ⟨i4, i2, i5⟩
  · intro others e fuel list c ws s r hnd hm h
    obtain ⟨_, _, i2, _, i4, i5⟩ :=
      Executer.start_loop_spec others e.Transition_start e.Transition_start_calls
        (Executer.Transition_start_calls_shape e) fuel list c ws s r h hm hnd
    exact ⟨i4, i2, i5⟩
  · intro e fuel others w hreach hpre
    have hinv := Executer.Reachable.inv e hreach
    obtain ⟨r, hr⟩ := Executer.start_loop_total others e.InitTask_start
      Executer.InitTask_start_calls (Executer.InitTask_start_calls_shape e)
      (e.resident_group_task_list_.map Prod.snd) (Executer.resident_nodup e hinv).1
      (fun t ht s => by
        obtain ⟨x, hx, hxt⟩ := List.mem_map.mp ht
        rw [← hxt]
        exact Executer.InitTask_start_of_empty e x.2 s (hpre x hx))
      fuel { w := w, evs := [], all_init_node_set_log := [] }
    unfold Executer.InitTask
    simp only
    rw [hr]
    exact ⟨_, rfl⟩
  · intro e fuel others s hreach hpre
    have hinv := Executer.Reachable.inv e hreach
    exact Executer.start_loop_total others e.Transition_start
      e.Transition_start_calls (Executer.Transition_start_calls_shape e)
      e.target_task_set_ (Executer.names_nodup_of_is_task_set e _ hinv.target_tasks)
      (fun t ht s => Executer.Transition_start_of_empty e t s (hpre t ht)) fuel s

/-! ## The init flags raised by a transition -/

theorem unordered_map.find_isSome_iff {α : Type} (m : List (String × α)) (k : String) :
    (∃ b, unordered_map.find m k = some b) ↔ k ∈ unordered_map.keys m := by
  induction m with
  | nil => simp [unordered_map.find, unordered_map.keys]
  | cons a m ih =>
    obtain ⟨ka, va⟩ := a
    simp only [unordered_map.find, unordered_map.keys, List.map_cons, List.mem_cons]
    simp only [unordered_map.keys] at ih
    by_cases h : ka = k
    · simp [h]
    · rw [if_neg h, ih]
      constructor
      · intro hm
        exact Or.inr hm
      · rintro (hm | hm)
        · exact absurd hm.symm h
        · exact hm

/-- The flag map filled by the constructor `Task::Task`: a lowered flag for each
configured node name, on top of what the map held. -/
theorem Task.init_flags_spec (l : List NodeConfig) :
    ∀ (v : TaskVars) (k : String),
    unordered_map.find (Task.init_flags l v).node_init_flag_ k =
      if k ∈ l.map NodeConfig.node_name then some false
      else unordered_map.find v.node_init_flag_ k := by
  induction l with
  | nil =>
    intro v k
    simp [Task.init_flags]
  | cons node rest ih =>
    intro v k
    simp only [Task.init_flags]
    rw [ih]
    simp only [unordered_map.find_assign, List.map_cons, List.mem_cons]
    by_cases h1 : k ∈ rest.map NodeConfig.node_name
    · simp [h1]
    · by_cases h2 : k = node.node_name
      · simp [h2]
      · simp [h1, h2]

/-- C5 (amended): (1) when the start loop of `Transition` starts a task, it calls
`Init(all_init_node_set)` and then `TaskStart` on it, where `all_init_node_set`
holds the `force_init_node` names of the task in the target group and the names
of `enter_node_set_`; the call leaves the init flag of a name raised if it was
raised or if the name is in `all_init_node_set`, and lowers none, so when no flag
of the task is pending the raised flags are exactly those of the names of
`all_init_node_set` that the task keeps a flag for; these names are added to the logged init set;
the task is left requested to run, and no other task is touched.  (2) The flag
map made by the constructor of a task holds a lowered flag for exactly the node
names of its setting.  (3) The activation of `Run` that completes a transition
from a reachable state makes the two calls, in this order, once for each task
of `target_task_set_`, and no such call before.  (4) In a reachable state a name
of `current_node_set_` that is not a `force_init_node` of the task is not in
`all_init_node_set`, and a start leaves its flag as it was. -/
theorem C5_init_set_before_start :
    (∀ (e : Executer) (t : Task) (s s' : StartState),
      e.Transition_start t s = Except.ok (some s') →
      s'.evs = s.evs ++ [Event.TaskInit t.self (e.all_init_node_set t.GetTaskName),
        Event.TaskStart t.self, Event.logger_info "[Executer] Task start." [t.GetTaskName]] ∧
      (∀ n, n ∈ e.all_init_node_set t.GetTaskName ↔
        n ∈ (e.target_task_setting t.GetTaskName).force_init_node ∨ n ∈ e.enter_node_set_) ∧
      (∀ k, unordered_map.find (s'.w.tasks t.self).node_init_flag_ k =
        (unordered_map.find (s.w.tasks t.self).node_init_flag_ k).map
          (fun b => b || decide (k ∈ e.all_init_node_set t.GetTaskName))) ∧
      ((∀ k, unordered_map.find (s.w.tasks t.self).node_init_flag_ k ≠ some true) →
        ∀ k, unordered_map.find (s'.w.tasks t.self).node_init_flag_ k = some true ↔
          k ∈ e.all_init_node_set t.GetTaskName ∧
          k ∈ unordered_map.keys (s.w.tasks t.self).node_init_flag_) ∧
      (∀ n, n ∈ s'.all_init_node_set_log ↔ n ∈ s.all_init_node_set_log ∨
        (n ∈ e.all_init_node_set t.GetTaskName ∧
          n ∈ unordered_map.keys (s.w.tasks t.self).node_init_flag_)) ∧
      (s'.w.tasks t.self).run_flag_ = true ∧ (s'.w.tasks t.self).loop_run_ = true ∧
      (s'.w.tasks t.self).start_sem_ = (s.w.tasks t.self).start_sem_ + 1 ∧
      (∀ p, p ≠ t.self → s'.w.tasks p = s.w.tasks p)) ∧
    (∀ (self : TaskPtr) (task_setting : TaskSetting) (node_list : List NodePtr) (k : String),
      unordered_map.find (Task.ctor self task_setting node_list).2.node_init_flag_ k =
        if k ∈ task_setting.node_list.map NodeConfig.node_name then some false else none) ∧
    (∀ (env : TickEnv) (e : Executer) (w : World) (r : Executer × World × List Event),
      Executer.Reachable e → e.Run env w = Except.ok r →
      e.is_transition_ = true → r.1.is_transition_ = false →
      ∃ (pre : List Event) (started : List Task) (text : String) (args : List String),
        r.2.2 = pre ++ started.flatMap
          (fun t => [Event.TaskInit t.self (r.1.all_init_node_set t.GetTaskName),
            Event.TaskStart t.self, Event.logger_info "[Executer] Task start." [t.GetTaskName]])
          ++ [Event.logger_info text args] ∧
        List.Perm r.1.target_task_set_ started ∧
        (r.1.target_task_set_.map Task.self).Nodup ∧
        ∀ ev ∈ pre, ∀ p, ev ≠ Event.TaskStart p ∧ ∀ names, ev ≠ Event.TaskInit p names) ∧
    (∀ (e : Executer), Executer.Reachable e →
      ∀ (t : Task) (n : String), n ∈ e.current_node_set_ →
        n ∉ (e.target_task_setting t.GetTaskName).force_init_node →
        n ∉ e.all_init_node_set t.GetTaskName ∧
        ∀ s s', e.Transition_start t s = Except.ok (some s') →
          unordered_map.find (s'.w.tasks t.self).node_init_flag_ n =
            unordered_map.find (s.w.tasks t.self).node_init_flag_ n) := by
  have flags : ∀ (e : Executer) (t : Task) (s s' : StartState),
      e.Transition_start t s = Except.ok (some s') →
      ∀ k, unordered_map.find (s'.w.tasks t.self).node_init_flag_ k =
        (unordered_map.find (s.w.tasks t.self).node_init_flag_ k).map
          (fun b => b || decide (k ∈ e.all_init_node_set t.GetTaskName)) := by
    intro e t s s' h k
    obtain ⟨_, _, a3, _, _⟩ := (Executer.Transition_start_spec e t s (some s') h).2 s' rfl
    rw [a3]
    exact (Task.Init_subset_spec (s.w.tasks t.self) (e.all_init_node_set t.GetTaskName)).1 k
  refine ⟨?_, ?_, ?_, ?_⟩
  · intro e t s s' h
    obtain ⟨a1, _, a3, a4, a5⟩ := (Executer.Transition_start_spec e t s (some s') h).2 s' rfl
    obtain ⟨_, b2, _, _⟩ :=
      Task.Init_subset_spec (s.w.tasks t.self) (e.all_init_node_set t.GetTaskName)
    refine ⟨a1, Executer.mem_all_init_node_set e _, flags e t s s' h, ?_, ?_, ?_, ?_, ?_, a4⟩
    · intro hclean k
      rw [flags e t s s' h k, ← unordered_map.find_isSome_iff]
      cases hf : unordered_map.find (s.w.tasks t.self).node_init_flag_ k with
      | none => simp
      | some b =>
        have hb : b = false := by
          cases b with
          | false => rfl
          | true => exact absurd hf (hclean k)
        simp [hb]
    · intro n
      rw [a5, string_set.mem_insert_range, b2]
    · rw [a3]; rfl
    · rw [a3]; rfl
    · rw [a3]; rfl
  · intro self task_setting node_list k
    have := Task.init_flags_spec task_setting.node_list {} k
    simpa [Task.ctor, unordered_map.find] using this
  · intro env e w r hreach h ht hdone
    have hinv := Executer.Reachable.inv e hreach
    have hsub : (e.Subscribe env.msg).is_transition_ = true :=
      (Executer.Subscribe_is_transition e env.msg).trans ht
    have hc := Executer.TransitionCheck_in_transition _ hsub
    rcases Executer.Run_phases env e w r h with ⟨h1, hr⟩ | ⟨h1, hflags, x, hx, hr⟩ |
      ⟨_, _, _, _, hr⟩ | ⟨_, _, _, _, x, hx, hr⟩
    · rw [hc] at h1
      simp only at h1
      rw [hsub] at h1
      exact Bool.noConfusion h1
    · exfalso
      have hx1 := (Executer.Transition_poll_fst env _ w x hx).1
      rw [hr] at hdone
      simp only at hdone
      rw [hx1] at hdone
      simp only at hdone
      rw [h1] at hdone
      exact Bool.noConfusion hdone
    · exfalso
      rw [hr] at hdone
      simp only at hdone
      rw [Executer.Transition_stop_fst] at hdone
      simp only at hdone
      rw [hsub] at hdone
      exact Bool.noConfusion hdone
    · obtain ⟨y1, _, started, text, args, y3, _, y5⟩ :=
        Executer.Transition_finish_spec env _ _ _ x hx
      have htar : (Executer.Transition_stop (e.Subscribe env.msg) w).1.target_task_set_ =
          e.target_task_set_ := by
        rw [Executer.Transition_stop_fst, Executer.Subscribe_eq]
      have hrt : r.1.target_task_set_ = e.target_task_set_ := by
        rw [hr, y1]
        exact htar
      have hcalls : (fun t : Task =>
          [Event.TaskInit t.self (r.1.all_init_node_set t.GetTaskName),
            Event.TaskStart t.self,
            Event.logger_info "[Executer] Task start." [t.GetTaskName]]) =
          (Executer.Transition_stop (e.Subscribe env.msg) w).1.Transition_start_calls := by
        rw [hr, y1]
        rfl
      rw [htar] at y5
      have hperm := y5 (Executer.names_nodup_of_is_task_set e _ hinv.target_tasks)
      refine ⟨(Executer.Transition_stop (e.Subscribe env.msg) w).2.2 ++
        (spec_node_ptrs (Executer.Transition_stop (e.Subscribe env.msg) w).1.node_map_
          (Executer.Transition_stop (e.Subscribe env.msg) w).1.exit_node_set_).flatMap
          (fun p => [Event.AfterExit p, Event.SetState p NodeState.STANDBY]),
        started, text, args, ?_, ?_, ?_, ?_⟩
      · rw [hcalls, hr, y3]
      · rw [hrt]; exact hperm
      · rw [hrt]; exact hinv.target_tasks.1
      · intro ev hev p
        rcases List.mem_append.mp hev with hev | hev
        · rw [(Executer.Transition_stop_spec _ w).1] at hev
          split_ifs at hev
          · obtain ⟨t, _, ht⟩ := List.mem_map.mp hev
            rw [← ht]
            exact ⟨fun hh => Event.noConfusion hh, fun _ hh => Event.noConfusion hh⟩
          · simp at hev
        · obtain ⟨q, _, hq⟩ := List.mem_flatMap.mp hev
          simp only [List.mem_cons, List.mem_singleton, List.not_mem_nil, or_false] at hq
          rcases hq with hq | hq <;> rw [hq] <;>
            exact ⟨fun hh => Event.noConfusion hh, fun _ hh => Event.noConfusion hh⟩
  · intro e hreach t n hcur hforce
    have hinv := Executer.Reachable.inv e hreach
    have hnot : n ∉ e.all_init_node_set t.GetTaskName := by
      rw [Executer.mem_all_init_node_set, hinv.enter_nodes, string_set.mem_set_difference]
      tauto
    refine ⟨hnot, ?_⟩
    intro s s' h
    rw [flags e t s s' h n]
    cases unordered_map.find (s.w.tasks t.self).node_init_flag_ n with
    | none => rfl
    | some b => simp [hnot]

/-! ## The tasks a transition acts on -/

theorem Executer.mem_collect_group_tasks (e : Executer) (t : Task)
    (l : List (String × GroupTaskSetting)) :
    ∀ s : List Task × List String, t ∈ (Executer.collect_group e l s).1 →
      t ∈ s.1 ∨ ∃ c ∈ l, unordered_map.find e.standby_group_task_list_ c.2.task_name = some t := by
  induction l with
  | nil =>
    intro s h
    exact Or.inl h
  | cons c rest ih =>
    intro s h
    simp only [Executer.collect_group] at h
    rcases ih _ h with h1 | ⟨c', hc', hf⟩
    · simp only at h1
      cases hf : unordered_map.find e.standby_group_task_list_ c.2.task_name with
      | none =>
        rw [hf] at h1
        exact Or.inl h1
      | some task =>
        rw [hf] at h1
        simp only [task_set.insert] at h1
        split_ifs at h1
        · exact Or.inl h1
        · rcases List.mem_append.mp h1 with h1 | h1
          · exact Or.inl h1
          · simp only [List.mem_singleton] at h1
            exact Or.inr ⟨c, List.mem_cons_self _ _, by rw [hf, h1]⟩
    · exact Or.inr ⟨c', List.mem_cons_of_mem _ hc', hf⟩

/-- A task of the set collected for the current group is a standby task that the
current exclusive group lists. -/
theorem Executer.mem_collect_current (e : Executer) (t : Task)
    (h : t ∈ e.collect_current.1) :
    e.current_group_ ≠ "empty_init" ∧
    ∃ g, unordered_map.find e.executer_config_.exclusive_task_group e.current_group_ = some g ∧
      ∃ c ∈ g.task_list, unordered_map.find e.standby_group_task_list_ c.2.task_name = some t := by
  unfold Executer.collect_current at h
  split_ifs at h with hne
  · refine ⟨hne, ?_⟩
    unfold Executer.collect at h
    cases hg : unordered_map.find e.executer_config_.exclusive_task_group e.current_group_ with
    | none =>
      rw [hg] at h
      simp at h
    | some g =>
      rw [hg] at h
      simp only at h
      rcases Executer.mem_collect_group_tasks e t g.task_list _ h with h1 | h1
      · simp at h1
      · exact ⟨g, rfl, h1⟩
  · simp at h

/-- The calls an activation makes on tasks go to tasks of `current_task_set_` or of
`target_task_set_`. -/
theorem Executer.Run_task_events (env : TickEnv) (e : Executer) (w : World)
    (r : Executer × World × List Event) (h : e.Run env w = Except.ok r) :
    ∀ ev ∈ r.2.2, ∀ p, ev.task = some p →
      e.is_transition_ = true ∧
      ((ev = Event.TaskStop p ∧ ∃ t ∈ e.current_task_set_, t.self = p) ∨
       (ev ≠ Event.TaskStop p ∧ ∃ t ∈ e.target_task_set_, t.self = p)) := by
  intro ev hev p hp
  have hstopev : ∀ ev ∈ (Executer.Transition_stop (e.Subscribe env.msg) w).2.2,
      ∀ p, ev.task = some p → ev = Event.TaskStop p ∧ ∃ t ∈ e.current_task_set_, t.self = p := by
    intro ev hev p hp
    rw [(Executer.Transition_stop_spec _ w).1] at hev
    have hcur : (e.Subscribe env.msg).current_task_set_ = e.current_task_set_ := by
      rw [Executer.Subscribe_eq]
    rw [hcur] at hev
    split_ifs at hev
    · obtain ⟨t, ht, hte⟩ := List.mem_map.mp hev
      rw [← hte] at hp ⊢
      simp only [Event.task, Option.some.injEq] at hp
      exact ⟨by rw [hp], t, ht, hp⟩
    · simp at hev
  rcases Executer.Run_phases env e w r h with ⟨h1, hr⟩ | ⟨h1, hflags, x, hx, hr⟩ |
    ⟨ht, _, _, _, hr⟩ | ⟨ht, _, _, _, x, hx, hr⟩
  · exfalso
    rw [hr] at hev
    obtain ⟨_, _, h2 | h2⟩ := Executer.TransitionCheck_events _ ev hev <;>
      rw [h2] at hp <;> exact Option.noConfusion hp
  · exfalso
    rw [hr] at hev
    simp only at hev
    rcases List.mem_append.mp hev with hev | hev
    · obtain ⟨_, _, h2 | h2⟩ := Executer.TransitionCheck_events _ ev hev <;>
        rw [h2] at hp <;> exact Option.noConfusion hp
    · rcases Executer.Transition_poll_events env _ w x hx ev hev with
        ⟨_, _, _, _, h2⟩ | ⟨_, _, _, _, h2⟩ <;>
        rw [h2] at hp <;> exact Option.noConfusion hp
  · rw [hr] at hev
    exact ⟨ht, Or.inl (hstopev ev hev p hp)⟩
  · obtain ⟨_, _, started, text, args, y3, y4, _⟩ :=
      Executer.Transition_finish_spec env _ _ _ x hx
    have htar : (Executer.Transition_stop (e.Subscribe env.msg) w).1.target_task_set_ =
        e.target_task_set_ := by
      rw [Executer.Transition_stop_fst, Executer.Subscribe_eq]
    rw [htar] at y4
    rw [hr, y3] at hev
    simp only [List.mem_append, List.mem_singleton] at hev
    refine ⟨ht, ?_⟩
    rcases hev with ((hev | hev) | hev) | hev
    · exact Or.inl (hstopev ev hev p hp)
    · exfalso
      obtain ⟨q, _, hq⟩ := List.mem_flatMap.mp hev
      simp only [List.mem_cons, List.mem_singleton, List.not_mem_nil, or_false] at hq
      rcases hq with hq | hq <;> rw [hq] at hp <;> exact Option.noConfusion hp
    · obtain ⟨t, ht1, hte⟩ := List.mem_flatMap.mp hev
      simp only [Executer.Transition_start_calls, List.mem_cons, List.mem_singleton,
        List.not_mem_nil, or_false] at hte
      rcases hte with hte | hte | hte
      · rw [hte] at hp ⊢
        simp only [Event.task, Option.some.injEq] at hp
        exact Or.inr ⟨fun hh => Event.noConfusion hh, t, y4 t ht1, hp⟩
      · rw [hte] at hp ⊢
        simp only [Event.task, Option.some.injEq] at hp
        exact Or.inr ⟨fun hh => Event.noConfusion hh, t, y4 t ht1, hp⟩
      · rw [hte] at hp
        exact Option.noConfusion hp
    · exfalso
      rw [hev] at hp
      exact Option.noConfusion hp

/-- The heap of task objects after an activation: a task outside `current_task_set_`
and `target_task_set_` is as before, when the other threads leave it alone. -/
theorem Executer.Run_tasks_frame (env : TickEnv) (e : Executer) (w : World)
    (r : Executer × World × List Event) (h : e.Run env w = Except.ok r) (p : TaskPtr)
    (hothers : ∀ k w', (env.others k w').tasks p = w'.tasks p)
    (hcur : p ∉ e.current_task_set_.map Task.self)
    (htar : p ∉ e.target_task_set_.map Task.self) :
    r.2.1.tasks p = w.tasks p := by
  have hc : (e.Subscribe env.msg).current_task_set_ = e.current_task_set_ := by
    rw [Executer.Subscribe_eq]
  have hstop : (Executer.Transition_stop (e.Subscribe env.msg) w).2.1.tasks p = w.tasks p :=
    (Executer.Transition_stop_spec _ w).2.2 p (by rw [hc]; exact hcur)
  rcases Executer.Run_phases env e w r h with ⟨h1, hr⟩ | ⟨h1, hflags, x, hx, hr⟩ |
    ⟨ht, _, _, _, hr⟩ | ⟨ht, _, _, _, x, hx, hr⟩
  · rw [hr]
  · rw [hr]
    simp only
    rw [(Executer.Transition_poll_fst env _ w x hx).2]
  · rw [hr]
    exact hstop
  · have ht2 : (Executer.Transition_stop (e.Subscribe env.msg) w).1.target_task_set_ =
        e.target_task_set_ := by
      rw [Executer.Transition_stop_fst, Executer.Subscribe_eq]
    have := (Executer.Transition_finish_world env _ _ _ x hx).2 p hothers
      (by rw [ht2]; exact htar)
    rw [hr, this]
    exact hstop

theorem Executer.is_task_set_standby (e : Executer) (hinv : e.inv) (s : List Task)
    (hs : e.is_task_set s) (t : Task) (ht : t ∈ s) :
    t.self = TaskPtr.standby t.GetTaskName ∧
    unordered_map.find e.standby_group_task_list_ t.GetTaskName = some t :=
  ⟨(hinv.standby _ _ (hs.2 t ht)).1, hs.2 t ht⟩

/-- An activation of `Run` leaves the map of standby task objects as it is. -/
theorem Executer.Run_static (env : TickEnv) (e : Executer) (w : World)
    (r : Executer × World × List Event) (h : e.Run env w = Except.ok r) :
    r.1.standby_group_task_list_ = e.standby_group_task_list_ := by
  have hc : ∀ e : Executer,
      e.TransitionCheck.1.standby_group_task_list_ = e.standby_group_task_list_ := by
    intro e
    rcases Executer.TransitionCheck_cases e with hc | ⟨_, _, _, hc⟩ | ⟨_, _, _, hc⟩ <;> rw [hc]
  have hs : (e.Subscribe env.msg).standby_group_task_list_ = e.standby_group_task_list_ := by
    rw [Executer.Subscribe_eq]
  have ht : ∀ (e : Executer) (r' : Executer × World × List Event),
      e.Transition env w = Except.ok r' →
      r'.1.standby_group_task_list_ = e.standby_group_task_list_ := by
    intro e r' hr
    unfold Executer.Transition at hr
    split_ifs at hr with h1 h2
    · have h3 := Executer.Transition_finish_fst env _ _ _ r' hr
      rw [Executer.Transition_stop_fst] at h3
      rw [h3]
    · cases hr
      rw [Executer.Transition_stop_fst]
    · rw [(Executer.Transition_poll_fst env e w r' hr).1]
  rcases Executer.Run_cases env e w r h with ⟨_, r', hr', hrr⟩ | ⟨_, hrr⟩
  · rw [hrr]
    exact (ht _ r' hr').trans ((hc _).trans hs)
  · rw [hrr]
    exact (hc _).trans hs

/-- C8: in an activation of `Run` from any reachable state, hence in every
activation of every run of the orchestrator on every configuration, (1) a call of
`TaskStop` is made only inside a transition and only on the object of a standby
task that the current exclusive group lists; (2) no call of `Init`, `TaskStart` or
`TaskStop` is made on a resident task; (3) the object of a resident task is left
as it was, when the other threads leave it alone meanwhile.  (4) The same holds
for every activation of a sequence of activations. -/
theorem C8_only_current_standby_tasks_stopped :
    (∀ (env : TickEnv) (e : Executer) (w : World) (r : Executer × World × List Event)
        (p : TaskPtr),
      Executer.Reachable e → e.Run env w = Except.ok r → Event.TaskStop p ∈ r.2.2 →
      e.is_transition_ = true ∧ e.current_group_ ≠ "empty_init" ∧
      ∃ (g : GroupSetting) (t : Task),
        unordered_map.find e.executer_config_.exclusive_task_group e.current_group_ = some g ∧
        (∃ c ∈ g.task_list,
          unordered_map.find e.standby_group_task_list_ c.2.task_name = some t) ∧
        unordered_map.find e.standby_group_task_list_ t.GetTaskName = some t ∧
        t.self = p ∧ p = TaskPtr.standby t.GetTaskName) ∧
    (∀ (env : TickEnv) (e : Executer) (w : World) (r : Executer × World × List Event),
      Executer.Reachable e → e.Run env w = Except.ok r →
      ∀ ev ∈ r.2.2,
        (∀ name, ev.task ≠ some (TaskPtr.resident name)) ∧
        (∀ x ∈ e.resident_group_task_list_, ev.task ≠ some x.2.self)) ∧
    (∀ (env : TickEnv) (e : Executer) (w : World) (r : Executer × World × List Event)
        (name : String),
      Executer.Reachable e → e.Run env w = Except.ok r →
      (∀ k w', (env.others k w').tasks (TaskPtr.resident name) =
        w'.tasks (TaskPtr.resident name)) →
      r.2.1.tasks (TaskPtr.resident name) = w.tasks (TaskPtr.resident name)) ∧
    (∀ (envs : List TickEnv) (e : Executer) (w : World)
        (rs : List (Executer × World × List Event)),
      Executer.Reachable e → Executer.Loop envs e w = Except.ok rs →
      ∀ r ∈ rs, Executer.Reachable r.1 ∧
        ∀ ev ∈ r.2.2, (∀ name, ev.task ≠ some (TaskPtr.resident name)) ∧
          ∀ p, ev = Event.TaskStop p → ∃ name,
            p = TaskPtr.standby name ∧
            ∃ t, unordered_map.find r.1.standby_group_task_list_ name = some t) := by
  have key : ∀ (env : TickEnv) (e : Executer) (w : World) (r : Executer × World × List Event),
      Executer.Reachable e → e.Run env w = Except.ok r →
      ∀ ev ∈ r.2.2, ∀ p, ev.task = some p → ∃ t,
        p = TaskPtr.standby t.GetTaskName ∧
        unordered_map.find e.standby_group_task_list_ t.GetTaskName = some t := by
    intro env e w r hreach h ev hev p hp
    have hinv := Executer.Reachable.inv e hreach
    obtain ⟨_, ⟨_, t, ht, htp⟩ | ⟨_, t, ht, htp⟩⟩ := Executer.Run_task_events env e w r h ev hev p hp
    · obtain ⟨a, b⟩ := Executer.is_task_set_standby e hinv _ hinv.current_tasks t ht
      exact ⟨t, by rw [← htp, a], b⟩
    · obtain ⟨a, b⟩ := Executer.is_task_set_standby e hinv _ hinv.target_tasks t ht
      exact ⟨t, by rw [← htp, a], b⟩
  have noresident : ∀ (env : TickEnv) (e : Executer) (w : World)
      (r : Executer × World × List Event),
      Executer.Reachable e → e.Run env w = Except.ok r →
      ∀ ev ∈ r.2.2, ∀ name, ev.task ≠ some (TaskPtr.resident name) := by
    intro env e w r hreach h ev hev name hp
    obtain ⟨t, ht, _⟩ := key env e w r hreach h ev hev _ hp
    exact TaskPtr.noConfusion ht
  refine ⟨?_, ?_, ?_, ?_⟩
  · intro env e w r p hreach h hp
    have hinv := Executer.Reachable.inv e hreach
    obtain ⟨htr, hcase⟩ := Executer.Run_task_events env e w r h _ hp p rfl
    rcases hcase with ⟨_, t, ht, htp⟩ | ⟨hne, _⟩
    · have hcur := hinv.current_group htr
      rw [hcur] at ht
      obtain ⟨hne, g, hg, hc⟩ := Executer.mem_collect_current e t ht
      rw [← hcur] at ht
      obtain ⟨a, b⟩ := Executer.is_task_set_standby e hinv _ hinv.current_tasks t ht
      exact ⟨htr, hne, g, t, hg, hc, b, htp, by rw [← htp, a]⟩
    · exact absurd rfl hne
  · intro env e w r hreach h ev hev
    have hinv := Executer.Reachable.inv e hreach
    refine ⟨noresident env e w r hreach h ev hev, ?_⟩
    intro x hx hp
    rw [(hinv.resident x hx).1] at hp
    exact noresident env e w r hreach h ev hev _ hp
  · intro env e w r name hreach h hothers
    have hinv := Executer.Reachable.inv e hreach
    apply Executer.Run_tasks_frame env e w r h _ hothers
    · intro hm
      obtain ⟨t, ht, htp⟩ := List.mem_map.mp hm
      rw [(Executer.is_task_set_standby e hinv _ hinv.current_tasks t ht).1] at htp
      exact TaskPtr.noConfusion htp
    · intro hm
      obtain ⟨t, ht, htp⟩ := List.mem_map.mp hm
      rw [(Executer.is_task_set_standby e hinv _ hinv.target_tasks t ht).1] at htp
      exact TaskPtr.noConfusion htp
  · intro envs
    induction envs with
    | nil =>
      intro e w rs _ h r hr
      unfold Executer.Loop at h
      cases h
      simp at hr
    | cons env rest ih =>
      intro e w rs hreach h r hr
      obtain ⟨r1, rs', h1, h2, rfl⟩ := Executer.Loop_cons env rest e w rs h
      have hreach1 := Executer.Reachable.tick env e (env.before w) r1 hreach h1
      rcases List.mem_cons.mp hr with hr | hr
      · rw [hr]
        refine ⟨hreach1, ?_⟩
        intro ev hev
        refine ⟨noresident env e _ r1 hreach h1 ev hev, ?_⟩
        intro p hp
        obtain ⟨t, ht, hf⟩ := key env e _ r1 hreach h1 ev hev p (by rw [hp]; rfl)
        have hsame := Executer.Run_static env e _ r1 h1
        exact ⟨t.GetTaskName, ht, t, by rw [hsame]; exact hf⟩
      · exact ih r1.1 r1.2.1 rs' hreach1 h2 r hr

/-! ## The properties on a concrete run -/

theorem demo_g2_reachable :
    Executer.Reachable demo_boot.1 ∧ Executer.Reachable demo_g2_polled.1 ∧
    Executer.Reachable demo_g2_stopped.1 ∧ Executer.Reachable demo_g2_checked.1 := by
  have h0 : Executer.Reachable demo_boot.1 :=
    Executer.Reachable.boot demo_config demo_node_map _ _ (got_eq _ _ (by decide))
  have h1 : Executer.Reachable demo_g2_polled.1 :=
    Executer.Reachable.tick (demo_env (some "G2")) _ _ _ demo_g1_reachable
      (got_eq _ demo_g1 (by decide))
  have h2 : Executer.Reachable demo_g2_stopped.1 :=
    Executer.Reachable.tick (demo_env none) _ _ _ h1 (got_eq _ demo_g2_polled (by decide))
  have h3 : Executer.Reachable demo_g2_checked.1 :=
    Executer.Reachable.tick (demo_env none) _ _ _ h2 (got_eq _ demo_g2_stopped (by decide))
  exact ⟨h0, h1, h2, h3⟩

/-- C1 on the activation that completes the transition to `G1`: the current group
changes in it, and it does so from inside a transition, to the target group, with
the transition flag cleared. -/
theorem C1_witness :
    demo_g1.1.current_group_ ≠ demo_g1_stopped.1.current_group_ ∧
    demo_g1_stopped.1.is_transition_ = true ∧ demo_g1.1.is_transition_ = false ∧
    demo_g1.1.current_group_ = demo_g1_stopped.1.target_group_ :=
  ⟨by decide,
   (C1_transition_atomicity.1 (demo_env none) demo_g1_stopped.1
      (demo_threads demo_g1_stopped.2.1) demo_g1
      (got_eq _ demo_g1_stopped (by decide))).2 (by decide)⟩

/-- C2 on the request of `G1` in the state left by `CreateTask`: the entering
nodes are those of the target set that are not in the current set. -/
theorem C2_witness :
    (demo_boot.1.Subscribe (some "G1")).is_transition_ = false ∧
    (demo_boot.1.Subscribe (some "G1")).desired_group_ ≠
      (demo_boot.1.Subscribe (some "G1")).current_group_ ∧
    (demo_boot.1.Subscribe (some "G1")).desired_group_ ∈
      (demo_boot.1.Subscribe (some "G1")).exclusive_group_set_ ∧
    (demo_boot.1.Subscribe (some "G1")).TransitionCheck.1.is_transition_ = true ∧
    (demo_boot.1.Subscribe (some "G1")).TransitionCheck.1.target_group_ = "G1" :=
  ⟨by decide, by decide, by decide,
   (C2_transition_check_node_sets (demo_boot.1.Subscribe (some "G1"))
      (by decide) (by decide) (by decide)).1,
   (C2_transition_check_node_sets (demo_boot.1.Subscribe (some "G1"))
      (by decide) (by decide) (by decide)).2.1⟩

/-- C3 on the activation of the transition from `G1` to `G2` that stops `T1`: the
call is made inside the transition, after both handshake flags are raised, and
clears the stop flag. -/
theorem C3_witness :
    Event.TaskStop (TaskPtr.standby "T1") ∈ demo_g2_stopped.2.2 ∧
    demo_g2_polled.1.is_transition_ = true ∧ demo_g2_polled.1.all_node_exit_check_ = true ∧
    demo_g2_polled.1.all_node_enter_check_ = true ∧ demo_g2_polled.1.task_stop_flag_ = true ∧
    demo_g2_stopped.1.task_stop_flag_ = false ∧
    ∃ task ∈ demo_g2_polled.1.current_task_set_, task.self = TaskPtr.standby "T1" :=
  ⟨by decide,
   C3_stop_after_handshake.1 (demo_env none) demo_g2_polled.1
     (demo_threads demo_g2_polled.2.1) demo_g2_stopped (TaskPtr.standby "T1")
     (got_eq _ demo_g2_polled (by decide)) (by decide)⟩

/-- C4 on the activation that completes the transition from `G1` to `G2`: the one
exit node `B`, at address 1, gets `AfterExit()` and then the state STANDBY, nothing
else is an exit step, and the state of `B`, which was INIT, is STANDBY in the heap
that the activation leaves. -/
theorem C4_witness :
    demo_g2_checked.1.is_transition_ = true ∧ demo_g2.1.is_transition_ = false ∧
    demo_g2_checked.1.exit_node_set_ = ["B"] ∧
    (demo_g2_checked.2.1.nodes 1).state_ = NodeState.INIT ∧
    demo_g2.2.2.filter Event.is_exit_step =
      [Event.AfterExit 1, Event.SetState 1 NodeState.STANDBY] ∧
    (demo_g2.2.1.nodes 1).state_ = NodeState.STANDBY :=
  have h := C4_exit_nodes_and_frame.1 (demo_env none) demo_g2_checked.1
    (demo_threads demo_g2_checked.2.1) demo_g2 demo_g2_reachable.2.2.2
    (got_eq _ demo_g2_checked (by decide)) (by decide) (by decide)
  ⟨by decide, by decide, by decide, by decide, h.2.2.1.trans (by decide),
   h.2.2.2 1 (by decide) (fun _ _ => rfl)⟩

/-- C5 on the activation that completes the transition from `G1` to `G2`: the
calls end with `Init(all_init_node_set)` and `TaskStart` on each target task. -/
theorem C5_witness :
    demo_g2_checked.1.is_transition_ = true ∧ demo_g2.1.is_transition_ = false ∧
    demo_g2.1.all_init_node_set "T2" = ["C", "D"] ∧
    ∃ (pre : List Event) (started : List Task) (text : String) (args : List String),
      demo_g2.2.2 = pre ++ started.flatMap
        (fun t => [Event.TaskInit t.self (demo_g2.1.all_init_node_set t.GetTaskName),
          Event.TaskStart t.self, Event.logger_info "[Executer] Task start." [t.GetTaskName]])
        ++ [Event.logger_info text args] ∧
      List.Perm demo_g2.1.target_task_set_ started ∧
      (demo_g2.1.target_task_set_.map Task.self).Nodup ∧
      ∀ ev ∈ pre, ∀ p, ev ≠ Event.TaskStart p ∧ ∀ names, ev ≠ Event.TaskInit p names :=
  ⟨by decide, by decide, by decide,
   C5_init_set_before_start.2.2.1 (demo_env none) demo_g2_checked.1
     (demo_threads demo_g2_checked.2.1) demo_g2 demo_g2_reachable.2.2.2
     (got_eq _ demo_g2_checked (by decide)) (by decide) (by decide)⟩

/-- C6 on the activation that completes the transition from `G1` to `G2`: each
target task is started once, and nothing else is started. -/
theorem C6_witness :
    demo_g2_checked.1.is_transition_ = true ∧ demo_g2.1.is_transition_ = false ∧
    demo_g2.1.target_task_set_.map Task.self = [TaskPtr.standby "T2"] ∧
    (∀ t ∈ demo_g2.1.target_task_set_, demo_g2.2.2.count (Event.TaskStart t.self) = 1) ∧
    (∀ p, Event.TaskStart p ∈ demo_g2.2.2 → ∃ t ∈ demo_g2.1.target_task_set_, t.self = p) :=
  ⟨by decide, by decide, by decide,
   C6_start_fixpoint.2.2.2.1 (demo_env none) demo_g2_checked.1
     (demo_threads demo_g2_checked.2.1) demo_g2 demo_g2_reachable.2.2.2
     (got_eq _ demo_g2_checked (by decide)) (by decide) (by decide)⟩

/-- The amended C7 on the state left by `CreateTask`: the name `X` of no group
arrives, is logged once, and is not logged again while it is delivered again. -/
theorem C7_witness :
    demo_boot.1.is_transition_ = false ∧ "X" ≠ demo_boot.1.current_group_ ∧
    "X" ∉ demo_boot.1.exclusive_group_set_ ∧ "X" ≠ demo_boot.1.desired_group_history_ ∧
    ∃ r rs,
      demo_boot.1.Run (demo_env (some "X")) demo_boot.2.1 = Except.ok r ∧
      r.1 = { demo_boot.1 with desired_group_ := "X", desired_group_history_ := "X" } ∧
      r.2.1 = demo_boot.2.1 ∧
      ("X" ≠ demo_boot.1.desired_group_history_ →
        r.2.2 = [Event.logger_error "[Executer] Target group is not an exclusive group." ["X"]]) ∧
      ("X" = demo_boot.1.desired_group_history_ → r.2.2 = []) ∧
      Executer.Loop [demo_env none, demo_env (some "X")] r.1 r.2.1 = Except.ok rs ∧
      rs.length = [demo_env none, demo_env (some "X")].length ∧
      ∀ r' ∈ rs, r'.1 = r.1 ∧ r'.2.2 = [] :=
  ⟨by decide, by decide, by decide, by decide,
   C7_rejected_desired_group demo_boot.1 (demo_env (some "X")) demo_boot.2.1 "X"
     [demo_env none, demo_env (some "X")] (by decide) (by decide) (by decide) rfl
     (by simp [demo_env])⟩

/-- C8 on the activation of the transition from `G1` to `G2` that stops `T1`: the
stopped task is a standby task listed by the current group `G1`. -/
theorem C8_witness :
    Event.TaskStop (TaskPtr.standby "T1") ∈ demo_g2_stopped.2.2 ∧
    demo_g2_polled.1.current_group_ = "G1" ∧
    demo_g2_polled.1.is_transition_ = true ∧ demo_g2_polled.1.current_group_ ≠ "empty_init" ∧
    ∃ (g : GroupSetting) (t : Task),
      unordered_map.find demo_g2_polled.1.executer_config_.exclusive_task_group
        demo_g2_polled.1.current_group_ = some g ∧
      (∃ c ∈ g.task_list,
        unordered_map.find demo_g2_polled.1.standby_group_task_list_ c.2.task_name = some t) ∧
      unordered_map.find demo_g2_polled.1.standby_group_task_list_ t.GetTaskName = some t ∧
      t.self = TaskPtr.standby "T1" ∧ TaskPtr.standby "T1" = TaskPtr.standby t.GetTaskName :=
  ⟨by decide, by decide,
   C8_only_current_standby_tasks_stopped.1 (demo_env none) demo_g2_polled.1
     (demo_threads demo_g2_polled.2.1) demo_g2_stopped (TaskPtr.standby "T1")
     demo_g2_reachable.2.1 (got_eq _ demo_g2_polled (by decide)) (by decide)⟩

/-- C10 on the freshly constructed task `T1` with its nodes `B` and `C`: one
activation of `Run` returns, makes the calls of the specification and leaves both
nodes RUNNING. -/
theorem C10_witness :
    (∀ p ∈ demo_task.1.node_list_,
      ∃ b, unordered_map.find demo_task.2.node_init_flag_
        (((demo_world ["A", "B", "C", "D"]).nodes p).node_name_) = some b) ∧
    ∃ v' nodes',
      demo_task.1.Run demo_task.2 (demo_world ["A", "B", "C", "D"]).nodes =
        Except.ok (v', nodes',
          spec_run_calls demo_task.2 (demo_world ["A", "B", "C", "D"]).nodes []
            demo_task.1.node_list_) ∧
      (∀ p ∈ demo_task.1.node_list_, (nodes' p).state_ = NodeState.RUNNING ∧
        (nodes' p).is_construct_ = true ∧
        unordered_map.find v'.node_init_flag_
          ((demo_world ["A", "B", "C", "D"]).nodes p).node_name_ = some false) ∧
      (∀ p, p ∉ demo_task.1.node_list_ →
        nodes' p = (demo_world ["A", "B", "C", "D"]).nodes p) ∧
      (∀ p, (nodes' p).node_name_ = ((demo_world ["A", "B", "C", "D"]).nodes p).node_name_) ∧
      ((∀ k b, unordered_map.find demo_task.2.node_init_flag_ k = some b →
          ∃ p ∈ demo_task.1.node_list_,
            ((demo_world ["A", "B", "C", "D"]).nodes p).node_name_ = k) →
        ∀ k, unordered_map.find v'.node_init_flag_ k ≠ some true) :=
  ⟨by decide,
   C10_task_run demo_task.1 demo_task.2 (demo_world ["A", "B", "C", "D"]).nodes (by decide)⟩

/-! ## The node registry -/

theorem NodeMap.find_AddNode (m : NodeMap) (node_name : String) (node_ptr : NodePtr)
    (k : String) :
    unordered_map.find (m.AddNode node_name node_ptr).node_map_ k =
      match unordered_map.find m.node_map_ k with
      | some p => some p
      | none => if k = node_name then some node_ptr else none := by
  unfold NodeMap.AddNode
  cases hn : unordered_map.find m.node_map_ node_name with
  | none =>
    simp only [unordered_map.find_assign]
    by_cases hk : k = node_name
    · rw [if_pos hk, hk, hn]
      simp
    · rw [if_neg hk]
      cases unordered_map.find m.node_map_ k <;> simp [hk]
  | some q =>
    simp only
    cases hk : unordered_map.find m.node_map_ k with
    | some p => rfl
    | none =>
      have : k ≠ node_name := by
        intro h
        rw [h, hn] at hk
        exact Option.noConfusion hk
      simp [this]

theorem NodeMap.find_AddNode_calls (calls : List (String × NodePtr)) :
    ∀ (m : NodeMap) (k : String),
    unordered_map.find (NodeMap.AddNode_calls calls m).node_map_ k =
      match unordered_map.find m.node_map_ k with
      | some p => some p
      | none => spec_first_added calls k := by
  induction calls with
  | nil =>
    intro m k
    simp only [NodeMap.AddNode_calls, spec_first_added, List.find?_nil, Option.map_none']
    cases unordered_map.find m.node_map_ k <;> rfl
  | cons call rest ih =>
    intro m k
    simp only [NodeMap.AddNode_calls]
    rw [ih, NodeMap.find_AddNode]
    cases hk : unordered_map.find m.node_map_ k with
    | some p => rfl
    | none =>
      simp only [spec_first_added, List.find?_cons]
      by_cases hc : k = call.1
      · simp [hc]
      · have hc' : ¬ call.1 = k := fun h => hc h.symm
        simp [hc, hc']

/-- C19: after any sequence of `AddNode` calls on an empty registry, `GetNodePtr(k)`
returns the pointer passed by the first call with the key `k`, and throws the
not-found error for `k` when no call had this key, so it fails exactly when no
call had the key; an `AddNode` whose key is present leaves the registry as it
is, and one whose key is absent adds the pointer under the key and keeps every
other entry. -/
theorem C19_node_map_first_insert_wins :
    (∀ (calls : List (String × NodePtr)) (k : String),
      (NodeMap.AddNode_calls calls {}).GetNodePtr k =
        match spec_first_added calls k with
        | some p => Except.ok p
        | none => Except.error (Fault.node_not_found k)) ∧
    (∀ (calls : List (String × NodePtr)) (k : String),
      failed ((NodeMap.AddNode_calls calls {}).GetNodePtr k) = true ↔
        ∀ call ∈ calls, call.1 ≠ k) ∧
    (∀ (m : NodeMap) (node_name : String) (node_ptr q : NodePtr),
      m.GetNodePtr node_name = Except.ok q → m.AddNode node_name node_ptr = m) ∧
    (∀ (m : NodeMap) (node_name : String) (node_ptr : NodePtr),
      failed (m.GetNodePtr node_name) = true →
      (m.AddNode node_name node_ptr).GetNodePtr node_name = Except.ok node_ptr ∧
      ∀ k, k ≠ node_name → (m.AddNode node_name node_ptr).GetNodePtr k = m.GetNodePtr k) := by
  have h1 : ∀ (calls : List (String × NodePtr)) (k : String),
      (NodeMap.AddNode_calls calls {}).GetNodePtr k =
        match spec_first_added calls k with
        | some p => Except.ok p
        | none => Except.error (Fault.node_not_found k) := by
    intro calls k
    unfold NodeMap.GetNodePtr
    rw [NodeMap.find_AddNode_calls]
    simp only [unordered_map.find]
    cases spec_first_added calls k <;> rfl
  refine ⟨h1, ?_, ?_, ?_⟩
  · intro calls k
    rw [h1]
    cases hf : spec_first_added calls k with
    | none =>
      simp only [failed, true_iff]
      intro call hc heq
      simp only [spec_first_added, Option.map_eq_none', List.find?_eq_none] at hf
      exact hf call hc (by simp [heq])
    | some p =>
      simp only [failed, Bool.false_eq_true, false_iff, not_forall]
      simp only [spec_first_added, Option.map_eq_some'] at hf
      obtain ⟨call, hc, _⟩ := hf
      have hm := List.mem_of_find?_eq_some hc
      have hp := List.find?_some hc
      exact ⟨call, hm, by simpa using hp⟩
  · intro m node_name node_ptr q h
    unfold NodeMap.GetNodePtr at h
    unfold NodeMap.AddNode
    cases hf : unordered_map.find m.node_map_ node_name with
    | none =>
      rw [hf] at h
      exact Except.noConfusion h
    | some p => rfl
  · intro m node_name node_ptr h
    have hf : unordered_map.find m.node_map_ node_name = none := by
      unfold NodeMap.GetNodePtr at h
      cases hf : unordered_map.find m.node_map_ node_name with
      | none => rfl
      | some p =>
        rw [hf] at h
        simp [failed] at h
    refine ⟨?_, ?_⟩
    · unfold NodeMap.GetNodePtr
      rw [NodeMap.find_AddNode, hf]
      simp
    · intro k hk
      unfold NodeMap.GetNodePtr
      rw [NodeMap.find_AddNode]
      cases unordered_map.find m.node_map_ k <;> simp [hk]

/-! ## The init requests of a task -/

theorem Task.Init_loop_is_set (init_node_list : List String) (m : List (String × Bool)) :
    ∀ result : List String, string_set.is_set result →
      string_set.is_set (Task.Init_loop init_node_list m result).2 := by
  induction m with
  | nil =>
    intro result h
    exact h
  | cons a m ih =>
    intro result h
    unfold Task.Init_loop
    split_ifs
    · exact ih _ (string_set.is_set_insert _ _ h)
    · exact ih _ h

theorem unordered_map.find_map_true (m : List (String × Bool)) (k : String) :
    unordered_map.find (m.map (fun node => (node.1, true))) k =
      (unordered_map.find m k).map (fun _ => true) := by
  induction m with
  | nil => rfl
  | cons a m ih =>
    simp only [List.map_cons, unordered_map.find]
    by_cases h : a.1 = k
    · rw [if_pos h, if_pos h]
      rfl
    · rw [if_neg h, if_neg h, ih]

theorem Task.Init_loop_keys (init_node_list : List String) (m : List (String × Bool))
    (result : List String) :
    unordered_map.keys (Task.Init_loop init_node_list m result).1 = unordered_map.keys m := by
  rw [(Task.Init_loop_spec init_node_list m result).1]
  simp only [unordered_map.keys, List.map_map]
  apply List.map_congr_left
  intro kv _
  simp only [Function.comp]
  split_ifs <;> rfl

/-- C12: for the variables `v` of any task and any list of names `S`,
`Task::Init(S)` returns, as a set, exactly the names of `S` that the task keeps
an init flag for; it leaves the flag of each of these names raised, keeps the
flag of every other name as it was, adds or removes no flag and touches no other
member; `Task::Init()` leaves every flag of the task raised.  The names a task
keeps a flag for are, from its constructor on, the node names of its setting. -/
theorem C12_task_init :
    (∀ (v : TaskVars) (S : List String),
      (∀ n, n ∈ (Task.Init_subset v S).2 ↔ n ∈ S ∧ n ∈ unordered_map.keys v.node_init_flag_) ∧
      string_set.is_set (Task.Init_subset v S).2 ∧
      (∀ k, k ∈ S → k ∈ unordered_map.keys v.node_init_flag_ →
        unordered_map.find (Task.Init_subset v S).1.node_init_flag_ k = some true) ∧
      (∀ k, k ∉ S →
        unordered_map.find (Task.Init_subset v S).1.node_init_flag_ k =
          unordered_map.find v.node_init_flag_ k) ∧
      unordered_map.keys (Task.Init_subset v S).1.node_init_flag_ =
        unordered_map.keys v.node_init_flag_ ∧
      (Task.Init_subset v S).1 =
        { v with node_init_flag_ := (Task.Init_subset v S).1.node_init_flag_ }) ∧
    (∀ (v : TaskVars),
      (∀ k, k ∈ unordered_map.keys v.node_init_flag_ →
        unordered_map.find (Task.Init v).node_init_flag_ k = some true) ∧
      unordered_map.keys (Task.Init v).node_init_flag_ = unordered_map.keys v.node_init_flag_ ∧
      Task.Init v = { v with node_init_flag_ := (Task.Init v).node_init_flag_ }) ∧
    (∀ (self : TaskPtr) (task_setting : TaskSetting) (node_list : List NodePtr) (k : String),
      k ∈ unordered_map.keys (Task.ctor self task_setting node_list).2.node_init_flag_ ↔
        k ∈ task_setting.node_list.map NodeConfig.node_name) := by
  refine ⟨?_, ?_, ?_⟩
  · intro v S
    obtain ⟨a1, a2, _, _⟩ := Task.Init_subset_spec v S
    refine ⟨a2, ?_, ?_, ?_, ?_, rfl⟩
    · exact Task.Init_loop_is_set S v.node_init_flag_ [] string_set.is_set_nil
    · intro k hk hkey
      rw [a1 k]
      obtain ⟨b, hb⟩ := (unordered_map.find_isSome_iff _ k).mpr hkey
      rw [hb]
      simp [hk]
    · intro k hk
      rw [a1 k]
      cases unordered_map.find v.node_init_flag_ k with
      | none => rfl
      | some b => simp [hk]
    · exact Task.Init_loop_keys S v.node_init_flag_ []
  · intro v
    refine ⟨?_, ?_, rfl⟩
    · intro k hkey
      obtain ⟨b, hb⟩ := (unordered_map.find_isSome_iff _ k).mpr hkey
      simp only [Task.Init]
      rw [unordered_map.find_map_true, hb]
      rfl
    · simp only [Task.Init, unordered_map.keys, List.map_map]
      rfl
  · intro self task_setting node_list k
    rw [← unordered_map.find_isSome_iff]
    have := Task.init_flags_spec task_setting.node_list {} k
    simp only [unordered_map.find] at this
    simp only [Task.ctor, this]
    by_cases h : k ∈ task_setting.node_list.map NodeConfig.node_name
    · simp [h]
    · simp [h]

/-! ## Sequences of task activations -/

/-- An activation of `Run` on a task whose nodes all have an init flag. -/
theorem Task.Run_spec (t : Task) (v : TaskVars) (nodes : NodePtr → NodeBase)
    (hflag : ∀ p ∈ t.node_list_,
      ∃ b, unordered_map.find v.node_init_flag_ (nodes p).node_name_ = some b) :
    ∃ v' nodes',
      t.Run v nodes = Except.ok (v', nodes', spec_run_calls v nodes [] t.node_list_) ∧
      (∀ p, (nodes' p).node_name_ = (nodes p).node_name_) ∧
      (∀ p, (nodes' p).is_construct_ = ((nodes p).is_construct_ || decide (p ∈ t.node_list_))) ∧
      (∀ k, k ∈ t.node_list_.map (fun p => (nodes p).node_name_) →
        unordered_map.find v'.node_init_flag_ k = some false) ∧
      (∀ k, k ∉ t.node_list_.map (fun p => (nodes p).node_name_) →
        unordered_map.find v'.node_init_flag_ k = unordered_map.find v.node_init_flag_ k) := by
  obtain ⟨v', nodes', h, a1, a2, a3, a4, _, _, _⟩ :=
    Task.Run_loop_ok v nodes t.node_list_ [] v nodes [] hflag (fun _ => rfl)
      (fun p => by simp) (fun k hk => by simp at hk) (fun _ _ => rfl) (fun _ => Iff.rfl)
      (fun p hp => by simp at hp) (fun _ _ => rfl)
  refine ⟨v', nodes', ?_, a1, ?_, ?_, ?_⟩
  · simpa [Task.Run] using h
  · simpa using a2
  · simpa using a3
  · simpa using a4

theorem spec_node_calls_count_construct (node p : NodePtr) (c i o : Bool) :
    (spec_node_calls node c i o).count (Event.Construct p) =
      if c = true ∧ node = p then 1 else 0 := by
  cases c <;> cases i <;> cases o <;> by_cases h : node = p <;>
    simp [spec_node_calls, List.count_cons, h]

theorem spec_node_calls_count_init (node p : NodePtr) (c i o : Bool) :
    (spec_node_calls node c i o).count (Event.Init p) =
      if i = true ∧ node = p then 1 else 0 := by
  cases c <;> cases i <;> cases o <;> by_cases h : node = p <;>
    simp [spec_node_calls, List.count_cons, h]

theorem spec_run_calls_count_construct (v : TaskVars) (nodes : NodePtr → NodeBase)
    (p : NodePtr) (todo : List NodePtr) :
    ∀ visited : List NodePtr,
    (spec_run_calls v nodes visited todo).count (Event.Construct p) =
      if (nodes p).is_construct_ = false ∧ p ∈ todo ∧ p ∉ visited then 1 else 0 := by
  induction todo with
  | nil =>
    intro visited
    simp [spec_run_calls]
  | cons node todo ih =>
    intro visited
    simp only [spec_run_calls, List.count_append, ih, spec_node_calls_count_construct]
    by_cases h : node = p
    · subst h
      by_cases hc : (nodes node).is_construct_ = true <;> by_cases hv : node ∈ visited <;>
        simp [hc, hv]
    · have h' : ¬ p = node := fun e => h e.symm
      by_cases hc : (nodes p).is_construct_ = true <;> by_cases hv : p ∈ visited <;>
        by_cases ht : p ∈ todo <;> simp [h, h', hc, hv, ht]

theorem spec_run_calls_count_init (v : TaskVars) (nodes : NodePtr → NodeBase)
    (p : NodePtr) (todo : List NodePtr) :
    ∀ visited : List NodePtr,
    ((visited ++ todo).map (fun q => (nodes q).node_name_)).Nodup →
    (spec_run_calls v nodes visited todo).count (Event.Init p) =
      if unordered_map.find v.node_init_flag_ (nodes p).node_name_ = some true ∧ p ∈ todo
      then 1 else 0 := by
  induction todo with
  | nil =>
    intro visited _
    simp [spec_run_calls]
  | cons node todo ih =>
    intro visited hnd
    have hnd' : (((visited ++ [node]) ++ todo).map (fun q => (nodes q).node_name_)).Nodup := by
      simpa using hnd
    simp only [spec_run_calls, List.count_append, ih (visited ++ [node]) hnd',
      spec_node_calls_count_init]
    have hsplit : (visited.map (fun q => (nodes q).node_name_) ++
        (nodes node).node_name_ :: todo.map (fun q => (nodes q).node_name_)).Nodup := by
      simpa using hnd
    have hvis : (nodes node).node_name_ ∉ visited.map (fun q => (nodes q).node_name_) := by
      intro hm
      exact (List.nodup_append.mp hsplit).2.2 hm (List.mem_cons_self _ _)
    have htodo : node ∉ todo := by
      intro hm
      have h2 := (List.nodup_cons.mp (List.nodup_append.mp hsplit).2.1).1
      exact h2 (List.mem_map.mpr ⟨node, hm, rfl⟩)
    by_cases h : node = p
    · subst h
      by_cases hf : unordered_map.find v.node_init_flag_ (nodes node).node_name_ = some true <;>
        simp [hf, hvis, htodo]
    · have h' : ¬ p = node := fun e => h e.symm
      by_cases hf : unordered_map.find v.node_init_flag_ (nodes p).node_name_ = some true <;>
        by_cases ht : p ∈ todo <;> simp [h, h', hf, ht]

theorem spec_construct_first_append (p : NodePtr) (a : List Event) :
    ∀ (c : Bool) (b : List Event),
    spec_construct_first p c (a ++ b) =
      (spec_construct_first p c a &&
        spec_construct_first p (c || decide (Event.Construct p ∈ a)) b) := by
  induction a with
  | nil =>
    intro c b
    simp [spec_construct_first]
  | cons ev a ih =>
    intro c b
    simp only [List.cons_append, spec_construct_first, List.append_eq]
    by_cases h1 : ev = Event.Construct p
    · rw [if_pos h1, if_pos h1, ih]
      simp [h1]
    · rw [if_neg h1, if_neg h1]
      have hm : decide (Event.Construct p ∈ ev :: a) = decide (Event.Construct p ∈ a) := by
        have : Event.Construct p ≠ ev := fun e => h1 e.symm
        simp [this]
      by_cases h2 : ev = Event.Init p ∨ ev = Event.Execute p
      · rw [if_pos h2, if_pos h2, ih, hm, Bool.and_assoc]
      · rw [if_neg h2, if_neg h2, ih, hm]

/-- The split form of `spec_construct_first`: an `Init` or `Execute` of the node is
preceded by its `Construct` unless the node was constructed from the start. -/
theorem spec_construct_first_split (p : NodePtr) (a : List Event) :
    ∀ (c : Bool) (ev : Event) (b : List Event),
    spec_construct_first p c (a ++ ev :: b) = true →
    (ev = Event.Init p ∨ ev = Event.Execute p) →
    c = true ∨ Event.Construct p ∈ a := by
  intro c ev b h hev
  rw [spec_construct_first_append] at h
  simp only [Bool.and_eq_true] at h
  have h2 := h.2
  have hne : ev ≠ Event.Construct p := by
    rcases hev with e | e <;> rw [e] <;> exact fun hh => Event.noConfusion hh
  simp only [spec_construct_first] at h2
  rw [if_neg hne, if_pos hev] at h2
  simp only [Bool.and_eq_true, Bool.or_eq_true, decide_eq_true_eq] at h2
  exact h2.1

theorem spec_node_calls_construct_first (node p : NodePtr) (c i o : Bool) (constructed : Bool)
    (h : node = p → constructed = true ∨ c = true) :
    spec_construct_first p constructed (spec_node_calls node c i o) = true := by
  by_cases hp : node = p
  · subst hp
    rcases h rfl with h | h
    · subst h
      cases c <;> cases i <;> cases o <;> simp [spec_node_calls, spec_construct_first]
    · subst h
      cases constructed <;> cases i <;> cases o <;>
        simp [spec_node_calls, spec_construct_first]
  · cases c <;> cases i <;> cases o <;>
      simp [spec_node_calls, spec_construct_first, hp]

theorem spec_node_calls_mem_construct (node p : NodePtr) (c i o : Bool) :
    Event.Construct p ∈ spec_node_calls node c i o ↔ c = true ∧ node = p := by
  rw [← List.count_pos_iff, spec_node_calls_count_construct]
  split_ifs with h
  · simp [h]
  · simp [h]

theorem spec_run_calls_mem_construct (v : TaskVars) (nodes : NodePtr → NodeBase)
    (p : NodePtr) (todo visited : List NodePtr) :
    Event.Construct p ∈ spec_run_calls v nodes visited todo ↔
      (nodes p).is_construct_ = false ∧ p ∈ todo ∧ p ∉ visited := by
  rw [← List.count_pos_iff, spec_run_calls_count_construct]
  split_ifs with h
  · simp [h]
  · simp [h]

theorem spec_run_calls_construct_first (v : TaskVars) (nodes : NodePtr → NodeBase)
    (p : NodePtr) (todo : List NodePtr) :
    ∀ visited : List NodePtr,
    spec_construct_first p ((nodes p).is_construct_ || decide (p ∈ visited))
      (spec_run_calls v nodes visited todo) = true := by
  induction todo with
  | nil =>
    intro visited
    simp [spec_run_calls, spec_construct_first]
  | cons node todo ih =>
    intro visited
    simp only [spec_run_calls]
    rw [spec_construct_first_append, Bool.and_eq_true]
    refine ⟨?_, ?_⟩
    · apply spec_node_calls_construct_first
      intro h
      subst h
      cases hc : (nodes node).is_construct_ <;> by_cases hv : node ∈ visited <;> simp [hv]
    · have := ih (visited ++ [node])
      have heq : ((nodes p).is_construct_ || decide (p ∈ visited) ||
          decide (Event.Construct p ∈ spec_node_calls node
            (!(nodes node).is_construct_ && !decide (node ∈ visited))
            (decide (unordered_map.find v.node_init_flag_ (nodes node).node_name_ = some true) &&
              !decide ((nodes node).node_name_ ∈ visited.map (fun q => (nodes q).node_name_)))
            (decide (unordered_map.find v.node_output_flag_ (nodes node).node_name_ =
              some true)))) =
          ((nodes p).is_construct_ || decide (p ∈ visited ++ [node])) := by
        rw [Bool.eq_iff_iff]
        simp only [Bool.or_eq_true, decide_eq_true_eq, spec_node_calls_mem_construct,
          Bool.and_eq_true, Bool.not_eq_true', decide_eq_false_iff_not, List.mem_append,
          List.mem_singleton]
        constructor
        · rintro ((h | h) | ⟨_, h⟩)
          · exact Or.inl h
          · exact Or.inr (Or.inl h)
          · exact Or.inr (Or.inr h.symm)
        · rintro (h | h | h)
          · exact Or.inl (Or.inl h)
          · exact Or.inl (Or.inr h)
          · subst h
            cases hc : (nodes p).is_construct_
            · by_cases hv : p ∈ visited
              · exact Or.inl (Or.inr hv)
              · exact Or.inr ⟨⟨rfl, hv⟩, rfl⟩
            · exact Or.inl (Or.inl rfl)
      rw [heq]
      exact this

theorem spec_init_pending_cons (task : TaskPtr) (n : String) (b : Bool) (c : TaskCall)
    (rest : List TaskCall) :
    spec_init_pending task n b (c :: rest) =
      spec_init_pending task n (spec_init_pending task n b [c]) rest := by
  cases c <;> rfl

/-- An init request is pending after a sequence of calls only if it was pending
before, or an `Init()` was made on the task or an `Init(names)` that lists the
name. -/
theorem spec_init_pending_request (task : TaskPtr) (n : String) (calls : List TaskCall) :
    ∀ b, spec_init_pending task n b calls = true →
      b = true ∨ (∃ t, TaskCall.Init t ∈ calls ∧ t.self = task) ∨
      (∃ t names, TaskCall.Init_subset t names ∈ calls ∧ t.self = task ∧ n ∈ names) := by
  induction calls with
  | nil =>
    intro b h
    exact Or.inl h
  | cons c rest ih =>
    intro b h
    cases c with
    | Run t =>
      simp only [spec_init_pending] at h
      rcases ih _ h with h1 | ⟨u, hu, hs⟩ | ⟨u, names, hu, hs⟩
      · split_ifs at h1
        exact Or.inl h1
      · exact Or.inr (Or.inl ⟨u, List.mem_cons_of_mem _ hu, hs⟩)
      · exact Or.inr (Or.inr ⟨u, names, List.mem_cons_of_mem _ hu, hs⟩)
    | Init t =>
      simp only [spec_init_pending] at h
      rcases ih _ h with h1 | ⟨u, hu, hs⟩ | ⟨u, names, hu, hs⟩
      · split_ifs at h1 with hs
        · exact Or.inr (Or.inl ⟨t, List.mem_cons_self _ _, hs⟩)
        · exact Or.inl h1
      · exact Or.inr (Or.inl ⟨u, List.mem_cons_of_mem _ hu, hs⟩)
      · exact Or.inr (Or.inr ⟨u, names, List.mem_cons_of_mem _ hu, hs⟩)
    | Init_subset t names =>
      simp only [spec_init_pending] at h
      rcases ih _ h with h1 | ⟨u, hu, hs⟩ | ⟨u, names', hu, hs⟩
      · split_ifs at h1 with hs
        · simp only [Bool.or_eq_true, decide_eq_true_eq] at h1
          rcases h1 with h1 | h1
          · exact Or.inl h1
          · exact Or.inr (Or.inr ⟨t, names, List.mem_cons_self _ _, hs, h1⟩)
        · exact Or.inl h1
      · exact Or.inr (Or.inl ⟨u, List.mem_cons_of_mem _ hu, hs⟩)
      · exact Or.inr (Or.inr ⟨u, names', List.mem_cons_of_mem _ hu, hs⟩)

/-- The effect of one call on a task whose nodes have init flags and distinct
names. -/
theorem TaskCall.apply_spec (c : TaskCall) (w : World)
    (hflag : ∀ p ∈ c.task.node_list_,
      ∃ b, unordered_map.find (w.tasks c.task.self).node_init_flag_ (w.nodes p).node_name_ =
        some b)
    (hnames : (c.task.node_list_.map (fun p => (w.nodes p).node_name_)).Nodup) :
    ∃ w1 evs, c.apply w = Except.ok (w1, evs) ∧
      (∀ p, (w1.nodes p).node_name_ = (w.nodes p).node_name_) ∧
      (∀ p, (w1.nodes p).is_construct_ = ((w.nodes p).is_construct_ || c.reaches p)) ∧
      (∀ tp k, (∃ b, unordered_map.find (w1.tasks tp).node_init_flag_ k = some b) ↔
        (∃ b, unordered_map.find (w.tasks tp).node_init_flag_ k = some b)) ∧
      (∀ p, evs.count (Event.Construct p) =
        if (w.nodes p).is_construct_ = false ∧ c.reaches p = true then 1 else 0) ∧
      (∀ p, spec_construct_first p (w.nodes p).is_construct_ evs = true) ∧
      (∀ t, c = TaskCall.Run t → ∀ p, evs.count (Event.Init p) =
        if unordered_map.find (w.tasks t.self).node_init_flag_ (w.nodes p).node_name_ =
            some true ∧ p ∈ t.node_list_ then 1 else 0) ∧
      ((∀ t, c ≠ TaskCall.Run t) → evs = []) ∧
      (∀ tp n, (∃ b, unordered_map.find (w.tasks tp).node_init_flag_ n = some b) →
        (∀ t, c = TaskCall.Run t → t.self = tp →
          n ∈ t.node_list_.map (fun p => (w.nodes p).node_name_)) →
        decide (unordered_map.find (w1.tasks tp).node_init_flag_ n = some true) =
          spec_init_pending tp n
            (decide (unordered_map.find (w.tasks tp).node_init_flag_ n = some true)) [c]) := by
  cases c with
  | Run t =>
    obtain ⟨v', nodes', hrun, a1, a2, a3, a4⟩ :=
      Task.Run_spec t (w.tasks t.self) w.nodes hflag
    have hkeys : ∀ k, (∃ b, unordered_map.find v'.node_init_flag_ k = some b) ↔
        (∃ b, unordered_map.find (w.tasks t.self).node_init_flag_ k = some b) := by
      intro k
      by_cases hk : k ∈ t.node_list_.map (fun p => (w.nodes p).node_name_)
      · rw [a3 k hk]
        obtain ⟨p, hp, hpk⟩ := List.mem_map.mp hk
        have := hflag p hp
        rw [hpk] at this
        exact ⟨fun _ => this, fun _ => ⟨false, rfl⟩⟩
      · rw [a4 k hk]
    refine ⟨{ nodes := nodes', tasks := Function.update w.tasks t.self v' },
      spec_run_calls (w.tasks t.self) w.nodes [] t.node_list_, ?_, a1, ?_, ?_, ?_, ?_, ?_, ?_, ?_⟩
    · simp only [TaskCall.apply, hrun]
    · intro p
      rw [a2 p]
      rfl
    · intro tp k
      by_cases htp : tp = t.self
      · subst htp
        simp only [Function.update_same]
        exact hkeys k
      · simp only [Function.update_noteq htp]
    · intro p
      rw [spec_run_calls_count_construct]
      simp [TaskCall.reaches]
    · intro p
      have := spec_run_calls_construct_first (w.tasks t.self) w.nodes p t.node_list_ []
      simpa using this
    · intro t' ht' p
      cases ht'
      exact spec_run_calls_count_init (w.tasks t.self) w.nodes p t.node_list_ []
        (by simpa using hnames)
    · intro h
      exact absurd rfl (h t)
    · intro tp n _ h2
      simp only [spec_init_pending]
      by_cases htp : t.self = tp
      · subst htp
        rw [if_pos rfl]
        simp only [Function.update_same]
        rw [a3 n (h2 t rfl rfl)]
        rfl
      · rw [if_neg htp]
        simp only [Function.update_noteq (Ne.symm htp)]
  | Init t =>
    refine ⟨_, [], rfl, fun _ => rfl, ?_, ?_, ?_, ?_, ?_, fun _ => rfl, ?_⟩
    · intro p
      simp [TaskCall.reaches]
    · intro tp k
      by_cases htp : tp = t.self
      · subst htp
        simp only [Function.update_same, Task.Init, unordered_map.find_map_true]
        cases unordered_map.find (w.tasks t.self).node_init_flag_ k <;> simp
      · simp only [Function.update_noteq htp]
    · intro p
      simp [TaskCall.reaches]
    · intro p
      rfl
    · intro t' ht'
      exact TaskCall.noConfusion ht'
    · intro tp n h1 _
      simp only [spec_init_pending]
      by_cases htp : t.self = tp
      · subst htp
        rw [if_pos rfl]
        simp only [Function.update_same, Task.Init, unordered_map.find_map_true]
        obtain ⟨b, hb⟩ := h1
        rw [hb]
        rfl
      · rw [if_neg htp]
        simp only [Function.update_noteq (Ne.symm htp)]
  | Init_subset t names =>
    refine ⟨_, [], rfl, fun _ => rfl, ?_, ?_, ?_, ?_, ?_, fun _ => rfl, ?_⟩
    · intro p
      simp [TaskCall.reaches]
    · intro tp k
      by_cases htp : tp = t.self
      · subst htp
        simp only [Function.update_same]
        rw [(Task.Init_subset_spec (w.tasks t.self) names).1 k]
        cases unordered_map.find (w.tasks t.self).node_init_flag_ k <;> simp
      · simp only [Function.update_noteq htp]
    · intro p
      simp [TaskCall.reaches]
    · intro p
      rfl
    · intro t' ht'
      exact TaskCall.noConfusion ht'
    · intro tp n h1 _
      simp only [spec_init_pending]
      by_cases htp : t.self = tp
      · subst htp
        rw [if_pos rfl]
        simp only [Function.update_same]
        rw [(Task.Init_subset_spec (w.tasks t.self) names).1 n]
        obtain ⟨b, hb⟩ := h1
        rw [hb]
        cases b <;> by_cases hn : n ∈ names <;> simp [hn]
      · rw [if_neg htp]
        simp only [Function.update_noteq (Ne.symm htp)]

theorem Task.calls_wf_tail (c : TaskCall) (rest : List TaskCall) (w w1 : World)
    (hwf : Task.calls_wf (c :: rest) w)
    (hn : ∀ p, (w1.nodes p).node_name_ = (w.nodes p).node_name_)
    (hk : ∀ tp k, (∃ b, unordered_map.find (w1.tasks tp).node_init_flag_ k = some b) ↔
      (∃ b, unordered_map.find (w.tasks tp).node_init_flag_ k = some b)) :
    Task.calls_wf rest w1 := by
  refine ⟨?_, ?_, ?_⟩
  · intro c' hc' p hp
    rw [hn p, hk]
    exact hwf.flags c' (List.mem_cons_of_mem _ hc') p hp
  · intro c' hc'
    have := hwf.names c' (List.mem_cons_of_mem _ hc')
    have e : c'.task.node_list_.map (fun p => (w1.nodes p).node_name_) =
        c'.task.node_list_.map (fun p => (w.nodes p).node_name_) :=
      List.map_congr_left (fun p _ => hn p)
    rw [e]
    exact this
  · intro c1 h1 c2 h2
    exact hwf.objects c1 (List.mem_cons_of_mem _ h1) c2 (List.mem_cons_of_mem _ h2)

/-- A sequence of calls on tasks, call by call. -/
theorem Task.calls_spec (calls : List TaskCall) :
    ∀ w : World, Task.calls_wf calls w →
    ∃ r, Task.calls calls w = Except.ok r ∧ r.2.map Prod.fst = calls ∧
      (∀ p, (r.2.flatMap Prod.snd).count (Event.Construct p) =
        if (w.nodes p).is_construct_ = false ∧ ∃ c ∈ calls, c.reaches p = true then 1 else 0) ∧
      (∀ p pre c evs post, r.2 = pre ++ (c, evs) :: post →
        evs.count (Event.Construct p) =
          if c.reaches p = true ∧ (w.nodes p).is_construct_ = false ∧
            ∀ x ∈ pre, x.1.reaches p = false then 1 else 0) ∧
      (∀ p, spec_construct_first p (w.nodes p).is_construct_ (r.2.flatMap Prod.snd) = true) ∧
      (∀ p pre t evs post, r.2 = pre ++ (TaskCall.Run t, evs) :: post →
        evs.count (Event.Init p) =
          if p ∈ t.node_list_ ∧
            spec_init_pending t.self (w.nodes p).node_name_
              (decide (unordered_map.find (w.tasks t.self).node_init_flag_
                (w.nodes p).node_name_ = some true))
              (pre.map Prod.fst) = true then 1 else 0) ∧
      (∀ pre c evs post, r.2 = pre ++ (c, evs) :: post → (∀ t, c ≠ TaskCall.Run t) →
        evs = []) := by
  induction calls with
  | nil =>
    intro w _
    refine ⟨(w, []), rfl, rfl, ?_, ?_, ?_, ?_, ?_⟩
    · intro p
      simp
    · intro p pre c evs post h
      simp at h
    · intro p
      rfl
    · intro p pre t evs post h
      simp at h
    · intro pre c evs post h
      simp at h
  | cons c rest ih =>
    intro w hwf
    obtain ⟨w1, evs0, hap, s1, s2, s3, s4, s5, s6, s7, s8⟩ :=
      TaskCall.apply_spec c w (hwf.flags c (List.mem_cons_self _ _))
        (hwf.names c (List.mem_cons_self _ _))
    have hwf1 := Task.calls_wf_tail c rest w w1 hwf s1 s3
    obtain ⟨r', hr', i0, i1, i2, i3, i4, i5⟩ := ih w1 hwf1
    refine ⟨(r'.1, (c, evs0) :: r'.2), ?_, ?_, ?_, ?_, ?_, ?_, ?_⟩
    · simp only [Task.calls, hap, hr']
    · simp [i0]
    · intro p
      simp only [List.flatMap_cons, List.count_append, i1 p, s4 p, s2 p, List.mem_cons,
        exists_eq_or_imp]
      cases hc : (w.nodes p).is_construct_ <;> cases hr : c.reaches p <;>
        by_cases hx : ∃ c' ∈ rest, c'.reaches p = true <;> simp [hx]
    · intro p pre c' evs post h
      cases pre with
      | nil =>
        simp only [List.nil_append, List.cons.injEq, Prod.mk.injEq] at h
        obtain ⟨⟨h1, h2⟩, _⟩ := h
        subst h1
        subst h2
        rw [s4 p]
        cases hc : (w.nodes p).is_construct_ <;> cases hr : c.reaches p <;> simp
      | cons x pre' =>
        simp only [List.cons_append, List.cons.injEq] at h
        obtain ⟨h1, h2⟩ := h
        subst h1
        rw [i2 p pre' c' evs post h2]
        apply if_congr _ rfl rfl
        rw [s2 p]
        simp only [List.mem_cons, forall_eq_or_imp, Bool.or_eq_false_iff]
        tauto
    · intro p
      simp only [List.flatMap_cons]
      rw [spec_construct_first_append, s5 p, Bool.true_and]
      have heq : ((w.nodes p).is_construct_ || decide (Event.Construct p ∈ evs0)) =
          (w1.nodes p).is_construct_ := by
        rw [s2 p, Bool.eq_iff_iff]
        simp only [Bool.or_eq_true, decide_eq_true_eq]
        rw [← List.count_pos_iff, s4 p]
        cases hc : (w.nodes p).is_construct_ <;> cases hr : c.reaches p <;> simp
      rw [heq]
      exact i3 p
    · intro p pre t evs post h
      cases pre with
      | nil =>
        simp only [List.nil_append, List.cons.injEq, Prod.mk.injEq] at h
        obtain ⟨⟨h1, h2⟩, _⟩ := h
        subst h2
        rw [s6 t h1 p]
        simp only [List.map_nil, spec_init_pending, decide_eq_true_eq]
        by_cases hp : p ∈ t.node_list_ <;> simp [hp]
      | cons x pre' =>
        simp only [List.cons_append, List.cons.injEq] at h
        obtain ⟨h1, h2⟩ := h
        subst h1
        rw [i4 p pre' t evs post h2, s1 p]
        by_cases hp : p ∈ t.node_list_
        · have hmem : TaskCall.Run t ∈ rest := by
            rw [← i0, h2]
            simp
          have hfl := hwf.flags (TaskCall.Run t) (List.mem_cons_of_mem _ hmem) p hp
          have hstep := s8 t.self (w.nodes p).node_name_ hfl (by
            intro u hu hs
            have hobj := hwf.objects c (List.mem_cons_self _ _) (TaskCall.Run t)
              (List.mem_cons_of_mem _ hmem) (by rw [hu]; exact hs)
            rw [hu] at hobj
            have hut : u = t := hobj
            rw [hut]
            exact List.mem_map.mpr ⟨p, hp, rfl⟩)
          have heq : spec_init_pending t.self (w.nodes p).node_name_
              (decide (unordered_map.find (w1.tasks t.self).node_init_flag_
                (w.nodes p).node_name_ = some true)) (pre'.map Prod.fst) =
              spec_init_pending t.self (w.nodes p).node_name_
                (decide (unordered_map.find (w.tasks t.self).node_init_flag_
                  (w.nodes p).node_name_ = some true)) (c :: pre'.map Prod.fst) := by
            rw [spec_init_pending_cons]
            exact congrArg
              (fun b => spec_init_pending t.self (w.nodes p).node_name_ b (pre'.map Prod.fst))
              hstep
          apply if_congr _ rfl rfl
          simp only [List.map_cons]
          constructor
          · rintro ⟨a, b⟩
            exact ⟨a, heq.symm.trans b⟩
          · rintro ⟨a, b⟩
            exact ⟨a, heq.trans b⟩
        · simp [hp]
    · intro pre c' evs post h hnr
      cases pre with
      | nil =>
        simp only [List.nil_append, List.cons.injEq, Prod.mk.injEq] at h
        obtain ⟨⟨h1, h2⟩, _⟩ := h
        subst h1
        subst h2
        exact s7 hnr
      | cons x pre' =>
        simp only [List.cons_append, List.cons.injEq] at h
        exact i5 pre' c' evs post h.2 hnr

/-- C11 (amended): for a sequence of calls of `Run`, `Init()` and `Init(names)` on tasks that
share the node heap, made one after another on tasks whose nodes have init flags
and distinct names, every call returns and: (1) over the sequence `Construct()`
is called exactly once on each node that was not constructed and is in the node
list of a task that is run, and never on another node; (2) the call is made by
the first activation of `Run` whose task lists the node; (3) an `Init()` or
`Execute()` of a node comes after the `Construct()` of the node unless the node
was constructed from the start; (4) an activation of `Run` calls `Init()` on a
node exactly once if the node is in the list of its task and an init request
for the node is pending on the task, and not at all otherwise, where a request
is pending after an `Init()` on the task or an `Init(names)` that lists the name
of the node and is served by the next activation of `Run` of the task; (5) a
request pending after a sequence of calls was pending before it or was made by
a call of the sequence; (6) the init requests make no call on a node. -/
theorem C11_construct_once (calls : List TaskCall) (w : World)
    (hwf : Task.calls_wf calls w) :
    ∃ r, Task.calls calls w = Except.ok r ∧ r.2.map Prod.fst = calls ∧
      (∀ p, (r.2.flatMap Prod.snd).count (Event.Construct p) =
        if (w.nodes p).is_construct_ = false ∧ ∃ c ∈ calls, c.reaches p = true then 1 else 0) ∧
      (∀ p pre c evs post, r.2 = pre ++ (c, evs) :: post →
        evs.count (Event.Construct p) =
          if c.reaches p = true ∧ (w.nodes p).is_construct_ = false ∧
            ∀ x ∈ pre, x.1.reaches p = false then 1 else 0) ∧
      (∀ p a ev b, r.2.flatMap Prod.snd = a ++ ev :: b →
        (ev = Event.Init p ∨ ev = Event.Execute p) →
        (w.nodes p).is_construct_ = true ∨ Event.Construct p ∈ a) ∧
      (∀ p pre t evs post, r.2 = pre ++ (TaskCall.Run t, evs) :: post →
        evs.count (Event.Init p) =
          if p ∈ t.node_list_ ∧
            spec_init_pending t.self (w.nodes p).node_name_
              (decide (unordered_map.find (w.tasks t.self).node_init_flag_
                (w.nodes p).node_name_ = some true))
              (pre.map Prod.fst) = true then 1 else 0) ∧
      (∀ (task : TaskPtr) (n : String) (seq : List TaskCall),
        spec_init_pending task n false seq = true →
          (∃ t, TaskCall.Init t ∈ seq ∧ t.self = task) ∨
          (∃ t names, TaskCall.Init_subset t names ∈ seq ∧ t.self = task ∧ n ∈ names)) ∧
      (∀ pre c evs post, r.2 = pre ++ (c, evs) :: post → (∀ t, c ≠ TaskCall.Run t) →
        evs = []) := by
  obtain ⟨r, hr, i0, i1, i2, i3, i4, i5⟩ := Task.calls_spec calls w hwf
  refine ⟨r, hr, i0, i1, i2, ?_, i4, ?_, i5⟩
  · intro p a ev b hsplit hev
    have := i3 p
    rw [hsplit] at this
    exact spec_construct_first_split p a _ ev b this hev
  · intro task n seq h
    rcases spec_init_pending_request task n seq false h with h1 | h1
    · exact Bool.noConfusion h1
    · exact h1

/-! ## An exception raised by a user method -/

theorem Task.short_of_promotion_and_then (raises : Event → Bool) (node : NodePtr) (s : RunState)
    (r1 : RunState × Option Thrown) (f : RunState → RunState × Option Thrown)
    (h1 : Task.short_of_promotion raises node s r1)
    (h2 : r1.2 = none → Task.short_of_promotion raises node r1.1 (f r1.1)) :
    Task.short_of_promotion raises node s (Task.and_then r1 f) := by
  unfold Task.and_then
  cases h : r1.2 with
  | some e => exact h1
  | none =>
    simp only
    obtain ⟨a1, a2, a3, ⟨evs1, a4, a5, _⟩, _, _⟩ := h1
    obtain ⟨b1, b2, b3, ⟨evs2, b4, b5, b6⟩, b7, b8⟩ := h2 h
    refine ⟨fun q => (b1 q).trans (a1 q), fun q => (b2 q).trans (a2 q),
      fun q hq => (b3 q hq).trans (a3 q hq), ⟨evs1 ++ evs2, ?_, ?_, ?_⟩, b7, ?_⟩
    · rw [b4, a4, List.append_assoc]
    · intro hm
      rcases List.mem_append.mp hm with hm | hm
      · exact a5 hm
      · exact b5 hm
    · intro call hc
      obtain ⟨init, hi⟩ := b6 call hc
      exact ⟨evs1 ++ init, by rw [hi, List.append_assoc]⟩
    · intro f' hf
      rw [b8 f' hf, a2 node]

theorem Task.Run_construct_raising_spec (raises : Event → Bool) (node : NodePtr) (s : RunState) :
    Task.short_of_promotion raises node s (Task.Run_construct_raising raises node s) := by
  unfold Task.Run_construct_raising
  split_ifs with h1 h2
  · exact ⟨fun _ => rfl, fun _ => rfl, fun _ _ => rfl, ⟨[], by simp, by simp, by simp⟩,
      by simp, by simp⟩
  · refine ⟨fun _ => rfl, fun _ => rfl, fun _ _ => rfl,
      ⟨[Event.Construct node], rfl, by simp, ?_⟩, ?_, by simp⟩
    · intro call hc
      simp only [Option.some.injEq, Thrown.user.injEq] at hc
      exact ⟨[], by rw [hc]; rfl⟩
    · intro call hc
      simp only [Option.some.injEq, Thrown.user.injEq] at hc
      rw [← hc]
      exact ⟨Or.inl rfl, h2⟩
  · have hrc : Task.Run_construct node s =
        (s.1, Function.update s.2.1 node { s.2.1 node with is_construct_ := true },
         s.2.2 ++ [Event.Construct node]) := by
      simp [Task.Run_construct, h1]
    rw [hrc]
    refine ⟨?_, ?_, ?_, ⟨[Event.Construct node], rfl, by simp, by simp⟩, by simp, by simp⟩
    · intro q
      by_cases hq : q = node
      · subst hq
        simp
      · simp [Function.update_noteq hq]
    · intro q
      by_cases hq : q = node
      · subst hq
        simp
      · simp [Function.update_noteq hq]
    · intro q hq
      simp [Function.update_noteq hq]

theorem Task.Run_init_raising_spec (raises : Event → Bool) (node : NodePtr) (s : RunState) :
    Task.short_of_promotion raises node s (Task.Run_init_raising raises node s) := by
  unfold Task.Run_init_raising
  cases hf : unordered_map.find s.1.node_init_flag_ (s.2.1 node).node_name_ with
  | none =>
    refine ⟨fun _ => rfl, fun _ => rfl, fun _ _ => rfl, ⟨[], by simp, by simp, by simp⟩,
      by simp, ?_⟩
    intro f hf'
    simp only [Option.some.injEq, Thrown.fault.injEq] at hf'
    exact hf'.symm
  | some b =>
    cases b with
    | false =>
      exact ⟨fun _ => rfl, fun _ => rfl, fun _ _ => rfl, ⟨[], by simp, by simp, by simp⟩,
        by simp, by simp⟩
    | true =>
      simp only
      split_ifs with h
      · refine ⟨fun _ => rfl, fun _ => rfl, fun _ _ => rfl,
          ⟨[Event.Init node], rfl, by simp, ?_⟩, ?_, by simp⟩
        · intro call hc
          simp only [Option.some.injEq, Thrown.user.injEq] at hc
          exact ⟨[], by rw [hc]; rfl⟩
        · intro call hc
          simp only [Option.some.injEq, Thrown.user.injEq] at hc
          rw [← hc]
          exact ⟨Or.inr (Or.inl rfl), h⟩
      · exact ⟨fun _ => rfl, fun _ => rfl, fun _ _ => rfl,
          ⟨[Event.Init node], rfl, by simp, by simp⟩, by simp, by simp⟩

theorem Task.Run_execute_raising_spec (raises : Event → Bool) (node : NodePtr) (s : RunState) :
    Task.short_of_promotion raises node s (Task.Run_execute_raising raises node s) := by
  unfold Task.Run_execute_raising Task.Run_execute
  refine ⟨fun _ => rfl, fun _ => rfl, fun _ _ => rfl,
    ⟨[Event.Execute node], rfl, by simp, ?_⟩, ?_, ?_⟩
  · intro call hc
    split_ifs at hc
    simp only [Option.some.injEq, Thrown.user.injEq] at hc
    exact ⟨[], by rw [hc]; rfl⟩
  · intro call hc
    split_ifs at hc with h
    simp only [Option.some.injEq, Thrown.user.injEq] at hc
    rw [← hc]
    exact ⟨Or.inr (Or.inr (Or.inl rfl)), h⟩
  · intro f hf
    split_ifs at hf
    simp at hf

theorem Task.Run_output_raising_spec (raises : Event → Bool) (node : NodePtr) (s : RunState) :
    Task.short_of_promotion raises node s (Task.Run_output_raising raises node s) := by
  unfold Task.Run_output_raising Task.Run_output
  cases ho : unordered_map.find s.1.node_output_flag_ (s.2.1 node).node_name_ with
  | none =>
    exact ⟨fun _ => rfl, fun _ => rfl, fun _ _ => rfl, ⟨[], by simp, by simp, by simp⟩,
      by simp, by simp⟩
  | some b =>
    cases b with
    | false =>
      exact ⟨fun _ => rfl, fun _ => rfl, fun _ _ => rfl, ⟨[], by simp, by simp, by simp⟩,
        by simp, by simp⟩
    | true =>
      refine ⟨fun _ => rfl, fun _ => rfl, fun _ _ => rfl,
        ⟨[Event.Output node], rfl, by simp, ?_⟩, ?_, ?_⟩
      · intro call hc
        simp only [true_and] at hc
        split_ifs at hc
        simp only [Option.some.injEq, Thrown.user.injEq] at hc
        exact ⟨[], by rw [hc]; rfl⟩
      · intro call hc
        simp only [true_and] at hc
        split_ifs at hc with h
        simp only [Option.some.injEq, Thrown.user.injEq] at hc
        rw [← hc]
        exact ⟨Or.inr (Or.inr (Or.inr rfl)), h⟩
      · intro f hf
        simp only [true_and] at hf
        split_ifs at hf
        simp at hf

/-- The body of the loop of `Task::Run` for one node: either it reaches the
promotion of the node, or it is left by an exception short of it. -/
theorem Task.Run_node_raising_spec (raises : Event → Bool) (node : NodePtr) (s : RunState) :
    ((Task.Run_node_raising raises node s).2 = none ∧
      ((Task.Run_node_raising raises node s).1.2.1 node).state_ = NodeState.RUNNING ∧
      (∀ q, q ≠ node → (Task.Run_node_raising raises node s).1.2.1 q = s.2.1 q) ∧
      (∀ q, ((Task.Run_node_raising raises node s).1.2.1 q).node_name_ = (s.2.1 q).node_name_) ∧
      ∃ evs, (Task.Run_node_raising raises node s).1.2.2 = s.2.2 ++ evs) ∨
    ((Task.Run_node_raising raises node s).2 ≠ none ∧
      Task.short_of_promotion raises node s (Task.Run_node_raising raises node s)) := by
  have h4 : Task.short_of_promotion raises node s
      (Task.and_then
        (Task.and_then
          (Task.and_then (Task.Run_construct_raising raises node s)
            (Task.Run_init_raising raises node))
          (Task.Run_execute_raising raises node))
        (Task.Run_output_raising raises node)) := by
    apply Task.short_of_promotion_and_then
    · apply Task.short_of_promotion_and_then
      · apply Task.short_of_promotion_and_then
        · exact Task.Run_construct_raising_spec raises node s
        · exact fun _ => Task.Run_init_raising_spec raises node _
      · exact fun _ => Task.Run_execute_raising_spec raises node _
    · exact fun _ => Task.Run_output_raising_spec raises node _
  unfold Task.Run_node_raising
  generalize Task.and_then
        (Task.and_then
          (Task.and_then (Task.Run_construct_raising raises node s)
            (Task.Run_init_raising raises node))
          (Task.Run_execute_raising raises node))
        (Task.Run_output_raising raises node) = r4 at h4 ⊢
  unfold Task.and_then
  cases h : r4.2 with
  | some e =>
    right
    simp only
    exact ⟨by rw [h]; simp, h4⟩
  | none =>
    left
    simp only
    obtain ⟨a1, a2, a3, ⟨evs, a4, _, _⟩, _, _⟩ := h4
    refine ⟨trivial, ?_, ?_, ?_, ⟨evs ++ [Event.SetState node NodeState.RUNNING], ?_⟩⟩
    · simp [Task.Run_set_state]
    · intro q hq
      simp only [Task.Run_set_state, Function.update_noteq hq]
      exact a3 q hq
    · intro q
      simp only [Task.Run_set_state]
      by_cases hq : q = node
      · subst hq
        simp [a2]
      · simp [Function.update_noteq hq, a2]
    · simp [Task.Run_set_state, a4]

/-- The loop of `Task::Run`: either every node of the list is promoted, or the
loop is left at a node of the list by an exception; the nodes in front of it
are promoted, the node itself keeps its state and the nodes behind it are
untouched. -/
theorem Task.Run_loop_raising_spec (raises : Event → Bool) (todo : List NodePtr) :
    ∀ s : RunState,
    ((Task.Run_loop_raising raises todo s).2 = none ∧
      (∀ q ∈ todo, ((Task.Run_loop_raising raises todo s).1.2.1 q).state_ = NodeState.RUNNING) ∧
      (∀ q, q ∉ todo → (Task.Run_loop_raising raises todo s).1.2.1 q = s.2.1 q) ∧
      (∀ q, ((Task.Run_loop_raising raises todo s).1.2.1 q).node_name_ = (s.2.1 q).node_name_) ∧
      ∃ evs, (Task.Run_loop_raising raises todo s).1.2.2 = s.2.2 ++ evs) ∨
    (∃ pre p post e, todo = pre ++ p :: post ∧
      (Task.Run_loop_raising raises todo s).2 = some e ∧
      (∀ q ∈ pre, ((Task.Run_loop_raising raises todo s).1.2.1 q).state_ = NodeState.RUNNING) ∧
      (p ∉ pre → ((Task.Run_loop_raising raises todo s).1.2.1 p).state_ = (s.2.1 p).state_) ∧
      (∀ q, q ∉ pre → q ≠ p → (Task.Run_loop_raising raises todo s).1.2.1 q = s.2.1 q) ∧
      (∀ call, e = Thrown.user call →
        (call = Event.Construct p ∨ call = Event.Init p ∨ call = Event.Execute p ∨
          call = Event.Output p) ∧ raises call = true ∧
        ∃ init, (Task.Run_loop_raising raises todo s).1.2.2 = s.2.2 ++ init ++ [call]) ∧
      (∀ f, e = Thrown.fault f → f = Fault.out_of_range (s.2.1 p).node_name_)) := by
  induction todo with
  | nil =>
    intro s
    left
    exact ⟨rfl, by simp, fun _ _ => rfl, fun _ => rfl, ⟨[], by simp [Task.Run_loop_raising]⟩⟩
  | cons node rest ih =>
    intro s
    rcases Task.Run_node_raising_spec raises node s with
      ⟨n1, n2, n3, n4, ⟨evs1, n5⟩⟩ | ⟨x1, x2⟩
    · -- the node is promoted
      have hstep : Task.Run_loop_raising raises (node :: rest) s =
          Task.Run_loop_raising raises rest (Task.Run_node_raising raises node s).1 := by
        simp only [Task.Run_loop_raising, Task.and_then, n1]
      rw [hstep]
      rcases ih (Task.Run_node_raising raises node s).1 with
        ⟨i1, i2, i3, i4, ⟨evs2, i5⟩⟩ | ⟨pre, p, post, e, j0, j1, j2, j3, j4, j5, j6⟩
      · left
        refine ⟨i1, ?_, ?_, fun q => (i4 q).trans (n4 q), ⟨evs1 ++ evs2, ?_⟩⟩
        · intro q hq
          rcases List.mem_cons.mp hq with hq | hq
          · by_cases hr : q ∈ rest
            · exact i2 q hr
            · rw [i3 q hr, hq]
              exact n2
          · exact i2 q hq
        · intro q hq
          rw [List.mem_cons, not_or] at hq
          rw [i3 q hq.2, n3 q hq.1]
        · rw [i5, n5, List.append_assoc]
      · right
        refine ⟨node :: pre, p, post, e, by rw [j0]; rfl, j1, ?_, ?_, ?_, ?_, ?_⟩
        · intro q hq
          rcases List.mem_cons.mp hq with hq | hq
          · by_cases hr : q ∈ pre
            · exact j2 q hr
            · by_cases hp : q = p
              · rw [hp, j3 (hp ▸ hr), ← hp, hq]
                exact n2
              · rw [j4 q hr hp, hq]
                exact n2
          · exact j2 q hq
        · intro hp
          rw [List.mem_cons, not_or] at hp
          rw [j3 hp.2, n3 p hp.1]
        · intro q hq hqp
          rw [List.mem_cons, not_or] at hq
          rw [j4 q hq.2 hqp, n3 q hq.1]
        · intro call hc
          obtain ⟨k1, k2, init, k3⟩ := j5 call hc
          exact ⟨k1, k2, evs1 ++ init, by rw [k3, n5]; simp⟩
        · intro f hf
          rw [j6 f hf, n4 p]
    · -- the loop is left at the node
      have hstep : Task.Run_loop_raising raises (node :: rest) s =
          Task.Run_node_raising raises node s := by
        simp only [Task.Run_loop_raising, Task.and_then]
        cases h : (Task.Run_node_raising raises node s).2 with
        | none => exact absurd h x1
        | some e => rfl
      rw [hstep]
      right
      obtain ⟨a1, a2, a3, ⟨evs, a4, a5, a6⟩, a7, a8⟩ := x2
      cases h : (Task.Run_node_raising raises node s).2 with
      | none => exact absurd h x1
      | some e =>
        refine ⟨[], node, rest, e, rfl, rfl, by simp, fun _ => a1 node,
          fun q _ hq => a3 q hq, ?_, ?_⟩
        · intro call hc
          rw [hc] at h
          obtain ⟨init, hi⟩ := a6 call h
          exact ⟨(a7 call h).1, (a7 call h).2, init, by rw [a4, hi, List.append_assoc]⟩
        · intro f hf
          rw [hf] at h
          exact a8 f h

theorem Task.and_then_state (r : RunState × Option Thrown)
    (f : RunState → RunState × Option Thrown) (st : TaskState)
    (h1 : r.1.1.state_ = st) (h2 : ∀ s : RunState, s.1.state_ = st → (f s).1.1.state_ = st) :
    (Task.and_then r f).1.1.state_ = st := by
  unfold Task.and_then
  cases h : r.2 with
  | some e => exact h1
  | none => exact h2 r.1 h1

theorem Task.Run_node_raising_state (raises : Event → Bool) (node : NodePtr) (s : RunState) :
    (Task.Run_node_raising raises node s).1.1.state_ = s.1.state_ := by
  unfold Task.Run_node_raising
  apply Task.and_then_state
  · apply Task.and_then_state
    · apply Task.and_then_state
      · apply Task.and_then_state
        · unfold Task.Run_construct_raising Task.Run_construct
          split_ifs <;> rfl
        · intro s1 h1
          unfold Task.Run_init_raising
          split
          · exact h1
          · split_ifs <;> exact h1
          · exact h1
      · intro s1 h1
        exact h1
    · intro s1 h1
      unfold Task.Run_output_raising Task.Run_output
      split <;> exact h1
  · intro s1 h1
    exact h1

/-- An activation of `Task::Run` does not write the state of the task, however it
ends. -/
theorem Task.Run_loop_raising_state (raises : Event → Bool) (todo : List NodePtr) :
    ∀ s : RunState, (Task.Run_loop_raising raises todo s).1.1.state_ = s.1.state_ := by
  induction todo with
  | nil =>
    intro s
    rfl
  | cons node rest ih =>
    intro s
    unfold Task.Run_loop_raising
    apply Task.and_then_state
    · exact Task.Run_node_raising_state raises node s
    · intro s1 h1
      rw [ih s1, h1]

theorem Task.Run_node_raising_never (node : NodePtr) (s : RunState) :
    (∀ s1, Task.Run_node node s = Except.ok s1 →
      Task.Run_node_raising (fun _ => false) node s = (s1, none)) ∧
    (∀ f, Task.Run_node node s = Except.error f →
      (Task.Run_node_raising (fun _ => false) node s).2 = some (Thrown.fault f)) := by
  have hc : Task.Run_construct_raising (fun _ => false) node s =
      (Task.Run_construct node s, none) := by
    unfold Task.Run_construct_raising Task.Run_construct
    split_ifs <;> simp_all
  unfold Task.Run_node Task.Run_node_raising
  rw [hc]
  simp only [Task.and_then]
  unfold Task.Run_init_raising Task.Run_init
  cases hf : unordered_map.find (Task.Run_construct node s).1.node_init_flag_
      ((Task.Run_construct node s).2.1 node).node_name_ with
  | none => simp
  | some b =>
    cases b <;>
      simp [Task.Run_execute_raising, Task.Run_output_raising]

/-- The model of `Task::Run` with exceptions of user methods agrees with the model
without them when no user method raises. -/
theorem Task.Run_loop_raising_never (todo : List NodePtr) :
    ∀ s : RunState,
    (∀ r, Task.Run_loop todo s = Except.ok r →
      Task.Run_loop_raising (fun _ => false) todo s = (r, none)) ∧
    (∀ f, Task.Run_loop todo s = Except.error f →
      (Task.Run_loop_raising (fun _ => false) todo s).2 = some (Thrown.fault f)) := by
  induction todo with
  | nil =>
    intro s
    refine ⟨?_, ?_⟩
    · intro r h
      simp only [Task.Run_loop, Except.ok.injEq] at h
      rw [← h]
      rfl
    · intro f h
      simp [Task.Run_loop] at h
  | cons node rest ih =>
    intro s
    obtain ⟨n1, n2⟩ := Task.Run_node_raising_never node s
    cases hn : Task.Run_node node s with
    | error f =>
      refine ⟨?_, ?_⟩
      · intro r h
        simp [Task.Run_loop, hn] at h
      · intro f1 h
        simp only [Task.Run_loop, hn, Except.error.injEq] at h
        subst h
        have := n2 f hn
        simp only [Task.Run_loop_raising, Task.and_then, this]
    | ok s1 =>
      have h1 := n1 s1 hn
      have hstep : Task.Run_loop_raising (fun _ => false) (node :: rest) s =
          Task.Run_loop_raising (fun _ => false) rest s1 := by
        simp only [Task.Run_loop_raising, Task.and_then, h1]
      rw [hstep]
      simp only [Task.Run_loop, hn]
      exact ih s1

/-- C13 (amended): no handler encloses the calls of `Task::Run` or the call of
`Run` in `TaskBase::Loop`.  When the thread of a task is woken out of
`timer_->Sleep()` with `run_flag_` set and the activation of `Run` is left by an
exception, `TaskBase::Loop` is left by the same exception, whatever wakes would
follow: the task does not run again, and the state of the task is not written.
The node at which `Run` was left is not promoted and keeps the state it had, the
nodes in front of it in the node list are RUNNING, every other node is
untouched; an exception of a user method was raised by the last call made, one
of `Construct`, `Init`, `Execute` and `Output` on that node. -/
theorem C13_raised_error_leaves_loop (t : Task) (wake : Wake) (rest : List Wake)
    (s : LoopState) (r : RunState) (e : Thrown)
    (hrun : (wake.before s).v.run_flag_ = true)
    (hraise : Task.Run_raising wake.raises t (wake.before s).v (wake.before s).nodes =
      (r, some e)) :
    TaskBase.Loop_from t LoopPc.Sleep (wake :: rest) s =
      ({ wake.before s with v := r.1, nodes := r.2.1, evs := (wake.before s).evs ++ r.2.2 },
        LoopEnd.thrown e) ∧
    r.1.state_ = (wake.before s).v.state_ ∧
    ∃ pre p post, t.node_list_ = pre ++ p :: post ∧
      (∀ q ∈ pre, (r.2.1 q).state_ = NodeState.RUNNING) ∧
      (p ∉ pre → (r.2.1 p).state_ = ((wake.before s).nodes p).state_) ∧
      (∀ q, q ∉ pre → q ≠ p → r.2.1 q = (wake.before s).nodes q) ∧
      (∀ call, e = Thrown.user call →
        (call = Event.Construct p ∨ call = Event.Init p ∨ call = Event.Execute p ∨
          call = Event.Output p) ∧ wake.raises call = true ∧
        ∃ init, r.2.2 = init ++ [call]) ∧
      (∀ f, e = Thrown.fault f →
        f = Fault.out_of_range ((wake.before s).nodes p).node_name_) := by
  refine ⟨?_, ?_, ?_⟩
  · simp only [TaskBase.Loop_from, TaskBase.Loop_body, hrun, hraise, if_true]
  · have := Task.Run_loop_raising_state wake.raises t.node_list_
      ((wake.before s).v, (wake.before s).nodes, [])
    unfold Task.Run_raising at hraise
    rw [hraise] at this
    exact this
  · unfold Task.Run_raising at hraise
    rcases Task.Run_loop_raising_spec wake.raises t.node_list_
        ((wake.before s).v, (wake.before s).nodes, []) with
      ⟨i1, _⟩ | ⟨pre, p, post, e1, j0, j1, j2, j3, j4, j5, j6⟩
    · rw [hraise] at i1
      exact Option.noConfusion i1
    · rw [hraise] at j1 j2 j3 j4 j5
      simp only [Option.some.injEq] at j1
      subst j1
      refine ⟨pre, p, post, j0, j2, j3, j4, ?_, j6⟩
      intro call hc
      obtain ⟨k1, k2, init, k3⟩ := j5 call hc
      exact ⟨k1, k2, init, by simpa using k3⟩

/-- C13 fails as stated: on the task `T1` with the nodes `B` and `C`, started by
the executer, when `Execute()` of `B` raises after the third wake of the thread,
the exception leaves `TaskBase::Loop`. -/
theorem C13_counterexample :
    ¬ ∀ (t : Task) (wakes : List Wake) (s : LoopState) (call : Event),
      (TaskBase.Loop t wakes s).2 ≠ LoopEnd.thrown (Thrown.user call) := by
  intro h
  exact h demo_task.1 demo_wakes demo_loop_state (Event.Execute 1) (by decide)

/-- C13 on the started task `T1` woken out of `Sleep` when `Execute()` of its
first node `B` raises: the thread leaves `Loop` by the exception although one
more wake would follow, and the state of the task is as before. -/
theorem C13_witness :
    ((demo_wake (some (Event.Execute 1))).before demo_loop_state).v.run_flag_ = true ∧
    demo_raised.2 = some (Thrown.user (Event.Execute 1)) ∧
    (TaskBase.Loop_from demo_task.1 LoopPc.Sleep
      [demo_wake (some (Event.Execute 1)), demo_wake none] demo_loop_state).2 =
        LoopEnd.thrown (Thrown.user (Event.Execute 1)) ∧
    demo_raised.1.1.state_ = demo_loop_state.v.state_ ∧
    (demo_raised.1.2.1 1).state_ = NodeState.INIT :=
  ⟨by decide, by decide,
   congrArg Prod.snd
     (C13_raised_error_leaves_loop demo_task.1 (demo_wake (some (Event.Execute 1)))
       [demo_wake none] demo_loop_state demo_raised.1 (Thrown.user (Event.Execute 1))
       (by decide) (Prod.ext rfl (by decide))).1,
   (C13_raised_error_leaves_loop demo_task.1 (demo_wake (some (Event.Execute 1)))
       [demo_wake none] demo_loop_state demo_raised.1 (Thrown.user (Event.Execute 1))
       (by decide) (Prod.ext rfl (by decide))).2.1,
   by decide⟩

theorem demo_calls_wf : Task.calls_wf demo_calls demo_task_world := by
  refine ⟨by decide, by decide, ?_⟩
  intro c hc c' hc' h
  simp only [demo_calls, List.mem_cons, List.mem_singleton, List.not_mem_nil, or_false] at hc hc'
  rcases hc with rfl | rfl | rfl | rfl | rfl | rfl <;>
    rcases hc' with rfl | rfl | rfl | rfl | rfl | rfl <;>
    first
    | rfl
    | exact absurd h (by decide)

/-- C11 on the calls `demo_calls` on the tasks `T1` and `T2` that share the node
`C`: the calls return in order, and `Construct()` is called exactly once on each of
the nodes `B`, `C` and `D`, and not on `A`. -/
theorem C11_witness :
    Task.calls_wf demo_calls demo_task_world ∧
    ∃ r, Task.calls demo_calls demo_task_world = Except.ok r ∧
      r.2.map Prod.fst = demo_calls ∧
      (∀ p, (r.2.flatMap Prod.snd).count (Event.Construct p) =
        if (demo_task_world.nodes p).is_construct_ = false ∧
          ∃ c ∈ demo_calls, c.reaches p = true then 1 else 0) :=
  ⟨demo_calls_wf,
   (C11_construct_once demo_calls demo_task_world demo_calls_wf).imp
     (fun _ h => ⟨h.1, h.2.1, h.2.2.1⟩)⟩

/-! ## Shared memory objects -/

theorem Posix.find_ftruncate_new (s : Posix) (name : String) (size : Nat)
    (h : unordered_map.find s.shms name = none) :
    unordered_map.find (s.ftruncate name size).shms name = some (List.replicate size 0) := by
  simp [Posix.ftruncate, unordered_map.find_assign, h]

theorem Posix.find_memset_zero (s : Posix) (name : String) (size : Nat)
    (h : unordered_map.find s.shms name = some (List.replicate size 0)) :
    unordered_map.find (s.memset name size).shms name = some (List.replicate size 0) := by
  simp [Posix.memset, h, unordered_map.find_assign]

/-- C18: `SharedMemoryData::Init(name, check_size, size)`.  When an object of the
name exists, with bytes `bytes`, the state of the operating system is left as it
is whichever calls fail, so the contents are not modified; if none of
`shm_open`, `fstat` and `mmap` fails, `Init` throws iff `check_size` is set and
the length of `bytes` is not `size`, the exception is the size mismatch, and
otherwise the object is attached with `size_` the length of `bytes`.  When no
object of the name exists and none of `shm_open`, `ftruncate` and `mmap` fails,
`Init` creates one of `size` bytes that are all zero, leaves every other object
and every semaphore as it is, and attaches with `size_ = size`.  (On a POSIX
system `mmap` fails for the length zero.) -/
theorem C18_shared_memory_data_init (fails : Syscall → Bool) (sem_ : SharedMemorySemaphore)
    (name : String) (check_size : Bool) (size : Nat) (s : Posix) :
    (∀ bytes, unordered_map.find s.shms (GetNamePrefix name) = some bytes →
      (SharedMemoryData.Init fails sem_ name check_size size s).1 = s ∧
      (fails Syscall.shm_open = false → fails Syscall.fstat = false →
        fails Syscall.mmap = false →
        ((∃ e, (SharedMemoryData.Init fails sem_ name check_size size s).2 = Res.thrown e) ↔
          (check_size = true ∧ bytes.length ≠ size)) ∧
        (check_size = true ∧ bytes.length ≠ size →
          (SharedMemoryData.Init fails sem_ name check_size size s).2 =
            Res.thrown (IpcError.size_mismatch size bytes.length)) ∧
        (¬ (check_size = true ∧ bytes.length ≠ size) →
          (SharedMemoryData.Init fails sem_ name check_size size s).2 =
            Res.ok { sem_ := sem_, name_ := GetNamePrefix name, size_ := bytes.length }))) ∧
    (unordered_map.find s.shms (GetNamePrefix name) = none →
      fails Syscall.shm_open = false → fails Syscall.shm_open_creat = false →
      fails Syscall.ftruncate = false → fails Syscall.mmap = false →
      (SharedMemoryData.Init fails sem_ name check_size size s).2 =
        Res.ok { sem_ := sem_, name_ := GetNamePrefix name, size_ := size } ∧
      unordered_map.find (SharedMemoryData.Init fails sem_ name check_size size s).1.shms
        (GetNamePrefix name) = some (List.replicate size 0) ∧
      (∀ k, k ≠ GetNamePrefix name →
        unordered_map.find (SharedMemoryData.Init fails sem_ name check_size size s).1.shms k =
          unordered_map.find s.shms k) ∧
      (SharedMemoryData.Init fails sem_ name check_size size s).1.sems = s.sems) := by
  refine ⟨?_, ?_⟩
  · intro bytes hb
    refine ⟨?_, ?_⟩
    · simp only [SharedMemoryData.Init, hb]
      split_ifs <;> rfl
    · intro h1 h2 h3
      by_cases hm : check_size = true ∧ bytes.length ≠ size
      · have hr : (SharedMemoryData.Init fails sem_ name check_size size s).2 =
            Res.thrown (IpcError.size_mismatch size bytes.length) := by
          simp only [SharedMemoryData.Init, hb, h1, h2, h3, Bool.false_eq_true, if_false]
          rw [if_pos hm]
        refine ⟨⟨fun _ => hm, fun _ => ⟨_, hr⟩⟩, fun _ => hr, fun h => absurd hm h⟩
      · have hr : (SharedMemoryData.Init fails sem_ name check_size size s).2 =
            Res.ok { sem_ := sem_, name_ := GetNamePrefix name, size_ := bytes.length } := by
          simp only [SharedMemoryData.Init, hb, h1, h2, h3, Bool.false_eq_true, if_false]
          rw [if_neg hm]
          simp only [Res.ok.injEq, SharedMemoryData.mk.injEq, true_and]
          cases check_size
          · rfl
          · simp only [true_and, ne_eq, not_not] at hm
            simp [hm]
        refine ⟨⟨?_, fun h => absurd h hm⟩, fun h => absurd h hm, fun _ => hr⟩
        rintro ⟨e, he⟩
        rw [hr] at he
        exact Res.noConfusion he
  · intro hn h1 h2 h3 h4
    have hr : SharedMemoryData.Init fails sem_ name check_size size s =
        ((s.ftruncate (GetNamePrefix name) size).memset (GetNamePrefix name) size,
          Res.ok { sem_ := sem_, name_ := GetNamePrefix name, size_ := size }) := by
      simp [SharedMemoryData.Init, hn, h1, h2, h3, h4]
    rw [hr]
    have hf := Posix.find_ftruncate_new s (GetNamePrefix name) size hn
    refine ⟨rfl, Posix.find_memset_zero _ _ _ hf, ?_, ?_⟩
    · intro k hk
      simp only [Posix.memset, hf]
      simp only [unordered_map.find_assign, Posix.ftruncate, if_neg hk]
    · simp only [Posix.memset, hf]
      rfl

/-! ## Semaphore counts -/

theorem Res.and_then_ok {σ α β : Type} (s : σ) (a : α) (f : σ → α → σ × Res β) :
    Res.and_then (s, Res.ok a) f = f s a := rfl

theorem Res.and_then_blocked {σ α β : Type} (s : σ) (f : σ → α → σ × Res β) :
    Res.and_then ((s, Res.blocked) : σ × Res α) f = (s, Res.blocked) := rfl

theorem Res.and_then_thrown {σ α β : Type} (s : σ) (e : IpcError) (f : σ → α → σ × Res β) :
    Res.and_then ((s, Res.thrown e) : σ × Res α) f = (s, Res.thrown e) := rfl

/-- A property of the state left by the first statement that the second
statement keeps holds of the state left by the sequence. -/
theorem Res.and_then_rel {σ α β : Type} (P : σ → Prop) (r : σ × Res α)
    (f : σ → α → σ × Res β) (h1 : P r.1) (h2 : ∀ a, r.2 = Res.ok a → P (f r.1 a).1) :
    P (Res.and_then r f).1 := by
  obtain ⟨s, x⟩ := r
  cases x with
  | ok a => exact h2 a rfl
  | blocked => exact h1
  | thrown e => exact h1

theorem Posix.sem_bound_refl (name : String) (s : Posix) : Posix.sem_bound name s s :=
  fun c1 h => Or.inr ⟨c1, h, le_refl _⟩

theorem Posix.sem_bound_of_sems_eq (name : String) (s s1 : Posix) (h : s1.sems = s.sems) :
    Posix.sem_bound name s s1 := by
  intro c1 h1
  rw [h] at h1
  exact Or.inr ⟨c1, h1, le_refl _⟩

theorem Posix.sem_bound_trans (name : String) (s s1 s2 : Posix)
    (h1 : Posix.sem_bound name s s1) (h2 : Posix.sem_bound name s1 s2) :
    Posix.sem_bound name s s2 := by
  intro c2 hc2
  rcases h2 c2 hc2 with h | ⟨c1, hc1, hle⟩
  · exact Or.inl h
  · rcases h1 c1 hc1 with h | ⟨c, hc, hle1⟩
    · exact Or.inl (le_trans hle h)
    · exact Or.inr ⟨c, hc, le_trans hle hle1⟩

theorem Posix.sem_bound_of_eq_sems (name : String) (s s1 s2 : Posix)
    (h1 : Posix.sem_bound name s s1) (h2 : s2.sems = s1.sems) :
    Posix.sem_bound name s s2 :=
  Posix.sem_bound_trans name s s1 s2 h1 (Posix.sem_bound_of_sems_eq name s1 s2 h2)

theorem Posix.sem_open_bound (name : String) (s : Posix) (k : String) (value : Nat)
    (hv : value ≤ 1) : Posix.sem_bound name s (s.sem_open k value) := by
  unfold Posix.sem_open
  cases h : unordered_map.find s.sems k with
  | some c => exact Posix.sem_bound_refl name s
  | none =>
    intro c1 h1
    simp only [unordered_map.find_assign] at h1
    split_ifs at h1 with hk
    · simp only [Option.some.injEq] at h1
      exact Or.inl (h1 ▸ hv)
    · exact Or.inr ⟨c1, h1, le_refl _⟩

theorem SharedMemorySemaphore.Init_bound (name : String) (fails : Syscall → Bool) (k : String)
    (value : Nat) (hv : value ≤ 1) (s : Posix) :
    Posix.sem_bound name s (SharedMemorySemaphore.Init fails k value s).1 := by
  unfold SharedMemorySemaphore.Init
  split_ifs
  · exact Posix.sem_bound_refl name s
  · exact Posix.sem_open_bound name s _ value hv

/-- Lowering the count of a semaphore keeps the bound. -/
theorem Posix.sem_bound_lower (name : String) (s : Posix) (k : String) (c : Nat)
    (h : unordered_map.find s.sems k = some c) :
    Posix.sem_bound name s { s with sems := unordered_map.assign s.sems k (c - 1) } := by
  intro c1 h1
  simp only [unordered_map.find_assign] at h1
  split_ifs at h1 with hk
  · simp only [Option.some.injEq] at h1
    subst hk
    exact Or.inr ⟨c, h, by omega⟩
  · exact Or.inr ⟨c1, h1, le_refl _⟩

theorem SharedMemorySemaphore.IncrementWhenZero_bound (name : String) (fails : Syscall → Bool)
    (self : SharedMemorySemaphore) (s : Posix) :
    Posix.sem_bound name s (self.IncrementWhenZero fails s).1 := by
  unfold SharedMemorySemaphore.IncrementWhenZero
  cases h : unordered_map.find s.sems self.name_ with
  | none => exact Posix.sem_bound_refl name s
  | some value =>
    simp only
    split_ifs with h1 h2 h3
    · exact Posix.sem_bound_refl name s
    · exact Posix.sem_bound_refl name s
    · intro c1 hc1
      simp only [unordered_map.find_assign] at hc1
      split_ifs at hc1 with hk
      · simp only [Option.some.injEq] at hc1
        exact Or.inl (by omega)
      · exact Or.inr ⟨c1, hc1, le_refl _⟩
    · exact Posix.sem_bound_refl name s

theorem SharedMemorySemaphore.Decrement_bound (name : String) (fails : Syscall → Bool)
    (self : SharedMemorySemaphore) (s : Posix) :
    Posix.sem_bound name s (self.Decrement fails s).1 := by
  unfold SharedMemorySemaphore.Decrement
  cases h : unordered_map.find s.sems self.name_ with
  | none => exact Posix.sem_bound_refl name s
  | some c =>
    simp only
    split_ifs
    · exact Posix.sem_bound_refl name s
    · exact Posix.sem_bound_refl name s
    · exact Posix.sem_bound_lower name s _ c h

theorem SharedMemorySemaphore.TryDecrement_bound (name : String) (fails : Syscall → Bool)
    (self : SharedMemorySemaphore) (s : Posix) :
    Posix.sem_bound name s (self.TryDecrement fails s).1 := by
  unfold SharedMemorySemaphore.TryDecrement
  cases h : unordered_map.find s.sems self.name_ with
  | none => exact Posix.sem_bound_refl name s
  | some c =>
    simp only
    split_ifs
    · exact Posix.sem_bound_refl name s
    · exact Posix.sem_bound_refl name s
    · exact Posix.sem_bound_lower name s _ c h

theorem SharedMemorySemaphore.DecrementTimeout_bound (name : String) (fails : Syscall → Bool)
    (self : SharedMemorySemaphore) (milliseconds : Nat) (s : Posix) :
    Posix.sem_bound name s (self.DecrementTimeout fails milliseconds s).1 := by
  unfold SharedMemorySemaphore.DecrementTimeout
  cases h : unordered_map.find s.sems self.name_ with
  | none =>
    simp only
    split_ifs <;> exact Posix.sem_bound_refl name s
  | some c =>
    simp only
    split_ifs
    · exact Posix.sem_bound_refl name s
    · exact Posix.sem_bound_refl name s
    · exact Posix.sem_bound_refl name s
    · exact Posix.sem_bound_lower name s _ c h

theorem Posix.ftruncate_sems (s : Posix) (k : String) (size : Nat) :
    (s.ftruncate k size).sems = s.sems := rfl

theorem Posix.memset_sems (s : Posix) (k : String) (size : Nat) :
    (s.memset k size).sems = s.sems := by
  unfold Posix.memset
  split <;> rfl

theorem Posix.memcpy_sems (s : Posix) (k : String) (buffer : List Nat) :
    (s.memcpy k buffer).sems = s.sems := by
  unfold Posix.memcpy
  split <;> rfl

/-- The method `SharedMemoryData::Init` touches no semaphore. -/
theorem SharedMemoryData.Init_sems (fails : Syscall → Bool) (sem_ : SharedMemorySemaphore)
    (name : String) (check_size : Bool) (size : Nat) (s : Posix) :
    (SharedMemoryData.Init fails sem_ name check_size size s).1.sems = s.sems := by
  unfold SharedMemoryData.Init
  cases h : unordered_map.find s.shms (GetNamePrefix name) with
  | none =>
    simp only
    split_ifs
    · rfl
    · rfl
    · rfl
    · rfl
    · rw [Posix.memset_sems]
      rfl
  | some bytes =>
    simp only
    split_ifs <;> rfl

theorem SharedMemoryData.ctor_bound (name : String) (fails : Syscall → Bool) (k : String)
    (check_size : Bool) (size : Nat) (s : Posix) :
    Posix.sem_bound name s (SharedMemoryData.ctor fails k check_size size s).1 := by
  unfold SharedMemoryData.ctor
  apply Res.and_then_rel (fun x => Posix.sem_bound name s x)
  · exact SharedMemorySemaphore.Init_bound name fails _ 1 (le_refl _) s
  · intro a _
    exact Posix.sem_bound_of_eq_sems name s _ _
      (SharedMemorySemaphore.Init_bound name fails _ 1 (le_refl _) s)
      (SharedMemoryData.Init_sems fails a k check_size size _)

theorem SharedMemoryTopicRos2.CheckSHMExist_bound (name : String) (fails : Syscall → Bool)
    (shm_name : String) (check_size : Bool) (size : Nat) (st : TopicState) :
    Posix.sem_bound name st.1
      (SharedMemoryTopicRos2.CheckSHMExist fails shm_name check_size size st).1.1 := by
  unfold SharedMemoryTopicRos2.CheckSHMExist
  split
  · exact Posix.sem_bound_refl name st.1
  · apply Res.and_then_rel (fun x : TopicState => Posix.sem_bound name st.1 x.1)
    · exact SharedMemoryData.ctor_bound name fails shm_name check_size size st.1
    · intro a _
      exact SharedMemoryData.ctor_bound name fails shm_name check_size size st.1

theorem SharedMemoryTopicRos2.CheckSemExist_bound (name : String) (fails : Syscall → Bool)
    (topic_name : String) (st : TopicState) :
    Posix.sem_bound name st.1
      (SharedMemoryTopicRos2.CheckSemExist fails topic_name st).1.1 := by
  unfold SharedMemoryTopicRos2.CheckSemExist
  split
  · exact Posix.sem_bound_refl name st.1
  · apply Res.and_then_rel (fun x : TopicState => Posix.sem_bound name st.1 x.1)
    · exact SharedMemorySemaphore.Init_bound name fails topic_name 0 (Nat.zero_le _) st.1
    · intro a _
      exact SharedMemorySemaphore.Init_bound name fails topic_name 0 (Nat.zero_le _) st.1

theorem SharedMemoryTopicRos2.shm_at_fst (shm_name : String) (st : TopicState) :
    (SharedMemoryTopicRos2.shm_at shm_name st).1 = st := by
  unfold SharedMemoryTopicRos2.shm_at
  split <;> rfl

theorem SharedMemoryTopicRos2.sem_at_fst (topic_name : String) (st : TopicState) :
    (SharedMemoryTopicRos2.sem_at topic_name st).1 = st := by
  unfold SharedMemoryTopicRos2.sem_at
  split <;> rfl

theorem Res.and_then_bound {α β : Type} (name : String) (s0 : Posix) (r : TopicState × Res α)
    (f : TopicState → α → TopicState × Res β) (h1 : Posix.sem_bound name s0 r.1.1)
    (h2 : ∀ a, Posix.sem_bound name r.1.1 (f r.1 a).1.1) :
    Posix.sem_bound name s0 (Res.and_then r f).1.1 := by
  apply Res.and_then_rel (fun x : TopicState => Posix.sem_bound name s0 x.1)
  · exact h1
  · intro a _
    exact Posix.sem_bound_trans name s0 _ _ h1 (h2 a)

/-- A decrement that returns has lowered the count by one. -/
theorem SharedMemorySemaphore.Decrement_ok (fails : Syscall → Bool) (self : SharedMemorySemaphore)
    (s : Posix) (h : (self.Decrement fails s).2 = Res.ok ()) :
    ∃ c, unordered_map.find s.sems self.name_ = some (c + 1) ∧
      (self.Decrement fails s).1 = { s with sems := unordered_map.assign s.sems self.name_ c } := by
  unfold SharedMemorySemaphore.Decrement at h ⊢
  cases hf : unordered_map.find s.sems self.name_ with
  | none =>
    rw [hf] at h
    exact Res.noConfusion h
  | some c =>
    rw [hf] at h
    simp only at h ⊢
    by_cases h1 : fails Syscall.sem_wait = true
    · rw [if_pos h1] at h
      exact Res.noConfusion h
    · rw [if_neg h1] at h ⊢
      by_cases h2 : c = 0
      · rw [if_pos h2] at h
        exact Res.noConfusion h
      · rw [if_neg h2]
        obtain ⟨k, rfl⟩ := Nat.exists_eq_succ_of_ne_zero h2
        exact ⟨k, rfl, rfl⟩

/-- A decrement that does not return leaves the state as it is. -/
theorem SharedMemorySemaphore.Decrement_not_ok (fails : Syscall → Bool)
    (self : SharedMemorySemaphore) (s : Posix) (h : (self.Decrement fails s).2 ≠ Res.ok ()) :
    (self.Decrement fails s).1 = s := by
  unfold SharedMemorySemaphore.Decrement at h ⊢
  cases hf : unordered_map.find s.sems self.name_ with
  | none => rfl
  | some c =>
    rw [hf] at h
    simp only at h ⊢
    split_ifs at h ⊢
    · rfl
    · rfl
    · exact absurd rfl h

/-- The release of a lock that was taken does not raise the count of any
semaphore above what it was before the lock was taken. -/
theorem SharedMemoryData.UnLock_after_Lock_bound (name : String) (fails : Syscall → Bool)
    (d : SharedMemoryData) (s s4 : Posix) (hl : (d.Lock fails s).2 = Res.ok ())
    (h4 : s4.sems = (d.Lock fails s).1.sems) :
    Posix.sem_bound name s (d.UnLock fails s4).1 := by
  obtain ⟨c, hc, hs⟩ := SharedMemorySemaphore.Decrement_ok fails d.sem_ s hl
  have h4' : s4.sems = unordered_map.assign s.sems d.sem_.name_ c := by
    rw [h4]
    unfold SharedMemoryData.Lock
    rw [hs]
  have hf : unordered_map.find s4.sems d.sem_.name_ = some c := by
    rw [h4', unordered_map.find_assign, if_pos rfl]
  unfold SharedMemoryData.UnLock SharedMemorySemaphore.Increment
  rw [hf]
  simp only
  split_ifs
  · intro c1 h1
    simp only [h4', unordered_map.find_assign] at h1
    split_ifs at h1 with hk
    · simp only [Option.some.injEq] at h1
      subst hk
      exact Or.inr ⟨c + 1, hc, by omega⟩
    · exact Or.inr ⟨c1, h1, le_refl _⟩
  · intro c1 h1
    simp only [h4', unordered_map.find_assign] at h1
    split_ifs at h1 with hk
    · simp only [Option.some.injEq] at h1
      subst hk
      exact Or.inr ⟨c + 1, hc, by omega⟩
    · exact Or.inr ⟨c1, h1, le_refl _⟩

theorem SharedMemoryTopicRos2.write_tail_bound (name : String) (fails : Syscall → Bool)
    (d : SharedMemoryData) (buffer : List Nat) (st : TopicState) :
    Posix.sem_bound name st.1
      (Res.and_then (st.2.lift (d.Lock fails st.1))
        (fun st3 (_ : Unit) => st3.2.lift (d.UnLock fails (st3.1.memcpy d.name_ buffer)))).1.1 := by
  apply Res.and_then_rel (fun x : TopicState => Posix.sem_bound name st.1 x.1)
  · exact SharedMemorySemaphore.Decrement_bound name fails d.sem_ st.1
  · intro a ha
    exact SharedMemoryData.UnLock_after_Lock_bound name fails d st.1 _ ha
      (Posix.memcpy_sems _ _ _)

theorem SharedMemoryTopicRos2.read_tail_bound {μ : Type} (decode : List Nat → Option μ)
    (name : String) (fails : Syscall → Bool) (d : SharedMemoryData) (st : TopicState) :
    Posix.sem_bound name st.1
      (Res.and_then (st.2.lift (d.Lock fails st.1))
        (fun st3 (_ : Unit) =>
          match decode (st3.1.buffer d.name_ d.size_) with
          | none => (st3, Res.thrown IpcError.deserialize)
          | some msg =>
            Res.and_then (st3.2.lift (d.UnLock fails st3.1))
              (fun st4 (_ : Unit) => (st4, Res.ok (some msg))))).1.1 := by
  apply Res.and_then_rel (fun x : TopicState => Posix.sem_bound name st.1 x.1)
  · exact SharedMemorySemaphore.Decrement_bound name fails d.sem_ st.1
  · intro a ha
    simp only [SharedMemoryTopicRos2.lift]
    split
    · exact SharedMemorySemaphore.Decrement_bound name fails d.sem_ st.1
    · apply Res.and_then_rel (fun x : TopicState => Posix.sem_bound name st.1 x.1)
      · exact SharedMemoryData.UnLock_after_Lock_bound name fails d st.1 _ ha rfl
      · intro _ _
        exact SharedMemoryData.UnLock_after_Lock_bound name fails d st.1 _ ha rfl

theorem SharedMemoryTopicRos2.WriteDataToSHM_bound (name : String) (fails : Syscall → Bool)
    (shm_name : String) (buffer : List Nat) (st : TopicState) :
    Posix.sem_bound name st.1
      (SharedMemoryTopicRos2.WriteDataToSHM fails shm_name buffer st).1.1 := by
  unfold SharedMemoryTopicRos2.WriteDataToSHM
  apply Res.and_then_bound
  · exact SharedMemoryTopicRos2.CheckSHMExist_bound name fails shm_name true _ st
  · intro _
    apply Res.and_then_bound
    · rw [SharedMemoryTopicRos2.shm_at_fst]
      exact Posix.sem_bound_refl name _
    · intro d
      exact SharedMemoryTopicRos2.write_tail_bound name fails d buffer _

theorem SharedMemoryTopicRos2.PublishSem_bound (name : String) (fails : Syscall → Bool)
    (topic_name : String) (st : TopicState) :
    Posix.sem_bound name st.1 (SharedMemoryTopicRos2.PublishSem fails topic_name st).1.1 := by
  unfold SharedMemoryTopicRos2.PublishSem
  apply Res.and_then_bound
  · exact SharedMemoryTopicRos2.CheckSemExist_bound name fails topic_name st
  · intro _
    apply Res.and_then_bound
    · rw [SharedMemoryTopicRos2.sem_at_fst]
      exact Posix.sem_bound_refl name _
    · intro h
      exact SharedMemorySemaphore.IncrementWhenZero_bound name fails h _

theorem SharedMemoryTopicRos2.Publish_bound (name : String) (fails : Syscall → Bool)
    (topic_name shm_name : String) (msg : List Nat) (st : TopicState) :
    Posix.sem_bound name st.1
      (SharedMemoryTopicRos2.Publish fails topic_name shm_name msg st).1.1 := by
  unfold SharedMemoryTopicRos2.Publish
  apply Res.and_then_bound
  · exact SharedMemoryTopicRos2.WriteDataToSHM_bound name fails shm_name msg st
  · intro _
    exact SharedMemoryTopicRos2.PublishSem_bound name fails topic_name _

theorem SharedMemoryTopicRos2.PublishList_loop_bound (name : String) (fails : Syscall → Bool)
    (topic_names : List String) :
    ∀ st : TopicState, Posix.sem_bound name st.1
      (SharedMemoryTopicRos2.PublishList_loop fails topic_names st).1.1 := by
  induction topic_names with
  | nil =>
    intro st
    exact Posix.sem_bound_refl name st.1
  | cons topic rest ih =>
    intro st
    unfold SharedMemoryTopicRos2.PublishList_loop
    apply Res.and_then_bound
    · exact SharedMemoryTopicRos2.PublishSem_bound name fails topic st
    · intro _
      exact ih _

theorem SharedMemoryTopicRos2.PublishList_bound (name : String) (fails : Syscall → Bool)
    (topic_names : List String) (shm_name : String) (msgs : List Nat) (st : TopicState) :
    Posix.sem_bound name st.1
      (SharedMemoryTopicRos2.PublishList fails topic_names shm_name msgs st).1.1 := by
  unfold SharedMemoryTopicRos2.PublishList
  apply Res.and_then_bound
  · exact SharedMemoryTopicRos2.WriteDataToSHM_bound name fails shm_name msgs st
  · intro _
    exact SharedMemoryTopicRos2.PublishList_loop_bound name fails topic_names _

theorem SharedMemoryTopicRos2.Subscribe_read_bound {μ : Type} (decode : List Nat → Option μ)
    (name : String) (fails : Syscall → Bool) (shm_name : String) (st : TopicState) :
    Posix.sem_bound name st.1
      (SharedMemoryTopicRos2.Subscribe_read decode fails shm_name st).1.1 := by
  unfold SharedMemoryTopicRos2.Subscribe_read
  apply Res.and_then_bound
  · exact SharedMemoryTopicRos2.CheckSHMExist_bound name fails shm_name false 0 st
  · intro _
    apply Res.and_then_bound
    · rw [SharedMemoryTopicRos2.shm_at_fst]
      exact Posix.sem_bound_refl name _
    · intro d
      exact SharedMemoryTopicRos2.read_tail_bound decode name fails d _

theorem SharedMemoryTopicRos2.Subscribe_bound {μ : Type} (decode : List Nat → Option μ)
    (name : String) (fails : Syscall → Bool) (topic_name shm_name : String) (st : TopicState) :
    Posix.sem_bound name st.1
      (SharedMemoryTopicRos2.Subscribe decode fails topic_name shm_name st).1.1 := by
  unfold SharedMemoryTopicRos2.Subscribe
  apply Res.and_then_bound
  · exact SharedMemoryTopicRos2.CheckSemExist_bound name fails topic_name st
  · intro _
    apply Res.and_then_bound
    · rw [SharedMemoryTopicRos2.sem_at_fst]
      exact Posix.sem_bound_refl name _
    · intro h
      apply Res.and_then_bound
      · exact SharedMemorySemaphore.Decrement_bound name fails h _
      · intro _
        exact SharedMemoryTopicRos2.Subscribe_read_bound decode name fails shm_name _

theorem SharedMemoryTopicRos2.SubscribeNoWait_bound {μ : Type} (decode : List Nat → Option μ)
    (name : String) (fails : Syscall → Bool) (topic_name shm_name : String) (st : TopicState) :
    Posix.sem_bound name st.1
      (SharedMemoryTopicRos2.SubscribeNoWait decode fails topic_name shm_name st).1.1 := by
  unfold SharedMemoryTopicRos2.SubscribeNoWait
  apply Res.and_then_bound
  · exact SharedMemoryTopicRos2.CheckSemExist_bound name fails topic_name st
  · intro _
    apply Res.and_then_bound
    · rw [SharedMemoryTopicRos2.sem_at_fst]
      exact Posix.sem_bound_refl name _
    · intro h
      apply Res.and_then_bound
      · exact SharedMemorySemaphore.TryDecrement_bound name fails h _
      · intro taken
        cases taken
        · exact Posix.sem_bound_refl name _
        · exact SharedMemoryTopicRos2.Subscribe_read_bound decode name fails shm_name _

theorem SharedMemoryTopicRos2.SubscribeTimeout_bound {μ : Type} (decode : List Nat → Option μ)
    (name : String) (fails : Syscall → Bool) (topic_name shm_name : String) (timeout : Nat)
    (st : TopicState) :
    Posix.sem_bound name st.1
      (SharedMemoryTopicRos2.SubscribeTimeout decode fails topic_name shm_name timeout st).1.1 := by
  unfold SharedMemoryTopicRos2.SubscribeTimeout
  apply Res.and_then_bound
  · exact SharedMemoryTopicRos2.CheckSemExist_bound name fails topic_name st
  · intro _
    apply Res.and_then_bound
    · rw [SharedMemoryTopicRos2.sem_at_fst]
      exact Posix.sem_bound_refl name _
    · intro h
      apply Res.and_then_bound
      · exact SharedMemorySemaphore.DecrementTimeout_bound name fails h timeout _
      · intro taken
        cases taken
        · exact Posix.sem_bound_refl name _
        · exact SharedMemoryTopicRos2.Subscribe_read_bound decode name fails shm_name _

/-- No call of a public method raises the count of a semaphore above 1 or above
what it was. -/
theorem TopicCall.apply_bound {μ : Type} (decode : List Nat → Option μ) (name : String)
    (fails : Syscall → Bool) (call : TopicCall) (st : TopicState) :
    Posix.sem_bound name st.1 (call.apply decode fails st).1.1 := by
  cases call with
  | Publish topic_name shm_name msg =>
    unfold TopicCall.apply
    apply Res.and_then_bound
    · exact SharedMemoryTopicRos2.Publish_bound name fails topic_name shm_name msg st
    · intro _
      exact Posix.sem_bound_refl name _
  | PublishList topic_names shm_name msgs =>
    unfold TopicCall.apply
    apply Res.and_then_bound
    · exact SharedMemoryTopicRos2.PublishList_bound name fails topic_names shm_name msgs st
    · intro _
      exact Posix.sem_bound_refl name _
  | Subscribe topic_name shm_name =>
    exact SharedMemoryTopicRos2.Subscribe_bound decode name fails topic_name shm_name st
  | SubscribeNoWait topic_name shm_name =>
    exact SharedMemoryTopicRos2.SubscribeNoWait_bound decode name fails topic_name shm_name st
  | SubscribeTimeout topic_name shm_name timeout =>
    exact SharedMemoryTopicRos2.SubscribeTimeout_bound decode name fails topic_name shm_name
      timeout st

theorem TopicStep.run_bound {μ : Type} (decode : List Nat → Option μ) (name : String)
    (steps : List TopicStep) :
    ∀ w : Posix × (Nat → SharedMemoryTopicRos2),
      ∀ x ∈ TopicStep.run decode steps w, Posix.sem_bound name w.1 x.1.1 := by
  induction steps with
  | nil =>
    intro w x hx
    simp [TopicStep.run] at hx
  | cons c rest ih =>
    intro w x hx
    unfold TopicStep.run at hx
    have hb := TopicCall.apply_bound decode name c.fails c.call (w.1, w.2 c.proc)
    rcases List.mem_cons.mp hx with h | h
    · rw [h]
      exact hb
    · exact Posix.sem_bound_trans name _ _ _ hb (ih _ x h)

theorem SharedMemorySemaphore.IncrementWhenZero_pending (fails : Syscall → Bool)
    (self : SharedMemorySemaphore) (s : Posix) (topic_name : String)
    (h : s.pending topic_name ≠ 0) :
    (self.IncrementWhenZero fails s).1.pending topic_name = s.pending topic_name := by
  unfold SharedMemorySemaphore.IncrementWhenZero
  cases hf : unordered_map.find s.sems self.name_ with
  | none => rfl
  | some value =>
    simp only
    by_cases h1 : fails Syscall.sem_getvalue = true
    · rw [if_pos h1]
    · rw [if_neg h1]
      by_cases h2 : value = 0
      · rw [if_pos h2]
        by_cases h3 : fails Syscall.sem_post = true
        · rw [if_pos h3]
        · rw [if_neg h3]
          simp only [Posix.pending, unordered_map.find_assign]
          by_cases hk : GetNamePrefix topic_name = self.name_
          · exfalso
            apply h
            simp only [Posix.pending, hk, hf, h2, Option.getD_some]
          · rw [if_neg hk]
      · rw [if_neg h2]

theorem SharedMemoryTopicRos2.CheckSemExist_pending (fails : Syscall → Bool)
    (topic_name : String) (st : TopicState) (h : st.1.pending topic_name ≠ 0) :
    (SharedMemoryTopicRos2.CheckSemExist fails topic_name st).1.1.pending topic_name =
      st.1.pending topic_name := by
  have hex : ∃ c, unordered_map.find st.1.sems (GetNamePrefix topic_name) = some c := by
    cases hf : unordered_map.find st.1.sems (GetNamePrefix topic_name) with
    | none => exact absurd (by simp [Posix.pending, hf]) h
    | some c => exact ⟨c, rfl⟩
  obtain ⟨c, hc⟩ := hex
  unfold SharedMemoryTopicRos2.CheckSemExist
  split
  · rfl
  · apply Res.and_then_rel
      (fun x : TopicState => x.1.pending topic_name = st.1.pending topic_name)
    · simp only [SharedMemoryTopicRos2.lift, SharedMemorySemaphore.Init]
      split_ifs
      · rfl
      · simp only [Posix.sem_open, hc]
    · intro a _
      simp only [SharedMemoryTopicRos2.lift, SharedMemorySemaphore.Init]
      split_ifs
      · rfl
      · simp only [Posix.sem_open, hc]

/-- The method `PublishSem` leaves the pending count of its topic as it is unless
the count is zero. -/
theorem SharedMemoryTopicRos2.PublishSem_pending (fails : Syscall → Bool)
    (topic_name : String) (st : TopicState) (h : st.1.pending topic_name ≠ 0) :
    (SharedMemoryTopicRos2.PublishSem fails topic_name st).1.1.pending topic_name =
      st.1.pending topic_name := by
  have h1 := SharedMemoryTopicRos2.CheckSemExist_pending fails topic_name st h
  unfold SharedMemoryTopicRos2.PublishSem
  apply Res.and_then_rel
    (fun x : TopicState => x.1.pending topic_name = st.1.pending topic_name)
  · exact h1
  · intro _ _
    apply Res.and_then_rel
      (fun x : TopicState => x.1.pending topic_name = st.1.pending topic_name)
    · rw [SharedMemoryTopicRos2.sem_at_fst]
      exact h1
    · intro hd _
      rw [SharedMemoryTopicRos2.sem_at_fst]
      simp only [SharedMemoryTopicRos2.lift]
      rw [SharedMemorySemaphore.IncrementWhenZero_pending fails hd _ topic_name (by rw [h1]; exact h)]
      exact h1

/-- C15: for every sequence of calls of `Publish`, `PublishList`, `Subscribe`,
`SubscribeNoWait` and `SubscribeTimeout`, on any topics and buffers, made one
after another by any processes, whichever system calls fail and whatever the
deserializer does: if the pending count of the semaphore of a topic is at most 1
at the start (in particular if it is 0), it is at most 1 after every call.
`PublishSem` leaves the pending count of its topic as it is unless the count is
zero. -/
theorem C15_pending_count_at_most_one {μ : Type} (decode : List Nat → Option μ)
    (steps : List TopicStep) (w : Posix × (Nat → SharedMemoryTopicRos2)) (topic_name : String)
    (h0 : w.1.pending topic_name ≤ 1) :
    (∀ x ∈ TopicStep.run decode steps w, x.1.1.pending topic_name ≤ 1) ∧
    (List.map Prod.snd (TopicStep.run decode steps w)).length = steps.length ∧
    (∀ (fails : Syscall → Bool) (st : TopicState), st.1.pending topic_name ≠ 0 →
      (SharedMemoryTopicRos2.PublishSem fails topic_name st).1.1.pending topic_name =
        st.1.pending topic_name) := by
  refine ⟨?_, ?_, fun fails st h => SharedMemoryTopicRos2.PublishSem_pending fails topic_name st h⟩
  · intro x hx
    have hb := TopicStep.run_bound decode (GetNamePrefix topic_name) steps w x hx
    unfold Posix.pending at h0 ⊢
    cases hf : unordered_map.find x.1.1.sems (GetNamePrefix topic_name) with
    | none => simp
    | some c1 =>
      rcases hb c1 hf with h | ⟨c, hc, hle⟩
      · simpa using h
      · rw [hc] at h0
        simp only [Option.getD_some] at h0 ⊢
        omega
  · rw [List.length_map]
    clear h0
    induction steps generalizing w with
    | nil => rfl
    | cons c rest ih =>
      unfold TopicStep.run
      simp only [List.length_cons, ih]

/-! ## The lock of a buffer -/

theorem GetNamePrefix_injective (a b : String) (h : GetNamePrefix a = GetNamePrefix b) :
    a = b := by
  unfold GetNamePrefix at h
  have h1 := congrArg String.data h
  simp only [String.data_append] at h1
  exact String.ext (List.append_cancel_left h1)

theorem Posix.lock_kept_refl (name : String) (s : Posix) : Posix.lock_kept name s s :=
  Or.inl rfl

theorem Posix.lock_kept_of_find_eq (name : String) (s s1 : Posix)
    (h : unordered_map.find s1.sems name = unordered_map.find s.sems name) :
    Posix.lock_kept name s s1 :=
  Or.inl h

theorem Posix.lock_kept_trans (name : String) (s s1 s2 : Posix)
    (h1 : Posix.lock_kept name s s1) (h2 : Posix.lock_kept name s1 s2) :
    Posix.lock_kept name s s2 := by
  rcases h1 with h1 | ⟨a1, b1⟩
  · rcases h2 with h2 | ⟨a2, b2⟩
    · exact Or.inl (h2.trans h1)
    · exact Or.inr ⟨by rw [← h1]; exact a2, b2⟩
  · rcases h2 with h2 | ⟨a2, b2⟩
    · exact Or.inr ⟨a1, by rw [h2]; exact b1⟩
    · rw [b1] at a2
      exact Option.noConfusion a2

theorem Posix.lock_taken_of_kept (name : String) (s s1 s2 : Posix)
    (h1 : Posix.lock_kept name s s1) (h2 : Posix.lock_taken name s1 s2) :
    Posix.lock_taken name s s2 := by
  obtain ⟨c, hc, h⟩ := h2
  rcases h1 with h1 | ⟨a1, b1⟩
  · exact ⟨c, hc, by rw [← h1]; exact h⟩
  · rcases h with h | ⟨h, _⟩
    · rw [b1] at h
      simp only [Option.some.injEq] at h
      have : c = 0 := by omega
      exact ⟨c, hc, Or.inr ⟨a1, this⟩⟩
    · rw [b1] at h
      exact Option.noConfusion h

theorem SharedMemoryTopicRos2.lock_spec_and_then {α β : Type} (name : String) (s0 : Posix)
    (r : TopicState × Res α) (f : TopicState → α → TopicState × Res β)
    (h1 : SharedMemoryTopicRos2.lock_spec name s0 r)
    (h2 : ∀ a, r.2 = Res.ok a → SharedMemoryTopicRos2.lock_spec name s0 (f r.1 a)) :
    SharedMemoryTopicRos2.lock_spec name s0 (Res.and_then r f) := by
  obtain ⟨s, x⟩ := r
  cases x with
  | ok a => exact h2 a rfl
  | blocked =>
    obtain ⟨a1, a2, _⟩ := h1
    exact ⟨a1, fun _ => a2 (by simp), fun h => Res.noConfusion h⟩
  | thrown e =>
    obtain ⟨a1, a2, a3⟩ := h1
    refine ⟨a1, fun h => a2 ?_, fun h => a3 ?_⟩
    · simpa [Res.and_then] using h
    · simpa [Res.and_then] using h

theorem SharedMemoryTopicRos2.lock_spec_of_kept {α : Type} (name : String) (s0 s1 : Posix)
    (r : TopicState × Res α) (hk : Posix.lock_kept name s0 s1)
    (h : SharedMemoryTopicRos2.lock_spec name s1 r) :
    SharedMemoryTopicRos2.lock_spec name s0 r :=
  ⟨h.1, fun hn => Posix.lock_kept_trans name s0 s1 _ hk (h.2.1 hn),
    fun hd => Posix.lock_taken_of_kept name s0 s1 _ hk (h.2.2 hd)⟩

/-- A step that keeps the lock and is not left by the deserializer. -/
theorem SharedMemoryTopicRos2.lock_spec_of_step {α : Type} (name : String) (s0 : Posix)
    (r : TopicState × Res α) (hwf : r.1.2.wf) (hk : Posix.lock_kept name s0 r.1.1)
    (hn : r.2 ≠ Res.thrown IpcError.deserialize) :
    SharedMemoryTopicRos2.lock_spec name s0 r :=
  ⟨hwf, fun _ => hk, fun h => absurd h hn⟩

theorem Posix.find_sem_open (s : Posix) (k : String) (value : Nat) (n : String) :
    unordered_map.find (s.sem_open k value).sems n =
      if n = k ∧ unordered_map.find s.sems k = none then some value
      else unordered_map.find s.sems n := by
  unfold Posix.sem_open
  cases h : unordered_map.find s.sems k with
  | some c => simp
  | none =>
    simp only [unordered_map.find_assign, and_true]

theorem SharedMemorySemaphore.Init_spec (fails : Syscall → Bool) (k : String) (value : Nat)
    (s : Posix) :
    (∀ n, n ≠ GetNamePrefix k →
      unordered_map.find (SharedMemorySemaphore.Init fails k value s).1.sems n =
        unordered_map.find s.sems n) ∧
    (unordered_map.find (SharedMemorySemaphore.Init fails k value s).1.sems (GetNamePrefix k) =
        unordered_map.find s.sems (GetNamePrefix k) ∨
      (unordered_map.find s.sems (GetNamePrefix k) = none ∧
        unordered_map.find (SharedMemorySemaphore.Init fails k value s).1.sems (GetNamePrefix k) =
          some value)) ∧
    (∀ h, (SharedMemorySemaphore.Init fails k value s).2 = Res.ok h → h.name_ = GetNamePrefix k) ∧
    (SharedMemorySemaphore.Init fails k value s).2 ≠ Res.thrown IpcError.deserialize ∧
    (SharedMemorySemaphore.Init fails k value s).1.shms = s.shms := by
  unfold SharedMemorySemaphore.Init
  by_cases hf : fails Syscall.sem_open = true
  · rw [if_pos hf]
    refine ⟨fun _ _ => rfl, Or.inl rfl, ?_, ?_, rfl⟩
    · intro h hh
      exact Res.noConfusion hh
    · intro hh
      simp at hh
  · rw [if_neg hf]
    refine ⟨?_, ?_, ?_, ?_, ?_⟩
    · intro n hn
      rw [Posix.find_sem_open, if_neg (fun h => hn h.1)]
    · rw [Posix.find_sem_open]
      cases hx : unordered_map.find s.sems (GetNamePrefix k) with
      | none => exact Or.inr ⟨rfl, by simp⟩
      | some c => exact Or.inl (by simp)
    · intro h hh
      simp only [Res.ok.injEq] at hh
      rw [← hh]
    · intro hh
      exact Res.noConfusion hh
    · unfold Posix.sem_open
      split <;> rfl

theorem SharedMemoryData.Init_handle (fails : Syscall → Bool) (sem_ : SharedMemorySemaphore)
    (name : String) (check_size : Bool) (size : Nat) (s : Posix) :
    (∀ d, (SharedMemoryData.Init fails sem_ name check_size size s).2 = Res.ok d →
      d.name_ = GetNamePrefix name ∧ d.sem_ = sem_) ∧
    (SharedMemoryData.Init fails sem_ name check_size size s).2 ≠
      Res.thrown IpcError.deserialize := by
  unfold SharedMemoryData.Init
  cases h : unordered_map.find s.shms (GetNamePrefix name) with
  | none =>
    simp only
    split_ifs <;> simp
  | some bytes =>
    simp only
    split_ifs <;> simp

/-- The constructor of `SharedMemoryData` opens the lock semaphore of the buffer,
creating it free, and touches no other semaphore. -/
theorem SharedMemoryData.ctor_spec (fails : Syscall → Bool) (k : String) (check_size : Bool)
    (size : Nat) (s : Posix) :
    (∀ n, n ≠ GetNamePrefix (k ++ "_shm") →
      unordered_map.find (SharedMemoryData.ctor fails k check_size size s).1.sems n =
        unordered_map.find s.sems n) ∧
    Posix.lock_kept (GetNamePrefix (k ++ "_shm")) s
      (SharedMemoryData.ctor fails k check_size size s).1 ∧
    (∀ d, (SharedMemoryData.ctor fails k check_size size s).2 = Res.ok d →
      d.name_ = GetNamePrefix k ∧ d.sem_.name_ = GetNamePrefix (k ++ "_shm")) ∧
    (SharedMemoryData.ctor fails k check_size size s).2 ≠ Res.thrown IpcError.deserialize := by
  obtain ⟨i1, i2, i3, i4, _⟩ := SharedMemorySemaphore.Init_spec fails (k ++ "_shm") 1 s
  unfold SharedMemoryData.ctor
  cases hr : SharedMemorySemaphore.Init fails (k ++ "_shm") 1 s with
  | mk s1 x =>
    rw [hr] at i1 i2 i3 i4
    cases x with
    | ok sem_ =>
      simp only [Res.and_then]
      obtain ⟨j1, j2⟩ := SharedMemoryData.Init_handle fails sem_ k check_size size s1
      have hs := SharedMemoryData.Init_sems fails sem_ k check_size size s1
      refine ⟨?_, ?_, ?_, j2⟩
      · intro n hn
        rw [hs]
        exact i1 n hn
      · unfold Posix.lock_kept
        rw [hs]
        exact i2
      · intro d hd
        obtain ⟨a, b⟩ := j1 d hd
        exact ⟨a, by rw [b]; exact i3 sem_ rfl⟩
    | blocked =>
      simp only [Res.and_then]
      exact ⟨i1, i2, fun d hd => Res.noConfusion hd, fun h => Res.noConfusion h⟩
    | thrown e =>
      simp only [Res.and_then]
      exact ⟨i1, i2, fun d hd => Res.noConfusion hd, fun h => i4 (by rw [Res.thrown.inj h])⟩

theorem SharedMemoryTopicRos2.wf_assign_shm (m : SharedMemoryTopicRos2) (k : String)
    (d : SharedMemoryData) (hwf : m.wf) (h1 : d.name_ = GetNamePrefix k)
    (h2 : d.sem_.name_ = GetNamePrefix (k ++ "_shm")) :
    SharedMemoryTopicRos2.wf { m with shm_map_ := unordered_map.assign m.shm_map_ k d } := by
  refine ⟨?_, hwf.sem⟩
  intro k' d' h
  simp only [unordered_map.find_assign] at h
  split_ifs at h with hk
  · simp only [Option.some.injEq] at h
    subst h
    subst hk
    exact ⟨h1, h2⟩
  · exact hwf.shm k' d' h

theorem SharedMemoryTopicRos2.wf_assign_sem (m : SharedMemoryTopicRos2) (k : String)
    (h : SharedMemorySemaphore) (hwf : m.wf) (h1 : h.name_ = GetNamePrefix k) :
    SharedMemoryTopicRos2.wf { m with sem_map_ := unordered_map.assign m.sem_map_ k h } := by
  refine ⟨hwf.shm, ?_⟩
  intro k' h' hh
  simp only [unordered_map.find_assign] at hh
  split_ifs at hh with hk
  · simp only [Option.some.injEq] at hh
    subst hh
    subst hk
    exact h1
  · exact hwf.sem k' h' hh

theorem SharedMemoryTopicRos2.CheckSHMExist_lock (fails : Syscall → Bool) (shm_name : String)
    (check_size : Bool) (size : Nat) (st : TopicState) (hwf : st.2.wf) :
    SharedMemoryTopicRos2.lock_spec (GetNamePrefix (shm_name ++ "_shm")) st.1
      (SharedMemoryTopicRos2.CheckSHMExist fails shm_name check_size size st) := by
  unfold SharedMemoryTopicRos2.CheckSHMExist
  split
  · exact SharedMemoryTopicRos2.lock_spec_of_step _ _ _ hwf (Posix.lock_kept_refl _ _)
      (fun h => Res.noConfusion h)
  · obtain ⟨_, c2, c3, c4⟩ := SharedMemoryData.ctor_spec fails shm_name check_size size st.1
    apply SharedMemoryTopicRos2.lock_spec_and_then
    · exact SharedMemoryTopicRos2.lock_spec_of_step _ _ _ hwf c2 c4
    · intro d hd
      refine SharedMemoryTopicRos2.lock_spec_of_step _ _ _ ?_ c2 (fun h => Res.noConfusion h)
      obtain ⟨a, b⟩ := c3 d hd
      exact SharedMemoryTopicRos2.wf_assign_shm st.2 shm_name d hwf a b

theorem SharedMemoryTopicRos2.CheckSemExist_lock (fails : Syscall → Bool)
    (topic_name : String) (name : String) (st : TopicState) (hwf : st.2.wf)
    (hne : name ≠ GetNamePrefix topic_name) :
    SharedMemoryTopicRos2.lock_spec name st.1
      (SharedMemoryTopicRos2.CheckSemExist fails topic_name st) := by
  unfold SharedMemoryTopicRos2.CheckSemExist
  split
  · exact SharedMemoryTopicRos2.lock_spec_of_step _ _ _ hwf (Posix.lock_kept_refl _ _)
      (fun h => Res.noConfusion h)
  · obtain ⟨i1, _, i3, i4, _⟩ := SharedMemorySemaphore.Init_spec fails topic_name 0 st.1
    apply SharedMemoryTopicRos2.lock_spec_and_then
    · exact SharedMemoryTopicRos2.lock_spec_of_step _ _ _ hwf
        (Posix.lock_kept_of_find_eq _ _ _ (i1 name hne)) i4
    · intro h hh
      refine SharedMemoryTopicRos2.lock_spec_of_step _ _ _ ?_
        (Posix.lock_kept_of_find_eq _ _ _ (i1 name hne)) (fun h => Res.noConfusion h)
      exact SharedMemoryTopicRos2.wf_assign_sem st.2 topic_name h hwf (i3 h hh)

theorem SharedMemoryTopicRos2.lock_spec_seq {α β : Type} (name : String) (s0 : Posix)
    (r : TopicState × Res α) (f : TopicState → α → TopicState × Res β)
    (h1 : SharedMemoryTopicRos2.lock_spec name s0 r)
    (h2 : ∀ a, r.2 = Res.ok a → r.1.2.wf → SharedMemoryTopicRos2.lock_spec name r.1.1 (f r.1 a)) :
    SharedMemoryTopicRos2.lock_spec name s0 (Res.and_then r f) := by
  apply SharedMemoryTopicRos2.lock_spec_and_then name s0 r f h1
  intro a ha
  refine SharedMemoryTopicRos2.lock_spec_of_kept name s0 r.1.1 _ (h1.2.1 ?_) (h2 a ha h1.1)
  rw [ha]
  exact fun h => Res.noConfusion h

theorem SharedMemoryTopicRos2.sem_at_spec (topic_name : String) (st : TopicState) :
    (SharedMemoryTopicRos2.sem_at topic_name st).1 = st ∧
    (SharedMemoryTopicRos2.sem_at topic_name st).2 ≠ Res.thrown IpcError.deserialize ∧
    ∀ h, (SharedMemoryTopicRos2.sem_at topic_name st).2 = Res.ok h →
      unordered_map.find st.2.sem_map_ topic_name = some h := by
  unfold SharedMemoryTopicRos2.sem_at
  cases hf : unordered_map.find st.2.sem_map_ topic_name with
  | none => exact ⟨rfl, by simp, fun h hh => Res.noConfusion hh⟩
  | some h0 =>
    refine ⟨rfl, by simp, ?_⟩
    intro h hh
    simp only [Res.ok.injEq] at hh
    rw [hh]

theorem SharedMemoryTopicRos2.shm_at_spec (shm_name : String) (st : TopicState) :
    (SharedMemoryTopicRos2.shm_at shm_name st).1 = st ∧
    (SharedMemoryTopicRos2.shm_at shm_name st).2 ≠ Res.thrown IpcError.deserialize ∧
    ∀ d, (SharedMemoryTopicRos2.shm_at shm_name st).2 = Res.ok d →
      unordered_map.find st.2.shm_map_ shm_name = some d := by
  unfold SharedMemoryTopicRos2.shm_at
  cases hf : unordered_map.find st.2.shm_map_ shm_name with
  | none => exact ⟨rfl, by simp, fun h hh => Res.noConfusion hh⟩
  | some h0 =>
    refine ⟨rfl, by simp, ?_⟩
    intro h hh
    simp only [Res.ok.injEq] at hh
    rw [hh]

theorem SharedMemoryTopicRos2.sem_at_lock (topic_name name : String) (st : TopicState)
    (hwf : st.2.wf) :
    SharedMemoryTopicRos2.lock_spec name st.1 (SharedMemoryTopicRos2.sem_at topic_name st) := by
  obtain ⟨a, b, _⟩ := SharedMemoryTopicRos2.sem_at_spec topic_name st
  refine SharedMemoryTopicRos2.lock_spec_of_step _ _ _ ?_ ?_ b
  · rw [a]
    exact hwf
  · rw [a]
    exact Posix.lock_kept_refl _ _

theorem SharedMemoryTopicRos2.shm_at_lock (shm_name name : String) (st : TopicState)
    (hwf : st.2.wf) :
    SharedMemoryTopicRos2.lock_spec name st.1 (SharedMemoryTopicRos2.shm_at shm_name st) := by
  obtain ⟨a, b, _⟩ := SharedMemoryTopicRos2.shm_at_spec shm_name st
  refine SharedMemoryTopicRos2.lock_spec_of_step _ _ _ ?_ ?_ b
  · rw [a]
    exact hwf
  · rw [a]
    exact Posix.lock_kept_refl _ _

theorem SharedMemorySemaphore.IncrementWhenZero_other (fails : Syscall → Bool)
    (self : SharedMemorySemaphore) (s : Posix) (name : String) (hne : name ≠ self.name_) :
    unordered_map.find (self.IncrementWhenZero fails s).1.sems name =
      unordered_map.find s.sems name ∧
    (self.IncrementWhenZero fails s).2 ≠ Res.thrown IpcError.deserialize := by
  unfold SharedMemorySemaphore.IncrementWhenZero
  cases hf : unordered_map.find s.sems self.name_ with
  | none => exact ⟨rfl, by simp⟩
  | some value =>
    simp only
    split_ifs
    · exact ⟨rfl, by simp⟩
    · exact ⟨rfl, by simp⟩
    · exact ⟨by simp only [unordered_map.find_assign, if_neg hne], by simp⟩
    · exact ⟨rfl, by simp⟩

theorem SharedMemorySemaphore.Decrement_other (fails : Syscall → Bool)
    (self : SharedMemorySemaphore) (s : Posix) (name : String) (hne : name ≠ self.name_) :
    unordered_map.find (self.Decrement fails s).1.sems name = unordered_map.find s.sems name ∧
    (self.Decrement fails s).2 ≠ Res.thrown IpcError.deserialize := by
  unfold SharedMemorySemaphore.Decrement
  cases hf : unordered_map.find s.sems self.name_ with
  | none => exact ⟨rfl, by simp⟩
  | some value =>
    simp only
    split_ifs
    · exact ⟨rfl, by simp⟩
    · exact ⟨rfl, by simp⟩
    · exact ⟨by simp only [unordered_map.find_assign, if_neg hne], by simp⟩

theorem SharedMemorySemaphore.TryDecrement_other (fails : Syscall → Bool)
    (self : SharedMemorySemaphore) (s : Posix) (name : String) (hne : name ≠ self.name_) :
    unordered_map.find (self.TryDecrement fails s).1.sems name = unordered_map.find s.sems name ∧
    (self.TryDecrement fails s).2 ≠ Res.thrown IpcError.deserialize := by
  unfold SharedMemorySemaphore.TryDecrement
  cases hf : unordered_map.find s.sems self.name_ with
  | none => exact ⟨rfl, by simp⟩
  | some value =>
    simp only
    split_ifs
    · exact ⟨rfl, by simp⟩
    · exact ⟨rfl, by simp⟩
    · exact ⟨by simp only [unordered_map.find_assign, if_neg hne], by simp⟩

theorem SharedMemorySemaphore.DecrementTimeout_other (fails : Syscall → Bool)
    (self : SharedMemorySemaphore) (milliseconds : Nat) (s : Posix) (name : String)
    (hne : name ≠ self.name_) :
    unordered_map.find (self.DecrementTimeout fails milliseconds s).1.sems name =
      unordered_map.find s.sems name ∧
    (self.DecrementTimeout fails milliseconds s).2 ≠ Res.thrown IpcError.deserialize := by
  unfold SharedMemorySemaphore.DecrementTimeout
  cases hf : unordered_map.find s.sems self.name_ with
  | none =>
    simp only
    split_ifs
    · exact ⟨rfl, by simp⟩
    · exact ⟨rfl, by simp⟩
  | some value =>
    simp only
    split_ifs
    · exact ⟨rfl, by simp⟩
    · exact ⟨rfl, by simp⟩
    · exact ⟨rfl, by simp⟩
    · exact ⟨by simp only [unordered_map.find_assign, if_neg hne], by simp⟩

/-- The three ways `Lock` can end. -/
theorem SharedMemoryData.Lock_cases (fails : Syscall → Bool) (d : SharedMemoryData) (s : Posix) :
    (∃ c, unordered_map.find s.sems d.sem_.name_ = some (c + 1) ∧
      d.Lock fails s =
        ({ s with sems := unordered_map.assign s.sems d.sem_.name_ c }, Res.ok ())) ∨
    d.Lock fails s = (s, Res.blocked) ∨
    d.Lock fails s = (s, Res.thrown (IpcError.runtime_error Syscall.sem_wait)) := by
  unfold SharedMemoryData.Lock SharedMemorySemaphore.Decrement
  cases hf : unordered_map.find s.sems d.sem_.name_ with
  | none => exact Or.inr (Or.inr rfl)
  | some c =>
    simp only
    by_cases h1 : fails Syscall.sem_wait = true
    · rw [if_pos h1]
      exact Or.inr (Or.inr rfl)
    · rw [if_neg h1]
      by_cases h2 : c = 0
      · rw [if_pos h2]
        exact Or.inr (Or.inl rfl)
      · rw [if_neg h2]
        obtain ⟨k, rfl⟩ := Nat.exists_eq_succ_of_ne_zero h2
        exact Or.inl ⟨k, rfl, rfl⟩

theorem SharedMemoryData.UnLock_of_find (fails : Syscall → Bool) (d : SharedMemoryData)
    (s : Posix) (c : Nat) (hf : unordered_map.find s.sems d.sem_.name_ = some c)
    (hpost : fails Syscall.sem_post = false) :
    d.UnLock fails s =
      ({ s with sems := unordered_map.assign s.sems d.sem_.name_ (c + 1) }, Res.ok ()) := by
  unfold SharedMemoryData.UnLock SharedMemorySemaphore.Increment
  rw [hf]
  simp only [hpost, Bool.false_eq_true, if_false]

theorem SharedMemoryTopicRos2.write_tail_lock (fails : Syscall → Bool) (d : SharedMemoryData)
    (buffer : List Nat) (st : TopicState) (hwf : st.2.wf)
    (hpost : fails Syscall.sem_post = false) :
    SharedMemoryTopicRos2.lock_spec d.sem_.name_ st.1
      (Res.and_then (st.2.lift (d.Lock fails st.1))
        (fun st3 (_ : Unit) => st3.2.lift (d.UnLock fails (st3.1.memcpy d.name_ buffer)))) := by
  rcases SharedMemoryData.Lock_cases fails d st.1 with ⟨c, hc, hl⟩ | hl | hl
  · rw [hl]
    simp only [SharedMemoryTopicRos2.lift, Res.and_then]
    have hf : unordered_map.find
        (Posix.memcpy { st.1 with sems := unordered_map.assign st.1.sems d.sem_.name_ c }
          d.name_ buffer).sems d.sem_.name_ = some c := by
      rw [Posix.memcpy_sems]
      simp only [unordered_map.find_assign, if_true]
    rw [SharedMemoryData.UnLock_of_find fails d _ c hf hpost]
    refine SharedMemoryTopicRos2.lock_spec_of_step _ _ _ hwf ?_ (fun h => Res.noConfusion h)
    apply Posix.lock_kept_of_find_eq
    simp only [unordered_map.find_assign, if_true]
    exact hc.symm
  · rw [hl]
    exact SharedMemoryTopicRos2.lock_spec_of_step _ _ _ hwf (Posix.lock_kept_refl _ _)
      (fun h => Res.noConfusion h)
  · rw [hl]
    refine SharedMemoryTopicRos2.lock_spec_of_step _ _ _ hwf (Posix.lock_kept_refl _ _) ?_
    simp [SharedMemoryTopicRos2.lift, Res.and_then]

theorem SharedMemoryTopicRos2.read_tail_lock {μ : Type} (decode : List Nat → Option μ)
    (fails : Syscall → Bool) (d : SharedMemoryData) (st : TopicState) (hwf : st.2.wf)
    (hpost : fails Syscall.sem_post = false) :
    SharedMemoryTopicRos2.lock_spec d.sem_.name_ st.1
      (Res.and_then (st.2.lift (d.Lock fails st.1))
        (fun st3 (_ : Unit) =>
          match decode (st3.1.buffer d.name_ d.size_) with
          | none => (st3, Res.thrown IpcError.deserialize)
          | some msg =>
            Res.and_then (st3.2.lift (d.UnLock fails st3.1))
              (fun st4 (_ : Unit) => (st4, Res.ok (some msg))))) := by
  rcases SharedMemoryData.Lock_cases fails d st.1 with ⟨c, hc, hl⟩ | hl | hl
  · rw [hl]
    simp only [SharedMemoryTopicRos2.lift, Res.and_then]
    have hf : unordered_map.find
        ({ st.1 with sems := unordered_map.assign st.1.sems d.sem_.name_ c } : Posix).sems
          d.sem_.name_ = some c := by
      simp only [unordered_map.find_assign, if_true]
    cases hd : decode (Posix.buffer
        { st.1 with sems := unordered_map.assign st.1.sems d.sem_.name_ c } d.name_ d.size_) with
    | none =>
      simp only
      exact ⟨hwf, fun h => absurd rfl h, fun _ => ⟨c, hf, Or.inl hc⟩⟩
    | some msg =>
      simp only
      rw [SharedMemoryData.UnLock_of_find fails d _ c hf hpost]
      refine SharedMemoryTopicRos2.lock_spec_of_step _ _ _ hwf ?_ (fun h => Res.noConfusion h)
      apply Posix.lock_kept_of_find_eq
      simp only [unordered_map.find_assign, if_true]
      exact hc.symm
  · rw [hl]
    exact SharedMemoryTopicRos2.lock_spec_of_step _ _ _ hwf (Posix.lock_kept_refl _ _)
      (fun h => Res.noConfusion h)
  · rw [hl]
    refine SharedMemoryTopicRos2.lock_spec_of_step _ _ _ hwf (Posix.lock_kept_refl _ _) ?_
    simp [SharedMemoryTopicRos2.lift, Res.and_then]

theorem SharedMemoryTopicRos2.lock_ne_topic (topic_name shm_name : String)
    (h : topic_name ≠ shm_name ++ "_shm") :
    GetNamePrefix (shm_name ++ "_shm") ≠ GetNamePrefix topic_name :=
  fun e => h (GetNamePrefix_injective _ _ e).symm

theorem SharedMemoryTopicRos2.WriteDataToSHM_lock (fails : Syscall → Bool) (shm_name : String)
    (buffer : List Nat) (st : TopicState) (hwf : st.2.wf)
    (hpost : fails Syscall.sem_post = false) :
    SharedMemoryTopicRos2.lock_spec (GetNamePrefix (shm_name ++ "_shm")) st.1
      (SharedMemoryTopicRos2.WriteDataToSHM fails shm_name buffer st) := by
  unfold SharedMemoryTopicRos2.WriteDataToSHM
  apply SharedMemoryTopicRos2.lock_spec_seq
  · exact SharedMemoryTopicRos2.CheckSHMExist_lock fails shm_name true _ st hwf
  · intro _ _ hwf1
    apply SharedMemoryTopicRos2.lock_spec_seq
    · exact SharedMemoryTopicRos2.shm_at_lock shm_name _ _ hwf1
    · intro d hd hwf2
      obtain ⟨e1, _, e3⟩ := SharedMemoryTopicRos2.shm_at_spec shm_name
        (SharedMemoryTopicRos2.CheckSHMExist fails shm_name true buffer.length st).1
      have hname := (hwf1.shm shm_name d (e3 d hd)).2
      rw [← hname]
      exact SharedMemoryTopicRos2.write_tail_lock fails d buffer _ hwf2 hpost

theorem SharedMemoryTopicRos2.PublishSem_lock (fails : Syscall → Bool)
    (topic_name shm_name : String) (st : TopicState) (hwf : st.2.wf)
    (hcol : topic_name ≠ shm_name ++ "_shm") :
    SharedMemoryTopicRos2.lock_spec (GetNamePrefix (shm_name ++ "_shm")) st.1
      (SharedMemoryTopicRos2.PublishSem fails topic_name st) := by
  have hne := SharedMemoryTopicRos2.lock_ne_topic topic_name shm_name hcol
  unfold SharedMemoryTopicRos2.PublishSem
  apply SharedMemoryTopicRos2.lock_spec_seq
  · exact SharedMemoryTopicRos2.CheckSemExist_lock fails topic_name _ st hwf hne
  · intro _ _ hwf1
    apply SharedMemoryTopicRos2.lock_spec_seq
    · exact SharedMemoryTopicRos2.sem_at_lock topic_name _ _ hwf1
    · intro h hh hwf2
      obtain ⟨e1, _, e3⟩ := SharedMemoryTopicRos2.sem_at_spec topic_name
        (SharedMemoryTopicRos2.CheckSemExist fails topic_name st).1
      have hname := hwf1.sem topic_name h (e3 h hh)
      obtain ⟨o1, o2⟩ := SharedMemorySemaphore.IncrementWhenZero_other fails h
        (SharedMemoryTopicRos2.sem_at topic_name
          (SharedMemoryTopicRos2.CheckSemExist fails topic_name st).1).1.1
        (GetNamePrefix (shm_name ++ "_shm")) (by rw [hname]; exact hne)
      exact SharedMemoryTopicRos2.lock_spec_of_step _ _ _ hwf2
        (Posix.lock_kept_of_find_eq _ _ _ o1) o2

theorem SharedMemoryTopicRos2.Publish_lock (fails : Syscall → Bool)
    (topic_name shm_name : String) (msg : List Nat) (st : TopicState) (hwf : st.2.wf)
    (hcol : topic_name ≠ shm_name ++ "_shm") (hpost : fails Syscall.sem_post = false) :
    SharedMemoryTopicRos2.lock_spec (GetNamePrefix (shm_name ++ "_shm")) st.1
      (SharedMemoryTopicRos2.Publish fails topic_name shm_name msg st) := by
  unfold SharedMemoryTopicRos2.Publish
  apply SharedMemoryTopicRos2.lock_spec_seq
  · exact SharedMemoryTopicRos2.WriteDataToSHM_lock fails shm_name msg st hwf hpost
  · intro _ _ hwf1
    exact SharedMemoryTopicRos2.PublishSem_lock fails topic_name shm_name _ hwf1 hcol

theorem SharedMemoryTopicRos2.PublishList_loop_lock (fails : Syscall → Bool)
    (shm_name : String) (topic_names : List String) :
    ∀ st : TopicState, st.2.wf → (∀ t ∈ topic_names, t ≠ shm_name ++ "_shm") →
    SharedMemoryTopicRos2.lock_spec (GetNamePrefix (shm_name ++ "_shm")) st.1
      (SharedMemoryTopicRos2.PublishList_loop fails topic_names st) := by
  induction topic_names with
  | nil =>
    intro st hwf _
    exact SharedMemoryTopicRos2.lock_spec_of_step _ _ _ hwf (Posix.lock_kept_refl _ _)
      (fun h => Res.noConfusion h)
  | cons topic rest ih =>
    intro st hwf hcol
    unfold SharedMemoryTopicRos2.PublishList_loop
    apply SharedMemoryTopicRos2.lock_spec_seq
    · exact SharedMemoryTopicRos2.PublishSem_lock fails topic shm_name st hwf
        (hcol topic (List.mem_cons_self _ _))
    · intro _ _ hwf1
      exact ih _ hwf1 (fun t ht => hcol t (List.mem_cons_of_mem _ ht))

theorem SharedMemoryTopicRos2.PublishList_lock (fails : Syscall → Bool)
    (topic_names : List String) (shm_name : String) (msgs : List Nat) (st : TopicState)
    (hwf : st.2.wf) (hcol : ∀ t ∈ topic_names, t ≠ shm_name ++ "_shm")
    (hpost : fails Syscall.sem_post = false) :
    SharedMemoryTopicRos2.lock_spec (GetNamePrefix (shm_name ++ "_shm")) st.1
      (SharedMemoryTopicRos2.PublishList fails topic_names shm_name msgs st) := by
  unfold SharedMemoryTopicRos2.PublishList
  apply SharedMemoryTopicRos2.lock_spec_seq
  · exact SharedMemoryTopicRos2.WriteDataToSHM_lock fails shm_name msgs st hwf hpost
  · intro _ _ hwf1
    exact SharedMemoryTopicRos2.PublishList_loop_lock fails shm_name topic_names _ hwf1 hcol

theorem SharedMemoryTopicRos2.Subscribe_read_lock {μ : Type} (decode : List Nat → Option μ)
    (fails : Syscall → Bool) (shm_name : String) (st : TopicState) (hwf : st.2.wf)
    (hpost : fails Syscall.sem_post = false) :
    SharedMemoryTopicRos2.lock_spec (GetNamePrefix (shm_name ++ "_shm")) st.1
      (SharedMemoryTopicRos2.Subscribe_read decode fails shm_name st) := by
  unfold SharedMemoryTopicRos2.Subscribe_read
  apply SharedMemoryTopicRos2.lock_spec_seq
  · exact SharedMemoryTopicRos2.CheckSHMExist_lock fails shm_name false 0 st hwf
  · intro _ _ hwf1
    apply SharedMemoryTopicRos2.lock_spec_seq
    · exact SharedMemoryTopicRos2.shm_at_lock shm_name _ _ hwf1
    · intro d hd hwf2
      obtain ⟨e1, _, e3⟩ := SharedMemoryTopicRos2.shm_at_spec shm_name
        (SharedMemoryTopicRos2.CheckSHMExist fails shm_name false 0 st).1
      have hname := (hwf1.shm shm_name d (e3 d hd)).2
      rw [← hname]
      exact SharedMemoryTopicRos2.read_tail_lock decode fails d _ hwf2 hpost

theorem SharedMemoryTopicRos2.Subscribe_lock {μ : Type} (decode : List Nat → Option μ)
    (fails : Syscall → Bool) (topic_name shm_name : String) (st : TopicState) (hwf : st.2.wf)
    (hcol : topic_name ≠ shm_name ++ "_shm") (hpost : fails Syscall.sem_post = false) :
    SharedMemoryTopicRos2.lock_spec (GetNamePrefix (shm_name ++ "_shm")) st.1
      (SharedMemoryTopicRos2.Subscribe decode fails topic_name shm_name st) := by
  have hne := SharedMemoryTopicRos2.lock_ne_topic topic_name shm_name hcol
  unfold SharedMemoryTopicRos2.Subscribe
  apply SharedMemoryTopicRos2.lock_spec_seq
  · exact SharedMemoryTopicRos2.CheckSemExist_lock fails topic_name _ st hwf hne
  · intro _ _ hwf1
    apply SharedMemoryTopicRos2.lock_spec_seq
    · exact SharedMemoryTopicRos2.sem_at_lock topic_name _ _ hwf1
    · intro h hh hwf2
      obtain ⟨e1, _, e3⟩ := SharedMemoryTopicRos2.sem_at_spec topic_name
        (SharedMemoryTopicRos2.CheckSemExist fails topic_name st).1
      have hname := hwf1.sem topic_name h (e3 h hh)
      apply SharedMemoryTopicRos2.lock_spec_seq
      · obtain ⟨o1, o2⟩ := SharedMemorySemaphore.Decrement_other fails h
          (SharedMemoryTopicRos2.sem_at topic_name
            (SharedMemoryTopicRos2.CheckSemExist fails topic_name st).1).1.1
          (GetNamePrefix (shm_name ++ "_shm")) (by rw [hname]; exact hne)
        exact SharedMemoryTopicRos2.lock_spec_of_step _ _ _ hwf2
          (Posix.lock_kept_of_find_eq _ _ _ o1) o2
      · intro _ _ hwf3
        exact SharedMemoryTopicRos2.Subscribe_read_lock decode fails shm_name _ hwf3 hpost

theorem SharedMemoryTopicRos2.SubscribeNoWait_lock {μ : Type} (decode : List Nat → Option μ)
    (fails : Syscall → Bool) (topic_name shm_name : String) (st : TopicState) (hwf : st.2.wf)
    (hcol : topic_name ≠ shm_name ++ "_shm") (hpost : fails Syscall.sem_post = false) :
    SharedMemoryTopicRos2.lock_spec (GetNamePrefix (shm_name ++ "_shm")) st.1
      (SharedMemoryTopicRos2.SubscribeNoWait decode fails topic_name shm_name st) := by
  have hne := SharedMemoryTopicRos2.lock_ne_topic topic_name shm_name hcol
  unfold SharedMemoryTopicRos2.SubscribeNoWait
  apply SharedMemoryTopicRos2.lock_spec_seq
  · exact SharedMemoryTopicRos2.CheckSemExist_lock fails topic_name _ st hwf hne
  · intro _ _ hwf1
    apply SharedMemoryTopicRos2.lock_spec_seq
    · exact SharedMemoryTopicRos2.sem_at_lock topic_name _ _ hwf1
    · intro h hh hwf2
      obtain ⟨e1, _, e3⟩ := SharedMemoryTopicRos2.sem_at_spec topic_name
        (SharedMemoryTopicRos2.CheckSemExist fails topic_name st).1
      have hname := hwf1.sem topic_name h (e3 h hh)
      apply SharedMemoryTopicRos2.lock_spec_seq
      · obtain ⟨o1, o2⟩ := SharedMemorySemaphore.TryDecrement_other fails h
          (SharedMemoryTopicRos2.sem_at topic_name
            (SharedMemoryTopicRos2.CheckSemExist fails topic_name st).1).1.1
          (GetNamePrefix (shm_name ++ "_shm")) (by rw [hname]; exact hne)
        exact SharedMemoryTopicRos2.lock_spec_of_step _ _ _ hwf2
          (Posix.lock_kept_of_find_eq _ _ _ o1) o2
      · intro taken _ hwf3
        cases taken
        · exact SharedMemoryTopicRos2.lock_spec_of_step _ _ _ hwf3 (Posix.lock_kept_refl _ _)
            (fun h => Res.noConfusion h)
        · exact SharedMemoryTopicRos2.Subscribe_read_lock decode fails shm_name _ hwf3 hpost

theorem SharedMemoryTopicRos2.SubscribeTimeout_lock {μ : Type} (decode : List Nat → Option μ)
    (fails : Syscall → Bool) (topic_name shm_name : String) (timeout : Nat) (st : TopicState)
    (hwf : st.2.wf) (hcol : topic_name ≠ shm_name ++ "_shm")
    (hpost : fails Syscall.sem_post = false) :
    SharedMemoryTopicRos2.lock_spec (GetNamePrefix (shm_name ++ "_shm")) st.1
      (SharedMemoryTopicRos2.SubscribeTimeout decode fails topic_name shm_name timeout st) := by
  have hne := SharedMemoryTopicRos2.lock_ne_topic topic_name shm_name hcol
  unfold SharedMemoryTopicRos2.SubscribeTimeout
  apply SharedMemoryTopicRos2.lock_spec_seq
  · exact SharedMemoryTopicRos2.CheckSemExist_lock fails topic_name _ st hwf hne
  · intro _ _ hwf1
    apply SharedMemoryTopicRos2.lock_spec_seq
    · exact SharedMemoryTopicRos2.sem_at_lock topic_name _ _ hwf1
    · intro h hh hwf2
      obtain ⟨e1, _, e3⟩ := SharedMemoryTopicRos2.sem_at_spec topic_name
        (SharedMemoryTopicRos2.CheckSemExist fails topic_name st).1
      have hname := hwf1.sem topic_name h (e3 h hh)
      apply SharedMemoryTopicRos2.lock_spec_seq
      · obtain ⟨o1, o2⟩ := SharedMemorySemaphore.DecrementTimeout_other fails h timeout
          (SharedMemoryTopicRos2.sem_at topic_name
            (SharedMemoryTopicRos2.CheckSemExist fails topic_name st).1).1.1
          (GetNamePrefix (shm_name ++ "_shm")) (by rw [hname]; exact hne)
        exact SharedMemoryTopicRos2.lock_spec_of_step _ _ _ hwf2
          (Posix.lock_kept_of_find_eq _ _ _ o1) o2
      · intro taken _ hwf3
        cases taken
        · exact SharedMemoryTopicRos2.lock_spec_of_step _ _ _ hwf3 (Posix.lock_kept_refl _ _)
            (fun h => Res.noConfusion h)
        · exact SharedMemoryTopicRos2.Subscribe_read_lock decode fails shm_name _ hwf3 hpost

/-- Every call of a public method keeps the lock of its buffer unless it is left
by the exception of the deserializer. -/
theorem TopicCall.apply_lock {μ : Type} (decode : List Nat → Option μ) (fails : Syscall → Bool)
    (call : TopicCall) (st : TopicState) (hwf : st.2.wf)
    (hcol : ∀ t ∈ call.topic_names, t ≠ call.shm_name ++ "_shm")
    (hpost : fails Syscall.sem_post = false) :
    SharedMemoryTopicRos2.lock_spec (GetNamePrefix (call.shm_name ++ "_shm")) st.1
      (call.apply decode fails st) := by
  cases call with
  | Publish topic_name shm_name msg =>
    unfold TopicCall.apply
    apply SharedMemoryTopicRos2.lock_spec_seq
    · exact SharedMemoryTopicRos2.Publish_lock fails topic_name shm_name msg st hwf
        (hcol topic_name (by simp [TopicCall.topic_names])) hpost
    · intro _ _ hwf1
      exact SharedMemoryTopicRos2.lock_spec_of_step _ _ _ hwf1 (Posix.lock_kept_refl _ _)
        (fun h => Res.noConfusion h)
  | PublishList topic_names shm_name msgs =>
    unfold TopicCall.apply
    apply SharedMemoryTopicRos2.lock_spec_seq
    · exact SharedMemoryTopicRos2.PublishList_lock fails topic_names shm_name msgs st hwf
        hcol hpost
    · intro _ _ hwf1
      exact SharedMemoryTopicRos2.lock_spec_of_step _ _ _ hwf1 (Posix.lock_kept_refl _ _)
        (fun h => Res.noConfusion h)
  | Subscribe topic_name shm_name =>
    exact SharedMemoryTopicRos2.Subscribe_lock decode fails topic_name shm_name st hwf
      (hcol topic_name (by simp [TopicCall.topic_names])) hpost
  | SubscribeNoWait topic_name shm_name =>
    exact SharedMemoryTopicRos2.SubscribeNoWait_lock decode fails topic_name shm_name st hwf
      (hcol topic_name (by simp [TopicCall.topic_names])) hpost
  | SubscribeTimeout topic_name shm_name timeout =>
    exact SharedMemoryTopicRos2.SubscribeTimeout_lock decode fails topic_name shm_name timeout
      st hwf (hcol topic_name (by simp [TopicCall.topic_names])) hpost

/-! ## Publish and subscribe on one topic and buffer -/

theorem SharedMemoryData.Lock_of_find (fails : Syscall → Bool) (d : SharedMemoryData)
    (s : Posix) (c : Nat) (hf : unordered_map.find s.sems d.sem_.name_ = some (c + 1))
    (hwait : fails Syscall.sem_wait = false) :
    d.Lock fails s =
      ({ s with sems := unordered_map.assign s.sems d.sem_.name_ c }, Res.ok ()) := by
  unfold SharedMemoryData.Lock SharedMemorySemaphore.Decrement
  rw [hf]
  simp only [hwait, Bool.false_eq_true, if_false, Nat.add_one_ne_zero, Nat.add_sub_cancel]

theorem Posix.find_memcpy_same_length (s : Posix) (name : String) (bytes buffer : List Nat)
    (h : unordered_map.find s.shms name = some bytes) (hl : buffer.length = bytes.length) :
    unordered_map.find (s.memcpy name buffer).shms name = some buffer ∧
    (s.memcpy name buffer).overrun = s.overrun := by
  unfold Posix.memcpy
  rw [h]
  simp only [unordered_map.find_assign, if_true, hl, lt_irrefl, if_false, and_true]
  rw [← hl, List.take_length, List.drop_of_length_le (by omega), List.append_nil]

theorem Posix.memcpy_shms_other (s : Posix) (name : String) (buffer : List Nat) (k : String)
    (hk : k ≠ name) :
    unordered_map.find (s.memcpy name buffer).shms k = unordered_map.find s.shms k := by
  unfold Posix.memcpy
  split
  · rfl
  · simp only [unordered_map.find_assign, if_neg hk]

/-- What `CheckSHMExist` does when no system call fails, the lock of the buffer is
free or does not exist, and the object of the buffer has `n` bytes or is created
with `n` bytes. -/
theorem SharedMemoryTopicRos2.CheckSHMExist_ready (shm_name : String) (check_size : Bool)
    (size n : Nat) (st : TopicState)
    (hlock : unordered_map.find st.1.sems (GetNamePrefix (shm_name ++ "_shm")) = none ∨
      unordered_map.find st.1.sems (GetNamePrefix (shm_name ++ "_shm")) = some 1)
    (hregion : (∃ bytes, unordered_map.find st.1.shms (GetNamePrefix shm_name) = some bytes ∧
        bytes.length = n ∧ (check_size = true → size = n)) ∨
      (unordered_map.find st.1.shms (GetNamePrefix shm_name) = none ∧ size = n))
    (hcache : ∀ d, unordered_map.find st.2.shm_map_ shm_name = some d →
      d.name_ = GetNamePrefix shm_name ∧ d.sem_.name_ = GetNamePrefix (shm_name ++ "_shm") ∧
      d.size_ = n ∧
      unordered_map.find st.1.sems (GetNamePrefix (shm_name ++ "_shm")) = some 1 ∧
      ∃ bytes, unordered_map.find st.1.shms (GetNamePrefix shm_name) = some bytes) :
    ∃ st1 d,
      SharedMemoryTopicRos2.CheckSHMExist Syscall.none_fails shm_name check_size size st =
        (st1, Res.ok ()) ∧
      unordered_map.find st1.2.shm_map_ shm_name = some d ∧
      d.name_ = GetNamePrefix shm_name ∧ d.sem_.name_ = GetNamePrefix (shm_name ++ "_shm") ∧
      d.size_ = n ∧
      st1.2.sem_map_ = st.2.sem_map_ ∧
      unordered_map.find st1.1.sems (GetNamePrefix (shm_name ++ "_shm")) = some 1 ∧
      (∀ k, k ≠ GetNamePrefix (shm_name ++ "_shm") →
        unordered_map.find st1.1.sems k = unordered_map.find st.1.sems k) ∧
      (∃ bytes, unordered_map.find st1.1.shms (GetNamePrefix shm_name) = some bytes ∧
        bytes.length = n) ∧
      (∀ bytes, unordered_map.find st.1.shms (GetNamePrefix shm_name) = some bytes →
        unordered_map.find st1.1.shms (GetNamePrefix shm_name) = some bytes) ∧
      st1.1.overrun = st.1.overrun := by
  cases hc : unordered_map.find st.2.shm_map_ shm_name with
  | some d =>
    obtain ⟨a1, a2, a3, a4, bytes, a5⟩ := hcache d hc
    refine ⟨st, d, ?_, hc, a1, a2, a3, rfl, a4, fun _ _ => rfl, ?_, fun _ h => h, rfl⟩
    · simp only [SharedMemoryTopicRos2.CheckSHMExist, hc]
    · rcases hregion with ⟨b, hb, hl, _⟩ | ⟨hb, _⟩
      · exact ⟨b, hb, hl⟩
      · rw [hb] at a5
        exact Option.noConfusion a5
  | none =>
    -- the semaphore of the lock
    have hsem : SharedMemorySemaphore.Init Syscall.none_fails (shm_name ++ "_shm") 1 st.1 =
        (st.1.sem_open (GetNamePrefix (shm_name ++ "_shm")) 1,
          Res.ok { name_ := GetNamePrefix (shm_name ++ "_shm") }) := by
      simp [SharedMemorySemaphore.Init, Syscall.none_fails]
    have hs1 : unordered_map.find
        (st.1.sem_open (GetNamePrefix (shm_name ++ "_shm")) 1).sems
          (GetNamePrefix (shm_name ++ "_shm")) = some 1 := by
      rw [Posix.find_sem_open]
      rcases hlock with h | h
      · simp [h]
      · simp [h]
    have hs2 : ∀ k, k ≠ GetNamePrefix (shm_name ++ "_shm") →
        unordered_map.find (st.1.sem_open (GetNamePrefix (shm_name ++ "_shm")) 1).sems k =
          unordered_map.find st.1.sems k := by
      intro k hk
      rw [Posix.find_sem_open, if_neg (fun h => hk h.1)]
    have hs3 : (st.1.sem_open (GetNamePrefix (shm_name ++ "_shm")) 1).shms = st.1.shms := by
      unfold Posix.sem_open
      split <;> rfl
    have hs4 : (st.1.sem_open (GetNamePrefix (shm_name ++ "_shm")) 1).overrun =
        st.1.overrun := by
      unfold Posix.sem_open
      split <;> rfl
    rcases hregion with ⟨b, hb, hl, hsz⟩ | ⟨hb, hsz⟩
    · -- the object exists
      have hinit : SharedMemoryData.Init Syscall.none_fails
          { name_ := GetNamePrefix (shm_name ++ "_shm") } shm_name check_size size
          (st.1.sem_open (GetNamePrefix (shm_name ++ "_shm")) 1) =
          (st.1.sem_open (GetNamePrefix (shm_name ++ "_shm")) 1,
            Res.ok { sem_ := { name_ := GetNamePrefix (shm_name ++ "_shm") },
                     name_ := GetNamePrefix shm_name, size_ := n }) := by
        have hm : ¬ (check_size = true ∧ b.length ≠ size) := by
          rintro ⟨x, y⟩
          exact y (by rw [hl, hsz x])
        simp only [SharedMemoryData.Init, Syscall.none_fails, hs3, hb, Bool.false_eq_true,
          if_false]
        rw [if_neg hm]
        cases check_size
        · simp [hl]
        · simp [hsz rfl]
      refine ⟨(st.1.sem_open (GetNamePrefix (shm_name ++ "_shm")) 1,
          SharedMemoryTopicRos2.mk (unordered_map.assign st.2.shm_map_ shm_name
              (SharedMemoryData.mk (SharedMemorySemaphore.mk (GetNamePrefix (shm_name ++ "_shm")))
                (GetNamePrefix shm_name) n)) st.2.sem_map_),
        { sem_ := { name_ := GetNamePrefix (shm_name ++ "_shm") },
          name_ := GetNamePrefix shm_name, size_ := n },
        ?_, ?_, rfl, rfl, rfl, rfl, hs1, hs2, ⟨b, by rw [hs3]; exact hb, hl⟩, ?_, hs4⟩
      · simp only [SharedMemoryTopicRos2.CheckSHMExist, hc, SharedMemoryData.ctor, hsem,
          Res.and_then, hinit, SharedMemoryTopicRos2.lift]
      · simp only [unordered_map.find_assign, if_true]
      · intro bytes h
        rw [hs3]
        exact h
    · -- the object is created
      have hinit : SharedMemoryData.Init Syscall.none_fails
          { name_ := GetNamePrefix (shm_name ++ "_shm") } shm_name check_size size
          (st.1.sem_open (GetNamePrefix (shm_name ++ "_shm")) 1) =
          (((st.1.sem_open (GetNamePrefix (shm_name ++ "_shm")) 1).ftruncate
              (GetNamePrefix shm_name) size).memset (GetNamePrefix shm_name) size,
            Res.ok { sem_ := { name_ := GetNamePrefix (shm_name ++ "_shm") },
                     name_ := GetNamePrefix shm_name, size_ := size }) := by
        simp only [SharedMemoryData.Init, Syscall.none_fails, hs3, hb, Bool.false_eq_true,
          if_false]
      have hb' : unordered_map.find
          (st.1.sem_open (GetNamePrefix (shm_name ++ "_shm")) 1).shms
            (GetNamePrefix shm_name) = none := by
        rw [hs3]
        exact hb
      have hz := Posix.find_memset_zero _ _ _
        (Posix.find_ftruncate_new _ (GetNamePrefix shm_name) size hb')
      refine ⟨(((st.1.sem_open (GetNamePrefix (shm_name ++ "_shm")) 1).ftruncate
              (GetNamePrefix shm_name) size).memset (GetNamePrefix shm_name) size,
          SharedMemoryTopicRos2.mk (unordered_map.assign st.2.shm_map_ shm_name
              (SharedMemoryData.mk (SharedMemorySemaphore.mk (GetNamePrefix (shm_name ++ "_shm")))
                (GetNamePrefix shm_name) size)) st.2.sem_map_),
        { sem_ := { name_ := GetNamePrefix (shm_name ++ "_shm") },
          name_ := GetNamePrefix shm_name, size_ := size },
        ?_, ?_, rfl, rfl, hsz, rfl, ?_, ?_, ⟨_, hz, by simp [hsz]⟩, ?_, ?_⟩
      · simp only [SharedMemoryTopicRos2.CheckSHMExist, hc, SharedMemoryData.ctor, hsem,
          Res.and_then, hinit, SharedMemoryTopicRos2.lift]
      · simp only [unordered_map.find_assign, if_true]
      · rw [Posix.memset_sems, Posix.ftruncate_sems]
        exact hs1
      · intro k hk
        rw [Posix.memset_sems, Posix.ftruncate_sems]
        exact hs2 k hk
      · intro bytes h
        rw [hb] at h
        exact Option.noConfusion h
      · have : ∀ (s : Posix) (k : String) (m : Nat), (s.memset k m).overrun = s.overrun := by
          intro s k m
          unfold Posix.memset
          split <;> rfl
        rw [this]
        exact hs4

/-- What `CheckSemExist` does when no system call fails and a handle that is held
for the topic was made for it. -/
theorem SharedMemoryTopicRos2.CheckSemExist_ready (topic_name : String) (st : TopicState)
    (hcache : ∀ h, unordered_map.find st.2.sem_map_ topic_name = some h →
      h.name_ = GetNamePrefix topic_name ∧
      ∃ c, unordered_map.find st.1.sems (GetNamePrefix topic_name) = some c) :
    ∃ st1 h,
      SharedMemoryTopicRos2.CheckSemExist Syscall.none_fails topic_name st = (st1, Res.ok ()) ∧
      unordered_map.find st1.2.sem_map_ topic_name = some h ∧
      h.name_ = GetNamePrefix topic_name ∧
      st1.2.shm_map_ = st.2.shm_map_ ∧
      unordered_map.find st1.1.sems (GetNamePrefix topic_name) =
        some (st.1.pending topic_name) ∧
      (∀ k, k ≠ GetNamePrefix topic_name →
        unordered_map.find st1.1.sems k = unordered_map.find st.1.sems k) ∧
      st1.1.shms = st.1.shms ∧ st1.1.overrun = st.1.overrun := by
  cases hc : unordered_map.find st.2.sem_map_ topic_name with
  | some h =>
    obtain ⟨a1, c, a2⟩ := hcache h hc
    refine ⟨st, h, ?_, hc, a1, rfl, ?_, fun _ _ => rfl, rfl, rfl⟩
    · simp only [SharedMemoryTopicRos2.CheckSemExist, hc]
    · simp only [Posix.pending, a2, Option.getD_some]
  | none =>
    have hsem : SharedMemorySemaphore.Init Syscall.none_fails topic_name 0 st.1 =
        (st.1.sem_open (GetNamePrefix topic_name) 0,
          Res.ok { name_ := GetNamePrefix topic_name }) := by
      simp [SharedMemorySemaphore.Init, Syscall.none_fails]
    refine ⟨(st.1.sem_open (GetNamePrefix topic_name) 0,
        SharedMemoryTopicRos2.mk st.2.shm_map_
          (unordered_map.assign st.2.sem_map_ topic_name
            (SharedMemorySemaphore.mk (GetNamePrefix topic_name)))),
      SharedMemorySemaphore.mk (GetNamePrefix topic_name), ?_, ?_, rfl, rfl, ?_, ?_, ?_, ?_⟩
    · simp only [SharedMemoryTopicRos2.CheckSemExist, hc, hsem, Res.and_then,
        SharedMemoryTopicRos2.lift]
    · simp only [unordered_map.find_assign, if_true]
    · rw [Posix.find_sem_open]
      cases hx : unordered_map.find st.1.sems (GetNamePrefix topic_name) with
      | none => simp [Posix.pending, hx]
      | some c => simp [Posix.pending, hx]
    · intro k hk
      rw [Posix.find_sem_open, if_neg (fun h => hk h.1)]
    · unfold Posix.sem_open
      split <;> rfl
    · unfold Posix.sem_open
      split <;> rfl

theorem SharedMemorySemaphore.Decrement_of_find (fails : Syscall → Bool)
    (self : SharedMemorySemaphore) (s : Posix) (c : Nat)
    (hf : unordered_map.find s.sems self.name_ = some (c + 1))
    (hwait : fails Syscall.sem_wait = false) :
    self.Decrement fails s =
      ({ s with sems := unordered_map.assign s.sems self.name_ c }, Res.ok ()) := by
  unfold SharedMemorySemaphore.Decrement
  rw [hf]
  simp only [hwait, Bool.false_eq_true, if_false, Nat.add_one_ne_zero, Nat.add_sub_cancel]

theorem SharedMemorySemaphore.TryDecrement_of_find (fails : Syscall → Bool)
    (self : SharedMemorySemaphore) (s : Posix) (c : Nat)
    (hf : unordered_map.find s.sems self.name_ = some (c + 1))
    (hwait : fails Syscall.sem_trywait = false) :
    self.TryDecrement fails s =
      ({ s with sems := unordered_map.assign s.sems self.name_ c }, Res.ok true) := by
  unfold SharedMemorySemaphore.TryDecrement
  rw [hf]
  simp only [hwait, Bool.false_eq_true, if_false, Nat.add_one_ne_zero, Nat.add_sub_cancel]

theorem SharedMemorySemaphore.DecrementTimeout_of_find (fails : Syscall → Bool)
    (self : SharedMemorySemaphore) (milliseconds : Nat) (s : Posix) (c : Nat)
    (hf : unordered_map.find s.sems self.name_ = some (c + 1))
    (hclock : fails Syscall.clock_gettime = false)
    (hwait : fails Syscall.sem_timedwait = false) :
    self.DecrementTimeout fails milliseconds s =
      ({ s with sems := unordered_map.assign s.sems self.name_ c }, Res.ok true) := by
  unfold SharedMemorySemaphore.DecrementTimeout
  rw [hf]
  simp only [hwait, hclock, Bool.false_eq_true, if_false, Nat.add_one_ne_zero,
    Nat.add_sub_cancel]

/-- The method `WriteDataToSHM` under the conditions of `ready`: the bytes of the
message replace the bytes of the object, the lock is free again. -/
theorem SharedMemoryTopicRos2.WriteDataToSHM_ready (topic_name shm_name : String)
    (buffer : List Nat) (st : TopicState)
    (hready : SharedMemoryTopicRos2.ready topic_name shm_name buffer.length st) :
    ∃ st1 d,
      SharedMemoryTopicRos2.WriteDataToSHM Syscall.none_fails shm_name buffer st =
        (st1, Res.ok ()) ∧
      unordered_map.find st1.2.shm_map_ shm_name = some d ∧
      d.name_ = GetNamePrefix shm_name ∧ d.sem_.name_ = GetNamePrefix (shm_name ++ "_shm") ∧
      d.size_ = buffer.length ∧
      st1.2.sem_map_ = st.2.sem_map_ ∧
      unordered_map.find st1.1.sems (GetNamePrefix (shm_name ++ "_shm")) = some 1 ∧
      (∀ k, k ≠ GetNamePrefix (shm_name ++ "_shm") →
        unordered_map.find st1.1.sems k = unordered_map.find st.1.sems k) ∧
      unordered_map.find st1.1.shms (GetNamePrefix shm_name) = some buffer ∧
      st1.1.overrun = st.1.overrun := by
  have hregion : (∃ bytes, unordered_map.find st.1.shms (GetNamePrefix shm_name) = some bytes ∧
        bytes.length = buffer.length ∧ ((true : Bool) = true → buffer.length = buffer.length)) ∨
      (unordered_map.find st.1.shms (GetNamePrefix shm_name) = none ∧
        buffer.length = buffer.length) := by
    cases hx : unordered_map.find st.1.shms (GetNamePrefix shm_name) with
    | none => exact Or.inr ⟨rfl, rfl⟩
    | some bytes => exact Or.inl ⟨bytes, rfl, hready.region bytes hx, fun _ => rfl⟩
  obtain ⟨st1, d, e0, e1, e2, e3, e4, e5, e6, e7, ⟨bytes, e8, e9⟩, _, e10⟩ :=
    SharedMemoryTopicRos2.CheckSHMExist_ready shm_name true buffer.length buffer.length st
      hready.lock hregion hready.shm_handle
  have hlk : unordered_map.find st1.1.sems d.sem_.name_ = some (0 + 1) := by
    rw [e3]
    exact e6
  have hl := SharedMemoryData.Lock_of_find Syscall.none_fails d st1.1 0 hlk rfl
  have hcp := Posix.find_memcpy_same_length
    { st1.1 with sems := unordered_map.assign st1.1.sems d.sem_.name_ 0 } d.name_ bytes buffer
    (by rw [e2]; exact e8) e9.symm
  have hul := SharedMemoryData.UnLock_of_find Syscall.none_fails d
    (Posix.memcpy { st1.1 with sems := unordered_map.assign st1.1.sems d.sem_.name_ 0 }
      d.name_ buffer) 0
    (by rw [Posix.memcpy_sems]; simp only [unordered_map.find_assign, if_true]) rfl
  refine ⟨((d.UnLock Syscall.none_fails
      (Posix.memcpy (Posix.mk (unordered_map.assign st1.1.sems d.sem_.name_ 0) st1.1.shms
        st1.1.overrun) d.name_ buffer)).1, st1.2), d, ?_, e1, e2, e3, e4, e5, ?_, ?_, ?_, ?_⟩
  · simp only [SharedMemoryTopicRos2.WriteDataToSHM, e0, Res.and_then,
      SharedMemoryTopicRos2.shm_at, e1, SharedMemoryTopicRos2.lift, hl, hul]
  all_goals rw [hul]
  · simp only [Posix.memcpy_sems, unordered_map.find_assign, e3, if_true]
  · intro k hk
    simp only [Posix.memcpy_sems, unordered_map.find_assign, e3, if_neg hk]
    exact e7 k hk
  · rw [← e2]
    exact hcp.1
  · rw [hcp.2]
    exact e10

/-- The method `PublishSem` when no system call fails: the pending count of the
topic is 1 afterwards if it was at most 1. -/
theorem SharedMemoryTopicRos2.PublishSem_ready (topic_name : String) (st : TopicState)
    (hcache : ∀ h, unordered_map.find st.2.sem_map_ topic_name = some h →
      h.name_ = GetNamePrefix topic_name ∧
      ∃ c, unordered_map.find st.1.sems (GetNamePrefix topic_name) = some c)
    (hp : st.1.pending topic_name ≤ 1) :
    ∃ st1 h,
      SharedMemoryTopicRos2.PublishSem Syscall.none_fails topic_name st = (st1, Res.ok ()) ∧
      unordered_map.find st1.2.sem_map_ topic_name = some h ∧
      h.name_ = GetNamePrefix topic_name ∧
      st1.2.shm_map_ = st.2.shm_map_ ∧
      unordered_map.find st1.1.sems (GetNamePrefix topic_name) = some 1 ∧
      (∀ k, k ≠ GetNamePrefix topic_name →
        unordered_map.find st1.1.sems k = unordered_map.find st.1.sems k) ∧
      st1.1.shms = st.1.shms ∧ st1.1.overrun = st.1.overrun := by
  obtain ⟨st1, h, e0, e1, e2, e3, e4, e5, e6, e7⟩ :=
    SharedMemoryTopicRos2.CheckSemExist_ready topic_name st hcache
  have hxs : unordered_map.find st1.1.sems h.name_ = some (st.1.pending topic_name) := by
    rw [e2]
    exact e4
  by_cases hz : st.1.pending topic_name = 0
  · have hinc : h.IncrementWhenZero Syscall.none_fails st1.1 =
        ({ st1.1 with sems := unordered_map.assign st1.1.sems h.name_ 1 }, Res.ok ()) := by
      unfold SharedMemorySemaphore.IncrementWhenZero
      rw [hxs, hz]
      simp [Syscall.none_fails]
    refine ⟨(Posix.mk (unordered_map.assign st1.1.sems h.name_ 1) st1.1.shms st1.1.overrun,
      st1.2), h, ?_, e1, e2, e3, ?_, ?_, e6, e7⟩
    · simp only [SharedMemoryTopicRos2.PublishSem, e0, Res.and_then,
        SharedMemoryTopicRos2.sem_at, e1, SharedMemoryTopicRos2.lift, hinc]
    · simp only [unordered_map.find_assign, e2, if_true]
    · intro k hk
      simp only [unordered_map.find_assign, e2, if_neg hk]
      exact e5 k hk
  · have hone : st.1.pending topic_name = 1 := by omega
    have hinc : h.IncrementWhenZero Syscall.none_fails st1.1 = (st1.1, Res.ok ()) := by
      unfold SharedMemorySemaphore.IncrementWhenZero
      rw [hxs, hone]
      simp [Syscall.none_fails]
    refine ⟨st1, h, ?_, e1, e2, e3, ?_, e5, e6, e7⟩
    · simp only [SharedMemoryTopicRos2.PublishSem, e0, Res.and_then,
        SharedMemoryTopicRos2.sem_at, e1, SharedMemoryTopicRos2.lift, hinc]
    · rw [e4, hone]

/-- A publish under the conditions of `ready`, with at most one message pending
on a topic whose semaphore is not the lock of the buffer. -/
theorem SharedMemoryTopicRos2.Publish_ready (topic_name shm_name : String) (msg : List Nat)
    (st : TopicState) (hcol : topic_name ≠ shm_name ++ "_shm")
    (hready : SharedMemoryTopicRos2.ready topic_name shm_name msg.length st)
    (hp : st.1.pending topic_name ≤ 1) :
    ∃ st1,
      SharedMemoryTopicRos2.Publish Syscall.none_fails topic_name shm_name msg st =
        (st1, Res.ok ()) ∧
      SharedMemoryTopicRos2.published topic_name shm_name msg st1 ∧
      st1.1.overrun = st.1.overrun := by
  have hne := SharedMemoryTopicRos2.lock_ne_topic topic_name shm_name hcol
  obtain ⟨st1, d, e0, e1, e2, e3, e4, e5, e6, e7, e8, e9⟩ :=
    SharedMemoryTopicRos2.WriteDataToSHM_ready topic_name shm_name msg st hready
  have hcache : ∀ h, unordered_map.find st1.2.sem_map_ topic_name = some h →
      h.name_ = GetNamePrefix topic_name ∧
      ∃ c, unordered_map.find st1.1.sems (GetNamePrefix topic_name) = some c := by
    intro h hh
    rw [e5] at hh
    obtain ⟨a, c, b⟩ := hready.sem_handle h hh
    exact ⟨a, c, by rw [e7 _ (Ne.symm hne)]; exact b⟩
  have hp1 : st1.1.pending topic_name ≤ 1 := by
    unfold Posix.pending at hp ⊢
    rw [e7 _ (Ne.symm hne)]
    exact hp
  obtain ⟨st2, h, f0, f1, f2, f3, f4, f5, f6, f7⟩ :=
    SharedMemoryTopicRos2.PublishSem_ready topic_name st1 hcache hp1
  refine ⟨st2, ?_, ⟨?_, ?_, f4, ⟨d, ?_, e2, e3, e4⟩, ⟨h, f1, f2⟩⟩, ?_⟩
  · simp only [SharedMemoryTopicRos2.Publish, e0, Res.and_then, f0]
  · rw [f6]
    exact e8
  · rw [f5 _ hne]
    exact e6
  · rw [f3]
    exact e1
  · rw [f7]
    exact e9

theorem SharedMemoryTopicRos2.ready_of_published (topic_name shm_name : String) (msg : List Nat)
    (st : TopicState) (h : SharedMemoryTopicRos2.published topic_name shm_name msg st) :
    SharedMemoryTopicRos2.ready topic_name shm_name msg.length st ∧
    st.1.pending topic_name ≤ 1 := by
  obtain ⟨d, d1, d2, d3, d4⟩ := h.shm_handle
  obtain ⟨hh, h1, h2⟩ := h.sem_handle
  refine ⟨⟨Or.inr h.lock, ?_, ?_, ?_⟩, ?_⟩
  · intro bytes hb
    rw [h.region] at hb
    simp only [Option.some.injEq] at hb
    rw [hb]
  · intro d' hd'
    rw [d1] at hd'
    simp only [Option.some.injEq] at hd'
    subst hd'
    exact ⟨d2, d3, d4, h.lock, msg, h.region⟩
  · intro h' hh'
    rw [h1] at hh'
    simp only [Option.some.injEq] at hh'
    subst hh'
    exact ⟨h2, 1, h.pending⟩
  · simp [Posix.pending, h.pending]

/-- Publishes of messages of one length, one after another: all return, and the
state is the one left by a publish of the last message. -/
theorem SharedMemoryTopicRos2.Publish_all_ready (topic_name shm_name : String) (n : Nat)
    (hcol : topic_name ≠ shm_name ++ "_shm") (msgs : List (List Nat)) :
    ∀ (st : TopicState) (last : List Nat),
      SharedMemoryTopicRos2.ready topic_name shm_name n st →
      st.1.pending topic_name ≤ 1 →
      msgs.getLast? = some last → (∀ m ∈ msgs, m.length = n) →
      ∃ st1,
        SharedMemoryTopicRos2.Publish_all Syscall.none_fails topic_name shm_name msgs st =
          (st1, Res.ok ()) ∧
        SharedMemoryTopicRos2.published topic_name shm_name last st1 ∧
        st1.1.overrun = st.1.overrun := by
  induction msgs with
  | nil =>
    intro st last _ _ hl _
    simp at hl
  | cons m rest ih =>
    intro st last hready hp hl hlen
    have hm : m.length = n := hlen m (List.mem_cons_self _ _)
    obtain ⟨st1, e0, e1, e2⟩ :=
      SharedMemoryTopicRos2.Publish_ready topic_name shm_name m st hcol (by rw [hm]; exact hready)
        hp
    cases rest with
    | nil =>
      simp only [List.getLast?_singleton, Option.some.injEq] at hl
      subst hl
      exact ⟨st1, by simp only [SharedMemoryTopicRos2.Publish_all, e0, Res.and_then], e1, e2⟩
    | cons m2 rest2 =>
      obtain ⟨r1, r2⟩ := SharedMemoryTopicRos2.ready_of_published topic_name shm_name m st1 e1
      have hl2 : (m2 :: rest2).getLast? = some last := by
        rw [← hl]
        simp [List.getLast?_cons_cons]
      obtain ⟨st2, f0, f1, f2⟩ := ih st1 last (by rw [← hm]; exact r1) r2 hl2
        (fun x hx => hlen x (List.mem_cons_of_mem _ hx))
      refine ⟨st2, ?_, f1, by rw [f2, e2]⟩
      rw [SharedMemoryTopicRos2.Publish_all, e0]
      exact f0

/-- The statements of a subscribe call behind the decrement of the topic
semaphore, on a buffer that holds the bytes of `msg` and whose lock is free. -/
theorem SharedMemoryTopicRos2.Subscribe_read_ready {μ : Type} (decode : List Nat → Option μ)
    (shm_name : String) (msg : List Nat) (x : μ) (st : TopicState)
    (hdec : decode msg = some x)
    (hregion : unordered_map.find st.1.shms (GetNamePrefix shm_name) = some msg)
    (hlock : unordered_map.find st.1.sems (GetNamePrefix (shm_name ++ "_shm")) = some 1)
    (hcache : ∀ d, unordered_map.find st.2.shm_map_ shm_name = some d →
      d.name_ = GetNamePrefix shm_name ∧ d.sem_.name_ = GetNamePrefix (shm_name ++ "_shm") ∧
      d.size_ = msg.length) :
    ∃ st1,
      SharedMemoryTopicRos2.Subscribe_read decode Syscall.none_fails shm_name st =
        (st1, Res.ok (some x)) ∧
      (∀ k, unordered_map.find st1.1.sems k = unordered_map.find st.1.sems k) ∧
      unordered_map.find st1.1.shms (GetNamePrefix shm_name) = some msg := by
  obtain ⟨st1, d, e0, e1, e2, e3, e4, e5, e6, e7, _, e8, _⟩ :=
    SharedMemoryTopicRos2.CheckSHMExist_ready shm_name false 0 msg.length st (Or.inr hlock)
      (Or.inl ⟨msg, hregion, rfl, fun h => Bool.noConfusion h⟩)
      (fun d hd => by
        obtain ⟨a, b, c⟩ := hcache d hd
        exact ⟨a, b, c, hlock, msg, hregion⟩)
  have hreg := e8 msg hregion
  have hlk : unordered_map.find st1.1.sems d.sem_.name_ = some (0 + 1) := by
    rw [e3]
    exact e6
  have hl := SharedMemoryData.Lock_of_find Syscall.none_fails d st1.1 0 hlk rfl
  have hbuf : Posix.buffer (Posix.mk (unordered_map.assign st1.1.sems d.sem_.name_ 0)
      st1.1.shms st1.1.overrun) d.name_ d.size_ = msg := by
    simp only [Posix.buffer, e2, hreg, Option.getD_some, e4, List.take_length]
  have hul := SharedMemoryData.UnLock_of_find Syscall.none_fails d
    (Posix.mk (unordered_map.assign st1.1.sems d.sem_.name_ 0) st1.1.shms st1.1.overrun) 0
    (by simp only [unordered_map.find_assign, if_true]) rfl
  refine ⟨((d.UnLock Syscall.none_fails
      (Posix.mk (unordered_map.assign st1.1.sems d.sem_.name_ 0) st1.1.shms
        st1.1.overrun)).1, st1.2), ?_, ?_, ?_⟩
  · simp only [SharedMemoryTopicRos2.Subscribe_read, e0, Res.and_then,
      SharedMemoryTopicRos2.shm_at, e1, SharedMemoryTopicRos2.lift, hl, hbuf, hdec, hul]
  · intro k
    rw [hul]
    simp only [unordered_map.find_assign]
    by_cases hk : k = d.sem_.name_
    · rw [if_pos hk, hk, e3, hlock]
    · rw [if_neg hk, if_neg hk]
      exact e7 k (by rw [← e3]; exact hk)
  · rw [hul]
    exact hreg

/-- A subscribe call on a topic with one message pending and a buffer that holds
the bytes of `msg`, made through an object whose handles, if it holds any for
the topic and the buffer, were made for them: the call passes the decoded
message to the callback and leaves nothing pending. -/
theorem TopicCall.apply_subscribe_ready {μ : Type} (decode : List Nat → Option μ)
    (topic_name shm_name : String) (msg : List Nat) (x : μ) (call : TopicCall)
    (st : TopicState) (hcol : topic_name ≠ shm_name ++ "_shm")
    (hcall : TopicCall.subscribes topic_name shm_name call)
    (hdec : decode msg = some x)
    (hregion : unordered_map.find st.1.shms (GetNamePrefix shm_name) = some msg)
    (hlock : unordered_map.find st.1.sems (GetNamePrefix (shm_name ++ "_shm")) = some 1)
    (hpending : unordered_map.find st.1.sems (GetNamePrefix topic_name) = some 1)
    (hshm : ∀ d, unordered_map.find st.2.shm_map_ shm_name = some d →
      d.name_ = GetNamePrefix shm_name ∧ d.sem_.name_ = GetNamePrefix (shm_name ++ "_shm") ∧
      d.size_ = msg.length)
    (hsem : ∀ h, unordered_map.find st.2.sem_map_ topic_name = some h →
      h.name_ = GetNamePrefix topic_name) :
    ∃ st2, call.apply decode Syscall.none_fails st = (st2, Res.ok (some x)) ∧
      st2.1.pending topic_name = 0 ∧
      unordered_map.find st2.1.sems (GetNamePrefix (shm_name ++ "_shm")) = some 1 ∧
      unordered_map.find st2.1.shms (GetNamePrefix shm_name) = some msg := by
  have hne := SharedMemoryTopicRos2.lock_ne_topic topic_name shm_name hcol
  obtain ⟨st1, h, e0, e1, e2, e3, e4, e5, e6, _⟩ :=
    SharedMemoryTopicRos2.CheckSemExist_ready topic_name st
      (fun h hh => ⟨hsem h hh, 1, hpending⟩)
  have hp1 : st.1.pending topic_name = 1 := by simp [Posix.pending, hpending]
  have hf : unordered_map.find st1.1.sems h.name_ = some (0 + 1) := by
    rw [e2, e4, hp1]
  obtain ⟨st3, f0, f1, f2⟩ := SharedMemoryTopicRos2.Subscribe_read_ready decode shm_name msg x
    (Posix.mk (unordered_map.assign st1.1.sems h.name_ 0) st1.1.shms st1.1.overrun, st1.2)
    hdec (by rw [← hregion, ← e6])
    (by
      simp only [unordered_map.find_assign, e2, if_neg hne]
      rw [e5 _ hne]
      exact hlock)
    (by
      intro d hd
      rw [e3] at hd
      exact hshm d hd)
  have hpend : st3.1.pending topic_name = 0 := by
    simp only [Posix.pending, f1, unordered_map.find_assign, e2, if_true, Option.getD_some]
  have hlk : unordered_map.find st3.1.sems (GetNamePrefix (shm_name ++ "_shm")) = some 1 := by
    rw [f1]
    simp only [unordered_map.find_assign, e2, if_neg hne]
    rw [e5 _ hne]
    exact hlock
  refine ⟨st3, ?_, hpend, hlk, f2⟩
  rcases hcall with hc | hc | ⟨timeout, hc⟩
  · subst hc
    have hd := SharedMemorySemaphore.Decrement_of_find Syscall.none_fails h st1.1 0 hf rfl
    simp only [TopicCall.apply, SharedMemoryTopicRos2.Subscribe, e0, Res.and_then,
      SharedMemoryTopicRos2.sem_at, e1, SharedMemoryTopicRos2.lift, hd]
    exact f0
  · subst hc
    have hd := SharedMemorySemaphore.TryDecrement_of_find Syscall.none_fails h st1.1 0 hf rfl
    simp only [TopicCall.apply, SharedMemoryTopicRos2.SubscribeNoWait, e0, Res.and_then,
      SharedMemoryTopicRos2.sem_at, e1, SharedMemoryTopicRos2.lift, hd, if_true]
    exact f0
  · subst hc
    have hd := SharedMemorySemaphore.DecrementTimeout_of_find Syscall.none_fails h timeout
      st1.1 0 hf rfl rfl
    simp only [TopicCall.apply, SharedMemoryTopicRos2.SubscribeTimeout, e0, Res.and_then,
      SharedMemoryTopicRos2.sem_at, e1, SharedMemoryTopicRos2.lift, hd, if_true]
    exact f0

/-- C14 (amended): take a topic and a buffer such that the topic name is not the
buffer name followed by `_shm`, no message pending on the topic, the lock of
the buffer free, and serialized messages of one length `n`, at least one, the
last of which the deserializer of the subscriber decodes to `x`.  If no system
call fails, the publishes of the messages through one `SharedMemoryTopicRos2`
object, one after another, all return; one message is pending afterwards and
the buffer holds the bytes of the last message; and the next call of
`Subscribe`, `SubscribeNoWait` or `SubscribeTimeout`, made through the same
object or through a new one, passes `x` to the callback and leaves the pending
count 0.  With the deserializer that returns the bytes, `x` is the last
message. -/
theorem C14_latest_wins {μ : Type} (decode : List Nat → Option μ)
    (topic_name shm_name : String) (msgs : List (List Nat)) (last : List Nat) (n : Nat) (x : μ)
    (st : TopicState) (hcol : topic_name ≠ shm_name ++ "_shm")
    (hready : SharedMemoryTopicRos2.ready topic_name shm_name n st)
    (h0 : st.1.pending topic_name = 0)
    (hlast : msgs.getLast? = some last) (hlen : ∀ m ∈ msgs, m.length = n)
    (hdec : decode last = some x) :
    ∃ st1,
      SharedMemoryTopicRos2.Publish_all Syscall.none_fails topic_name shm_name msgs st =
        (st1, Res.ok ()) ∧
      st1.1.pending topic_name = 1 ∧
      unordered_map.find st1.1.shms (GetNamePrefix shm_name) = some last ∧
      st1.1.overrun = st.1.overrun ∧
      ∀ call, TopicCall.subscribes topic_name shm_name call →
        ∀ m2 : SharedMemoryTopicRos2, m2 = st1.2 ∨ m2 = {} →
          ∃ st2, call.apply decode Syscall.none_fails (st1.1, m2) = (st2, Res.ok (some x)) ∧
            st2.1.pending topic_name = 0 := by
  obtain ⟨st1, e0, e1, e2⟩ := SharedMemoryTopicRos2.Publish_all_ready topic_name shm_name n hcol
    msgs st last hready (by omega) hlast hlen
  refine ⟨st1, e0, by simp [Posix.pending, e1.pending], e1.region, e2, ?_⟩
  intro call hcall m2 hm2
  obtain ⟨d, d1, d2, d3, d4⟩ := e1.shm_handle
  obtain ⟨h, h1, h2⟩ := e1.sem_handle
  have := TopicCall.apply_subscribe_ready decode topic_name shm_name last x call (st1.1, m2)
    hcol hcall hdec e1.region e1.lock e1.pending
    (by
      intro d' hd'
      rcases hm2 with rfl | rfl
      · rw [d1] at hd'
        simp only [Option.some.injEq] at hd'
        subst hd'
        exact ⟨d2, d3, d4⟩
      · simp [unordered_map.find] at hd')
    (by
      intro h' hh'
      rcases hm2 with rfl | rfl
      · rw [h1] at hh'
        simp only [Option.some.injEq] at hh'
        subst hh'
        exact h2
      · simp [unordered_map.find] at hh')
  obtain ⟨st2, f0, f1, _⟩ := this
  exact ⟨st2, f0, f1⟩

/-- C14 fails as stated: on the topic `b_shm` and the buffer `b`, the semaphore of
the topic is the lock of the buffer.  From the empty system one publish returns,
and the subscribe that follows waits for ever in `Lock()`, on the count it has
itself taken to zero. -/
theorem C14_counterexample :
    ¬ ∀ (topic_name shm_name : String) (msgs : List (List Nat)) (last : List Nat) (n : Nat),
      msgs.getLast? = some last → (∀ m ∈ msgs, m.length = n) →
      ∃ st1 st2,
        SharedMemoryTopicRos2.Publish_all Syscall.none_fails topic_name shm_name msgs ({}, {}) =
          (st1, Res.ok ()) ∧
        SharedMemoryTopicRos2.Subscribe some Syscall.none_fails topic_name shm_name st1 =
          (st2, Res.ok (some last)) ∧
        st2.1.pending topic_name = 0 := by
  intro h
  obtain ⟨st1, st2, h1, h2, _⟩ := h "b_shm" "b" [[1, 2, 3, 4]] [1, 2, 3, 4] 4 rfl (by decide)
  have e : (SharedMemoryTopicRos2.Subscribe some Syscall.none_fails "b_shm" "b"
      (SharedMemoryTopicRos2.Publish_all Syscall.none_fails "b_shm" "b" [[1, 2, 3, 4]]
        ({}, {})).1).2 = (Res.blocked : Res (Option (List Nat))) := by
    decide
  rw [h1, h2] at e
  exact Res.noConfusion e

theorem Res.and_then_ne_thrown {σ α β : Type} (e : IpcError) (r : σ × Res α)
    (f : σ → α → σ × Res β) (h1 : r.2 ≠ Res.thrown e) (h2 : ∀ s a, (f s a).2 ≠ Res.thrown e) :
    (Res.and_then r f).2 ≠ Res.thrown e := by
  obtain ⟨s, x⟩ := r
  cases x with
  | ok a => exact h2 s a
  | blocked => exact fun h => Res.noConfusion h
  | thrown e1 =>
    intro h
    apply h1
    simp only [Res.and_then, Res.thrown.injEq] at h
    rw [h]

theorem SharedMemoryTopicRos2.CheckSHMExist_ne_deserialize (fails : Syscall → Bool)
    (shm_name : String) (check_size : Bool) (size : Nat) (st : TopicState) :
    (SharedMemoryTopicRos2.CheckSHMExist fails shm_name check_size size st).2 ≠
      Res.thrown IpcError.deserialize := by
  unfold SharedMemoryTopicRos2.CheckSHMExist
  split
  · exact fun h => Res.noConfusion h
  · apply Res.and_then_ne_thrown
    · exact (SharedMemoryData.ctor_spec fails shm_name check_size size st.1).2.2.2
    · intro s a
      exact fun h => Res.noConfusion h

theorem SharedMemoryTopicRos2.CheckSemExist_ne_deserialize (fails : Syscall → Bool)
    (topic_name : String) (st : TopicState) :
    (SharedMemoryTopicRos2.CheckSemExist fails topic_name st).2 ≠
      Res.thrown IpcError.deserialize := by
  unfold SharedMemoryTopicRos2.CheckSemExist
  split
  · exact fun h => Res.noConfusion h
  · apply Res.and_then_ne_thrown
    · exact (SharedMemorySemaphore.Init_spec fails topic_name 0 st.1).2.2.2.1
    · intro s a
      exact fun h => Res.noConfusion h

theorem SharedMemoryTopicRos2.WriteDataToSHM_ne_deserialize (fails : Syscall → Bool)
    (shm_name : String) (buffer : List Nat) (st : TopicState) :
    (SharedMemoryTopicRos2.WriteDataToSHM fails shm_name buffer st).2 ≠
      Res.thrown IpcError.deserialize := by
  unfold SharedMemoryTopicRos2.WriteDataToSHM
  apply Res.and_then_ne_thrown
  · exact SharedMemoryTopicRos2.CheckSHMExist_ne_deserialize fails shm_name true _ st
  · intro s _
    apply Res.and_then_ne_thrown
    · exact (SharedMemoryTopicRos2.shm_at_spec shm_name s).2.1
    · intro s2 d
      apply Res.and_then_ne_thrown
      · rcases SharedMemoryData.Lock_cases fails d s2.1 with ⟨c, _, hl⟩ | hl | hl <;>
          rw [hl] <;> simp [SharedMemoryTopicRos2.lift]
      · intro s3 _
        simp only [SharedMemoryTopicRos2.lift, SharedMemoryData.UnLock,
          SharedMemorySemaphore.Increment]
        split
        · simp
        · split_ifs <;> simp

theorem SharedMemoryTopicRos2.PublishSem_ne_deserialize (fails : Syscall → Bool)
    (topic_name : String) (st : TopicState) :
    (SharedMemoryTopicRos2.PublishSem fails topic_name st).2 ≠
      Res.thrown IpcError.deserialize := by
  unfold SharedMemoryTopicRos2.PublishSem
  apply Res.and_then_ne_thrown
  · exact SharedMemoryTopicRos2.CheckSemExist_ne_deserialize fails topic_name st
  · intro s _
    apply Res.and_then_ne_thrown
    · exact (SharedMemoryTopicRos2.sem_at_spec topic_name s).2.1
    · intro s2 h
      simp only [SharedMemoryTopicRos2.lift, SharedMemorySemaphore.IncrementWhenZero]
      split
      · simp
      · split_ifs <;> simp

theorem SharedMemoryTopicRos2.PublishList_loop_ne_deserialize (fails : Syscall → Bool)
    (topic_names : List String) :
    ∀ st : TopicState, (SharedMemoryTopicRos2.PublishList_loop fails topic_names st).2 ≠
      Res.thrown IpcError.deserialize := by
  induction topic_names with
  | nil =>
    intro st
    exact fun h => Res.noConfusion h
  | cons topic rest ih =>
    intro st
    unfold SharedMemoryTopicRos2.PublishList_loop
    apply Res.and_then_ne_thrown
    · exact SharedMemoryTopicRos2.PublishSem_ne_deserialize fails topic st
    · intro s _
      exact ih s

/-- A publish call is never left by the exception of the deserializer. -/
theorem TopicCall.apply_publish_ne_deserialize {μ : Type} (decode : List Nat → Option μ)
    (fails : Syscall → Bool) (call : TopicCall) (st : TopicState)
    (hcall : (∃ t b m, call = TopicCall.Publish t b m) ∨
      (∃ ts b m, call = TopicCall.PublishList ts b m)) :
    (call.apply decode fails st).2 ≠ Res.thrown IpcError.deserialize := by
  rcases hcall with ⟨t, b, m, rfl⟩ | ⟨ts, b, m, rfl⟩
  · unfold TopicCall.apply SharedMemoryTopicRos2.Publish
    apply Res.and_then_ne_thrown
    · apply Res.and_then_ne_thrown
      · exact SharedMemoryTopicRos2.WriteDataToSHM_ne_deserialize fails b m st
      · intro s _
        exact SharedMemoryTopicRos2.PublishSem_ne_deserialize fails t s
    · intro s _
      exact fun h => Res.noConfusion h
  · unfold TopicCall.apply SharedMemoryTopicRos2.PublishList
    apply Res.and_then_ne_thrown
    · apply Res.and_then_ne_thrown
      · exact SharedMemoryTopicRos2.WriteDataToSHM_ne_deserialize fails b m st
      · intro s _
        exact SharedMemoryTopicRos2.PublishList_loop_ne_deserialize fails ts s
    · intro s _
      exact fun h => Res.noConfusion h

theorem SharedMemoryTopicRos2.wf_new : ({} : SharedMemoryTopicRos2).wf :=
  ⟨fun k d h => by simp [unordered_map.find] at h, fun k d h => by simp [unordered_map.find] at h⟩

theorem demo_published_wf : demo_published.2.wf :=
  (SharedMemoryTopicRos2.Publish_lock Syscall.none_fails "t" "b" [1, 2, 3, 4] ({}, {})
    SharedMemoryTopicRos2.wf_new (by decide) rfl).1

theorem demo_ready : SharedMemoryTopicRos2.ready "t" "b" 4 ({}, {}) :=
  ⟨Or.inl rfl, fun bytes h => by simp [unordered_map.find] at h,
    fun d h => by simp [unordered_map.find] at h, fun d h => by simp [unordered_map.find] at h⟩

/-- C17 (amended): take a call of `Publish`, `PublishList`, `Subscribe`,
`SubscribeNoWait` or `SubscribeTimeout` on a topic whose name is not the buffer
name followed by `_shm`, made through an object whose handles are stored under
the names they were made for, and let the release `sem_post` not fail.  Unless
the call is left by the exception of the deserializer, the lock semaphore of the
buffer has the same count after the call as before it, on every return, on every
other exception and when the call ends waiting; if the call has created the
semaphore, the lock is free.  When the deserializer raises, which happens in the
three subscribe calls only, no statement releases the lock: its count is one
less than before the call, or zero if the call has created the semaphore. -/
theorem C17_lock_released_unless_decode_raises {μ : Type} (decode : List Nat → Option μ)
    (fails : Syscall → Bool) (call : TopicCall) (st : TopicState) (hwf : st.2.wf)
    (hcol : ∀ t ∈ call.topic_names, t ≠ call.shm_name ++ "_shm")
    (hpost : fails Syscall.sem_post = false) :
    ((call.apply decode fails st).2 ≠ Res.thrown IpcError.deserialize →
      Posix.lock_kept (GetNamePrefix (call.shm_name ++ "_shm")) st.1
        (call.apply decode fails st).1.1) ∧
    ((call.apply decode fails st).2 = Res.thrown IpcError.deserialize →
      Posix.lock_taken (GetNamePrefix (call.shm_name ++ "_shm")) st.1
        (call.apply decode fails st).1.1) ∧
    ((∃ t b m, call = TopicCall.Publish t b m) ∨ (∃ ts b m, call = TopicCall.PublishList ts b m) →
      (call.apply decode fails st).2 ≠ Res.thrown IpcError.deserialize) ∧
    (call.apply decode fails st).1.2.wf := by
  obtain ⟨a, b, c⟩ := TopicCall.apply_lock decode fails call st hwf hcol hpost
  exact ⟨b, c, TopicCall.apply_publish_ne_deserialize decode fails call st, a⟩

/-- C17 fails as stated: after one publish on the topic `t` and the buffer `b` the
lock of the buffer has the count 1; a `Subscribe` whose deserializer raises
leaves it at 0. -/
theorem C17_counterexample :
    ¬ ∀ (decode : List Nat → Option (List Nat)) (fails : Syscall → Bool) (call : TopicCall)
        (st : TopicState) (c : Nat),
      st.2.wf → (∀ t ∈ call.topic_names, t ≠ call.shm_name ++ "_shm") →
      unordered_map.find st.1.sems (GetNamePrefix (call.shm_name ++ "_shm")) = some c →
      unordered_map.find (call.apply decode fails st).1.1.sems
        (GetNamePrefix (call.shm_name ++ "_shm")) = some c := by
  intro h
  have h1 := h demo_decode_raises Syscall.none_fails (TopicCall.Subscribe "t" "b") demo_published 1
    demo_published_wf (by decide) (by decide)
  revert h1
  decide

/-- C17 on the `Subscribe` of the topic `t` and the buffer `b` after one publish,
with a deserializer that raises: the call is left by its exception and the lock
stays taken. -/
theorem C17_witness :
    demo_published.2.wf ∧
    (∀ t ∈ (TopicCall.Subscribe "t" "b").topic_names,
      t ≠ (TopicCall.Subscribe "t" "b").shm_name ++ "_shm") ∧
    Syscall.none_fails Syscall.sem_post = false ∧
    ((TopicCall.Subscribe "t" "b").apply demo_decode_raises Syscall.none_fails
      demo_published).2 = Res.thrown IpcError.deserialize ∧
    Posix.lock_taken (GetNamePrefix ("b" ++ "_shm")) demo_published.1
      ((TopicCall.Subscribe "t" "b").apply demo_decode_raises Syscall.none_fails
        demo_published).1.1 :=
  ⟨demo_published_wf, by decide, rfl, by decide,
   (C17_lock_released_unless_decode_raises demo_decode_raises Syscall.none_fails
     (TopicCall.Subscribe "t" "b") demo_published demo_published_wf (by decide) rfl).2.1
     (by decide)⟩

/-- C14 on two publishes of four bytes on the topic `t` and the buffer `b`, from
the empty system: both return and one message is pending. -/
theorem C14_witness :
    "t" ≠ "b" ++ "_shm" ∧ SharedMemoryTopicRos2.ready "t" "b" 4 ({}, {}) ∧
    (({} : Posix)).pending "t" = 0 ∧
    ∃ st1,
      SharedMemoryTopicRos2.Publish_all Syscall.none_fails "t" "b"
        [[1, 2, 3, 4], [5, 6, 7, 8]] ({}, {}) = (st1, Res.ok ()) ∧
      st1.1.pending "t" = 1 ∧
      unordered_map.find st1.1.shms (GetNamePrefix "b") = some [5, 6, 7, 8] ∧
      ∃ st2, (TopicCall.Subscribe "t" "b").apply some Syscall.none_fails st1 =
        (st2, Res.ok (some [5, 6, 7, 8])) ∧ st2.1.pending "t" = 0 :=
  ⟨by decide, demo_ready, by decide,
   (C14_latest_wins some "t" "b" [[1, 2, 3, 4], [5, 6, 7, 8]] [5, 6, 7, 8] 4 [5, 6, 7, 8]
     ({}, {}) (by decide) demo_ready (by decide) rfl (by decide) rfl).imp
     (fun st1 h => ⟨h.1, h.2.1, h.2.2.1,
       h.2.2.2.2 (TopicCall.Subscribe "t" "b") (Or.inl rfl) st1.2 (Or.inl rfl)⟩)⟩

/-- C15 on the calls `demo_steps` of two processes, from the empty system: the
pending count of the topic `t` is at most 1 after every call. -/
theorem C15_witness :
    (({} : Posix)).pending "t" ≤ 1 ∧
    ∀ x ∈ TopicStep.run some demo_steps ({}, fun _ => {}), x.1.1.pending "t" ≤ 1 :=
  ⟨by decide,
   (C15_pending_count_at_most_one some demo_steps ({}, fun _ => {}) "t" (by decide)).1⟩

/-- C16, the code at the failing input: after a publish of four bytes on the
buffer `b`, a publish of eight bytes through the same object returns without an
error and `memcpy` writes the last four bytes past the end of the object, which
keeps its four bytes; a publish of two bytes returns as well and replaces the
first two bytes only.  `CheckSHMExist` returns at once for a name that is in
`shm_map_`, whatever size is expected.  Through a new object, which has to
attach, the publish of eight bytes throws the size mismatch. -/
theorem C16_second_publish_not_checked :
    (SharedMemoryTopicRos2.Publish Syscall.none_fails "t" "b" [5, 6, 7, 8, 9, 10, 11, 12]
      demo_published).2 = Res.ok () ∧
    (SharedMemoryTopicRos2.Publish Syscall.none_fails "t" "b" [5, 6, 7, 8, 9, 10, 11, 12]
      demo_published).1.1.overrun = [("openrobot_ocm_b", [9, 10, 11, 12])] ∧
    unordered_map.find (SharedMemoryTopicRos2.Publish Syscall.none_fails "t" "b"
      [5, 6, 7, 8, 9, 10, 11, 12] demo_published).1.1.shms "openrobot_ocm_b" =
        some [5, 6, 7, 8] ∧
    unordered_map.find demo_published.1.shms "openrobot_ocm_b" = some [1, 2, 3, 4] ∧
    (SharedMemoryTopicRos2.Publish Syscall.none_fails "t" "b" [9, 9] demo_published).2 =
      Res.ok () ∧
    unordered_map.find (SharedMemoryTopicRos2.Publish Syscall.none_fails "t" "b" [9, 9]
      demo_published).1.1.shms "openrobot_ocm_b" = some [9, 9, 3, 4] ∧
    (∀ (fails : Syscall → Bool) (shm_name : String) (check_size : Bool) (size : Nat)
        (st : TopicState) (d : SharedMemoryData),
      unordered_map.find st.2.shm_map_ shm_name = some d →
      SharedMemoryTopicRos2.CheckSHMExist fails shm_name check_size size st = (st, Res.ok ())) ∧
    (SharedMemoryTopicRos2.Publish Syscall.none_fails "t" "b" [5, 6, 7, 8, 9, 10, 11, 12]
      (demo_published.1, {})).2 = Res.thrown (IpcError.size_mismatch 8 4) := by
  refine ⟨by decide, by decide, by decide, by decide, by decide, by decide, ?_, by decide⟩
  intro fails shm_name check_size size st d h
  simp only [SharedMemoryTopicRos2.CheckSHMExist, h]

/-- C18 on the object of the buffer `b` after a publish of four bytes: an attach
that expects eight bytes throws the size mismatch and leaves the system as it
is; an attach without the check adopts the four bytes. -/
theorem C18_witness :
    (SharedMemoryData.Init Syscall.none_fails { name_ := "l" } "b" true 8
      demo_published.1).2 = Res.thrown (IpcError.size_mismatch 8 4) ∧
    (SharedMemoryData.Init Syscall.none_fails { name_ := "l" } "b" true 8
      demo_published.1).1 = demo_published.1 :=
  ⟨((C18_shared_memory_data_init Syscall.none_fails { name_ := "l" } "b" true 8
      demo_published.1).1 [1, 2, 3, 4] (by decide)).2 rfl rfl rfl |>.2.1 (by decide),
   ((C18_shared_memory_data_init Syscall.none_fails { name_ := "l" } "b" true 8
      demo_published.1).1 [1, 2, 3, 4] (by decide)).1⟩

/-! ## The start loop of `InitTask` under `spec_task_threads` -/

theorem spec_pre_nodes_run_mono (node_map : NodeMap) (a b : List Task) (t : Task)
    (hab : ∀ u ∈ a, u ∈ b) (h : spec_pre_nodes_run node_map a t) :
    spec_pre_nodes_run node_map b t := by
  intro n hn
  obtain ⟨p, hp, u, hu, hpu⟩ := h n hn
  exact ⟨p, hp, u, hab u hu, hpu⟩

theorem spec_start_order_append (node_map : NodeMap) (started : List Task) (t : Task)
    (h : spec_start_order node_map started) (ht : spec_pre_nodes_run node_map started t) :
    spec_start_order node_map (started ++ [t]) := by
  intro pre x post hsplit
  rcases List.append_eq_append_iff.mp hsplit with ⟨a', h1, h2⟩ | ⟨c', h1, h2⟩
  · -- `pre = started ++ a'`
    cases a' with
    | nil =>
      simp only [List.nil_append, List.cons.injEq] at h2
      rw [h1, List.append_nil, ← h2.1]
      exact ht
    | cons y ys =>
      simp only [List.cons_append, List.cons.injEq] at h2
      have := congrArg List.length h2.2
      simp only [List.length_nil, List.length_append, List.length_cons] at this
      omega
  · -- `started = pre ++ c'`
    cases c' with
    | nil =>
      simp only [List.nil_append] at h2
      simp only [List.append_nil] at h1
      have h3 : x = t := by
        have := congrArg List.head? h2
        simp only [List.head?_cons, Option.some.injEq] at this
        exact this
      rw [h3, ← h1]
      exact ht
    | cons y ys =>
      simp only [List.cons_append, List.cons.injEq] at h2
      rw [← h2.1] at h1
      exact h pre x ys h1

/-- The heap before a readiness check: the nodes that are RUNNING are the nodes
of the tasks started so far. -/
theorem spec_task_threads_running (node_map : NodeMap) (tasks started : List Task) (w : World)
    (clock : Nat) (h : spec_started node_map tasks started w) (p : NodePtr) :
    ((spec_task_threads tasks clock w).nodes p).state_ = NodeState.RUNNING ↔
      ∃ u ∈ started, p ∈ u.node_list_ := by
  have hany : tasks.any (fun t => (w.tasks t.self).loop_run_ && decide (p ∈ t.node_list_)) = true ↔
      ∃ u ∈ started, p ∈ u.node_list_ := by
    simp only [List.any_eq_true, Bool.and_eq_true, decide_eq_true_eq]
    constructor
    · rintro ⟨t, ht, hl, hp⟩
      exact ⟨t, (h.flags t ht).mp hl, hp⟩
    · rintro ⟨u, hu, hp⟩
      exact ⟨u, h.sub u hu, (h.flags u (h.sub u hu)).mpr hu, hp⟩
  simp only [spec_task_threads]
  by_cases ha : tasks.any (fun t => (w.tasks t.self).loop_run_ && decide (p ∈ t.node_list_)) = true
  · rw [if_pos ha]
    exact ⟨fun _ => hany.mp ha, fun _ => rfl⟩
  · rw [if_neg ha]
    exact ⟨fun hr => h.running p hr, fun hx => absurd (hany.mpr hx) ha⟩

theorem spec_task_threads_started (node_map : NodeMap) (tasks started : List Task) (w : World)
    (clock : Nat) (h : spec_started node_map tasks started w) :
    spec_started node_map tasks started (spec_task_threads tasks clock w) :=
  ⟨h.flags, fun p hp => (spec_task_threads_running node_map tasks started w clock h p).mp hp,
    h.order, h.sub, h.nodup⟩

/-- The readiness test on a heap whose RUNNING nodes are the nodes of the tasks
`started`. -/
theorem Executer.pre_node_ready_started (node_map : NodeMap) (started : List Task) (w : World)
    (hw : ∀ p, (w.nodes p).state_ = NodeState.RUNNING ↔ ∃ u ∈ started, p ∈ u.node_list_)
    (pre_node_list : List String) :
    (Executer.pre_node_ready node_map w pre_node_list = Except.ok true ↔
      ∀ n ∈ pre_node_list, ∃ p, node_map.GetNodePtr n = Except.ok p ∧
        ∃ u ∈ started, p ∈ u.node_list_) ∧
    (∀ f, Executer.pre_node_ready node_map w pre_node_list = Except.error f →
      ∃ n ∈ pre_node_list, node_map.GetNodePtr n = Except.error (Fault.node_not_found n) ∧
        f = Fault.node_not_found n) := by
  induction pre_node_list with
  | nil =>
    refine ⟨⟨fun _ n hn => by simp at hn, fun _ => rfl⟩, ?_⟩
    intro f hf
    simp [Executer.pre_node_ready] at hf
  | cons n rest ih =>
    simp only [Executer.pre_node_ready]
    cases hg : node_map.GetNodePtr n with
    | error f0 =>
      have hf0 : f0 = Fault.node_not_found n := by
        unfold NodeMap.GetNodePtr at hg
        split at hg
        · simp only [Except.error.injEq] at hg
          exact hg.symm
        · exact Except.noConfusion hg
      simp only
      refine ⟨⟨fun h => Except.noConfusion h, ?_⟩, ?_⟩
      · intro h
        obtain ⟨p, hp, _⟩ := h n (List.mem_cons_self _ _)
        rw [hg] at hp
        exact Except.noConfusion hp
      · intro f hf
        simp only [Except.error.injEq] at hf
        exact ⟨n, List.mem_cons_self _ _, by rw [hg, hf0], by rw [← hf, hf0]⟩
    | ok p =>
      simp only
      by_cases hr : (w.nodes p).state_ = NodeState.RUNNING
      · rw [if_pos hr]
        refine ⟨⟨?_, ?_⟩, ?_⟩
        · intro h m hm
          rcases List.mem_cons.mp hm with hm | hm
          · rw [hm]
            exact ⟨p, hg, (hw p).mp hr⟩
          · exact ih.1.mp h m hm
        · intro h
          exact ih.1.mpr (fun m hm => h m (List.mem_cons_of_mem _ hm))
        · intro f hf
          obtain ⟨m, hm, h1, h2⟩ := ih.2 f hf
          exact ⟨m, List.mem_cons_of_mem _ hm, h1, h2⟩
      · rw [if_neg hr]
        refine ⟨⟨fun h => by simp at h, ?_⟩, fun f hf => Except.noConfusion hf⟩
        intro h
        obtain ⟨q, hq, hx⟩ := h n (List.mem_cons_self _ _)
        rw [hg] at hq
        simp only [Except.ok.injEq] at hq
        rw [← hq] at hx
        exact absurd ((hw p).mpr hx) hr

/-- The body of the start loop for a task that is not started: the task is started
exactly if its `pre_node`s are run by the tasks started so far; it waits
otherwise, unless the test reaches a `pre_node` that is not registered. -/
theorem Executer.InitTask_start_cases (e : Executer) (tasks started : List Task) (t : Task)
    (s : StartState) (clock : Nat)
    (hself : ∀ u ∈ tasks, u.self = t.self → u = t)
    (ht : t ∈ tasks) (hts : t ∉ started)
    (h : spec_started e.node_map_ tasks started s.w) :
    (∃ s1, e.InitTask_start t { s with w := spec_task_threads tasks clock s.w } =
        Except.ok (some s1) ∧
      spec_pre_nodes_run e.node_map_ started t ∧
      spec_started e.node_map_ tasks (started ++ [t]) s1.w) ∨
    (e.InitTask_start t { s with w := spec_task_threads tasks clock s.w } = Except.ok none ∧
      ¬ spec_pre_nodes_run e.node_map_ started t) ∨
    (∃ f, e.InitTask_start t { s with w := spec_task_threads tasks clock s.w } =
        Except.error f ∧
      ∃ n ∈ t.GetTaskSetting.launch_setting.pre_node,
        e.node_map_.GetNodePtr n = Except.error (Fault.node_not_found n) ∧
        f = Fault.node_not_found n) := by
  have hnow := spec_task_threads_started e.node_map_ tasks started s.w clock h
  obtain ⟨r1, r2⟩ := Executer.pre_node_ready_started e.node_map_ started
    (spec_task_threads tasks clock s.w)
    (spec_task_threads_running e.node_map_ tasks started s.w clock h)
    t.GetTaskSetting.launch_setting.pre_node
  unfold Executer.InitTask_start
  simp only
  cases hp : Executer.pre_node_ready e.node_map_ (spec_task_threads tasks clock s.w)
      t.GetTaskSetting.launch_setting.pre_node with
  | error f =>
    right
    right
    exact ⟨f, rfl, r2 f hp⟩
  | ok b =>
    simp only
    have hb : (t.GetTaskSetting.launch_setting.pre_node.isEmpty || b) = b := by
      cases he : t.GetTaskSetting.launch_setting.pre_node with
      | nil =>
        rw [he] at hp
        simp only [Executer.pre_node_ready, Except.ok.injEq] at hp
        rw [← hp]
        rfl
      | cons x xs => rfl
    rw [hb]
    cases b with
    | false =>
      right
      left
      refine ⟨by simp, ?_⟩
      intro hx
      have := r1.mpr hx
      rw [hp] at this
      simp at this
    | true =>
      left
      have hrun : spec_pre_nodes_run e.node_map_ started t := r1.mp hp
      refine ⟨_, if_pos rfl, hrun, ?_⟩
      refine ⟨?_, ?_, spec_start_order_append _ _ _ h.order hrun, ?_, ?_⟩
      · intro u hu
        simp only [List.mem_append, List.mem_singleton]
        by_cases hut : u = t
        · subst hut
          simp [TaskBase.TaskStart]
        · have hne : u.self ≠ t.self := fun hx => hut (hself u hu hx)
          simp only [Function.update_noteq hne]
          rw [hnow.flags u hu]
          exact ⟨fun hx => Or.inl hx, fun hx => hx.elim id (fun hx => absurd hx hut)⟩
      · intro p hp'
        obtain ⟨u, hu, hpu⟩ := hnow.running p hp'
        exact ⟨u, List.mem_append_left _ hu, hpu⟩
      · intro u hu
        rcases List.mem_append.mp hu with hu | hu
        · exact h.sub u hu
        · rw [List.mem_singleton.mp hu]
          exact ht
      · rw [List.nodup_append]
        refine ⟨h.nodup, List.nodup_singleton t, ?_⟩
        intro a ha hb
        rw [List.mem_singleton.mp hb] at ha
        exact hts ha

/-- One pass of the start loop of `InitTask` under `spec_task_threads`: either it
is left by the exception of `GetNodePtr` for a `pre_node` that is not
registered, or it starts the tasks `new`, one after another, among them every
task whose `pre_node`s were run by the tasks started before the pass. -/
theorem Executer.start_sweep_started (e : Executer) (tasks : List Task)
    (hself : ∀ t ∈ tasks, ∀ u ∈ tasks, u.self = t.self → u = t)
    (list : List (Bool × Task)) :
    ∀ (c : Nat) (ws : List String) (s : StartState) (started : List Task),
      spec_started e.node_map_ tasks started s.w →
      (∀ x ∈ list, x.2 ∈ tasks ∧ (x.1 = true ↔ x.2 ∈ started)) →
      (list.map Prod.snd).Nodup →
      (∃ r new,
        Executer.start_sweep (spec_task_threads tasks) e.InitTask_start list (c, ws, s) =
          Except.ok r ∧
        spec_started e.node_map_ tasks (started ++ new) r.2.2.2.w ∧
        (∀ x ∈ r.1, x.2 ∈ tasks ∧ (x.1 = true ↔ x.2 ∈ started ++ new)) ∧
        (∀ x ∈ list, x.1 = false → spec_pre_nodes_run e.node_map_ started x.2 → x.2 ∈ new) ∧
        r.1.map Prod.snd = list.map Prod.snd ∧
        List.Perm ((list.filter (fun x => !x.1)).map Prod.snd)
          (new ++ (r.1.filter (fun x => !x.1)).map Prod.snd) ∧
        (∀ n, n ∈ r.2.2.1 ↔ n ∈ ws ∧ n ∉ new.map Task.GetTaskName)) ∨
      (∃ f,
        Executer.start_sweep (spec_task_threads tasks) e.InitTask_start list (c, ws, s) =
          Except.error f ∧
        ∃ t ∈ tasks, ∃ n ∈ t.GetTaskSetting.launch_setting.pre_node,
          e.node_map_.GetNodePtr n = Except.error (Fault.node_not_found n) ∧
          f = Fault.node_not_found n) := by
  induction list with
  | nil =>
    intro c ws s started h _ _
    left
    refine ⟨([], c, ws, s), [], rfl, by simpa using h, by simp, by simp, rfl, by simp, by simp⟩
  | cons task rest ih =>
    intro c ws s started h hflags hnd
    obtain ⟨flag, t⟩ := task
    have hrest : ∀ x ∈ rest, x.2 ∈ tasks ∧ (x.1 = true ↔ x.2 ∈ started) :=
      fun x hx => hflags x (List.mem_cons_of_mem _ hx)
    have hnd' : (rest.map Prod.snd).Nodup := by
      simp only [List.map_cons, List.nodup_cons] at hnd
      exact hnd.2
    have htn : ∀ x ∈ rest, x.2 ≠ t := by
      intro x hx hxt
      simp only [List.map_cons, List.nodup_cons] at hnd
      exact hnd.1 (hxt ▸ List.mem_map_of_mem Prod.snd hx)
    obtain ⟨ht, htf⟩ := hflags (flag, t) (List.mem_cons_self _ _)
    cases flag with
    | true =>
      have hts : t ∈ started := htf.mp rfl
      rcases ih c ws s started h hrest hnd' with
        ⟨r, new, e0, e1, e2, e3, e4, e5, e6⟩ | ⟨f, e0, e1⟩
      · left
        refine ⟨((true, t) :: r.1, r.2), new, ?_, e1, ?_, ?_, ?_, ?_, e6⟩
        · simp only [Executer.start_sweep, e0, if_true]
        · intro x hx
          rcases List.mem_cons.mp hx with hx | hx
          · rw [hx]
            exact ⟨ht, fun _ => List.mem_append_left _ hts, fun _ => rfl⟩
          · exact e2 x hx
        · intro x hx hf
          rcases List.mem_cons.mp hx with hx | hx
          · rw [hx] at hf
            exact Bool.noConfusion hf
          · exact e3 x hx hf
        · simp only [List.map_cons, e4]
        · simpa using e5
      · right
        exact ⟨f, by simp only [Executer.start_sweep, e0, if_true], e1⟩
    | false =>
      have hts : t ∉ started := fun hx => Bool.noConfusion (htf.mpr hx)
      rcases Executer.InitTask_start_cases e tasks started t s c (fun u hu => hself t ht u hu)
          ht hts h with ⟨s1, b0, b1, b2⟩ | ⟨b0, b1⟩ | ⟨f, b0, b1⟩
      · -- the task is started
        have hrest1 : ∀ x ∈ rest, x.2 ∈ tasks ∧ (x.1 = true ↔ x.2 ∈ started ++ [t]) := by
          intro x hx
          refine ⟨(hrest x hx).1, ?_⟩
          rw [(hrest x hx).2, List.mem_append, List.mem_singleton]
          exact ⟨fun hh => Or.inl hh, fun hh => hh.elim id (fun hh => absurd hh (htn x hx))⟩
        rcases ih (c + 1) (string_set.erase ws t.GetTaskName) s1 (started ++ [t]) b2 hrest1 hnd'
          with ⟨r, new, e0, e1, e2, e3, e4, e5, e6⟩ | ⟨f, e0, e1⟩
        · left
          refine ⟨((true, t) :: r.1, r.2), t :: new, ?_, ?_, ?_, ?_, ?_, ?_, ?_⟩
          · simp only [Executer.start_sweep, Bool.false_eq_true, if_false, b0, e0]
          · simpa using e1
          · intro x hx
            rcases List.mem_cons.mp hx with hx | hx
            · rw [hx]
              exact ⟨ht, fun _ => by simp, fun _ => rfl⟩
            · have := e2 x hx
              simpa using this
          · intro x hx hf hrun
            rcases List.mem_cons.mp hx with hx | hx
            · rw [hx]
              exact List.mem_cons_self _ _
            · exact List.mem_cons_of_mem _
                (e3 x hx hf (spec_pre_nodes_run_mono _ _ _ _
                  (fun u hu => List.mem_append_left _ hu) hrun))
          · simp only [List.map_cons, e4]
          · simp only [List.filter_cons, Bool.not_false, if_true, List.map_cons, Bool.not_true,
              Bool.false_eq_true, if_false, List.cons_append]
            exact List.Perm.cons t e5
          · intro n
            rw [e6 n, string_set.mem_erase]
            simp only [List.map_cons, List.mem_cons, not_or]
            tauto
        · right
          exact ⟨f, by simp only [Executer.start_sweep, Bool.false_eq_true, if_false, b0, e0], e1⟩
      · -- the task waits
        have hnow := spec_task_threads_started e.node_map_ tasks started s.w c h
        rcases ih (c + 1) ws { s with w := spec_task_threads tasks c s.w } started hnow hrest
          hnd' with ⟨r, new, e0, e1, e2, e3, e4, e5, e6⟩ | ⟨f, e0, e1⟩
        · left
          have htnew : t ∉ new := by
            intro hx
            have hm : t ∈ (rest.filter (fun x => !x.1)).map Prod.snd := by
              rw [e5.mem_iff]
              exact List.mem_append_left _ hx
            obtain ⟨x, hx1, hx2⟩ := List.mem_map.mp hm
            exact htn x (List.mem_of_mem_filter hx1) hx2
          refine ⟨((false, t) :: r.1, r.2), new, ?_, e1, ?_, ?_, ?_, ?_, e6⟩
          · simp only [Executer.start_sweep, Bool.false_eq_true, if_false, b0, e0]
          · intro x hx
            rcases List.mem_cons.mp hx with hx | hx
            · rw [hx]
              refine ⟨ht, fun hh => Bool.noConfusion hh, fun hh => ?_⟩
              rcases List.mem_append.mp hh with hh | hh
              · exact absurd hh hts
              · exact absurd hh htnew
            · exact e2 x hx
          · intro x hx hf hrun
            rcases List.mem_cons.mp hx with hx | hx
            · rw [hx] at hrun
              exact absurd hrun b1
            · exact e3 x hx hf hrun
          · simp only [List.map_cons, e4]
          · simp only [List.filter_cons, Bool.not_false, if_true, List.map_cons]
            exact (List.Perm.cons t e5).trans List.perm_middle.symm
        · right
          exact ⟨f, by simp only [Executer.start_sweep, Bool.false_eq_true, if_false, b0, e0], e1⟩
      · -- the readiness test throws
        right
        exact ⟨f, by simp only [Executer.start_sweep, Bool.false_eq_true, if_false, b0],
          t, ht, b1⟩

/-- The start loop of `InitTask` under `spec_task_threads`: when it returns, the
tasks it has started form a start order; when it is left by an exception, the
loop has run out of passes or `GetNodePtr` has thrown for a `pre_node` that is
not registered. -/
theorem Executer.start_loop_started (e : Executer) (tasks : List Task)
    (hself : ∀ t ∈ tasks, ∀ u ∈ tasks, u.self = t.self → u = t) (fuel : Nat) :
    ∀ (list : List (Bool × Task)) (c : Nat) (ws : List String) (s : StartState)
      (started : List Task),
      spec_started e.node_map_ tasks started s.w →
      (∀ x ∈ list, x.2 ∈ tasks ∧ (x.1 = true ↔ x.2 ∈ started)) →
      (list.map Prod.snd).Nodup →
      (∀ r, Executer.start_loop (spec_task_threads tasks) e.InitTask_start fuel list (c, ws, s) =
          Except.ok r →
        ∃ new, spec_started e.node_map_ tasks (started ++ new) r.2.2.2.w ∧
          (∀ x ∈ r.1, x.2 ∈ tasks ∧ (x.1 = true ↔ x.2 ∈ started ++ new)) ∧
          r.1.map Prod.snd = list.map Prod.snd) ∧
      (∀ f, Executer.start_loop (spec_task_threads tasks) e.InitTask_start fuel list (c, ws, s) =
          Except.error f →
        f = Fault.no_fuel ∨
        ∃ t ∈ tasks, ∃ n ∈ t.GetTaskSetting.launch_setting.pre_node,
          e.node_map_.GetNodePtr n = Except.error (Fault.node_not_found n) ∧
          f = Fault.node_not_found n) := by
  induction fuel with
  | zero =>
    intro list c ws s started h hflags _
    simp only [Executer.start_loop]
    by_cases he : ws.isEmpty = true
    · rw [if_pos he]
      refine ⟨?_, fun f hf => Except.noConfusion hf⟩
      intro r hr
      simp only [Except.ok.injEq] at hr
      rw [← hr]
      exact ⟨[], by simpa using h, by simpa using hflags, rfl⟩
    · rw [if_neg he]
      refine ⟨fun r hr => Except.noConfusion hr, ?_⟩
      intro f hf
      simp only [Except.error.injEq] at hf
      exact Or.inl hf.symm
  | succ fuel ih =>
    intro list c ws s started h hflags hnd
    by_cases he : ws.isEmpty = true
    · rw [Executer.start_loop_of_empty _ _ _ _ _ he]
      refine ⟨?_, fun f hf => Except.noConfusion hf⟩
      intro r hr
      simp only [Except.ok.injEq] at hr
      rw [← hr]
      exact ⟨[], by simpa using h, by simpa using hflags, rfl⟩
    · rcases Executer.start_sweep_started e tasks hself list c ws s started h hflags hnd with
        ⟨r1, new, e0, e1, e2, _, e4, _, _⟩ | ⟨f0, e0, e1⟩
      · rw [Executer.start_loop_pass _ _ fuel list (c, ws, s) r1 he e0]
        obtain ⟨i1, i2⟩ := ih r1.1 r1.2.1 r1.2.2.1 r1.2.2.2 (started ++ new) e1 e2
          (by rw [e4]; exact hnd)
        refine ⟨?_, i2⟩
        intro r hr
        obtain ⟨new2, j1, j2, j3⟩ := i1 r hr
        exact ⟨new ++ new2, by rw [← List.append_assoc]; exact j1,
          by rw [← List.append_assoc]; exact j2, by rw [j3, e4]⟩
      · have hl : Executer.start_loop (spec_task_threads tasks) e.InitTask_start (fuel + 1) list
            (c, ws, s) = Except.error f0 := by
          conv => lhs; unfold Executer.start_loop
          simp only [if_neg he, e0]
        rw [hl]
        refine ⟨fun r hr => Except.noConfusion hr, ?_⟩
        intro f hf
        simp only [Except.error.injEq] at hf
        rw [← hf]
        exact Or.inr e1

/-- The first element of a list that does not have a property. -/
theorem List.exists_first_not {α : Type} (P : α → Prop) (l : List α) (h : ∃ t ∈ l, ¬ P t) :
    ∃ pre t post, l = pre ++ t :: post ∧ ¬ P t ∧ ∀ u ∈ pre, P u := by
  induction l with
  | nil =>
    obtain ⟨t, ht, _⟩ := h
    simp at ht
  | cons a l ih =>
    by_cases ha : P a
    · have h' : ∃ t ∈ l, ¬ P t := by
        obtain ⟨t, ht, hp⟩ := h
        rcases List.mem_cons.mp ht with ht | ht
        · rw [ht] at hp
          exact absurd ha hp
        · exact ⟨t, ht, hp⟩
      obtain ⟨pre, t, post, h1, h2, h3⟩ := ih h'
      refine ⟨a :: pre, t, post, by rw [h1]; rfl, h2, ?_⟩
      intro u hu
      rcases List.mem_cons.mp hu with hu | hu
      · rw [hu]
        exact ha
      · exact h3 u hu
    · exact ⟨[], a, l, rfl, ha, fun u hu => by simp at hu⟩

/-- In a start order every `pre_node` is registered. -/
theorem spec_orderable_registered (node_map : NodeMap) (tasks : List Task)
    (h : spec_orderable node_map tasks) :
    ∀ t ∈ tasks, ∀ n ∈ t.GetTaskSetting.launch_setting.pre_node,
      ∃ p, node_map.GetNodePtr n = Except.ok p ∧ ∃ u ∈ tasks, p ∈ u.node_list_ := by
  obtain ⟨order, hperm, hord⟩ := h
  intro t ht n hn
  obtain ⟨pre, post, hsplit⟩ := List.append_of_mem (hperm.mem_iff.mpr ht)
  obtain ⟨p, hp, u, hu, hpu⟩ := hord pre t post hsplit n hn
  refine ⟨p, hp, u, hperm.mem_iff.mp ?_, hpu⟩
  rw [hsplit]
  exact List.mem_append_left _ hu

/-- While a task of a start order is not started, one of the tasks that are not
started has its `pre_node`s run by the tasks that are. -/
theorem spec_orderable_progress (node_map : NodeMap) (tasks : List Task)
    (h : spec_orderable node_map tasks) (started : List Task)
    (hne : ∃ t ∈ tasks, t ∉ started) :
    ∃ t ∈ tasks, t ∉ started ∧ spec_pre_nodes_run node_map started t := by
  obtain ⟨order, hperm, hord⟩ := h
  obtain ⟨t0, ht0, hn0⟩ := hne
  obtain ⟨pre, t, post, h1, h2, h3⟩ :=
    List.exists_first_not (fun u => u ∈ started) order ⟨t0, hperm.mem_iff.mpr ht0, hn0⟩
  refine ⟨t, hperm.mem_iff.mp (by rw [h1]; simp), h2, ?_⟩
  exact spec_pre_nodes_run_mono node_map pre started t h3 (hord pre t post h1)

/-- The start loop of `InitTask` under `spec_task_threads` returns within as many
passes as tasks are not started, when the tasks have a start order. -/
theorem Executer.start_loop_returns (e : Executer) (tasks : List Task)
    (hself : ∀ t ∈ tasks, ∀ u ∈ tasks, u.self = t.self → u = t)
    (hord : spec_orderable e.node_map_ tasks) (fuel : Nat) :
    ∀ (list : List (Bool × Task)) (c : Nat) (ws : List String) (s : StartState)
      (started : List Task),
      spec_started e.node_map_ tasks started s.w →
      (∀ x ∈ list, x.2 ∈ tasks ∧ (x.1 = true ↔ x.2 ∈ started)) →
      list.map Prod.snd = tasks →
      (list.map (fun x => x.2.GetTaskName)).Nodup →
      Executer.wait_set_matches list ws →
      (list.filter (fun x => !x.1)).length ≤ fuel →
      ∃ r, Executer.start_loop (spec_task_threads tasks) e.InitTask_start fuel list (c, ws, s) =
        Except.ok r := by
  induction fuel with
  | zero =>
    intro list c ws s started _ _ _ _ hm hlen
    have hall : ∀ x ∈ list, x.1 = true := by
      intro x hx
      by_contra hf
      have : x ∈ list.filter (fun x => !x.1) := by
        rw [List.mem_filter]
        exact ⟨hx, by simpa using hf⟩
      have hpos := List.length_pos_of_mem this
      omega
    exact ⟨_, Executer.start_loop_of_empty _ _ _ _ _
      ((Executer.wait_set_empty_iff list ws hm).mpr hall)⟩
  | succ fuel ih =>
    intro list c ws s started h hflags htasks hnames hm hlen
    by_cases he : ws.isEmpty = true
    · exact ⟨_, Executer.start_loop_of_empty _ _ _ _ _ he⟩
    · have hnd : (list.map Prod.snd).Nodup := by
        have : list.map (fun x => x.2.GetTaskName) = (list.map Prod.snd).map Task.GetTaskName := by
          rw [List.map_map]
          rfl
        rw [this] at hnames
        exact List.Nodup.of_map _ hnames
      rcases Executer.start_sweep_started e tasks hself list c ws s started h hflags hnd with
        ⟨r1, new, e0, e1, e2, e3, e4, e5, e6⟩ | ⟨f0, e0, t, ht, n, hn, hg, _⟩
      · rw [Executer.start_loop_pass _ _ fuel list (c, ws, s) r1 he e0]
        -- a task that is not started
        have hex : ∃ x ∈ list, x.1 = false := by
          by_contra hno
          apply he
          apply (Executer.wait_set_empty_iff list ws hm).mpr
          intro x hx
          by_contra hf
          exact hno ⟨x, hx, by simpa using hf⟩
        obtain ⟨x0, hx0, hf0⟩ := hex
        have hns : x0.2 ∉ started := fun hx => by
          have := ((hflags x0 hx0).2).mpr hx
          rw [hf0] at this
          exact Bool.noConfusion this
        obtain ⟨t, ht, hts, hrun⟩ := spec_orderable_progress e.node_map_ tasks hord started
          ⟨x0.2, (hflags x0 hx0).1, hns⟩
        have htl : t ∈ list.map Prod.snd := by
          rw [htasks]
          exact ht
        obtain ⟨x, hx, hxt⟩ := List.mem_map.mp htl
        have hxf : x.1 = false := by
          cases hb : x.1 with
          | false => rfl
          | true =>
            have := ((hflags x hx).2).mp hb
            rw [hxt] at this
            exact absurd this hts
        have hnew : t ∈ new := by
          have := e3 x hx hxf (by rw [hxt]; exact hrun)
          rw [hxt] at this
          exact this
        have hl := e5.length_eq
        simp only [List.length_map, List.length_append] at hl
        have hpos := List.length_pos_of_mem hnew
        apply ih r1.1 r1.2.1 r1.2.2.1 r1.2.2.2 (started ++ new) e1 e2 (by rw [e4, htasks])
        · have : r1.1.map (fun x => x.2.GetTaskName) = list.map (fun x => x.2.GetTaskName) := by
            have h1 : ∀ l : List (Bool × Task),
                l.map (fun x => x.2.GetTaskName) = (l.map Prod.snd).map Task.GetTaskName := by
              intro l
              rw [List.map_map]
              rfl
            rw [h1, h1, e4]
          rw [this]
          exact hnames
        · exact Executer.wait_set_matches_step list r1.1 ws r1.2.2.1 new hnames e5 e6 hm
        · omega
      · exfalso
        obtain ⟨p, hp, _⟩ := spec_orderable_registered e.node_map_ tasks hord t ht n hn
        rw [hg] at hp
        exact Except.noConfusion hp

/-- The heap at the start of `InitTask`: no task is started and no node is
RUNNING. -/
theorem spec_started_nil (node_map : NodeMap) (tasks : List Task) (w : World)
    (hinit : ∀ p, (w.nodes p).state_ = NodeState.INIT)
    (hnew : ∀ t ∈ tasks, (w.tasks t.self).loop_run_ = false) :
    spec_started node_map tasks [] w := by
  refine ⟨?_, ?_, ?_, fun t ht => by simp at ht, List.nodup_nil⟩
  · intro t ht
    rw [hnew t ht]
    simp
  · intro p hp
    rw [hinit p] at hp
    exact NodeState.noConfusion hp
  · intro pre t post h
    have := congrArg List.length h
    simp only [List.length_nil, List.length_append, List.length_cons] at this
    omega

/-- A `pre_node` that no task runs excludes a start order. -/
theorem spec_orderable_no_runner (node_map : NodeMap) (tasks : List Task)
    (h : ∃ t ∈ tasks, ∃ n ∈ t.GetTaskSetting.launch_setting.pre_node,
      ∀ p, node_map.GetNodePtr n = Except.ok p → ∀ u ∈ tasks, p ∉ u.node_list_) :
    ¬ spec_orderable node_map tasks := by
  intro hord
  obtain ⟨t, ht, n, hn, hno⟩ := h
  obtain ⟨p, hp, u, hu, hpu⟩ := spec_orderable_registered node_map tasks hord t ht n hn
  exact hno p hp u hu hpu

/-- C20 (amended): let the executer be in a reachable state, every node in state
INIT and no resident task started, and let the thread of a started task bring
the nodes of the task to RUNNING before the next readiness check
(`spec_task_threads`).  (1) `InitTask` returns, for some number of passes of its
loop, if and only if the resident tasks can be ordered so that every `pre_node`
of each task is a registered node run by a task earlier in the order.  (2) When
it does not return within the given passes, it is still in its loop or it has
been left by the exception of `GetNodePtr` for a `pre_node` that is not
registered.  (3) When every `pre_node` is registered and no such order exists,
it is still in its loop after any number of passes: it does not terminate.
(4) No such order exists when some `pre_node` is a node of no resident task. -/
theorem C20_init_task_returns_iff (e : Executer) (w : World) (hreach : Executer.Reachable e)
    (hinit : ∀ p, (w.nodes p).state_ = NodeState.INIT)
    (hnew : ∀ t ∈ e.resident_group_task_list_.map Prod.snd, (w.tasks t.self).loop_run_ = false) :
    ((∃ fuel r, e.InitTask fuel (spec_task_threads (e.resident_group_task_list_.map Prod.snd)) w =
        Except.ok r) ↔
      spec_orderable e.node_map_ (e.resident_group_task_list_.map Prod.snd)) ∧
    (∀ fuel f,
      e.InitTask fuel (spec_task_threads (e.resident_group_task_list_.map Prod.snd)) w =
        Except.error f →
      f = Fault.no_fuel ∨
      ∃ t ∈ e.resident_group_task_list_.map Prod.snd,
        ∃ n ∈ t.GetTaskSetting.launch_setting.pre_node,
          e.node_map_.GetNodePtr n = Except.error (Fault.node_not_found n) ∧
          f = Fault.node_not_found n) ∧
    ((∀ t ∈ e.resident_group_task_list_.map Prod.snd,
        ∀ n ∈ t.GetTaskSetting.launch_setting.pre_node, ∃ p, e.node_map_.GetNodePtr n = Except.ok p) →
      ¬ spec_orderable e.node_map_ (e.resident_group_task_list_.map Prod.snd) →
      ∀ fuel, e.InitTask fuel (spec_task_threads (e.resident_group_task_list_.map Prod.snd)) w =
        Except.error Fault.no_fuel) ∧
    ((∃ t ∈ e.resident_group_task_list_.map Prod.snd,
        ∃ n ∈ t.GetTaskSetting.launch_setting.pre_node,
          ∀ p, e.node_map_.GetNodePtr n = Except.ok p →
            ∀ u ∈ e.resident_group_task_list_.map Prod.snd, p ∉ u.node_list_) →
      ¬ spec_orderable e.node_map_ (e.resident_group_task_list_.map Prod.snd)) := by
  obtain ⟨hnames, hselfs⟩ := Executer.resident_nodup e hreach.inv
  generalize htasks : e.resident_group_task_list_.map Prod.snd = tasks at *
  have hself : ∀ t ∈ tasks, ∀ u ∈ tasks, u.self = t.self → u = t :=
    fun t ht u hu hx => List.inj_on_of_nodup_map hselfs hu ht hx
  have hnd : tasks.Nodup := List.Nodup.of_map _ hnames
  have h0 := spec_started_nil e.node_map_ tasks w hinit hnew
  have hflags : ∀ x ∈ Executer.wait_list tasks, x.2 ∈ tasks ∧ (x.1 = true ↔ x.2 ∈ []) := by
    intro x hx
    simp only [Executer.wait_list, List.mem_map] at hx
    obtain ⟨t, ht, rfl⟩ := hx
    exact ⟨ht, by simp⟩
  have hok : ∀ fuel r1, Executer.start_loop (spec_task_threads tasks) e.InitTask_start fuel
        (Executer.wait_list tasks)
        (0, Executer.wait_set tasks, { w := w, evs := [], all_init_node_set_log := [] }) =
        Except.ok r1 →
      e.InitTask fuel (spec_task_threads tasks) w = Except.ok (r1.2.2.2.w, r1.2.2.2.evs) := by
    intro fuel r1 hl
    simp only [Executer.InitTask, htasks, hl]
  have hko : ∀ fuel f1, Executer.start_loop (spec_task_threads tasks) e.InitTask_start fuel
        (Executer.wait_list tasks)
        (0, Executer.wait_set tasks, { w := w, evs := [], all_init_node_set_log := [] }) =
        Except.error f1 →
      e.InitTask fuel (spec_task_threads tasks) w = Except.error f1 := by
    intro fuel f1 hl
    simp only [Executer.InitTask, htasks, hl]
  have hret : spec_orderable e.node_map_ tasks →
      ∃ r, e.InitTask tasks.length (spec_task_threads tasks) w = Except.ok r := by
    intro hord
    obtain ⟨r1, hr1⟩ := Executer.start_loop_returns e tasks hself hord tasks.length
      (Executer.wait_list tasks) 0 (Executer.wait_set tasks)
      { w := w, evs := [], all_init_node_set_log := [] } [] h0 hflags
      (Executer.wait_list_tasks tasks)
      (by rw [Executer.wait_list_names]; exact hnames)
      (Executer.wait_set_matches_init tasks)
      (by
        have := List.length_filter_le (fun x : Bool × Task => !x.1) (Executer.wait_list tasks)
        simpa [Executer.wait_list] using this)
    exact ⟨_, hok _ r1 hr1⟩
  have herr : ∀ fuel f, e.InitTask fuel (spec_task_threads tasks) w = Except.error f →
      f = Fault.no_fuel ∨
      ∃ t ∈ tasks, ∃ n ∈ t.GetTaskSetting.launch_setting.pre_node,
        e.node_map_.GetNodePtr n = Except.error (Fault.node_not_found n) ∧
        f = Fault.node_not_found n := by
    intro fuel f hf
    cases hl : Executer.start_loop (spec_task_threads tasks) e.InitTask_start fuel
        (Executer.wait_list tasks)
        (0, Executer.wait_set tasks, { w := w, evs := [], all_init_node_set_log := [] }) with
    | ok r1 =>
      rw [hok fuel r1 hl] at hf
      exact Except.noConfusion hf
    | error f1 =>
      rw [hko fuel f1 hl] at hf
      simp only [Except.error.injEq] at hf
      rw [← hf]
      exact (Executer.start_loop_started e tasks hself fuel (Executer.wait_list tasks) 0
        (Executer.wait_set tasks) { w := w, evs := [], all_init_node_set_log := [] } [] h0
        hflags (by rw [Executer.wait_list_tasks]; exact hnd)).2 f1 hl
  have hto : (∃ fuel r, e.InitTask fuel (spec_task_threads tasks) w = Except.ok r) →
      spec_orderable e.node_map_ tasks := by
    rintro ⟨fuel, r, hr⟩
    cases hl : Executer.start_loop (spec_task_threads tasks) e.InitTask_start fuel
        (Executer.wait_list tasks)
        (0, Executer.wait_set tasks, { w := w, evs := [], all_init_node_set_log := [] }) with
    | error f1 =>
      rw [hko fuel f1 hl] at hr
      exact Except.noConfusion hr
    | ok r1 =>
      obtain ⟨new, j1, j2, j3⟩ := (Executer.start_loop_started e tasks hself fuel
        (Executer.wait_list tasks) 0 (Executer.wait_set tasks)
        { w := w, evs := [], all_init_node_set_log := [] } [] h0 hflags
        (by rw [Executer.wait_list_tasks]; exact hnd)).1 r1 hl
      obtain ⟨_, _, _, _, k4, _⟩ :=
        Executer.start_loop_spec (spec_task_threads tasks) e.InitTask_start
          Executer.InitTask_start_calls (Executer.InitTask_start_calls_shape e) fuel _ _ _ _ r1 hl
          (Executer.wait_set_matches_init _)
          (by rw [Executer.wait_list_names]; exact hnames)
      simp only [List.nil_append] at j1 j2
      rw [Executer.wait_list_tasks] at j3
      refine ⟨new, ?_, j1.order⟩
      rw [List.perm_ext_iff_of_nodup j1.nodup hnd]
      intro t
      constructor
      · exact j1.sub t
      · intro ht
        rw [← j3] at ht
        obtain ⟨x, hx, hxt⟩ := List.mem_map.mp ht
        rw [← hxt]
        exact (j2 x hx).2.mp (k4 x hx)
  refine ⟨⟨hto, fun hord => ⟨tasks.length, hret hord⟩⟩, herr, ?_, ?_⟩
  · intro hreg hno fuel
    cases hr : e.InitTask fuel (spec_task_threads tasks) w with
    | ok r => exact absurd (hto ⟨fuel, r, hr⟩) hno
    | error f =>
      rcases herr fuel f hr with hf | ⟨t, ht, n, hn, hg, _⟩
      · rw [hf]
      · obtain ⟨p, hp⟩ := hreg t ht n hn
        rw [hg] at hp
        exact Except.noConfusion hp
  · exact spec_orderable_no_runner e.node_map_ tasks

/-- C20 fails as stated: the resident task `R` of `demo_config_unknown_pre_node`
waits for the node `Z`, which is a node of no resident task; `InitTask` does
terminate, in its first pass, by the exception that `GetNodePtr` throws for
`Z`. -/
theorem C20_counterexample :
    ¬ ∀ (e : Executer) (w : World) (fuel : Nat),
      Executer.Reachable e →
      (∀ p, (w.nodes p).state_ = NodeState.INIT) →
      (∀ t ∈ e.resident_group_task_list_.map Prod.snd, (w.tasks t.self).loop_run_ = false) →
      (∃ t ∈ e.resident_group_task_list_.map Prod.snd,
        ∃ n ∈ t.GetTaskSetting.launch_setting.pre_node,
          ∀ p, e.node_map_.GetNodePtr n = Except.ok p →
            ∀ u ∈ e.resident_group_task_list_.map Prod.snd, p ∉ u.node_list_) →
      e.InitTask fuel (spec_task_threads (e.resident_group_task_list_.map Prod.snd)) w =
        Except.error Fault.no_fuel := by
  intro h
  have hz : fault_of (demo_boot_unknown_pre_node.1.node_map_.GetNodePtr "Z") =
      some (Fault.node_not_found "Z") := by decide
  have h1 := h demo_boot_unknown_pre_node.1 demo_boot_unknown_pre_node.2.1 1
    (Executer.Reachable.boot demo_config_unknown_pre_node demo_node_map _ _
      (got_eq _ _ (by decide)))
    (fun _ => rfl) (by decide)
    (by
      obtain ⟨t, ht⟩ : ∃ t, t ∈ demo_boot_unknown_pre_node.1.resident_group_task_list_.map
          Prod.snd ∧ "Z" ∈ t.GetTaskSetting.launch_setting.pre_node :=
        ⟨_, List.mem_cons_self _ _, by decide⟩
      refine ⟨t, ht.1, "Z", ht.2, ?_⟩
      intro p hp
      rw [hp] at hz
      exact Option.noConfusion hz)
  have h2 := congrArg fault_of h1
  revert h2
  decide

theorem demo_boot_chain_reachable : Executer.Reachable demo_boot_chain.1 :=
  Executer.Reachable.boot demo_config_chain demo_node_map _ _ (got_eq _ _ (by decide))

/-- C20 on the three resident tasks of `demo_config_chain`, of which `R3` waits
for the node of `R2` and `R2` for the node of `R1`: `InitTask` returns, and the
tasks have a start order. -/
theorem C20_witness :
    Executer.Reachable demo_boot_chain.1 ∧
    (∀ p, (demo_boot_chain.2.1.nodes p).state_ = NodeState.INIT) ∧
    (∀ t ∈ demo_boot_chain.1.resident_group_task_list_.map Prod.snd,
      (demo_boot_chain.2.1.tasks t.self).loop_run_ = false) ∧
    fault_of (demo_boot_chain.1.InitTask 3
      (spec_task_threads (demo_boot_chain.1.resident_group_task_list_.map Prod.snd))
      demo_boot_chain.2.1) = none ∧
    fault_of (demo_boot_chain.1.InitTask 2
      (spec_task_threads (demo_boot_chain.1.resident_group_task_list_.map Prod.snd))
      demo_boot_chain.2.1) = some Fault.no_fuel ∧
    spec_orderable demo_boot_chain.1.node_map_
      (demo_boot_chain.1.resident_group_task_list_.map Prod.snd) :=
  ⟨demo_boot_chain_reachable, fun _ => rfl, by decide, by decide, by decide,
   (C20_init_task_returns_iff demo_boot_chain.1 demo_boot_chain.2.1 demo_boot_chain_reachable
     (fun _ => rfl) (by decide)).1.mp
     ⟨3, _, got_eq _ (demo_boot_chain.2.1, []) (by decide)⟩⟩

/-! ## Rounding to `double` -/

theorem round_half_even_floor_le (x : ℚ) : ⌊x⌋ ≤ round_half_even x := by
  unfold round_half_even
  split_ifs <;> omega

theorem round_half_even_le_floor_succ (x : ℚ) : round_half_even x ≤ ⌊x⌋ + 1 := by
  unfold round_half_even
  split_ifs <;> omega

theorem round_half_even_intCast (n : Int) : round_half_even (n : ℚ) = n := by
  simp [round_half_even]

theorem round_half_even_le_of_le (x : ℚ) (n : Int) (h : x ≤ n) : round_half_even x ≤ n := by
  rcases eq_or_lt_of_le h with h1 | h1
  · rw [h1, round_half_even_intCast]
  · have : ⌊x⌋ < n := Int.floor_lt.mpr h1
    have := round_half_even_le_floor_succ x
    omega

theorem round_half_even_ge_of_le (x : ℚ) (n : Int) (h : (n : ℚ) ≤ x) :
    n ≤ round_half_even x :=
  le_trans (Int.le_floor.mpr h) (round_half_even_floor_le x)

theorem round_half_even_mono (x y : ℚ) (h : x ≤ y) : round_half_even x ≤ round_half_even y := by
  have hf : ⌊x⌋ ≤ ⌊y⌋ := Int.floor_mono h
  rcases eq_or_lt_of_le hf with h1 | h1
  · unfold round_half_even
    rw [← h1]
    have hxy : x - ⌊x⌋ ≤ y - ⌊x⌋ := by linarith
    split_ifs <;> first | omega | (exfalso; linarith)
  · have := round_half_even_le_floor_succ x
    have := round_half_even_floor_le y
    omega

theorem round_half_even_eq_of_abs_sub_lt (x : ℚ) (m : Int) (h : |x - m| < 1 / 2) :
    round_half_even x = m := by
  rw [abs_lt] at h
  by_cases hx : (m : ℚ) ≤ x
  · have hf : ⌊x⌋ = m := by
      rw [Int.floor_eq_iff]
      constructor <;> linarith
    unfold round_half_even
    rw [hf, if_pos (by linarith)]
  · have hf : ⌊x⌋ = m - 1 := by
      rw [Int.floor_eq_iff]
      push_cast
      constructor <;> linarith
    unfold round_half_even
    rw [hf]
    push_cast
    rw [if_neg (by linarith), if_pos (by linarith)]
    ring

theorem double_log_eq (x : ℚ) (e : Int) (h1 : (2 : ℚ) ^ e ≤ x) (h2 : x < 2 ^ (e + 1)) :
    Int.log 2 x = e := by
  have hx : 0 < x := lt_of_lt_of_le (by positivity) h1
  have a : e ≤ Int.log 2 x := (Int.zpow_le_iff_le_log (by norm_num) hx).mp (by simpa using h1)
  have b : Int.log 2 x < e + 1 := (Int.lt_zpow_iff_log_lt (by norm_num) hx).mp (by simpa using h2)
  omega

theorem double_log_spec (x : ℚ) (hx : 0 < x) :
    (2 : ℚ) ^ Int.log 2 x ≤ x ∧ x < 2 ^ (Int.log 2 x + 1) := by
  have a := Int.zpow_log_le_self (by norm_num : 1 < 2) hx
  have b := Int.lt_zpow_succ_log_self (by norm_num : 1 < 2) x
  exact ⟨by simpa using a, by simpa using b⟩

/-- The value of a positive number in units of the last place of its binade lies
between `2^52` and `2^53`. -/
theorem double_significand_bounds (x : ℚ) (hx : 0 < x) :
    (2 : ℚ) ^ (52 : ℕ) ≤ x / 2 ^ (Int.log 2 x - 52) ∧
    x / 2 ^ (Int.log 2 x - 52) < 2 ^ (53 : ℕ) := by
  obtain ⟨a, b⟩ := double_log_spec x hx
  have hu : (0 : ℚ) < 2 ^ (Int.log 2 x - 52) := by positivity
  have e1 : (2 : ℚ) ^ Int.log 2 x = 2 ^ (52 : ℕ) * 2 ^ (Int.log 2 x - 52) := by
    rw [← zpow_natCast, ← zpow_add₀ (by norm_num)]
    congr 1
    omega
  have e2 : (2 : ℚ) ^ (Int.log 2 x + 1) = 2 ^ (53 : ℕ) * 2 ^ (Int.log 2 x - 52) := by
    rw [← zpow_natCast, ← zpow_add₀ (by norm_num)]
    congr 1
    omega
  constructor
  · rw [le_div_iff₀ hu, ← e1]
    exact a
  · rw [div_lt_iff₀ hu, ← e2]
    exact b

/-- The rounded value of a positive number stays in the closed binade of the
number. -/
theorem double_round_abs_bounds (x : ℚ) (hx : 0 < x) :
    (2 : ℚ) ^ Int.log 2 x ≤ double_round_abs x ∧
    double_round_abs x ≤ 2 ^ (Int.log 2 x + 1) := by
  obtain ⟨a, b⟩ := double_significand_bounds x hx
  have hu : (0 : ℚ) < 2 ^ (Int.log 2 x - 52) := by positivity
  have e1 : (2 : ℚ) ^ Int.log 2 x = 2 ^ (52 : ℕ) * 2 ^ (Int.log 2 x - 52) := by
    rw [← zpow_natCast, ← zpow_add₀ (by norm_num)]
    congr 1
    omega
  have e2 : (2 : ℚ) ^ (Int.log 2 x + 1) = 2 ^ (53 : ℕ) * 2 ^ (Int.log 2 x - 52) := by
    rw [← zpow_natCast, ← zpow_add₀ (by norm_num)]
    congr 1
    omega
  have c1 : ((2 ^ 52 : Int) : ℚ) ≤ x / 2 ^ (Int.log 2 x - 52) := by
    push_cast
    exact a
  have c2 : x / 2 ^ (Int.log 2 x - 52) ≤ ((2 ^ 53 : Int) : ℚ) := by
    push_cast
    exact b.le
  have d1 := round_half_even_ge_of_le _ _ c1
  have d2 := round_half_even_le_of_le _ _ c2
  have d1' : ((2 : ℚ) ^ (52 : ℕ)) ≤ (round_half_even (x / 2 ^ (Int.log 2 x - 52)) : ℚ) := by
    exact_mod_cast d1
  have d2' : (round_half_even (x / 2 ^ (Int.log 2 x - 52)) : ℚ) ≤ (2 : ℚ) ^ (53 : ℕ) := by
    exact_mod_cast d2
  unfold double_round_abs
  rw [e1, e2]
  exact ⟨mul_le_mul_of_nonneg_right d1' hu.le, mul_le_mul_of_nonneg_right d2' hu.le⟩

/-- Rounding to `double` by the binade and the nearest significand. -/
theorem double_round_eq (x : ℚ) (e m : Int) (h1 : (2 : ℚ) ^ e ≤ x) (h2 : x < 2 ^ (e + 1))
    (hm : |x / 2 ^ (e - 52) - m| < 1 / 2) : double_round x = m * 2 ^ (e - 52) := by
  have hx : 0 < x := lt_of_lt_of_le (by positivity) h1
  unfold double_round double_round_abs
  rw [if_pos hx.le, double_log_eq x e h1 h2, round_half_even_eq_of_abs_sub_lt _ m hm]

/-- An integer of absolute value below `2^53` is a value of type `double`. -/
theorem double_round_intCast (n : Int) (h : |n| < 2 ^ 53) : double_round (n : ℚ) = n := by
  have key : ∀ k : Int, 0 < k → k < 2 ^ 53 → double_round_abs (k : ℚ) = k := by
    intro k hk hk2
    have hx : (0 : ℚ) < (k : ℚ) := by exact_mod_cast hk
    obtain ⟨a, b⟩ := double_log_spec (k : ℚ) hx
    have he : Int.log 2 (k : ℚ) ≤ 52 := by
      by_contra hcon
      have h53 : (53 : Int) ≤ Int.log 2 (k : ℚ) := by omega
      have : (2 : ℚ) ^ (53 : Int) ≤ 2 ^ Int.log 2 (k : ℚ) :=
        zpow_le_zpow_right₀ (by norm_num) h53
      have hk3 : (k : ℚ) < 2 ^ (53 : Int) := by
        have : ((k : Int) : ℚ) < ((2 ^ 53 : Int) : ℚ) := by exact_mod_cast hk2
        norm_num at this ⊢
        exact this
      linarith
    obtain ⟨j, hj⟩ : ∃ j : ℕ, (j : Int) = 52 - Int.log 2 (k : ℚ) := ⟨(52 - Int.log 2 (k : ℚ)).toNat, by omega⟩
    have hu : (2 : ℚ) ^ (Int.log 2 (k : ℚ) - 52) = ((2 : ℚ) ^ j)⁻¹ := by
      rw [← zpow_natCast, ← zpow_neg]
      congr 1
      omega
    unfold double_round_abs
    rw [hu, div_inv_eq_mul]
    have : (k : ℚ) * 2 ^ j = ((k * 2 ^ j : Int) : ℚ) := by push_cast; ring
    rw [this, round_half_even_intCast]
    push_cast
    field_simp
  unfold double_round
  rcases lt_trichotomy n 0 with hn | hn | hn
  · have h0 : ¬ (0 : ℚ) ≤ (n : ℚ) := by
      intro hcon
      have : (0 : Int) ≤ n := by exact_mod_cast hcon
      omega
    rw [if_neg h0]
    have := key (-n) (by omega) (by rw [abs_lt] at h; omega)
    push_cast at this
    rw [this]
    ring
  · subst hn
    simp [double_round_abs, round_half_even]
  · have h0 : (0 : ℚ) ≤ (n : ℚ) := by exact_mod_cast hn.le
    rw [if_pos h0]
    exact key n hn (by rw [abs_lt] at h; omega)

theorem double_round_abs_zero : double_round_abs 0 = 0 := by
  simp [double_round_abs, round_half_even]

theorem double_round_abs_nonneg (x : ℚ) (hx : 0 ≤ x) : 0 ≤ double_round_abs x := by
  rcases eq_or_lt_of_le hx with h | h
  · rw [← h, double_round_abs_zero]
  · exact le_trans (by positivity) (double_round_abs_bounds x h).1

/-- Rounding to `double` is monotone on the numbers that are not negative. -/
theorem double_round_abs_mono (x y : ℚ) (hx : 0 ≤ x) (h : x ≤ y) :
    double_round_abs x ≤ double_round_abs y := by
  rcases eq_or_lt_of_le hx with h0 | h0
  · rw [← h0, double_round_abs_zero]
    exact double_round_abs_nonneg y (le_trans hx h)
  · have hy : 0 < y := lt_of_lt_of_le h0 h
    have hlog : Int.log 2 x ≤ Int.log 2 y := Int.log_mono_right h0 h
    rcases eq_or_lt_of_le hlog with he | he
    · unfold double_round_abs
      rw [← he]
      have hu : (0 : ℚ) < 2 ^ (Int.log 2 x - 52) := by positivity
      have := round_half_even_mono (x / 2 ^ (Int.log 2 x - 52)) (y / 2 ^ (Int.log 2 x - 52))
        (div_le_div_of_nonneg_right h hu.le)
      exact mul_le_mul_of_nonneg_right (by exact_mod_cast this) hu.le
    · have a := (double_round_abs_bounds x h0).2
      have b := (double_round_abs_bounds y hy).1
      have c : (2 : ℚ) ^ (Int.log 2 x + 1) ≤ 2 ^ Int.log 2 y :=
        zpow_le_zpow_right₀ (by norm_num) (by omega)
      linarith

theorem double_round_neg (x : ℚ) : double_round (-x) = -double_round x := by
  unfold double_round
  rcases lt_trichotomy x 0 with h | h | h
  · rw [if_pos (by linarith), if_neg (by linarith)]
    simp
  · subst h
    simp [double_round_abs_zero]
  · rw [if_neg (by linarith), if_pos h.le]
    simp

/-- Rounding to `double` is monotone. -/
theorem double_round_mono (x y : ℚ) (h : x ≤ y) : double_round x ≤ double_round y := by
  unfold double_round
  by_cases hx : 0 ≤ x
  · rw [if_pos hx, if_pos (le_trans hx h)]
    exact double_round_abs_mono x y hx h
  · rw [if_neg hx]
    by_cases hy : 0 ≤ y
    · rw [if_pos hy]
      have := double_round_abs_nonneg (-x) (by linarith)
      have := double_round_abs_nonneg y hy
      linarith
    · rw [if_neg hy]
      have := double_round_abs_mono (-y) (-x) (by linarith) (by linarith)
      linarith


/-- The rounded value of a number that lies between two integers of absolute
value below `2^53` lies between them. -/
theorem double_round_between (x : ℚ) (k c : Int) (hk : |k| < 2 ^ 53) (hc : |c| < 2 ^ 53)
    (h1 : (k : ℚ) ≤ x) (h2 : x ≤ (c : ℚ)) :
    (k : ℚ) ≤ double_round x ∧ double_round x ≤ (c : ℚ) := by
  have a := double_round_mono _ _ h1
  have b := double_round_mono _ _ h2
  rw [double_round_intCast k hk] at a
  rw [double_round_intCast c hc] at b
  exact ⟨a, b⟩

/-! ## Integers of bounded width -/

theorem wrap_signed_of_fits (x : Int) (h1 : -2 ^ 63 ≤ x) (h2 : x < 2 ^ 63) :
    wrap_signed 64 x = x := by
  simp only [wrap_signed]
  norm_num at h1 h2 ⊢
  omega

/-- The conversion to an integer type leaves an integral value as it is. -/
theorem static_cast_int_intCast (k : Int) : static_cast_int (k : ℚ) = k := by
  simp [static_cast_int]

/-- The conversion to an integer type rounds a value that is not negative down. -/
theorem static_cast_int_of_nonneg (x : ℚ) (h : 0 ≤ x) : static_cast_int x = ⌊x⌋ := by
  rw [Rat.floor_def, static_cast_int]
  exact Int.tdiv_eq_ediv (Rat.num_nonneg.mpr h) (Int.ofNat_nonneg _)

/-- The conversion to an integer type rounds a value that is not positive up. -/
theorem static_cast_int_of_nonpos (x : ℚ) (h : x ≤ 0) : static_cast_int x = ⌈x⌉ := by
  have h1 : static_cast_int (-x) = ⌊-x⌋ := static_cast_int_of_nonneg (-x) (by linarith)
  have h2 : static_cast_int (-x) = -static_cast_int x := by
    simp [static_cast_int, Int.neg_tdiv]
  symm
  rw [Int.ceil_eq_iff]
  have h3 := Int.floor_le (-x)
  have h4 := Int.lt_floor_add_one (-x)
  have h5 : (⌊-x⌋ : ℚ) = -(static_cast_int x : ℚ) := by
    rw [← h1, h2]; push_cast; ring
  rw [h5] at h3 h4
  constructor <;> linarith

/-- The conversion of a value that lies between two integers lies between them. -/
theorem static_cast_int_between (x : ℚ) (k c : Int) (h1 : (k : ℚ) ≤ x) (h2 : x ≤ (c : ℚ)) :
    k ≤ static_cast_int x ∧ static_cast_int x ≤ c := by
  by_cases hx : 0 ≤ x
  · rw [static_cast_int_of_nonneg x hx]
    exact ⟨Int.le_floor.mpr h1, Int.floor_le_iff.mpr (by linarith)⟩
  · rw [static_cast_int_of_nonpos x (by linarith)]
    exact ⟨Int.le_ceil_iff.mpr (by linarith), Int.ceil_le.mpr h2⟩

theorem static_cast_signed_of_fits (w : Nat) (x : ℚ) (h1 : -2 ^ (w - 1) ≤ static_cast_int x)
    (h2 : static_cast_int x < 2 ^ (w - 1)) : static_cast_signed w x = static_cast_int x := by
  simp only [static_cast_signed]
  rw [if_pos ⟨h1, h2⟩]

/-! ## The timer loop -/

/-- The effect of `AddPeriod` on a wake time whose nanosecond part is normalised,
for a period that is not negative, when neither sum leaves the range of
`long`. -/
theorem TimerLoop.AddPeriod_spec (t : TimerLoop) (hlo : 0 ≤ t.time_ns_)
    (hhi : t.time_ns_ < 1000000000) (hP : 0 ≤ t.period_ns_) (hs : -2 ^ 63 ≤ t.time_s_)
    (h1 : t.time_ns_ + t.period_ns_ < 2 ^ 63)
    (h2 : t.time_s_ + (t.time_ns_ + t.period_ns_) / 1000000000 < 2 ^ 63) :
    t.AddPeriod.time_s_ * 1000000000 + t.AddPeriod.time_ns_ =
      t.time_s_ * 1000000000 + t.time_ns_ + t.period_ns_ ∧
    0 ≤ t.AddPeriod.time_ns_ ∧ t.AddPeriod.time_ns_ < 1000000000 ∧
    t.AddPeriod.wake_abs_time_ =
      { tv_sec := t.AddPeriod.time_s_, tv_nsec := t.AddPeriod.time_ns_ } ∧
    t.AddPeriod.period_ns_ = t.period_ns_ ∧ t.time_s_ ≤ t.AddPeriod.time_s_ := by
  have h0 : 0 ≤ t.time_ns_ + t.period_ns_ := by omega
  have w1 : wrap_signed 64 (t.time_ns_ + t.period_ns_) = t.time_ns_ + t.period_ns_ :=
    wrap_signed_of_fits _ (by norm_num; omega) h1
  have hq : 0 ≤ (t.time_ns_ + t.period_ns_) / 1000000000 := Int.ediv_nonneg h0 (by decide)
  have w2 : wrap_signed 64 (t.time_s_ + (t.time_ns_ + t.period_ns_) / 1000000000) =
      t.time_s_ + (t.time_ns_ + t.period_ns_) / 1000000000 :=
    wrap_signed_of_fits _ (by omega) h2
  simp only [TimerLoop.AddPeriod, TimerLoop.NS_CARRY, TimerLoop.NS_TO_S, w1,
    Int.tdiv_eq_ediv h0 (by decide : (0 : Int) ≤ 1000000000),
    Int.tmod_eq_emod h0 (by decide : (0 : Int) ≤ 1000000000), w2]
  by_cases h : t.time_ns_ + t.period_ns_ > 999999999
  · rw [if_pos h]
    dsimp only
    refine ⟨by omega, by omega, by omega, rfl, rfl, by omega⟩
  · rw [if_neg h]
    dsimp only
    refine ⟨by omega, by omega, by omega, rfl, rfl, by omega⟩

/-- The wake time after `n` calls of `SleepUntilNextLoop` in a row, when no sum
leaves the range of `long`. -/
theorem TimerLoop.SleepUntilNextLoop_times_spec (n : Nat) :
    ∀ t : TimerLoop, 0 ≤ t.time_ns_ → t.time_ns_ < 1000000000 → 0 ≤ t.period_ns_ →
    -2 ^ 63 ≤ t.time_s_ → t.period_ns_ ≤ 2 ^ 63 - 1000000000 →
    t.time_s_ + (t.time_ns_ + n * t.period_ns_) / 1000000000 < 2 ^ 63 →
    (TimerLoop.SleepUntilNextLoop_times n t).time_s_ * 1000000000 +
        (TimerLoop.SleepUntilNextLoop_times n t).time_ns_ =
      t.time_s_ * 1000000000 + t.time_ns_ + n * t.period_ns_ ∧
    0 ≤ (TimerLoop.SleepUntilNextLoop_times n t).time_ns_ ∧
    (TimerLoop.SleepUntilNextLoop_times n t).time_ns_ < 1000000000 ∧
    (TimerLoop.SleepUntilNextLoop_times n t).period_ns_ = t.period_ns_ ∧
    (0 < n → (TimerLoop.SleepUntilNextLoop_times n t).wake_abs_time_ =
      { tv_sec := (TimerLoop.SleepUntilNextLoop_times n t).time_s_,
        tv_nsec := (TimerLoop.SleepUntilNextLoop_times n t).time_ns_ }) := by
  induction n with
  | zero =>
    intro t hlo hhi _ _ _ _
    simp [TimerLoop.SleepUntilNextLoop_times, hlo, hhi]
  | succ n ih =>
    intro t hlo hhi hP hs hmax hfit
    have e63 : (2 : Int) ^ 63 = 9223372036854775808 := by norm_num
    have hX : (0 : Int) ≤ (n : Int) * t.period_ns_ := mul_nonneg (Int.ofNat_nonneg n) hP
    have hsucc : ((n + 1 : Nat) : Int) * t.period_ns_ = n * t.period_ns_ + t.period_ns_ := by
      push_cast; ring
    rw [hsucc] at hfit ⊢
    rw [e63] at hs hmax hfit
    obtain ⟨a1, a2, a3, a4, a5, a6⟩ := TimerLoop.AddPeriod_spec t hlo hhi hP
      (by rw [e63]; exact hs) (by rw [e63]; omega) (by rw [e63]; omega)
    simp only [TimerLoop.SleepUntilNextLoop_times, TimerLoop.SleepUntilNextLoop]
    obtain ⟨b1, b2, b3, b4, b5⟩ := ih t.AddPeriod a2 a3 (by rw [a5]; exact hP)
      (by rw [e63]; omega) (by rw [a5, e63]; exact hmax) (by rw [a5, e63]; omega)
    refine ⟨?_, b2, b3, by rw [b4, a5], ?_⟩
    · rw [b1, a1, a5]
      ring
    · intro _
      cases n with
      | zero => simpa [TimerLoop.SleepUntilNextLoop_times] using a4
      | succ m => exact b5 (Nat.succ_pos m)

/-- C23 fails as stated: for the wake time 5.999999999 s and a period of
`2^63 - 1024` nanoseconds, a value of `period_ns_` that is not negative, the sum
`time_ns_ + period_ns_` leaves the range of `long`; as the hardware computes it,
`AddPeriod` then stores a negative number of nanoseconds, and the new wake time
is not the old one plus the period. -/
theorem C23_counterexample :
    ¬ ∀ t : TimerLoop, 0 ≤ t.time_ns_ → t.time_ns_ < 1000000000 → 0 ≤ t.period_ns_ →
      t.period_ns_ < 2 ^ 63 → 0 ≤ t.time_s_ → t.time_s_ < 2 ^ 63 →
      t.AddPeriod.time_s_ * 1000000000 + t.AddPeriod.time_ns_ =
        t.time_s_ * 1000000000 + t.time_ns_ + t.period_ns_ ∧
      0 ≤ t.AddPeriod.time_ns_ ∧ t.AddPeriod.time_ns_ < 1000000000 := by
  intro h
  have h1 := (h demo_timer_loop_overflow (by decide) (by decide) (by decide) (by decide)
    (by decide) (by decide)).2.1
  revert h1
  decide

/-- C23 (amended): for a wake time `(time_s_, time_ns_)` whose nanosecond part lies
in `[0, 10^9)` and a period of `period_ns_ >= 0` nanoseconds, (1) when neither
sum of `AddPeriod` leaves the range of `long`, `AddPeriod` yields a wake time
`(s', ns')` with `s' * 10^9 + ns' = time_s_ * 10^9 + time_ns_ + period_ns_` and
`0 <= ns' < 10^9`, which it also stores in `wake_abs_time_`; (2) hence after `n`
calls of `SleepUntilNextLoop` in a row, with no `ResetClock` in between, when no
sum leaves the range of `long` (the period is at most `2^63 - 10^9` and the
seconds of the last wake time are below `2^63`), the scheduled wake time is the
first one plus `n` periods, exactly, and (3) call number `n + 1` sleeps until
that time. -/
theorem C23_add_period_no_drift (t : TimerLoop) (hlo : 0 ≤ t.time_ns_)
    (hhi : t.time_ns_ < 1000000000) (hP : 0 ≤ t.period_ns_) (hs : -2 ^ 63 ≤ t.time_s_) :
    (t.time_ns_ + t.period_ns_ < 2 ^ 63 →
      t.time_s_ + (t.time_ns_ + t.period_ns_) / 1000000000 < 2 ^ 63 →
      t.AddPeriod.wake_abs_time_.tv_sec * 1000000000 + t.AddPeriod.wake_abs_time_.tv_nsec =
        t.time_s_ * 1000000000 + t.time_ns_ + t.period_ns_ ∧
      0 ≤ t.AddPeriod.wake_abs_time_.tv_nsec ∧
      t.AddPeriod.wake_abs_time_.tv_nsec < 1000000000 ∧
      t.AddPeriod.wake_abs_time_ =
        { tv_sec := t.AddPeriod.time_s_, tv_nsec := t.AddPeriod.time_ns_ }) ∧
    (∀ n : Nat, t.period_ns_ ≤ 2 ^ 63 - 1000000000 →
      t.time_s_ + (t.time_ns_ + n * t.period_ns_) / 1000000000 < 2 ^ 63 →
      (TimerLoop.SleepUntilNextLoop_times n t).time_s_ * 1000000000 +
          (TimerLoop.SleepUntilNextLoop_times n t).time_ns_ =
        t.time_s_ * 1000000000 + t.time_ns_ + n * t.period_ns_ ∧
      0 ≤ (TimerLoop.SleepUntilNextLoop_times n t).time_ns_ ∧
      (TimerLoop.SleepUntilNextLoop_times n t).time_ns_ < 1000000000) ∧
    (∀ n : Nat, 0 < n → t.period_ns_ ≤ 2 ^ 63 - 1000000000 →
      t.time_s_ + (t.time_ns_ + n * t.period_ns_) / 1000000000 < 2 ^ 63 →
      (TimerLoop.SleepUntilNextLoop_times n t).wake_abs_time_.ns =
        t.time_s_ * 1000000000 + t.time_ns_ + n * t.period_ns_ ∧
      (TimerLoop.SleepUntilNextLoop_times n t).SleepUntilNextLoop.2.ns =
        t.time_s_ * 1000000000 + t.time_ns_ + n * t.period_ns_) := by
  refine ⟨?_, ?_, ?_⟩
  · intro h1 h2
    obtain ⟨a1, a2, a3, a4, _, _⟩ := TimerLoop.AddPeriod_spec t hlo hhi hP hs h1 h2
    refine ⟨?_, ?_, ?_, a4⟩
    · rw [a4]; exact a1
    · rw [a4]; exact a2
    · rw [a4]; exact a3
  · intro n hmax hfit
    obtain ⟨b1, b2, b3, _, _⟩ :=
      TimerLoop.SleepUntilNextLoop_times_spec n t hlo hhi hP hs hmax hfit
    exact ⟨b1, b2, b3⟩
  · intro n hn hmax hfit
    obtain ⟨b1, _, _, _, b5⟩ :=
      TimerLoop.SleepUntilNextLoop_times_spec n t hlo hhi hP hs hmax hfit
    have hw := b5 hn
    simp only [TimerLoop.SleepUntilNextLoop, timespec.ns, hw]
    exact ⟨b1, b1⟩

/-- C23 (amended) on `demo_timer_loop`: the next wake time is 6.009999999 s, and
the wake time after three sleeps is 6.029999999 s. -/
theorem C23_witness :
    (0 : Int) ≤ demo_timer_loop.time_ns_ ∧ demo_timer_loop.time_ns_ < 1000000000 ∧
    0 ≤ demo_timer_loop.period_ns_ ∧ -2 ^ 63 ≤ demo_timer_loop.time_s_ ∧
    demo_timer_loop.period_ns_ ≤ 2 ^ 63 - 1000000000 ∧
    demo_timer_loop.time_s_ +
      (demo_timer_loop.time_ns_ + (3 : Nat) * demo_timer_loop.period_ns_) / 1000000000 <
        2 ^ 63 ∧
    demo_timer_loop.AddPeriod.wake_abs_time_ = { tv_sec := 6, tv_nsec := 9999999 } ∧
    (TimerLoop.SleepUntilNextLoop_times 3 demo_timer_loop).wake_abs_time_ =
      { tv_sec := 6, tv_nsec := 29999999 } ∧
    (TimerLoop.SleepUntilNextLoop_times 3 demo_timer_loop).wake_abs_time_.ns =
      demo_timer_loop.time_s_ * 1000000000 + demo_timer_loop.time_ns_ +
        (3 : Nat) * demo_timer_loop.period_ns_ :=
  ⟨by decide, by decide, by decide, by decide, by decide, by decide, by decide, by decide,
   ((C23_add_period_no_drift demo_timer_loop (by decide) (by decide) (by decide)
     (by decide)).2.2 3 (by decide) (by decide) (by decide)).1⟩

/-! ## The period of the external-tick strategy -/

/-- The number of ticks that `SleepExternalTimer::SetPeriod` stores. -/
theorem SleepExternalTimer.SetPeriod_interval (t : SleepExternalTimer) (p : ℚ)
    (hdt : 1 ≤ t.dt_) :
    (t.SetPeriod p).interval_time_ =
      static_cast_signed 32 (double_round (double_round (p * 1000) / (t.dt_ : ℚ))) ∧
    (t.SetPeriod p).dt_ = t.dt_ ∧ (t.SetPeriod p).interval_count_ = 0 := by
  have h : ¬ t.dt_ < 1 := by omega
  simp only [SleepExternalTimer.SetPeriod, if_neg h]
  refine ⟨?_, ?_, ?_⟩ <;> first | rfl | trivial

/-- The number of ticks that `SleepExternalTimer::SetPeriod` stores lies between
the floor and the ceiling of the quotient of the period by the tick length, when
the quotient fits `int`. -/
theorem SleepExternalTimer.SetPeriod_between (t : SleepExternalTimer) (p : ℚ)
    (hdt : 1 ≤ t.dt_) (hbyte : t.dt_ < 256)
    (hfit : |p * 1000 / (t.dt_ : ℚ)| ≤ 2 ^ 31 - 1) :
    (t.SetPeriod p).interval_time_ =
      static_cast_int (double_round (double_round (p * 1000) / (t.dt_ : ℚ))) ∧
    ⌊p * 1000 / (t.dt_ : ℚ)⌋ ≤ (t.SetPeriod p).interval_time_ ∧
    (t.SetPeriod p).interval_time_ ≤ ⌈p * 1000 / (t.dt_ : ℚ)⌉ := by
  obtain ⟨a1, _, _⟩ := SleepExternalTimer.SetPeriod_interval t p hdt
  have hd : (0 : ℚ) < (t.dt_ : ℚ) := by exact_mod_cast hdt
  have hd255 : (t.dt_ : Int) ≤ 255 := by omega
  have hd1 : (1 : Int) ≤ (t.dt_ : Int) := by omega
  rw [abs_le] at hfit
  -- the floor and the ceiling of the quotient fit `int`
  have hk1 : -(2 ^ 31 - 1) ≤ ⌊p * 1000 / (t.dt_ : ℚ)⌋ := by
    apply Int.le_floor.mpr
    push_cast
    linarith [hfit.1]
  have hk2 : ⌊p * 1000 / (t.dt_ : ℚ)⌋ ≤ 2 ^ 31 - 1 := by
    have := Int.floor_le (p * 1000 / (t.dt_ : ℚ))
    have h3 : (⌊p * 1000 / (t.dt_ : ℚ)⌋ : ℚ) ≤ ((2 ^ 31 - 1 : Int) : ℚ) := by
      push_cast
      linarith [hfit.2]
    exact_mod_cast h3
  have hc1 : -(2 ^ 31 - 1) ≤ ⌈p * 1000 / (t.dt_ : ℚ)⌉ := by
    have := Int.le_ceil (p * 1000 / (t.dt_ : ℚ))
    have h3 : ((-(2 ^ 31 - 1) : Int) : ℚ) ≤ (⌈p * 1000 / (t.dt_ : ℚ)⌉ : ℚ) := by
      push_cast
      linarith [hfit.1]
    exact_mod_cast h3
  have hc2 : ⌈p * 1000 / (t.dt_ : ℚ)⌉ ≤ 2 ^ 31 - 1 := by
    apply Int.ceil_le.mpr
    push_cast
    linarith [hfit.2]
  generalize hk : ⌊p * 1000 / (t.dt_ : ℚ)⌋ = k at hk1 hk2 ⊢
  generalize hc : ⌈p * 1000 / (t.dt_ : ℚ)⌉ = c at hc1 hc2 ⊢
  have hkX : (k : ℚ) ≤ p * 1000 / (t.dt_ : ℚ) := by rw [← hk]; exact Int.floor_le _
  have hXc : p * 1000 / (t.dt_ : ℚ) ≤ (c : ℚ) := by rw [← hc]; exact Int.le_ceil _
  -- the product lies between the two multiples of the tick length
  have hlo : ((k * (t.dt_ : Int) : Int) : ℚ) ≤ p * 1000 := by
    push_cast
    exact (le_div_iff₀ hd).mp hkX
  have hhi : p * 1000 ≤ ((c * (t.dt_ : Int) : Int) : ℚ) := by
    push_cast
    exact (div_le_iff₀ hd).mp hXc
  norm_num at hk1 hk2 hc1 hc2
  have bk : |k * (t.dt_ : Int)| < 2 ^ 53 := by
    rw [abs_lt]
    norm_num
    constructor <;> nlinarith
  have bc : |c * (t.dt_ : Int)| < 2 ^ 53 := by
    rw [abs_lt]
    norm_num
    constructor <;> nlinarith
  obtain ⟨m1, m2⟩ := double_round_between (p * 1000) _ _ bk bc hlo hhi
  have q1 : (k : ℚ) ≤ double_round (p * 1000) / (t.dt_ : ℚ) := by
    rw [le_div_iff₀ hd]
    push_cast at m1
    exact m1
  have q2 : double_round (p * 1000) / (t.dt_ : ℚ) ≤ (c : ℚ) := by
    rw [div_le_iff₀ hd]
    push_cast at m2
    exact m2
  obtain ⟨r1, r2⟩ := double_round_between _ k c
    (by rw [abs_lt]; norm_num; constructor <;> omega)
    (by rw [abs_lt]; norm_num; constructor <;> omega) q1 q2
  obtain ⟨s1, s2⟩ := static_cast_int_between _ k c r1 r2
  have hcast : static_cast_signed 32
      (double_round (double_round (p * 1000) / (t.dt_ : ℚ))) =
      static_cast_int (double_round (double_round (p * 1000) / (t.dt_ : ℚ))) :=
    static_cast_signed_of_fits 32 _ (by norm_num; omega) (by norm_num; omega)
  rw [a1, hcast]
  exact ⟨rfl, s1, s2⟩

/-- The number of ticks that `SleepExternalTimer::SetPeriod` stores for a period
that is a whole number of ticks. -/
theorem SleepExternalTimer.SetPeriod_exact (t : SleepExternalTimer) (p : ℚ) (k : Int)
    (hdt : 1 ≤ t.dt_) (hbyte : t.dt_ < 256) (hk : |k| ≤ 2 ^ 31 - 1)
    (h : p * 1000 = k * (t.dt_ : ℚ)) : (t.SetPeriod p).interval_time_ = k := by
  have hd : (0 : ℚ) < (t.dt_ : ℚ) := by exact_mod_cast hdt
  have hq : p * 1000 / (t.dt_ : ℚ) = (k : ℚ) := by
    rw [h]
    field_simp
  obtain ⟨_, b1, b2⟩ := SleepExternalTimer.SetPeriod_between t p hdt hbyte (by
    rw [hq]
    have : ((|k| : Int) : ℚ) ≤ ((2 ^ 31 - 1 : Int) : ℚ) := by exact_mod_cast hk
    push_cast at this
    norm_num at this ⊢
    exact this)
  rw [hq] at b1 b2
  simp only [Int.floor_intCast, Int.ceil_intCast] at b1 b2
  omega

/-- The value of type `double` that the literal `0.009` stands for. -/
theorem double_round_9_1000 :
    double_round (9 / 1000) = 5188146770730811 / 576460752303423488 := by
  rw [double_round_eq (9 / 1000) (-7) 5188146770730811 (by norm_num) (by norm_num)
    (by rw [abs_lt]; norm_num)]
  norm_num

/-- For a period of half a second and a tick of 3 ms, `SetPeriod` stores 166
ticks. -/
theorem SleepExternalTimer.SetPeriod_half_second :
    ((SleepExternalTimer.ctor "T" "T" 3).SetPeriod (1 / 2)).interval_time_ = 166 := by
  have hdt : ((SleepExternalTimer.ctor "T" "T" 3).dt_ : ℚ) = 3 := by
    simp [SleepExternalTimer.ctor]
  have hfit : |(1 / 2 : ℚ) * 1000 / ((SleepExternalTimer.ctor "T" "T" 3).dt_ : ℚ)| ≤
      2 ^ 31 - 1 := by
    rw [hdt, abs_le]
    norm_num
  obtain ⟨a1, _, _⟩ := SleepExternalTimer.SetPeriod_between (SleepExternalTimer.ctor "T" "T" 3)
    (1 / 2) (by decide) (by decide) hfit
  rw [a1, hdt]
  have e1 : double_round ((1 / 2 : ℚ) * 1000) = 500 := by
    have := double_round_intCast 500 (by norm_num)
    norm_num at this ⊢
    exact this
  have e2 : double_round ((500 : ℚ) / 3) = 5864062014805333 * 2 ^ ((7 : Int) - 52) :=
    double_round_eq (500 / 3) 7 5864062014805333 (by norm_num) (by norm_num)
      (by rw [abs_lt]; norm_num)
  rw [e1, e2, static_cast_int_of_nonneg _ (by positivity)]
  rw [Int.floor_eq_iff]
  norm_num

/-- For the period that the literal `0.009` stands for and a tick of 1 ms,
`SetPeriod` stores 9 ticks: the product `period * 1000` is rounded to 9. -/
theorem SleepExternalTimer.SetPeriod_nine_milliseconds :
    ((SleepExternalTimer.ctor "T" "T" 1).SetPeriod (double_round (9 / 1000))).interval_time_ =
      9 := by
  have hdt : ((SleepExternalTimer.ctor "T" "T" 1).dt_ : ℚ) = 1 := by
    simp [SleepExternalTimer.ctor]
  have hfit : |double_round (9 / 1000) * 1000 /
      ((SleepExternalTimer.ctor "T" "T" 1).dt_ : ℚ)| ≤ 2 ^ 31 - 1 := by
    rw [hdt, double_round_9_1000, abs_le]
    norm_num
  obtain ⟨a1, _, _⟩ := SleepExternalTimer.SetPeriod_between (SleepExternalTimer.ctor "T" "T" 1)
    (double_round (9 / 1000)) (by decide) (by decide) hfit
  rw [a1, hdt, double_round_9_1000]
  have e1 : double_round ((5188146770730811 / 576460752303423488 : ℚ) * 1000) = 9 := by
    rw [double_round_eq _ 3 5066549580791808 (by norm_num) (by norm_num)
      (by rw [abs_lt]; norm_num)]
    norm_num
  have e2 : double_round ((9 : ℚ) / 1) = 9 := by
    have := double_round_intCast 9 (by norm_num)
    norm_num at this ⊢
    exact this
  rw [e1, e2]
  exact static_cast_int_intCast 9

/-- C24 fails as stated: for a period of half a second and a tick of 3 ms,
`SetPeriod` stores 166 ticks, which last 498 ms, less than the period; the
least number of ticks that last at least the period is 167. -/
theorem C24_counterexample :
    ¬ ∀ (t : SleepExternalTimer) (p : ℚ), 1 ≤ t.dt_ →
      (t.SetPeriod p).interval_time_ = ⌈p * 1000 / (t.dt_ : ℚ)⌉ := by
  intro h
  have h1 := h (SleepExternalTimer.ctor "T" "T" 3) (1 / 2) (by decide)
  have hdt : ((SleepExternalTimer.ctor "T" "T" 3).dt_ : ℚ) = 3 := by
    simp [SleepExternalTimer.ctor]
  rw [SleepExternalTimer.SetPeriod_half_second, hdt] at h1
  have h3 : ⌈(1 / 2 : ℚ) * 1000 / 3⌉ = 167 := by
    rw [Int.ceil_eq_iff]; norm_num
  rw [h3] at h1
  exact absurd h1 (by decide)

/-- C24 (amended): for the external-tick sleep strategy, (1) for every period `p`
in seconds and every tick length `dt_ >= 1` in milliseconds (a byte) such that
the quotient of the period in milliseconds by the tick length fits `int`,
`SetPeriod(p)` keeps the tick length, clears the tick count and sets the
interval target to the value of the `double` expression `p * 1000 / dt_`, each
operation rounded, with its fraction discarded; the target lies between the
floor and the ceiling of the exact quotient, and it is the quotient when the
period is a whole number of ticks.  (2) For half a second and a tick of 3 ms
the target is 166, the floor, and not the ceiling 167.  (3) For the period that
the literal `0.009` stands for and a tick of 1 ms the target is 9, the ceiling,
and not the floor 8: the rounding of the product reaches the next whole
number. -/
theorem C24_interval_target_truncated_quotient :
    (∀ (t : SleepExternalTimer) (p : ℚ), 1 ≤ t.dt_ → t.dt_ < 256 →
      |p * 1000 / (t.dt_ : ℚ)| ≤ 2 ^ 31 - 1 →
      (t.SetPeriod p).dt_ = t.dt_ ∧ (t.SetPeriod p).interval_count_ = 0 ∧
      (t.SetPeriod p).interval_time_ =
        static_cast_int (double_round (double_round (p * 1000) / (t.dt_ : ℚ))) ∧
      ⌊p * 1000 / (t.dt_ : ℚ)⌋ ≤ (t.SetPeriod p).interval_time_ ∧
      (t.SetPeriod p).interval_time_ ≤ ⌈p * 1000 / (t.dt_ : ℚ)⌉ ∧
      ∀ k : Int, p * 1000 = k * (t.dt_ : ℚ) → (t.SetPeriod p).interval_time_ = k) ∧
    (((SleepExternalTimer.ctor "T" "T" 3).SetPeriod (1 / 2)).interval_time_ = 166 ∧
      ⌊(1 / 2 : ℚ) * 1000 / 3⌋ = 166 ∧ ⌈(1 / 2 : ℚ) * 1000 / 3⌉ = 167) ∧
    (((SleepExternalTimer.ctor "T" "T" 1).SetPeriod (double_round (9 / 1000))).interval_time_ =
        9 ∧
      ⌊double_round (9 / 1000) * 1000 / 1⌋ = 8 ∧ ⌈double_round (9 / 1000) * 1000 / 1⌉ = 9) := by
  refine ⟨?_, ⟨SleepExternalTimer.SetPeriod_half_second, ?_, ?_⟩,
    ⟨SleepExternalTimer.SetPeriod_nine_milliseconds, ?_, ?_⟩⟩
  · intro t p hdt hbyte hfit
    obtain ⟨_, a2, a3⟩ := SleepExternalTimer.SetPeriod_interval t p hdt
    obtain ⟨b1, b2, b3⟩ := SleepExternalTimer.SetPeriod_between t p hdt hbyte hfit
    refine ⟨a2, a3, b1, b2, b3, ?_⟩
    intro k hk
    have hd : (0 : ℚ) < (t.dt_ : ℚ) := by exact_mod_cast hdt
    have hq : p * 1000 / (t.dt_ : ℚ) = (k : ℚ) := by
      rw [hk]
      field_simp
    rw [hq] at b2 b3
    simp only [Int.floor_intCast, Int.ceil_intCast] at b2 b3
    omega
  · rw [Int.floor_eq_iff]; norm_num
  · rw [Int.ceil_eq_iff]; norm_num
  · rw [double_round_9_1000, Int.floor_eq_iff]; norm_num
  · rw [double_round_9_1000, Int.ceil_eq_iff]; norm_num

/-- C24 (amended) for a period of a quarter of a second and a tick of 4 ms: the
target lies between the floor and the ceiling of 62.5. -/
theorem C24_witness :
    1 ≤ (SleepExternalTimer.ctor "T" "T" 4).dt_ ∧
    (SleepExternalTimer.ctor "T" "T" 4).dt_ < 256 ∧
    |(1 / 4 : ℚ) * 1000 / ((SleepExternalTimer.ctor "T" "T" 4).dt_ : ℚ)| ≤ 2 ^ 31 - 1 ∧
    ⌊(1 / 4 : ℚ) * 1000 / ((SleepExternalTimer.ctor "T" "T" 4).dt_ : ℚ)⌋ ≤
      ((SleepExternalTimer.ctor "T" "T" 4).SetPeriod (1 / 4)).interval_time_ ∧
    ((SleepExternalTimer.ctor "T" "T" 4).SetPeriod (1 / 4)).interval_time_ ≤
      ⌈(1 / 4 : ℚ) * 1000 / ((SleepExternalTimer.ctor "T" "T" 4).dt_ : ℚ)⌉ :=
  have hfit : |(1 / 4 : ℚ) * 1000 / ((SleepExternalTimer.ctor "T" "T" 4).dt_ : ℚ)| ≤
      2 ^ 31 - 1 := by
    simp only [SleepExternalTimer.ctor]
    rw [abs_le]
    norm_num
  have h := C24_interval_target_truncated_quotient.1 (SleepExternalTimer.ctor "T" "T" 4) (1 / 4)
    (by decide) (by decide) hfit
  ⟨by decide, by decide, hfit, h.2.2.2.1, h.2.2.2.2.1⟩

/-! ## The period that `GetPeriod` returns -/

/-- The period that `TimerLoop::GetPeriod` returns after `SetPeriod`. -/
theorem TimerLoop.GetPeriod_SetPeriod (t : TimerLoop) (p : ℚ) (now : Option timespec) :
    (t.SetPeriod p now).GetPeriod = double_round (p * 1000) := by
  cases now with
  | none =>
    simp only [TimerLoop.SetPeriod, TimerLoop.ResetClock, TimerLoop.AddPeriod,
      TimerLoop.GetPeriod]
    split_ifs <;> rfl
  | some ts =>
    simp only [TimerLoop.SetPeriod, TimerLoop.ResetClock, TimerLoop.AddPeriod,
      TimerLoop.GetPeriod]
    split_ifs <;> rfl

/-- The value of type `double` that the literal `1.001` stands for. -/
theorem double_round_1001_1000 :
    double_round (1001 / 1000) = 2254051613498933 / 2251799813685248 := by
  rw [double_round_eq (1001 / 1000) 0 4508103226997866 (by norm_num) (by norm_num)
    (by rw [abs_lt]; norm_num)]
  norm_num

/-- For the period that the literal `1.001` stands for and a tick of 1 ms,
`SetPeriod` stores 1000 ticks: the product `period * 1000` is rounded to a value
below 1001. -/
theorem SleepExternalTimer.SetPeriod_1001_milliseconds :
    ((SleepExternalTimer.ctor "T" "T" 1).SetPeriod (double_round (1001 / 1000))).interval_time_ =
      1000 := by
  have hdt : ((SleepExternalTimer.ctor "T" "T" 1).dt_ : ℚ) = 1 := by
    simp [SleepExternalTimer.ctor]
  have hfit : |double_round (1001 / 1000) * 1000 /
      ((SleepExternalTimer.ctor "T" "T" 1).dt_ : ℚ)| ≤ 2 ^ 31 - 1 := by
    rw [hdt, double_round_1001_1000, abs_le]
    norm_num
  obtain ⟨a1, _, _⟩ := SleepExternalTimer.SetPeriod_between (SleepExternalTimer.ctor "T" "T" 1)
    (double_round (1001 / 1000)) (by decide) (by decide) hfit
  rw [a1, hdt, double_round_1001_1000]
  have e1 : double_round ((2254051613498933 / 2251799813685248 : ℚ) * 1000) =
      8804889115230207 / 8796093022208 := by
    rw [double_round_eq _ 9 8804889115230207 (by norm_num) (by norm_num)
      (by rw [abs_lt]; norm_num)]
    norm_num
  have e2 : double_round ((8804889115230207 / 8796093022208 : ℚ) / 1) =
      8804889115230207 / 8796093022208 := by
    rw [double_round_eq _ 9 8804889115230207 (by norm_num) (by norm_num)
      (by rw [abs_lt]; norm_num)]
    norm_num
  rw [e1, e2, static_cast_int_of_nonneg _ (by norm_num), Int.floor_eq_iff]
  norm_num

/-- C25 (the code differs): `GetPeriod()` called after `SetPeriod(p)`, with `p` in
seconds, returns the period in milliseconds.  (1) For the internal strategy it
returns the product `p * 1000`, rounded to `double`, (2) which is `1000 * p`
when that is a whole number below `2^53`.  (3) For the external strategy, a tick
length `dt_ >= 1` in milliseconds and a period of `k` whole ticks, `k` fitting
`int`, it returns `1000 * p`.  (4) After `SetPeriod(1)`, a period of one second,
the internal strategy returns 1000, and (5) so does the external strategy with
a tick of 1 ms.  (6) For the period that the literal `1.001` stands for and a
tick of 1 ms the external strategy returns 1000: the fraction of the rounded
product, which is below 1001, is discarded. -/
theorem C25_get_period_in_milliseconds :
    (∀ (t : SleepInternalTimer) (p : ℚ) (now : Option timespec),
      ((SleepBase.internal t).SetPeriod p now).GetPeriod = double_round (p * 1000)) ∧
    (∀ (t : SleepInternalTimer) (p : ℚ) (now : Option timespec) (n : Int),
      |n| < 2 ^ 53 → p * 1000 = n →
      ((SleepBase.internal t).SetPeriod p now).GetPeriod = 1000 * p) ∧
    (∀ (t : SleepExternalTimer) (p : ℚ) (now : Option timespec) (k : Int),
      1 ≤ t.dt_ → t.dt_ < 256 → |k| ≤ 2 ^ 31 - 1 → p * 1000 = k * (t.dt_ : ℚ) →
      ((SleepBase.external t).SetPeriod p now).GetPeriod = 1000 * p) ∧
    (∀ (t : SleepInternalTimer) (now : Option timespec),
      ((SleepBase.internal t).SetPeriod 1 now).GetPeriod = 1000) ∧
    (∀ now : Option timespec,
      ((SleepBase.external (SleepExternalTimer.ctor "T" "T" 1)).SetPeriod 1 now).GetPeriod =
        1000) ∧
    (∀ now : Option timespec,
      ((SleepBase.external (SleepExternalTimer.ctor "T" "T" 1)).SetPeriod
        (double_round (1001 / 1000)) now).GetPeriod = 1000) := by
  have h1 : ∀ (t : SleepInternalTimer) (p : ℚ) (now : Option timespec),
      ((SleepBase.internal t).SetPeriod p now).GetPeriod = double_round (p * 1000) := by
    intro t p now
    simp only [SleepBase.SetPeriod, SleepBase.GetPeriod, SleepInternalTimer.SetPeriod,
      SleepInternalTimer.GetPeriod, TimerLoop.GetPeriod_SetPeriod]
  have h2 : ∀ (t : SleepInternalTimer) (p : ℚ) (now : Option timespec) (n : Int),
      |n| < 2 ^ 53 → p * 1000 = n →
      ((SleepBase.internal t).SetPeriod p now).GetPeriod = 1000 * p := by
    intro t p now n hn hp
    rw [h1, hp, double_round_intCast n hn, ← hp]
    ring
  have h3 : ∀ (t : SleepExternalTimer) (p : ℚ) (now : Option timespec) (k : Int),
      1 ≤ t.dt_ → t.dt_ < 256 → |k| ≤ 2 ^ 31 - 1 → p * 1000 = k * (t.dt_ : ℚ) →
      ((SleepBase.external t).SetPeriod p now).GetPeriod = 1000 * p := by
    intro t p now k hdt hbyte hk hp
    have a1 := SleepExternalTimer.SetPeriod_exact t p k hdt hbyte hk hp
    have a2 := (SleepExternalTimer.SetPeriod_interval t p hdt).2.1
    simp only [SleepBase.SetPeriod, SleepBase.GetPeriod, SleepExternalTimer.GetPeriod]
    rw [a1, a2]
    push_cast
    rw [← hp]
    ring
  refine ⟨h1, h2, h3, ?_, ?_, ?_⟩
  · intro t now
    have := h2 t 1 now 1000 (by norm_num) (by norm_num)
    rw [this]
    norm_num
  · intro now
    have := h3 (SleepExternalTimer.ctor "T" "T" 1) 1 now 1000 (by decide) (by decide)
      (by norm_num) (by simp [SleepExternalTimer.ctor])
    rw [this]
    norm_num
  · intro now
    simp only [SleepBase.SetPeriod, SleepBase.GetPeriod, SleepExternalTimer.GetPeriod,
      SleepExternalTimer.SetPeriod_1001_milliseconds,
      (SleepExternalTimer.SetPeriod_interval (SleepExternalTimer.ctor "T" "T" 1) _
        (by decide)).2.1]
    simp [SleepExternalTimer.ctor]

/-- C25 for a period of 20 ms and a tick of 5 ms: `GetPeriod` returns 20. -/
theorem C25_witness :
    1 ≤ (SleepExternalTimer.ctor "T" "T" 5).dt_ ∧ (SleepExternalTimer.ctor "T" "T" 5).dt_ < 256 ∧
    |(4 : Int)| ≤ 2 ^ 31 - 1 ∧
    ((1 / 50 : ℚ) * 1000 = ((4 : Int) : ℚ) * ((SleepExternalTimer.ctor "T" "T" 5).dt_ : ℚ)) ∧
    ((SleepBase.external (SleepExternalTimer.ctor "T" "T" 5)).SetPeriod (1 / 50) none).GetPeriod =
      1000 * (1 / 50) :=
  ⟨by decide, by decide, by decide, by simp [SleepExternalTimer.ctor]; norm_num,
   C25_get_period_in_milliseconds.2.2.1 (SleepExternalTimer.ctor "T" "T" 5) (1 / 50) none 4
     (by decide) (by decide) (by decide) (by simp [SleepExternalTimer.ctor]; norm_num)⟩

/-- The start delay slept by the thread of a task whose launch delay is a whole
number of seconds. -/
theorem TaskBase.Loop_sleep_for_natCast (task_setting : TaskSetting) (env : TimerEnv)
    (now : Option timespec) (d : Nat) :
    TaskBase.Loop_sleep_for
      (Task.ctor_timer
        { task_setting with launch_setting := { task_setting.launch_setting with delay := d } }
        env now) = 1000 * d := by
  simp only [TaskBase.Loop_sleep_for, Task.ctor_timer, TaskBase.SetPeriod, TaskBase.ctor]
  have e : (d : ℚ) * 1000 = ((1000 * d : Int) : ℚ) := by push_cast; ring
  rw [e, static_cast_int_intCast]

/-- C22 (the code differs): for a task constructed with a launch delay of `d`
whole seconds, each start makes the thread sleep `1000 * d` microseconds, which
is `d` milliseconds, before it enters the run loop; for the delay of one second
of `demo_task_setting_external` the thread sleeps 1000 microseconds, not
`10^6`. -/
theorem C22_start_delay_slept_as_milliseconds :
    (∀ (task_setting : TaskSetting) (env : TimerEnv) (now : Option timespec) (d : Nat),
      TaskBase.Loop_sleep_for
        (Task.ctor_timer
          { task_setting with
            launch_setting := { task_setting.launch_setting with delay := d } }
          env now) = 1000 * d) ∧
    demo_task_setting_external.launch_setting.delay = 1 ∧
    TaskBase.Loop_sleep_for demo_task_timer = 1000 ∧
    TaskBase.Loop_sleep_for demo_task_timer ≠ 1 * 1000000 := by
  have h := TaskBase.Loop_sleep_for_natCast demo_task_setting_external demo_timer_env none 1
  have h1 : TaskBase.Loop_sleep_for demo_task_timer = 1000 := by
    simpa [demo_task_timer, demo_task_setting_external] using h
  refine ⟨TaskBase.Loop_sleep_for_natCast, rfl, h1, ?_⟩
  rw [h1]
  decide

/-- The waits of a call of `SleepExternalTimer::Sleep`: none when the hint is not
below the period, a wait for every tick that is still due otherwise. -/
theorem SleepExternalTimer.Sleep_loop_spec (duration : ℚ) (fuel : Nat) :
    ∀ (t : SleepExternalTimer) (calls : List TimerCall),
    (t.interval_time_ - t.interval_count_).toNat ≤ fuel →
    (SleepExternalTimer.Sleep_loop duration fuel t calls).2 =
      calls ++ List.replicate
        (if duration < t.GetPeriod then (t.interval_time_ - t.interval_count_).toNat else 0)
        (TimerCall.Decrement t.sem_) := by
  induction fuel with
  | zero =>
    intro t calls h
    have h0 : (t.interval_time_ - t.interval_count_).toNat = 0 := by omega
    simp [SleepExternalTimer.Sleep_loop, h0]
  | succ n ih =>
    intro t calls h
    simp only [SleepExternalTimer.Sleep_loop]
    by_cases hc : t.interval_count_ < t.interval_time_
    · by_cases hd : duration < t.GetPeriod
      · rw [if_pos ⟨hc, hd⟩, ih _ _ (by simp only; omega)]
        have hg : SleepExternalTimer.GetPeriod
            { t with interval_count_ := t.interval_count_ + 1 } = t.GetPeriod := rfl
        have hn : (t.interval_time_ - t.interval_count_).toNat =
            (t.interval_time_ - (t.interval_count_ + 1)).toNat + 1 := by omega
        simp only [hg, if_pos hd, hn, List.replicate_succ, List.append_assoc,
          List.singleton_append]
      · rw [if_neg (fun h => hd h.2), if_neg hd]
        simp
    · rw [if_neg (fun h => hc h.1)]
      have h0 : (t.interval_time_ - t.interval_count_).toNat = 0 := by omega
      simp [h0]

/-- The waits of `SleepExternalTimer::Sleep`. -/
theorem SleepExternalTimer.Sleep_spec (t : SleepExternalTimer) (duration : ℚ) :
    (t.Sleep duration).2 =
      List.replicate
        (if duration < t.GetPeriod then (t.interval_time_ - t.interval_count_).toNat else 0)
        (TimerCall.Decrement t.sem_) := by
  simp only [SleepExternalTimer.Sleep]
  rw [SleepExternalTimer.Sleep_loop_spec duration _ t [] (le_refl _)]
  simp

/-- The sleep strategy of `demo_task_timer`. -/
theorem demo_task_timer_eq :
    demo_task_timer.timer_ = SleepBase.external
      { dt_ := 1, interval_time_ := 3, interval_count_ := 0, sem_ := "T", shm_ := "T" } := by
  have e : ((SleepExternalTimer.ctor "T" "T" 1).SetPeriod (3 / 1000)).interval_time_ = 3 :=
    SleepExternalTimer.SetPeriod_exact _ _ 3 (by decide) (by decide) (by decide)
      (by simp [SleepExternalTimer.ctor])
  have e' : (SleepExternalTimer.ctor "T" "T" 1).SetPeriod (3 / 1000) =
      { dt_ := 1, interval_time_ := 3, interval_count_ := 0, sem_ := "T", shm_ := "T" } := by
    rw [← e]
    rfl
  simp only [demo_task_timer, Task.ctor_timer, TaskBase.SetPeriod, TaskBase.ctor,
    demo_task_setting_external, demo_timer_env, SleepBase.SetPeriod, e']

/-- The sleep strategy of `demo_task_timer_restarted`. -/
theorem demo_task_timer_restarted_eq :
    demo_task_timer_restarted.timer_ = SleepBase.external
      { dt_ := 1, interval_time_ := 0, interval_count_ := 0, sem_ := "T", shm_ := "T" } := by
  simp only [demo_task_timer_restarted, TaskBase.TaskStart_timer, TaskBase.TaskStop_timer,
    demo_task_timer_eq, SleepBase.Continue, SleepExternalTimer.Continue]

/-- C29 (the code differs): `Continue()` of the internal and of the trigger
strategy leaves the value of `GetPeriod()` unchanged, but `Continue()` of the
external strategy stores 0 in the interval target, so that `GetPeriod()`
returns 0 afterwards.  The task of `demo_task_setting_external`, built with a
period of 3 ticks, waits for 3 ticks in `Sleep`; after `TaskStop` followed by
`TaskStart` its period is 0 and `Sleep` returns without waiting for a tick. -/
theorem C29_continue_clears_external_period :
    (∀ (t : SleepInternalTimer) (now : Option timespec),
      ((SleepBase.internal t).Continue now).1.GetPeriod = (SleepBase.internal t).GetPeriod) ∧
    (∀ (t : SleepTrigger) (now : Option timespec),
      ((SleepBase.trigger t).Continue now).1.GetPeriod = (SleepBase.trigger t).GetPeriod) ∧
    (∀ (t : SleepExternalTimer) (now : Option timespec),
      ((SleepBase.external t).Continue now).1.GetPeriod = 0) ∧
    demo_task_timer.timer_.GetPeriod = 3 ∧
    (TaskBase.Loop_Sleep demo_task_timer 0 none).2 =
      [TimerCall.Decrement "T", TimerCall.Decrement "T", TimerCall.Decrement "T"] ∧
    demo_task_timer_restarted.timer_.GetPeriod = 0 ∧
    (TaskBase.Loop_Sleep demo_task_timer_restarted 0 none).2 = [] := by
  refine ⟨?_, ?_, ?_, ?_, ?_, ?_, ?_⟩
  · intro t now
    cases now <;> rfl
  · intro t now
    rfl
  · intro t now
    simp [SleepBase.Continue, SleepBase.GetPeriod, SleepExternalTimer.Continue,
      SleepExternalTimer.GetPeriod]
  · rw [demo_task_timer_eq]
    simp [SleepBase.GetPeriod, SleepExternalTimer.GetPeriod]
  · simp only [TaskBase.Loop_Sleep, demo_task_timer_eq, SleepBase.Sleep,
      SleepExternalTimer.Sleep_spec]
    simp [SleepExternalTimer.GetPeriod, List.replicate]
  · rw [demo_task_timer_restarted_eq]
    simp [SleepBase.GetPeriod, SleepExternalTimer.GetPeriod]
  · simp only [TaskBase.Loop_Sleep, demo_task_timer_restarted_eq, SleepBase.Sleep,
      SleepExternalTimer.Sleep_spec]
    simp [SleepExternalTimer.GetPeriod]

theorem int_set.mem_insert_int (x y : Int) (s : List Int) :
    y ∈ int_set.insert x s ↔ y = x ∨ y ∈ s := by
  induction s with
  | nil => simp [int_set.insert]
  | cons a s ih =>
    simp only [int_set.insert]
    split_ifs with h1 h2
    · simp
    · subst h2; simp
    · simp only [List.mem_cons, ih]
      tauto

theorem int_set.insert_sorted (x : Int) (s : List Int) (h : s.Pairwise (fun a b => a < b)) :
    (int_set.insert x s).Pairwise (fun a b => a < b) := by
  induction s with
  | nil => simp [int_set.insert]
  | cons a s ih =>
    simp only [int_set.insert]
    rw [List.pairwise_cons] at h
    split_ifs with h1 h2
    · refine List.pairwise_cons.mpr ⟨?_, List.pairwise_cons.mpr h⟩
      intro b hb
      rcases List.mem_cons.mp hb with hb | hb
      · rw [hb]; exact h1
      · exact lt_trans h1 (h.1 b hb)
    · exact List.pairwise_cons.mpr h
    · refine List.pairwise_cons.mpr ⟨?_, ih h.2⟩
      intro b hb
      rcases (int_set.mem_insert_int x b s).mp hb with hb | hb
      · rw [hb]; omega
      · exact h.1 b hb

theorem int_set.foldl_insert_spec (xs : List Int) :
    ∀ s : List Int, s.Pairwise (fun a b => a < b) →
    (xs.foldl (fun acc x => int_set.insert x acc) s).Pairwise (fun a b => a < b) ∧
    ∀ y, y ∈ xs.foldl (fun acc x => int_set.insert x acc) s ↔ y ∈ xs ∨ y ∈ s := by
  induction xs with
  | nil => intro s h; simp [h]
  | cons x xs ih =>
    intro s h
    obtain ⟨a, b⟩ := ih (int_set.insert x s) (int_set.insert_sorted x s h)
    refine ⟨a, ?_⟩
    intro y
    simp only [List.foldl_cons, b, int_set.mem_insert_int, List.mem_cons]
    tauto

/-- The set built from a list holds the elements of the list, each once, in
increasing order. -/
theorem int_set.of_range_spec (xs : List Int) :
    (int_set.of_range xs).Pairwise (fun a b => a < b) ∧ (int_set.of_range xs).Nodup ∧
    ∀ y, y ∈ int_set.of_range xs ↔ y ∈ xs := by
  obtain ⟨a, b⟩ := int_set.foldl_insert_spec xs [] List.Pairwise.nil
  refine ⟨a, ?_, ?_⟩
  · exact a.imp (fun h => ne_of_lt h)
  · intro y
    simpa [int_set.of_range] using b y

/-- The loop over the CPU numbers: it is left early exactly when a number is out
of range, and it adds the numbers to the mask otherwise. -/
theorem set_thread_cpu_affinity_loop_spec (n : Int) (l : List Int) :
    ∀ set : List Int, set.Pairwise (fun a b => a < b) →
    ((∃ c ∈ l, c < 0 ∨ c ≥ n) → set_thread_cpu_affinity_loop n l set = none) ∧
    ((∀ c ∈ l, 0 ≤ c ∧ c < n) →
      ∃ mask, set_thread_cpu_affinity_loop n l set = some mask ∧
        mask.Pairwise (fun a b => a < b) ∧ ∀ y, y ∈ mask ↔ y ∈ l ∨ y ∈ set) := by
  induction l with
  | nil =>
    intro set hs
    refine ⟨by simp, fun _ => ⟨set, rfl, hs, by simp⟩⟩
  | cons c rest ih =>
    intro set hs
    obtain ⟨a, b⟩ := ih (CPU_SET c set) (int_set.insert_sorted c set hs)
    constructor
    · rintro ⟨x, hx, hbad⟩
      simp only [set_thread_cpu_affinity_loop]
      by_cases hc : c < 0 ∨ c ≥ n
      · rw [if_pos hc]
      · rw [if_neg hc]
        rcases List.mem_cons.mp hx with hx | hx
        · rw [hx] at hbad; exact absurd hbad hc
        · exact a ⟨x, hx, hbad⟩
    · intro hall
      have hc : ¬ (c < 0 ∨ c ≥ n) := by
        have := hall c (List.mem_cons_self _ _)
        omega
      simp only [set_thread_cpu_affinity_loop, if_neg hc]
      obtain ⟨mask, h1, h2, h3⟩ := b (fun x hx => hall x (List.mem_cons_of_mem _ hx))
      refine ⟨mask, h1, h2, ?_⟩
      intro y
      rw [h3 y, CPU_SET, int_set.mem_insert_int, List.mem_cons]
      tauto

/-- C26: for every CPU list and every online CPU count `n`,
`set_thread_cpu_affinity` returns -1 without a call of `sched_setaffinity`, so
without applying any affinity mask, when some index of the list is `< 0` or
`>= n`; otherwise it calls `sched_setaffinity` once, for the given thread, with
the mask that contains exactly the indices of the list, each once whatever the
repetitions in the list, and it returns 0 when that call succeeds and -1 when
it fails. -/
theorem C26_cpu_affinity_all_or_nothing (n : Nat) (sched_setaffinity : Int → List Int → Int)
    (pid : Int) (cpu_list : List Int) :
    ((∃ c ∈ cpu_list, c < 0 ∨ c ≥ (n : Int)) →
      set_thread_cpu_affinity n sched_setaffinity pid cpu_list = (-1, [])) ∧
    ((∀ c ∈ cpu_list, 0 ≤ c ∧ c < (n : Int)) →
      ∃ mask,
        (set_thread_cpu_affinity n sched_setaffinity pid cpu_list).2 = [(pid, mask)] ∧
        (∀ c, c ∈ mask ↔ c ∈ cpu_list) ∧ mask.Nodup ∧
        mask = int_set.of_range cpu_list.dedup ∧
        (sched_setaffinity pid mask ≠ -1 →
          (set_thread_cpu_affinity n sched_setaffinity pid cpu_list).1 = 0) ∧
        (sched_setaffinity pid mask = -1 →
          (set_thread_cpu_affinity n sched_setaffinity pid cpu_list).1 = -1)) := by
  have hn : ¬ ((n : Int) = -1) := by omega
  obtain ⟨s1, s2, s3⟩ := int_set.of_range_spec cpu_list
  obtain ⟨a, b⟩ := set_thread_cpu_affinity_loop_spec n (int_set.of_range cpu_list) []
    List.Pairwise.nil
  constructor
  · rintro ⟨c, hc, hbad⟩
    simp only [set_thread_cpu_affinity, if_neg hn, a ⟨c, (s3 c).mpr hc, hbad⟩]
  · intro hall
    obtain ⟨mask, h1, h2, h3⟩ := b (fun c hc => hall c ((s3 c).mp hc))
    have hmem : ∀ c, c ∈ mask ↔ c ∈ cpu_list := by
      intro c
      rw [h3 c, s3 c]
      simp
    have hnd : mask.Nodup := h2.imp (fun h => ne_of_lt h)
    have heq : mask = int_set.of_range cpu_list.dedup := by
      obtain ⟨d1, _, d3⟩ := int_set.of_range_spec cpu_list.dedup
      refine List.eq_of_perm_of_sorted (r := fun a b => a < b) ?_ h2 d1
      refine (List.perm_ext_iff_of_nodup hnd (d1.imp (fun h => ne_of_lt h))).mpr ?_
      intro c
      rw [hmem c, d3 c, List.mem_dedup]
    refine ⟨mask, ?_, hmem, hnd, heq, ?_, ?_⟩
    · simp only [set_thread_cpu_affinity, if_neg hn, h1]
      split_ifs <;> rfl
    · intro hok
      simp only [set_thread_cpu_affinity, if_neg hn, h1, if_neg hok]
    · intro hko
      simp only [set_thread_cpu_affinity, if_neg hn, h1, if_pos hko]

/-- C26 on four CPUs: the list `[2, 0, 2]` gives the mask of the CPUs 0 and 2 and
the result 0, and the list `[1, 4]` gives -1 and no call. -/
theorem C26_witness :
    (∀ c ∈ [(2 : Int), 0, 2], 0 ≤ c ∧ c < ((4 : Nat) : Int)) ∧
    (∃ c ∈ [(1 : Int), 4], c < 0 ∨ c ≥ ((4 : Nat) : Int)) ∧
    set_thread_cpu_affinity 4 demo_sched_setaffinity 7 [2, 0, 2] = (0, [(7, [0, 2])]) ∧
    set_thread_cpu_affinity ((4 : Nat) : Int) demo_sched_setaffinity 7 [1, 4] = (-1, []) :=
  ⟨by decide, by decide, by decide,
   (C26_cpu_affinity_all_or_nothing 4 demo_sched_setaffinity 7 [1, 4]).1 (by decide)⟩

theorem mem_byte_range (pos : Int) (n : Nat) (i : Int) :
    i ∈ byte_range pos n ↔ pos ≤ i ∧ i < pos + n := by
  unfold byte_range
  rw [List.mem_map]
  constructor
  · rintro ⟨k, hk, rfl⟩
    have := List.mem_range.mp hk
    constructor
    · omega
    · omega
  · intro h
    refine ⟨(i - pos).toNat, List.mem_range.mpr ?_, ?_⟩
    · omega
    · omega

/-- The outcomes of `_decodeNoHash`. -/
theorem DesiredGroupData._decodeNoHash_spec (buf : Int → Nat) (offset maxlen : Int) :
    (∀ i ∈ (DesiredGroupData._decodeNoHash buf offset maxlen).reads,
      offset ≤ i ∧ i < offset + maxlen) ∧
    (∀ n, (DesiredGroupData._decodeNoHash buf offset maxlen).result = DecodeEnd.returned n →
      n = -1 ∨ (4 < n ∧ n ≤ maxlen)) ∧
    ((DesiredGroupData._decodeNoHash buf offset maxlen).result = DecodeEnd.length_error ↔
      4 ≤ maxlen ∧ (int32_t_decode_array buf offset maxlen).value ≤ 0) ∧
    (maxlen < 4 ∨ (int32_t_decode_array buf offset maxlen).value > maxlen - 4 →
      (DesiredGroupData._decodeNoHash buf offset maxlen).result = DecodeEnd.returned (-1)) := by
  by_cases h4 : maxlen < 4
  · have e : int32_t_decode_array buf offset maxlen = { ret := -1, value := 0, reads := [] } := by
      simp [int32_t_decode_array, h4]
    simp only [DesiredGroupData._decodeNoHash, e]
    simp
    omega
  · generalize hv : (if big_endian buf offset 4 < 2 ^ 31 then (big_endian buf offset 4 : Int)
        else (big_endian buf offset 4 : Int) - 2 ^ 32) = v
    have e : int32_t_decode_array buf offset maxlen =
        { ret := 4, value := v, reads := byte_range offset 4 } := by
      simp only [int32_t_decode_array, if_neg h4, hv]
    simp only [DesiredGroupData._decodeNoHash, e]
    have h0 : ¬ ((4 : Int) < 0) := by decide
    rw [if_neg h0]
    by_cases h1 : v > maxlen - 4
    · rw [if_pos h1]
      refine ⟨?_, ?_, ?_, ?_⟩
      · intro i hi
        have := (mem_byte_range offset 4 i).mp hi
        omega
      · intro n hn
        cases hn
        exact Or.inl rfl
      · simp
        omega
      · intro _; rfl
    · rw [if_neg h1]
      by_cases h2 : v - 1 < 0
      · rw [if_pos h2]
        refine ⟨?_, ?_, ?_, ?_⟩
        · intro i hi
          have := (mem_byte_range offset 4 i).mp hi
          omega
        · intro n hn
          cases hn
        · simp
          omega
        · intro h
          omega
      · rw [if_neg h2]
        refine ⟨?_, ?_, ?_, ?_⟩
        · intro i hi
          rcases List.mem_append.mp hi with hi | hi
          · have := (mem_byte_range offset 4 i).mp hi
            omega
          · have := (mem_byte_range _ _ i).mp hi
            omega
        · intro n hn
          cases hn
          exact Or.inr (by omega)
        · simp
          omega
        · intro h
          omega

/-- The outcomes of `decode`. -/
theorem DesiredGroupData.decode_spec (buf : Int → Nat) (offset maxlen : Int) :
    (∀ i ∈ (DesiredGroupData.decode buf offset maxlen).reads,
      offset ≤ i ∧ i < offset + maxlen) ∧
    (∀ n, (DesiredGroupData.decode buf offset maxlen).result = DecodeEnd.returned n →
      n = -1 ∨ (12 < n ∧ n ≤ maxlen)) ∧
    ((DesiredGroupData.decode buf offset maxlen).result = DecodeEnd.length_error ↔
      12 ≤ maxlen ∧ (int64_t_decode_array buf offset maxlen).value = DesiredGroupData.getHash ∧
        (int32_t_decode_array buf (offset + 8) (maxlen - 8)).value ≤ 0) ∧
    (maxlen < 12 ∨ (int64_t_decode_array buf offset maxlen).value ≠ DesiredGroupData.getHash ∨
        (int32_t_decode_array buf (offset + 8) (maxlen - 8)).value > maxlen - 12 →
      (DesiredGroupData.decode buf offset maxlen).result = DecodeEnd.returned (-1)) := by
  by_cases h8 : maxlen < 8
  · have e : int64_t_decode_array buf offset maxlen = { ret := -1, value := 0, reads := [] } := by
      simp [int64_t_decode_array, h8]
    simp only [DesiredGroupData.decode, e]
    simp
    omega
  · generalize hv : (if big_endian buf offset 8 < 2 ^ 63 then (big_endian buf offset 8 : Int)
        else (big_endian buf offset 8 : Int) - 2 ^ 64) = v
    have e : int64_t_decode_array buf offset maxlen =
        { ret := 8, value := v, reads := byte_range offset 8 } := by
      simp only [int64_t_decode_array, if_neg h8, hv]
    simp only [DesiredGroupData.decode, e]
    have h0 : ¬ ((8 : Int) < 0) := by decide
    rw [if_neg h0]
    by_cases h1 : v ≠ DesiredGroupData.getHash
    · rw [if_pos h1]
      refine ⟨?_, ?_, ?_, ?_⟩
      · intro i hi
        have := (mem_byte_range offset 8 i).mp hi
        omega
      · intro n hn
        cases hn
        exact Or.inl rfl
      · simp
        intro _ h
        exact absurd h h1
      · intro _; rfl
    · rw [if_neg h1]
      have h1' : v = DesiredGroupData.getHash := not_not.mp h1
      obtain ⟨a1, a2, a3, a4⟩ := DesiredGroupData._decodeNoHash_spec buf (offset + 8) (maxlen - 8)
      have hr8 : ∀ i ∈ byte_range offset 8, offset ≤ i ∧ i < offset + maxlen := by
        intro i hi
        have := (mem_byte_range offset 8 i).mp hi
        omega
      cases hd : DesiredGroupData._decodeNoHash buf (offset + 8) (maxlen - 8) with
      | mk res d r =>
        rw [hd] at a1 a2 a3 a4
        simp only at a1 a2 a3 a4
        cases res with
        | length_error =>
          simp only
          have := a3.mp rfl
          refine ⟨?_, ?_, ?_, ?_⟩
          · intro i hi
            rcases List.mem_append.mp hi with hi | hi
            · exact hr8 i hi
            · have := a1 i hi
              omega
          · intro n hn
            cases hn
          · simp only [true_iff]
            exact ⟨by omega, h1', this.2⟩
          · intro h
            rcases h with h | h | h
            · omega
            · exact absurd h1' h
            · have := a4 (Or.inr (by omega))
              cases this
        | returned thislen =>
          simp only
          have hnot : ¬ (4 ≤ maxlen - 8 ∧
              (int32_t_decode_array buf (offset + 8) (maxlen - 8)).value ≤ 0) := by
            intro h
            have := a3.mpr h
            cases this
          by_cases hneg : thislen < 0
          · rw [if_pos hneg]
            have hm1 : thislen = -1 := by
              rcases a2 thislen rfl with h | h
              · exact h
              · omega
            refine ⟨?_, ?_, ?_, ?_⟩
            · intro i hi
              rcases List.mem_append.mp hi with hi | hi
              · exact hr8 i hi
              · have := a1 i hi
                omega
            · intro n hn
              cases hn
              exact Or.inl hm1
            · constructor
              · intro h
                cases h
              · intro h
                exact absurd ⟨by omega, h.2.2⟩ hnot
            · intro _
              rw [hm1]
          · rw [if_neg hneg]
            have hpos : 4 < thislen ∧ thislen ≤ maxlen - 8 := by
              rcases a2 thislen rfl with h | h
              · omega
              · exact h
            refine ⟨?_, ?_, ?_, ?_⟩
            · intro i hi
              rcases List.mem_append.mp hi with hi | hi
              · exact hr8 i hi
              · have := a1 i hi
                omega
            · intro n hn
              cases hn
              exact Or.inr (by omega)
            · constructor
              · intro h
                cases h
              · intro h
                exact absurd ⟨by omega, h.2.2⟩ hnot
            · intro h
              rcases h with h | h | h
              · omega
              · exact absurd h1' h
              · have := a4 (Or.inr (by omega))
                cases this
                omega

/-- C27 (the code differs): for every byte buffer, offset and `maxlen`,
`DesiredGroupData::decode` reads only bytes inside `[offset, offset + maxlen)`,
and when it returns, it returns -1 or a byte count `n` with `12 < n <= maxlen`;
a wrong type hash, fewer than 12 readable bytes and a length field larger than
the remaining bytes yield -1.  It does not return at all when the hash matches
and the length field is zero or negative: the call then ends with the
`std::length_error` of `std::string::assign`, as it does for the message
`demo_message_length_zero`. -/
theorem C27_decode_raises_on_length_not_positive :
    (∀ (buf : Int → Nat) (offset maxlen : Int),
      ∀ i ∈ (DesiredGroupData.decode buf offset maxlen).reads,
        offset ≤ i ∧ i < offset + maxlen) ∧
    (∀ (buf : Int → Nat) (offset maxlen n : Int),
      (DesiredGroupData.decode buf offset maxlen).result = DecodeEnd.returned n →
      n = -1 ∨ (12 < n ∧ n ≤ maxlen)) ∧
    (∀ (buf : Int → Nat) (offset maxlen : Int),
      maxlen < 12 ∨ (int64_t_decode_array buf offset maxlen).value ≠ DesiredGroupData.getHash ∨
        (int32_t_decode_array buf (offset + 8) (maxlen - 8)).value > maxlen - 12 →
      (DesiredGroupData.decode buf offset maxlen).result = DecodeEnd.returned (-1)) ∧
    (∀ (buf : Int → Nat) (offset maxlen : Int),
      (DesiredGroupData.decode buf offset maxlen).result = DecodeEnd.length_error ↔
        12 ≤ maxlen ∧
        (int64_t_decode_array buf offset maxlen).value = DesiredGroupData.getHash ∧
        (int32_t_decode_array buf (offset + 8) (maxlen - 8)).value ≤ 0) ∧
    (int32_t_decode_array demo_message_length_zero 8 4).value = 0 ∧
    (DesiredGroupData.decode demo_message_length_zero 0 12).result = DecodeEnd.length_error :=
  ⟨fun buf offset maxlen => (DesiredGroupData.decode_spec buf offset maxlen).1,
   fun buf offset maxlen => (DesiredGroupData.decode_spec buf offset maxlen).2.1,
   fun buf offset maxlen => (DesiredGroupData.decode_spec buf offset maxlen).2.2.2,
   fun buf offset maxlen => (DesiredGroupData.decode_spec buf offset maxlen).2.2.1,
   by decide, by decide⟩

/-- C27 on the message of the group name `G1`: `decode` returns 15, the length of
the message, and on the same message with a `maxlen` of 14 it returns -1. -/
theorem C27_witness :
    (DesiredGroupData.decode demo_message_G1 0 15).result = DecodeEnd.returned 15 ∧
    ((15 : Int) = -1 ∨ ((12 : Int) < 15 ∧ (15 : Int) ≤ 15)) ∧
    (DesiredGroupData.decode demo_message_G1 0 14).result = DecodeEnd.returned (-1) :=
  ⟨by decide,
   C27_decode_raises_on_length_not_positive.2.1 demo_message_G1 0 15 15 (by decide),
   C27_decode_raises_on_length_not_positive.2.2.1 demo_message_G1 0 14
     (Or.inr (Or.inr (by decide)))⟩

/-- The members that `Transition` leaves as they are. -/
theorem Executer.Transition_frame (env : TickEnv) (e : Executer) (w : World)
    (r : Executer × World × List Event) (h : e.Transition env w = Except.ok r) :
    r.1.target_group_ = e.target_group_ ∧ r.1.target_task_set_ = e.target_task_set_ ∧
    r.1.current_task_set_ = e.current_task_set_ ∧ r.1.enter_node_set_ = e.enter_node_set_ ∧
    r.1.exit_node_set_ = e.exit_node_set_ ∧ r.1.desired_group_ = e.desired_group_ ∧
    r.1.target_node_set_ = e.target_node_set_ ∧ r.1.current_node_set_ = e.current_node_set_ := by
  unfold Executer.Transition at h
  split_ifs at h with h1 h2
  · have h3 := Executer.Transition_finish_fst env _ _ _ r h
    rw [Executer.Transition_stop_fst] at h3
    rw [h3]
    exact ⟨rfl, rfl, rfl, rfl, rfl, rfl, rfl, rfl⟩
  · cases h
    rw [Executer.Transition_stop_fst]
    exact ⟨rfl, rfl, rfl, rfl, rfl, rfl, rfl, rfl⟩
  · have h3 := (Executer.Transition_poll_fst env e w r h).1
    rw [h3]
    exact ⟨rfl, rfl, rfl, rfl, rfl, rfl, rfl, rfl⟩

theorem Executer.Subscribe_desired_group (e : Executer) (msg : Option String) :
    (e.Subscribe msg).desired_group_ = msg.getD e.desired_group_ := by
  cases msg <;> rfl

theorem Executer.Subscribe_frame (e : Executer) (msg : Option String) :
    (e.Subscribe msg).target_task_set_ = e.target_task_set_ ∧
    (e.Subscribe msg).current_task_set_ = e.current_task_set_ ∧
    (e.Subscribe msg).enter_node_set_ = e.enter_node_set_ ∧
    (e.Subscribe msg).exit_node_set_ = e.exit_node_set_ ∧
    (e.Subscribe msg).exclusive_group_set_ = e.exclusive_group_set_ := by
  cases msg <;> exact ⟨rfl, rfl, rfl, rfl, rfl⟩

/-- An activation of `Run` inside a transition: a message changes `desired_group_`
only. -/
theorem Executer.Run_in_transition (env : TickEnv) (e : Executer) (w : World)
    (r : Executer × World × List Event) (ht : e.is_transition_ = true)
    (h : e.Run env w = Except.ok r) :
    r.1.target_group_ = e.target_group_ ∧ r.1.target_task_set_ = e.target_task_set_ ∧
    r.1.current_task_set_ = e.current_task_set_ ∧ r.1.enter_node_set_ = e.enter_node_set_ ∧
    r.1.exit_node_set_ = e.exit_node_set_ ∧
    r.1.desired_group_ = env.msg.getD e.desired_group_ ∧
    (r.1.is_transition_ = true → r.1.current_group_ = e.current_group_) ∧
    (r.1.is_transition_ = false → r.1.current_group_ = e.target_group_) := by
  have hs : (e.Subscribe env.msg).is_transition_ = true := by
    rw [Executer.Subscribe_is_transition]; exact ht
  have hc := Executer.TransitionCheck_in_transition _ hs
  obtain ⟨f1, f2, f3, f4, _⟩ := Executer.Subscribe_frame e env.msg
  rcases Executer.Run_cases env e w r h with ⟨_, r', hr', rfl⟩ | ⟨h1, _⟩
  · rw [hc] at hr'
    obtain ⟨a1, a2, a3, a4, a5, a6, _, _⟩ := Executer.Transition_frame env _ w r' hr'
    have hg := Executer.Transition_groups env _ w r' hr'
    simp only [Executer.Subscribe_target_group, Executer.Subscribe_current_group,
      Executer.Subscribe_is_transition] at hg
    refine ⟨by rw [a1, Executer.Subscribe_target_group], by rw [a2, f1], by rw [a3, f2],
      by rw [a4, f3], by rw [a5, f4], by rw [a6, Executer.Subscribe_desired_group], ?_, ?_⟩
    · intro hr
      rcases hg.2 with hg | hg
      · rw [hg.2.2.2.2] at hr
        exact absurd hr (by simp)
      · exact hg.2.1
    · intro hr
      rcases hg.2 with hg | hg
      · exact hg.2.2.2.1
      · rw [hg.2.2, ht] at hr
        exact absurd hr (by simp)
  · rw [hc] at h1
    rw [hs] at h1
    exact absurd h1 (by simp)

/-- An activation of `Run` outside a transition acts on the desired group that it
finds: the one of the pending message, or else the one stored before. -/
theorem Executer.Run_considers_desired (env : TickEnv) (e : Executer) (w : World)
    (r : Executer × World × List Event) (ht : e.is_transition_ = false)
    (h : e.Run env w = Except.ok r)
    (hne : env.msg.getD e.desired_group_ ≠ e.current_group_)
    (hex : string_set.contains e.exclusive_group_set_ (env.msg.getD e.desired_group_) = true) :
    r.1.target_group_ = env.msg.getD e.desired_group_ ∧ r.1.is_transition_ = true ∧
    r.1.current_group_ = e.current_group_ := by
  have hs : (e.Subscribe env.msg).is_transition_ = false := by
    rw [Executer.Subscribe_is_transition]; exact ht
  have hd := Executer.Subscribe_desired_group e env.msg
  have hcur := Executer.Subscribe_current_group e env.msg
  obtain ⟨_, _, _, _, f5⟩ := Executer.Subscribe_frame e env.msg
  have hstart : (e.Subscribe env.msg).TransitionCheck.1.is_transition_ = true := by
    simp only [Executer.TransitionCheck, hs, hd, hcur, f5, hex]
    simp [hne]
  obtain ⟨c1, c2, c3⟩ := Executer.TransitionCheck_started _ hs hstart
  rcases Executer.Run_cases env e w r h with ⟨_, r', hr', rfl⟩ | ⟨h1, _⟩
  · have hg := Executer.Transition_groups env _ w r' hr'
    rcases hg.2 with hg2 | hg2
    · rw [c1] at hg2
      exact absurd hg2.1 (by simp)
    · refine ⟨by rw [hg.1, c3, hd], by rw [hg2.2.2, hstart], ?_⟩
      rw [hg2.2.1, Executer.TransitionCheck_current_group, hcur]
  · rw [hstart] at h1
    exact absurd h1 (by simp)

/-- A run of activations that starts inside a transition: up to and including
the first activation that ends outside the transition, the members captured
at the start of the transition are kept. -/
theorem Executer.Loop_in_transition (envs : List TickEnv) :
    ∀ (e : Executer) (w : World) (rs : List (Executer × World × List Event)),
    e.is_transition_ = true → Executer.Loop envs e w = Except.ok rs →
    ∀ pre r post, rs = pre ++ r :: post → (∀ x ∈ pre, x.1.is_transition_ = true) →
      r.1.target_group_ = e.target_group_ ∧ r.1.target_task_set_ = e.target_task_set_ ∧
      r.1.current_task_set_ = e.current_task_set_ ∧ r.1.enter_node_set_ = e.enter_node_set_ ∧
      r.1.exit_node_set_ = e.exit_node_set_ ∧
      (r.1.is_transition_ = true → r.1.current_group_ = e.current_group_) ∧
      (r.1.is_transition_ = false → r.1.current_group_ = e.target_group_) := by
  induction envs with
  | nil =>
    intro e w rs _ h pre r post hsplit _
    cases h
    simp at hsplit
  | cons env rest ih =>
    intro e w rs ht h pre r post hsplit hpre
    unfold Executer.Loop at h
    split at h
    · exact Except.noConfusion h
    · rename_i r1 hr1
      split at h
      · exact Except.noConfusion h
      · rename_i rs1 hrs1
        cases h
        obtain ⟨a1, a2, a3, a4, a5, _, a7, a8⟩ := Executer.Run_in_transition env e _ r1 ht hr1
        cases pre with
        | nil =>
          simp only [List.nil_append, List.cons.injEq] at hsplit
          rw [← hsplit.1]
          exact ⟨a1, a2, a3, a4, a5, a7, a8⟩
        | cons x pre' =>
          simp only [List.cons_append, List.cons.injEq] at hsplit
          have hx : r1.1.is_transition_ = true := by
            rw [hsplit.1]
            exact hpre x (List.mem_cons_self _ _)
          obtain ⟨b1, b2, b3, b4, b5, b6, b7⟩ := ih r1.1 r1.2.1 rs1 hx hrs1 pre' r post hsplit.2
            (fun y hy => hpre y (List.mem_cons_of_mem _ hy))
          refine ⟨by rw [b1, a1], by rw [b2, a2], by rw [b3, a3], by rw [b4, a4],
            by rw [b5, a5], ?_, ?_⟩
          · intro hr
            rw [b6 hr, a7 hx]
          · intro hr
            rw [b7 hr, a1]

/-- C28: (1) an activation of `Run` that starts while a transition is in progress
leaves `target_group_`, `target_task_set_`, `current_task_set_`,
`enter_node_set_` and `exit_node_set_` as they are, whatever the message it
receives; the message only replaces `desired_group_`; `current_group_` is kept
while the transition goes on and becomes `target_group_` when it completes.
(2) Along the activations from the start of a transition up to the first one
that ends outside of it, these five members keep the values captured at the
start, and the transition completes with `current_group_` equal to the target
captured then.  (3) An activation that starts outside a transition acts on the
desired group it finds, the one of the pending message or else the one stored
last: when that group is an exclusive group other than the current one, it
becomes the target of a new transition. -/
theorem C28_transition_keeps_captured_target :
    (∀ (env : TickEnv) (e : Executer) (w : World) (r : Executer × World × List Event),
      e.is_transition_ = true → e.Run env w = Except.ok r →
      r.1.target_group_ = e.target_group_ ∧ r.1.target_task_set_ = e.target_task_set_ ∧
      r.1.current_task_set_ = e.current_task_set_ ∧ r.1.enter_node_set_ = e.enter_node_set_ ∧
      r.1.exit_node_set_ = e.exit_node_set_ ∧
      r.1.desired_group_ = env.msg.getD e.desired_group_ ∧
      (r.1.is_transition_ = true → r.1.current_group_ = e.current_group_) ∧
      (r.1.is_transition_ = false → r.1.current_group_ = e.target_group_)) ∧
    (∀ (envs : List TickEnv) (e : Executer) (w : World)
        (rs : List (Executer × World × List Event)),
      e.is_transition_ = true → Executer.Loop envs e w = Except.ok rs →
      ∀ pre r post, rs = pre ++ r :: post → (∀ x ∈ pre, x.1.is_transition_ = true) →
        r.1.target_group_ = e.target_group_ ∧ r.1.target_task_set_ = e.target_task_set_ ∧
        r.1.current_task_set_ = e.current_task_set_ ∧
        r.1.enter_node_set_ = e.enter_node_set_ ∧ r.1.exit_node_set_ = e.exit_node_set_ ∧
        (r.1.is_transition_ = true → r.1.current_group_ = e.current_group_) ∧
        (r.1.is_transition_ = false → r.1.current_group_ = e.target_group_)) ∧
    (∀ (env : TickEnv) (e : Executer) (w : World) (r : Executer × World × List Event),
      e.is_transition_ = false → e.Run env w = Except.ok r →
      env.msg.getD e.desired_group_ ≠ e.current_group_ →
      string_set.contains e.exclusive_group_set_ (env.msg.getD e.desired_group_) = true →
      r.1.target_group_ = env.msg.getD e.desired_group_ ∧ r.1.is_transition_ = true ∧
      r.1.current_group_ = e.current_group_) :=
  ⟨fun env e w r => Executer.Run_in_transition env e w r,
   fun envs => Executer.Loop_in_transition envs,
   fun env e w r => Executer.Run_considers_desired env e w r⟩

/-- C28 on an activation that receives the message `G1` while the transition from
`G1` to `G2` is in progress: the message is stored, and the target stays `G2`. -/
theorem C28_witness :
    demo_g2_polled.1.is_transition_ = true ∧ demo_g2_polled.1.target_group_ = "G2" ∧
    demo_g2_redirected.1.desired_group_ = "G1" ∧
    demo_g2_redirected.1.target_group_ = demo_g2_polled.1.target_group_ ∧
    demo_g2_redirected.1.target_task_set_ = demo_g2_polled.1.target_task_set_ :=
  ⟨by decide, by decide, by decide,
   (C28_transition_keeps_captured_target.1 (demo_env (some "G1")) demo_g2_polled.1
      (demo_threads demo_g2_polled.2.1) demo_g2_redirected (by decide)
      (got_eq _ demo_g2_polled (by decide))).1,
   (C28_transition_keeps_captured_target.1 (demo_env (some "G1")) demo_g2_polled.1
      (demo_threads demo_g2_polled.2.1) demo_g2_redirected (by decide)
      (got_eq _ demo_g2_polled (by decide))).2.1⟩

theorem unordered_map.assign_mem {α : Type} (m : List (String × α)) (k : String) (x : α) :
    (k, x) ∈ unordered_map.assign m k x := by
  induction m with
  | nil => simp [unordered_map.assign]
  | cons a m ih =>
    obtain ⟨ka, va⟩ := a
    simp only [unordered_map.assign]
    by_cases hk : ka = k
    · rw [if_pos hk, hk]
      exact List.mem_cons_self _ _
    · rw [if_neg hk]
      exact List.mem_cons_of_mem _ ih

/-- The pointers that `CreateTask` collects for a task are registered under the
configured node names. -/
theorem Executer.CreateTask_nodes_registered (node_map : NodeMap) (l : List NodeConfig) :
    ∀ ps, Executer.CreateTask_nodes node_map l = Except.ok ps →
    ∀ p ∈ ps, ∃ c ∈ l, unordered_map.find node_map.node_map_ c.node_name = some p := by
  induction l with
  | nil =>
    intro ps h p hp
    cases h
    simp at hp
  | cons c rest ih =>
    intro ps h p hp
    unfold Executer.CreateTask_nodes at h
    cases hg : node_map.GetNodePtr c.node_name with
    | error f => rw [hg] at h; exact Except.noConfusion h
    | ok q =>
      rw [hg] at h
      simp only at h
      cases hr : Executer.CreateTask_nodes node_map rest with
      | error f => rw [hr] at h; exact Except.noConfusion h
      | ok qs =>
        rw [hr] at h
        cases h
        rcases List.mem_cons.mp hp with hp | hp
        · refine ⟨c, List.mem_cons_self _ _, ?_⟩
          unfold NodeMap.GetNodePtr at hg
          cases hf : unordered_map.find node_map.node_map_ c.node_name with
          | none => rw [hf] at hg; exact Except.noConfusion hg
          | some q' =>
            rw [hf] at hg
            cases hg
            rw [hp]
        · obtain ⟨c', hc', h'⟩ := ih qs hr p hp
          exact ⟨c', List.mem_cons_of_mem _ hc', h'⟩

/-- The init flags of the task objects built by one outer loop of `CreateTask`,
when every node is registered under its own name: each node of a task has a
flag in the task. -/
theorem Executer.CreateTask_group_flags (node_map : NodeMap) (address : String → TaskPtr)
    (hinj : ∀ a b, address a = address b → a = b) (nodes0 : NodePtr → NodeBase)
    (hown : ∀ k p, unordered_map.find node_map.node_map_ k = some p →
      (nodes0 p).node_name_ = k)
    (l : List (String × TaskSetting)) :
    ∀ (s r : List (String × Task) × World × List Event),
    Executer.CreateTask_group node_map address l s = Except.ok r →
    (s.1.map Prod.fst).Nodup → (∀ x ∈ s.1, x.2.self = address x.1) →
    s.2.1.nodes = nodes0 →
    (∀ x ∈ s.1, ∀ p ∈ x.2.node_list_,
      ∃ b, unordered_map.find (s.2.1.tasks x.2.self).node_init_flag_ (nodes0 p).node_name_ =
        some b) →
    r.2.1.nodes = nodes0 ∧
    (∀ tp, (∀ k, tp ≠ address k) → r.2.1.tasks tp = s.2.1.tasks tp) ∧
    (∀ x ∈ r.1, ∀ p ∈ x.2.node_list_,
      ∃ b, unordered_map.find (r.2.1.tasks x.2.self).node_init_flag_ (nodes0 p).node_name_ =
        some b) := by
  induction l with
  | nil =>
    intro s r h _ _ h3 h4
    cases h
    exact ⟨h3, fun _ _ => rfl, h4⟩
  | cons c rest ih =>
    intro s r h h1 h2 h3 h4
    unfold Executer.CreateTask_group at h
    cases hn : Executer.CreateTask_nodes node_map c.2.node_list with
    | error f => rw [hn] at h; exact Except.noConfusion h
    | ok ps =>
      rw [hn] at h
      simp only at h
      have hnd := unordered_map.nodup_keys_assign s.1 c.2.task_name
        (Task.ctor (address c.2.task_name) c.2 ps).1 h1
      obtain ⟨i1, i2, i3⟩ := ih _ r h hnd
        (by
          intro x hx
          rcases unordered_map.mem_assign _ _ _ x hx with hx | hx
          · exact h2 x hx
          · rw [hx]; rfl)
        h3
        (by
          intro x hx p hp
          by_cases hk : x.1 = c.2.task_name
          · have hx' : x = (c.2.task_name, (Task.ctor (address c.2.task_name) c.2 ps).1) :=
              List.inj_on_of_nodup_map hnd hx (unordered_map.assign_mem _ _ _) hk
            rw [hx'] at hp ⊢
            simp only [Task.ctor, Function.update_same] at hp ⊢
            obtain ⟨cfg, hcfg, hfind⟩ := Executer.CreateTask_nodes_registered node_map _ ps hn p hp
            rw [hown _ _ hfind, Task.init_flags_spec]
            rw [if_pos (List.mem_map.mpr ⟨cfg, hcfg, rfl⟩)]
            exact ⟨false, rfl⟩
          · have hx' : x ∈ s.1 := by
              rcases unordered_map.mem_assign _ _ _ x hx with hx | hx
              · exact hx
              · rw [hx] at hk
                exact absurd rfl hk
            have hne : x.2.self ≠ (Task.ctor (address c.2.task_name) c.2 ps).1.self := by
              rw [h2 x hx']
              intro he
              exact hk (hinj _ _ he)
            simp only [Function.update_noteq hne]
            exact h4 x hx' p hp)
      refine ⟨i1, ?_, i3⟩
      intro tp htp
      rw [i2 tp htp]
      have hne : tp ≠ (Task.ctor (address c.2.task_name) c.2 ps).1.self := htp c.2.task_name
      simp only [Function.update_noteq hne]

/-- The init flags of the task objects built by `CreateTask` on a fresh executer,
when every node is registered under its own name. -/
theorem Executer.CreateTask_flags (cfg : ExecuterConfig) (node_map : NodeMap) (w : World)
    (r : Executer × World × List Event)
    (hc : (Executer.ctor cfg node_map).CreateTask w = Except.ok r)
    (hown : ∀ k p, unordered_map.find node_map.node_map_ k = some p →
      (w.nodes p).node_name_ = k) :
    r.2.1.nodes = w.nodes ∧
    ∀ x ∈ r.1.resident_group_task_list_ ++ r.1.standby_group_task_list_,
      ∀ p ∈ x.2.node_list_,
        ∃ b, unordered_map.find (r.2.1.tasks x.2.self).node_init_flag_
          (w.nodes p).node_name_ = some b := by
  unfold Executer.CreateTask at hc
  cases h1 : Executer.CreateTask_group (Executer.ctor cfg node_map).node_map_ TaskPtr.resident
      (Executer.ctor cfg node_map).executer_config_.task_list.resident_group
      ((Executer.ctor cfg node_map).resident_group_task_list_, w, []) with
  | error f => rw [h1] at hc; exact Except.noConfusion hc
  | ok r1 =>
    rw [h1] at hc
    simp only at hc
    cases h2 : Executer.CreateTask_group (Executer.ctor cfg node_map).node_map_ TaskPtr.standby
        (Executer.ctor cfg node_map).executer_config_.task_list.standby_group
        ((Executer.ctor cfg node_map).standby_group_task_list_, r1.2.1, r1.2.2) with
    | error f => rw [h2] at hc; exact Except.noConfusion hc
    | ok r2 =>
      rw [h2] at hc
      simp only at hc
      cases hc
      have hs1 := Executer.CreateTask_group_spec _ _ _ _ r1 h1 (by simp [Executer.ctor])
        (by simp [Executer.ctor])
      obtain ⟨a1, _, a3⟩ := Executer.CreateTask_group_flags node_map TaskPtr.resident
        (fun a b h => by cases h; rfl) w.nodes hown _ _ r1 h1 (by simp [Executer.ctor])
        (by simp [Executer.ctor]) rfl (by simp [Executer.ctor])
      obtain ⟨b1, b2, b3⟩ := Executer.CreateTask_group_flags node_map TaskPtr.standby
        (fun a b h => by cases h; rfl) w.nodes hown _ _ r2 h2 (by simp [Executer.ctor])
        (by simp [Executer.ctor]) a1 (by simp [Executer.ctor])
      refine ⟨b1, ?_⟩
      intro x hx p hp
      rcases List.mem_append.mp hx with hx | hx
      · have hself := (hs1.2 x hx).1
        rw [b2 x.2.self (by rw [hself]; intro k hk; cases hk)]
        exact a3 x hx p hp
      · exact b3 x hx p hp

/-- A call on a task whose nodes have init flags returns; it keeps the node names
and the names that have an init flag in each task. -/
theorem TaskCall.apply_keeps_flags (c : TaskCall) (w : World)
    (hflag : ∀ p ∈ c.task.node_list_,
      ∃ b, unordered_map.find (w.tasks c.task.self).node_init_flag_ (w.nodes p).node_name_ =
        some b) :
    ∃ w1 evs, c.apply w = Except.ok (w1, evs) ∧
      (∀ p, (w1.nodes p).node_name_ = (w.nodes p).node_name_) ∧
      (∀ tp k, (∃ b, unordered_map.find (w1.tasks tp).node_init_flag_ k = some b) ↔
        (∃ b, unordered_map.find (w.tasks tp).node_init_flag_ k = some b)) := by
  cases c with
  | Run t =>
    obtain ⟨v', nodes', hrun, a1, _, a3, a4⟩ :=
      Task.Run_spec t (w.tasks t.self) w.nodes hflag
    have hkeys : ∀ k, (∃ b, unordered_map.find v'.node_init_flag_ k = some b) ↔
        (∃ b, unordered_map.find (w.tasks t.self).node_init_flag_ k = some b) := by
      intro k
      by_cases hk : k ∈ t.node_list_.map (fun p => (w.nodes p).node_name_)
      · rw [a3 k hk]
        obtain ⟨p, hp, hpk⟩ := List.mem_map.mp hk
        have := hflag p hp
        rw [hpk] at this
        exact ⟨fun _ => this, fun _ => ⟨false, rfl⟩⟩
      · rw [a4 k hk]
    refine ⟨{ nodes := nodes', tasks := Function.update w.tasks t.self v' },
      spec_run_calls (w.tasks t.self) w.nodes [] t.node_list_, ?_, a1, ?_⟩
    · simp only [TaskCall.apply, hrun]
    · intro tp k
      by_cases htp : tp = t.self
      · subst htp
        simp only [Function.update_same]
        exact hkeys k
      · simp only [Function.update_noteq htp]
  | Init t =>
    refine ⟨_, [], rfl, fun _ => rfl, ?_⟩
    intro tp k
    by_cases htp : tp = t.self
    · subst htp
      simp only [Function.update_same, Task.Init, unordered_map.find_map_true]
      cases unordered_map.find (w.tasks t.self).node_init_flag_ k <;> simp
    · simp only [Function.update_noteq htp]
  | Init_subset t names =>
    refine ⟨_, [], rfl, fun _ => rfl, ?_⟩
    intro tp k
    by_cases htp : tp = t.self
    · subst htp
      simp only [Function.update_same]
      rw [(Task.Init_subset_spec (w.tasks t.self) names).1 k]
      cases unordered_map.find (w.tasks t.self).node_init_flag_ k <;> simp
    · simp only [Function.update_noteq htp]

/-- A sequence of calls on tasks whose nodes have init flags: every call returns. -/
theorem Task.calls_return (calls : List TaskCall) :
    ∀ w : World,
    (∀ c ∈ calls, ∀ p ∈ c.task.node_list_,
      ∃ b, unordered_map.find (w.tasks c.task.self).node_init_flag_ (w.nodes p).node_name_ =
        some b) →
    ∃ out, Task.calls calls w = Except.ok out ∧ out.2.map Prod.fst = calls := by
  induction calls with
  | nil =>
    intro w _
    exact ⟨_, rfl, rfl⟩
  | cons c rest ih =>
    intro w h
    obtain ⟨w1, evs, h1, h2, h3⟩ :=
      TaskCall.apply_keeps_flags c w (h c (List.mem_cons_self _ _))
    obtain ⟨out, h4, h5⟩ := ih w1 (by
      intro c' hc' p hp
      rw [h2 p, h3]
      exact h c' (List.mem_cons_of_mem _ hc') p hp)
    refine ⟨(out.1, (c, evs) :: out.2), ?_, ?_⟩
    · simp only [Task.calls, h1, h4]
    · simp [h5]

/-- C30: let `CreateTask` succeed on a freshly constructed executer, so that every
configured node name is in the node map, and let each node be registered in
the map under its own name.  (1) Each node of each task object that was built
has an init flag in the task under its own name, and an activation of `Run` of
the task returns: no lookup of an init flag fails.  (2) The same holds later
on: every sequence of activations of `Run` and of init requests on the tasks
that were built, made one after another from the state left by `CreateTask`,
returns. -/
theorem C30_init_flag_lookup_succeeds (cfg : ExecuterConfig) (node_map : NodeMap) (w : World)
    (r : Executer × World × List Event)
    (hc : (Executer.ctor cfg node_map).CreateTask w = Except.ok r)
    (hown : ∀ k p, unordered_map.find node_map.node_map_ k = some p →
      (w.nodes p).node_name_ = k) :
    (∀ x ∈ r.1.resident_group_task_list_ ++ r.1.standby_group_task_list_,
      (∀ p ∈ x.2.node_list_,
        ∃ b, unordered_map.find (r.2.1.tasks x.2.self).node_init_flag_
          (r.2.1.nodes p).node_name_ = some b) ∧
      ∃ out, x.2.Run (r.2.1.tasks x.2.self) r.2.1.nodes = Except.ok out) ∧
    (∀ calls : List TaskCall,
      (∀ c ∈ calls, ∃ x ∈ r.1.resident_group_task_list_ ++ r.1.standby_group_task_list_,
        c.task = x.2) →
      ∃ out, Task.calls calls r.2.1 = Except.ok out ∧ out.2.map Prod.fst = calls) := by
  obtain ⟨hn, hf⟩ := Executer.CreateTask_flags cfg node_map w r hc hown
  have hf' : ∀ x ∈ r.1.resident_group_task_list_ ++ r.1.standby_group_task_list_,
      ∀ p ∈ x.2.node_list_,
        ∃ b, unordered_map.find (r.2.1.tasks x.2.self).node_init_flag_
          (r.2.1.nodes p).node_name_ = some b := by
    intro x hx p hp
    rw [hn]
    exact hf x hx p hp
  constructor
  · intro x hx
    refine ⟨hf' x hx, ?_⟩
    obtain ⟨v', nodes', hrun, _⟩ := Task.Run_spec x.2 _ _ (hf' x hx)
    exact ⟨_, hrun⟩
  · intro calls hcalls
    refine Task.calls_return calls r.2.1 ?_
    intro c hcm p hp
    obtain ⟨x, hx, hcx⟩ := hcalls c hcm
    rw [hcx] at hp ⊢
    exact hf' x hx p hp

/-- In `demo_world`, the nodes of `demo_node_map` are registered under their own
names. -/
theorem demo_node_map_own_names :
    ∀ k p, unordered_map.find demo_node_map.node_map_ k = some p →
      ((demo_world ["A", "B", "C", "D"]).nodes p).node_name_ = k := by
  intro k p h
  have e : demo_node_map.node_map_ = [("A", 0), ("B", 1), ("C", 2), ("D", 3)] := by decide
  rw [e] at h
  simp only [unordered_map.find] at h
  split_ifs at h with h1 h2 h3 h4 <;> cases h <;> subst_vars <;> rfl

/-- C30 on `demo_config`: `Run` returns for each of the three tasks built by
`CreateTask`. -/
theorem C30_witness :
    (∀ k p, unordered_map.find demo_node_map.node_map_ k = some p →
      ((demo_world ["A", "B", "C", "D"]).nodes p).node_name_ = k) ∧
    (demo_boot.1.resident_group_task_list_ ++ demo_boot.1.standby_group_task_list_).map
      Prod.fst = ["R", "T1", "T2"] ∧
    ∀ x ∈ demo_boot.1.resident_group_task_list_ ++ demo_boot.1.standby_group_task_list_,
      ∃ out, x.2.Run (demo_boot.2.1.tasks x.2.self) demo_boot.2.1.nodes = Except.ok out :=
  ⟨demo_node_map_own_names, by decide,
   fun x hx =>
     ((C30_init_flag_lookup_succeeds demo_config demo_node_map (demo_world ["A", "B", "C", "D"])
       demo_boot (got_eq _ _ (by decide)) demo_node_map_own_names).1 x hx).2⟩

/-- A task that the body of a start loop leaves waiting is still waiting after a
pass; `Q` is a property of the heap that the other threads and the body keep. -/
theorem Executer.start_sweep_waiting (others : Nat → World → World)
    (body : Task → StartState → Except Fault (Option StartState)) (Q : World → Prop)
    (hothers : ∀ k w, Q w → Q (others k w))
    (hbody : ∀ (u : Task) (s s' : StartState), Q s.w → body u s = Except.ok (some s') → Q s'.w)
    (t : Task) (hstall : ∀ s o, Q s.w → body t s = Except.ok o → o = none)
    (list : List (Bool × Task)) (hmem : (false, t) ∈ list)
    (c : Nat) (ws : List String) (s : StartState)
    (r : List (Bool × Task) × Nat × List String × StartState)
    (h : Executer.start_sweep others body list (c, ws, s) = Except.ok r) (hq : Q s.w) :
    (false, t) ∈ r.1 ∧ Q r.2.2.2.w := by
  have hq' : Q r.2.2.2.w :=
    Executer.start_sweep_preserves others body Q hothers list
      (fun x _ s s' => hbody x.2 s s') c ws s r h hq
  refine ⟨?_, hq'⟩
  obtain ⟨pre, rest, hl⟩ := List.append_of_mem hmem
  subst hl
  obtain ⟨r1, h1, _, hf⟩ := Executer.start_sweep_at others body (false, t) rest pre c ws s r h
  obtain ⟨o, ho, hidx⟩ := hf rfl
  have hq1 : Q r1.2.2.2.w :=
    Executer.start_sweep_preserves others body Q hothers pre
      (fun x _ s s' => hbody x.2 s s') c ws s r1 h1 hq
  have hnone := hstall _ o (hothers r1.2.1 _ hq1) ho
  rw [hnone] at hidx
  exact List.getElem?_mem hidx

/-- The tasks of a wait list that are not started yet. -/
theorem Executer.mem_unstarted (l : List (Bool × Task)) (t : Task) :
    t ∈ (l.filter (fun x => !x.1)).map Prod.snd ↔ (false, t) ∈ l := by
  simp only [List.mem_map, List.mem_filter]
  constructor
  · rintro ⟨x, ⟨hx, hx1⟩, rfl⟩
    have : x.1 = false := by simpa using hx1
    have e : x = (false, x.2) := by rw [← this]
    rw [← e]
    exact hx
  · intro h
    exact ⟨(false, t), ⟨h, rfl⟩, rfl⟩

/-- A pass of a start loop in which a task is left waiting: the loop invariant is
kept, the waiting task is not among the tasks started, and the calls made are
those of the starts. -/
theorem Executer.start_sweep_waiting_spec (others : Nat → World → World)
    (body : Task → StartState → Except Fault (Option StartState)) (f : Task → List Event)
    (hf : ∀ t s s', body t s = Except.ok (some s') → s'.evs = s.evs ++ f t)
    (Q : World → Prop) (hothers : ∀ k w, Q w → Q (others k w))
    (hbody : ∀ (u : Task) (s s' : StartState), Q s.w → body u s = Except.ok (some s') → Q s'.w)
    (t : Task) (hstall : ∀ s o, Q s.w → body t s = Except.ok o → o = none)
    (list : List (Bool × Task)) (c : Nat) (ws : List String) (s : StartState)
    (r : List (Bool × Task) × Nat × List String × StartState)
    (h : Executer.start_sweep others body list (c, ws, s) = Except.ok r)
    (hm : Executer.wait_set_matches list ws)
    (hnd : (list.map (fun x => x.2.GetTaskName)).Nodup)
    (hmem : (false, t) ∈ list) (hq : Q s.w) :
    Executer.wait_set_matches r.1 r.2.2.1 ∧
    (r.1.map (fun x => x.2.GetTaskName)).Nodup ∧
    (false, t) ∈ r.1 ∧ Q r.2.2.2.w ∧
    ∃ started : List Task, r.2.2.2.evs = s.evs ++ started.flatMap f ∧ t ∉ started ∧
      (∀ u ∈ started, (false, u) ∈ list) ∧ (∀ u, (false, u) ∈ r.1 → (false, u) ∈ list) := by
  obtain ⟨w1, w2⟩ := Executer.start_sweep_waiting others body Q hothers hbody t hstall list hmem
    c ws s r h hq
  obtain ⟨started, i1, i2, i3, i4⟩ := Executer.start_sweep_spec others body f hf list c ws s r h
  have hm' := Executer.wait_set_matches_step list r.1 ws r.2.2.1 started hnd i3 i4 hm
  have hnd' : (r.1.map (fun x => x.2.GetTaskName)).Nodup := by
    have e : r.1.map (fun x => x.2.GetTaskName) = (r.1.map Prod.snd).map Task.GetTaskName := by
      rw [List.map_map]; rfl
    have e' : list.map (fun x => x.2.GetTaskName) =
        (list.map Prod.snd).map Task.GetTaskName := by
      rw [List.map_map]; rfl
    rw [e, i2, ← e']
    exact hnd
  have hun : ((list.filter (fun x => !x.1)).map Prod.snd).Nodup := by
    have h1 : List.Sublist (((list.filter (fun x => !x.1)).map Prod.snd).map Task.GetTaskName)
        (list.map (fun x => x.2.GetTaskName)) := by
      rw [List.map_map]
      exact List.Sublist.map _ (List.filter_sublist _)
    exact List.Nodup.of_map _ (List.Nodup.sublist h1 hnd)
  have hnd2 : (started ++ (r.1.filter (fun x => !x.1)).map Prod.snd).Nodup :=
    (List.Perm.nodup_iff i3).mp hun
  refine ⟨hm', hnd', w1, w2, started, i1, ?_, ?_, ?_⟩
  · intro hts
    have := (List.nodup_append.mp hnd2).2.2
    exact this hts ((Executer.mem_unstarted r.1 t).mpr w1)
  · intro u hu
    exact (Executer.mem_unstarted list u).mp (i3.mem_iff.mpr (List.mem_append_left _ hu))
  · intro u hu
    exact (Executer.mem_unstarted list u).mp
      (i3.mem_iff.mpr (List.mem_append_right _ ((Executer.mem_unstarted r.1 u).mpr hu)))

/-- A start loop in which a task is left waiting does not return, whatever the
number of passes. -/
theorem Executer.start_loop_waiting (others : Nat → World → World)
    (body : Task → StartState → Except Fault (Option StartState)) (f : Task → List Event)
    (hf : ∀ t s s', body t s = Except.ok (some s') → s'.evs = s.evs ++ f t)
    (Q : World → Prop) (hothers : ∀ k w, Q w → Q (others k w))
    (hbody : ∀ (u : Task) (s s' : StartState), Q s.w → body u s = Except.ok (some s') → Q s'.w)
    (t : Task) (hstall : ∀ s o, Q s.w → body t s = Except.ok o → o = none) (fuel : Nat) :
    ∀ (list : List (Bool × Task)) (c : Nat) (ws : List String) (s : StartState),
    Executer.wait_set_matches list ws → (list.map (fun x => x.2.GetTaskName)).Nodup →
    (false, t) ∈ list → Q s.w →
    failed (Executer.start_loop others body fuel list (c, ws, s)) = true := by
  induction fuel with
  | zero =>
    intro list c ws s hm _ hmem _
    have he : ¬ ws.isEmpty = true := by
      intro he
      have := (Executer.wait_set_empty_iff list ws hm).mp he _ hmem
      exact Bool.noConfusion this
    unfold Executer.start_loop
    simp only [he, if_false]
    rfl
  | succ n ih =>
    intro list c ws s hm hnd hmem hq
    have he : ¬ ws.isEmpty = true := by
      intro he
      have := (Executer.wait_set_empty_iff list ws hm).mp he _ hmem
      exact Bool.noConfusion this
    unfold Executer.start_loop
    simp only [he, if_false]
    cases h1 : Executer.start_sweep others body list (c, ws, s) with
    | error e => rfl
    | ok r1 =>
      simp only
      obtain ⟨a1, a2, a3, a4, _⟩ := Executer.start_sweep_waiting_spec others body f hf Q hothers
        hbody t hstall list c ws s r1 h1 hm hnd hmem hq
      exact ih r1.1 r1.2.1 r1.2.2.1 r1.2.2.2 a1 a2 a3 a4

/-- The passes of a start loop in which a task is left waiting: after any number
of passes the task is still waiting, the wait set is not empty, and the calls
made so far are those of the starts of other tasks. -/
theorem Executer.start_passes_waiting (others : Nat → World → World)
    (body : Task → StartState → Except Fault (Option StartState)) (f : Task → List Event)
    (hf : ∀ t s s', body t s = Except.ok (some s') → s'.evs = s.evs ++ f t)
    (Q : World → Prop) (hothers : ∀ k w, Q w → Q (others k w))
    (hbody : ∀ (u : Task) (s s' : StartState), Q s.w → body u s = Except.ok (some s') → Q s'.w)
    (t : Task) (hstall : ∀ s o, Q s.w → body t s = Except.ok o → o = none) (n : Nat) :
    ∀ (list : List (Bool × Task)) (c : Nat) (ws : List String) (s : StartState)
      (r : List (Bool × Task) × Nat × List String × StartState),
    Executer.start_passes others body n list (c, ws, s) = Except.ok r →
    Executer.wait_set_matches list ws → (list.map (fun x => x.2.GetTaskName)).Nodup →
    (false, t) ∈ list → Q s.w →
    (false, t) ∈ r.1 ∧ r.2.2.1.isEmpty = false ∧
    ∃ started : List Task, r.2.2.2.evs = s.evs ++ started.flatMap f ∧ t ∉ started ∧
      ∀ u ∈ started, (false, u) ∈ list := by
  induction n with
  | zero =>
    intro list c ws s r h hm _ hmem _
    have he : ¬ ws.isEmpty = true := by
      intro he
      have := (Executer.wait_set_empty_iff list ws hm).mp he _ hmem
      exact Bool.noConfusion this
    unfold Executer.start_passes at h
    cases h
    exact ⟨hmem, by simpa using he, [], by simp, by simp, by simp⟩
  | succ n ih =>
    intro list c ws s r h hm hnd hmem hq
    have he : ¬ ws.isEmpty = true := by
      intro he
      have := (Executer.wait_set_empty_iff list ws hm).mp he _ hmem
      exact Bool.noConfusion this
    unfold Executer.start_passes at h
    simp only [he, if_false] at h
    cases h1 : Executer.start_sweep others body list (c, ws, s) with
    | error e => rw [h1] at h; exact Except.noConfusion h
    | ok r1 =>
      rw [h1] at h
      simp only at h
      obtain ⟨a1, a2, a3, a4, started1, a5, a6, a7, a8⟩ :=
        Executer.start_sweep_waiting_spec others body f hf Q hothers
          hbody t hstall list c ws s r1 h1 hm hnd hmem hq
      obtain ⟨b1, b2, started2, b3, b4, b5⟩ :=
        ih r1.1 r1.2.1 r1.2.2.1 r1.2.2.2 r h a1 a2 a3 a4
      refine ⟨b1, b2, started1 ++ started2, ?_, ?_, ?_⟩
      · rw [b3, a5, List.flatMap_append, List.append_assoc]
      · intro hmem'
        rcases List.mem_append.mp hmem' with h' | h'
        · exact a6 h'
        · exact b4 h'
      · intro u hu
        rcases List.mem_append.mp hu with h' | h'
        · exact a7 u h'
        · exact a8 u (b5 u h')

/-- A pass of a start loop that starts no task makes no call and writes no log
line. -/
theorem Executer.start_sweep_idle (others : Nat → World → World)
    (body : Task → StartState → Except Fault (Option StartState)) (f : Task → List Event)
    (hf : ∀ t s s', body t s = Except.ok (some s') → s'.evs = s.evs ++ f t)
    (list : List (Bool × Task)) (c : Nat) (ws : List String) (s : StartState)
    (r : List (Bool × Task) × Nat × List String × StartState)
    (h : Executer.start_sweep others body list (c, ws, s) = Except.ok r) (hsame : r.1 = list) :
    r.2.2.2.evs = s.evs := by
  obtain ⟨started, i1, _, i3, _⟩ := Executer.start_sweep_spec others body f hf list c ws s r h
  have hlen := i3.length_eq
  rw [hsame, List.length_append] at hlen
  have h0 : started = [] := List.length_eq_zero.mp (by omega)
  rw [i1, h0]
  simp

/-- The body of the start loop of `Transition` leaves a task waiting whose
`pre_node` list names a registered node that is not RUNNING. -/
theorem Executer.Transition_start_waits (e : Executer) (t : Task) (n : String)
    (hn : n ∈ (e.target_task_setting t.GetTaskName).pre_node) (p : NodePtr)
    (hp : e.node_map_.GetNodePtr n = Except.ok p) (s : StartState) (o : Option StartState)
    (hq : (s.w.nodes p).state_ ≠ NodeState.RUNNING)
    (h : e.Transition_start t s = Except.ok o) : o = none := by
  obtain ⟨h1, _⟩ := Executer.Transition_start_spec e t s o h
  cases o with
  | none => rfl
  | some s' =>
    have := h1.mp rfl
    rcases this with h2 | h2
    · rw [h2] at hn
      simp at hn
    · obtain ⟨q, hq1, hq2⟩ := h2 n hn
      rw [hp] at hq1
      cases hq1
      exact absurd hq2 hq

/-- The settings that the start loop of `Transition` looks up depend on the
configuration and the target group only. -/
theorem Executer.target_task_setting_congr (e e' : Executer)
    (h1 : e'.executer_config_ = e.executer_config_) (h2 : e'.target_group_ = e.target_group_)
    (task_name : String) :
    e'.target_task_setting task_name = e.target_task_setting task_name := by
  unfold Executer.target_task_setting
  rw [h1, h2]

/-- The body of the start loop of `Transition` does not write to a node. -/
theorem Executer.Transition_start_nodes (e : Executer) (u : Task) (s s' : StartState)
    (h : e.Transition_start u s = Except.ok (some s')) : s'.w.nodes = s.w.nodes :=
  ((Executer.Transition_start_spec e u s (some s') h).2 s' rfl).2.1

/-- The exit loop does not make a node RUNNING. -/
theorem Executer.exit_nodes_not_running (node_map : NodeMap) (names : List String) (w : World)
    (r : World × List Event) (h : Executer.exit_nodes node_map names w = Except.ok r)
    (p : NodePtr) (hw : (w.nodes p).state_ ≠ NodeState.RUNNING) :
    (r.1.nodes p).state_ ≠ NodeState.RUNNING := by
  obtain ⟨_, _, _, i4, i5⟩ := Executer.exit_nodes_spec node_map names w r h
  by_cases hp : p ∈ spec_node_ptrs node_map names
  · rw [i5 p hp]
    decide
  · rw [i4 p hp]
    exact hw

/-- The finishing block of `Transition` does not return while a target task waits
for a node that never becomes RUNNING. -/
theorem Executer.Transition_finish_waiting (env : TickEnv) (e : Executer) (w : World)
    (evs : List Event) (hnd : (e.target_task_set_.map Task.GetTaskName).Nodup)
    (t : Task) (ht : t ∈ e.target_task_set_) (n : String)
    (hn : n ∈ (e.target_task_setting t.GetTaskName).pre_node) (p : NodePtr)
    (hp : e.node_map_.GetNodePtr n = Except.ok p)
    (hw : (w.nodes p).state_ ≠ NodeState.RUNNING)
    (hothers : ∀ k w', (w'.nodes p).state_ ≠ NodeState.RUNNING →
      ((env.others k w').nodes p).state_ ≠ NodeState.RUNNING) :
    failed (Executer.Transition_finish env e w evs) = true := by
  unfold Executer.Transition_finish
  cases hx : Executer.exit_nodes e.node_map_ e.exit_node_set_ w with
  | error f => rfl
  | ok exited =>
    simp only
    have hloop := Executer.start_loop_waiting env.others e.Transition_start
      e.Transition_start_calls (Executer.Transition_start_calls_shape e)
      (fun w' => (w'.nodes p).state_ ≠ NodeState.RUNNING) hothers
      (fun u s s' hq h => by
        show (s'.w.nodes p).state_ ≠ NodeState.RUNNING
        rw [Executer.Transition_start_nodes e u s s' h]
        exact hq)
      t (fun s o hq h => Executer.Transition_start_waits e t n hn p hp s o hq h) env.fuel
      (Executer.wait_list e.target_task_set_) 0 (Executer.wait_set e.target_task_set_)
      { w := exited.1, evs := evs ++ exited.2, all_init_node_set_log := [] }
      (Executer.wait_set_matches_init _)
      (by simpa [Executer.wait_list, Function.comp_def] using hnd)
      (by
        simp only [Executer.wait_list, List.mem_map]
        exact ⟨t, ht, rfl⟩)
      (Executer.exit_nodes_not_running _ _ w exited hx p hw)
    cases hl : Executer.start_loop env.others e.Transition_start env.fuel
        (Executer.wait_list e.target_task_set_)
        (0, Executer.wait_set e.target_task_set_,
          { w := exited.1, evs := evs ++ exited.2, all_init_node_set_log := [] }) with
    | error f => rfl
    | ok r =>
      rw [hl] at hloop
      exact Bool.noConfusion hloop

/-- The activation of `Run` that enters the start loop of a transition does not
return while a target task waits for a node that never becomes RUNNING. -/
theorem Executer.Run_waiting (env : TickEnv) (e : Executer) (w : World)
    (hnd : (e.target_task_set_.map Task.GetTaskName).Nodup) (htr : e.is_transition_ = true)
    (hexit : e.all_node_exit_check_ = true) (henter : e.all_node_enter_check_ = true)
    (hstop : e.all_current_task_stop_ = true)
    (t : Task) (ht : t ∈ e.target_task_set_) (n : String)
    (hn : n ∈ (e.target_task_setting t.GetTaskName).pre_node) (p : NodePtr)
    (hp : e.node_map_.GetNodePtr n = Except.ok p)
    (hw : (w.nodes p).state_ ≠ NodeState.RUNNING)
    (hothers : ∀ k w', (w'.nodes p).state_ ≠ NodeState.RUNNING →
      ((env.others k w').nodes p).state_ ≠ NodeState.RUNNING) :
    failed (e.Run env w) = true := by
  have hs : (e.Subscribe env.msg).is_transition_ = true := by
    rw [Executer.Subscribe_is_transition]; exact htr
  have hc := Executer.TransitionCheck_in_transition _ hs
  have hfin : ∀ e1 : Executer, e1.node_map_ = e.node_map_ →
      e1.executer_config_ = e.executer_config_ → e1.target_group_ = e.target_group_ →
      e1.target_task_set_ = e.target_task_set_ →
      failed (Executer.Transition_finish env (Executer.Transition_stop e1 w).1
        (Executer.Transition_stop e1 w).2.1 (Executer.Transition_stop e1 w).2.2) = true := by
    intro e1 g1 g2 g3 g4
    have hnodes := (Executer.Transition_stop_spec e1 w).2.1
    have hfst := Executer.Transition_stop_fst e1 w
    refine Executer.Transition_finish_waiting env _ _ _ ?_ t ?_ n ?_ p ?_
      (by rw [hnodes]; exact hw) hothers
    · rw [hfst]
      show (e1.target_task_set_.map Task.GetTaskName).Nodup
      rw [g4]
      exact hnd
    · rw [hfst]
      show t ∈ e1.target_task_set_
      rw [g4]
      exact ht
    · rw [hfst, Executer.target_task_setting_congr e
        { e1 with task_stop_flag_ := e1.task_stop_flag_ && false } g2 g3]
      exact hn
    · rw [hfst]
      show e1.node_map_.GetNodePtr n = Except.ok p
      rw [g1]
      exact hp
  unfold Executer.Run
  rw [hc]
  simp only [hs, if_true]
  have ht1 : (e.Subscribe env.msg).Transition env w =
      Executer.Transition_finish env (Executer.Transition_stop (e.Subscribe env.msg) w).1
        (Executer.Transition_stop (e.Subscribe env.msg) w).2.1
        (Executer.Transition_stop (e.Subscribe env.msg) w).2.2 := by
    have c1 : ((e.Subscribe env.msg).all_node_exit_check_ &&
        (e.Subscribe env.msg).all_node_enter_check_) = true := by
      cases env.msg <;> simp [Executer.Subscribe, hexit, henter]
    have c2 : (Executer.Transition_stop (e.Subscribe env.msg) w).1.all_current_task_stop_ =
        true := by
      rw [Executer.Transition_stop_fst]
      cases env.msg <;> simp [Executer.Subscribe, hstop]
    unfold Executer.Transition
    rw [if_pos c1, if_pos c2]
  rw [ht1]
  have := hfin (e.Subscribe env.msg) (by cases env.msg <;> rfl) (by cases env.msg <;> rfl)
    (by cases env.msg <;> rfl) (by cases env.msg <;> rfl)
  cases hres : Executer.Transition_finish env (Executer.Transition_stop (e.Subscribe env.msg) w).1
      (Executer.Transition_stop (e.Subscribe env.msg) w).2.1
      (Executer.Transition_stop (e.Subscribe env.msg) w).2.2 with
  | error f => rfl
  | ok r =>
    rw [hres] at this
    exact Bool.noConfusion this

/-- The passes of the start loop of `Transition` while a target task waits for a
node that does not become RUNNING. -/
theorem Executer.Transition_passes_waiting (others : Nat → World → World) (e : Executer)
    (hnd : (e.target_task_set_.map Task.GetTaskName).Nodup)
    (t : Task) (ht : t ∈ e.target_task_set_) (n : String)
    (hn : n ∈ (e.target_task_setting t.GetTaskName).pre_node) (p : NodePtr)
    (hp : e.node_map_.GetNodePtr n = Except.ok p)
    (hothers : ∀ k w', (w'.nodes p).state_ ≠ NodeState.RUNNING →
      ((others k w').nodes p).state_ ≠ NodeState.RUNNING)
    (s : StartState) (k : Nat) (r : List (Bool × Task) × Nat × List String × StartState)
    (hs : (s.w.nodes p).state_ ≠ NodeState.RUNNING)
    (h : Executer.start_passes others e.Transition_start k
      (Executer.wait_list e.target_task_set_) (0, Executer.wait_set e.target_task_set_, s) =
        Except.ok r) :
    (false, t) ∈ r.1 ∧ r.2.2.1.isEmpty = false ∧
    ∃ started : List Task,
      r.2.2.2.evs = s.evs ++ started.flatMap e.Transition_start_calls ∧ t ∉ started ∧
      ∀ u ∈ started, u ∈ e.target_task_set_ := by
  obtain ⟨a1, a2, started, a3, a4, a5⟩ := Executer.start_passes_waiting others e.Transition_start
    e.Transition_start_calls (Executer.Transition_start_calls_shape e)
    (fun w' => (w'.nodes p).state_ ≠ NodeState.RUNNING) hothers
    (fun u s s' hq h => by
      show (s'.w.nodes p).state_ ≠ NodeState.RUNNING
      rw [Executer.Transition_start_nodes e u s s' h]
      exact hq)
    t (fun s o hq h => Executer.Transition_start_waits e t n hn p hp s o hq h) k
    (Executer.wait_list e.target_task_set_) 0 (Executer.wait_set e.target_task_set_) s r h
    (Executer.wait_set_matches_init _)
    (by simpa [Executer.wait_list, Function.comp_def] using hnd)
    (by
      simp only [Executer.wait_list, List.mem_map]
      exact ⟨t, ht, rfl⟩)
    hs
  refine ⟨a1, a2, started, a3, a4, ?_⟩
  intro u hu
  have := a5 u hu
  simp only [Executer.wait_list, List.mem_map] at this
  obtain ⟨v, hv, hv'⟩ := this
  cases hv'
  exact hv

/-- The log lines of the three calls of a start in the start loop of `Transition`
are the info line of `TaskStart` and the info line "Task start.". -/
theorem Executer.Transition_start_calls_log_lines (e : Executer) (u : Task) :
    ([Event.TaskInit u.self (e.all_init_node_set u.GetTaskName),
      Event.TaskStart u.self,
      Event.logger_info "[Executer] Task start." [u.GetTaskName]]).flatMap Event.log_lines =
    [{ level := LogLevel.info, text := "[TASK] task thread ready to run!",
       args := [u.self.task_name] },
     { level := LogLevel.info, text := "[Executer] Task start.", args := [u.GetTaskName] }] := by
  rfl

/-- C21 (amended): let the executer be in a reachable state in which a transition
is in progress, the handshake has succeeded and the current tasks have been
seen stopped, so that the next activation of `Run` enters the start loop, and
let a target task wait for a registered `pre_node` that is not RUNNING and that
no other thread makes RUNNING.  (1) The activation does not return, whatever
the number of passes granted to the loop: the statement that stores the target
group in `current_group_` is not reached, so `current_group_` keeps its old
value.  (2) After any number of passes the task still waits, the wait set is
not empty, the calls made by the loop so far are `Init`, `TaskStart` and the
log call "Task start." for each of the other target tasks that it has started,
and every log line written in the course of these calls, the line of
`TaskStart` included, has the level `info`: no warning is written.  (3) A pass
that starts no task makes no call, so it writes no log line. -/
theorem C21_waiting_start_writes_no_warning (env : TickEnv) (e : Executer) (w : World)
    (hreach : Executer.Reachable e) (htr : e.is_transition_ = true)
    (hexit : e.all_node_exit_check_ = true) (henter : e.all_node_enter_check_ = true)
    (hstop : e.all_current_task_stop_ = true)
    (t : Task) (ht : t ∈ e.target_task_set_) (n : String)
    (hn : n ∈ (e.target_task_setting t.GetTaskName).pre_node) (p : NodePtr)
    (hp : e.node_map_.GetNodePtr n = Except.ok p)
    (hw : (w.nodes p).state_ ≠ NodeState.RUNNING)
    (hothers : ∀ k w', (w'.nodes p).state_ ≠ NodeState.RUNNING →
      ((env.others k w').nodes p).state_ ≠ NodeState.RUNNING) :
    (∀ fuel : Nat, failed (e.Run { env with fuel := fuel } w) = true) ∧
    (∀ (s : StartState) (k : Nat) (r : List (Bool × Task) × Nat × List String × StartState),
      (s.w.nodes p).state_ ≠ NodeState.RUNNING →
      Executer.start_passes env.others e.Transition_start k
        (Executer.wait_list e.target_task_set_)
        (0, Executer.wait_set e.target_task_set_, s) = Except.ok r →
      (false, t) ∈ r.1 ∧ r.2.2.1.isEmpty = false ∧
      ∃ (started : List Task) (calls : List Event),
        r.2.2.2.evs = s.evs ++ calls ∧
        calls = started.flatMap
          (fun u => [Event.TaskInit u.self (e.all_init_node_set u.GetTaskName),
            Event.TaskStart u.self, Event.logger_info "[Executer] Task start." [u.GetTaskName]]) ∧
        t ∉ started ∧ (∀ u ∈ started, u ∈ e.target_task_set_) ∧
        ∀ line ∈ calls.flatMap Event.log_lines, line.level = LogLevel.info) ∧
    (∀ (list : List (Bool × Task)) (c : Nat) (ws : List String) (s : StartState)
        (r : List (Bool × Task) × Nat × List String × StartState),
      Executer.start_sweep env.others e.Transition_start list (c, ws, s) = Except.ok r →
      r.1 = list → r.2.2.2.evs = s.evs) := by
  have hnd := Executer.names_nodup_of_is_task_set e _ (Executer.Reachable.inv e hreach).target_tasks
  refine ⟨?_, ?_, ?_⟩
  · intro fuel
    exact Executer.Run_waiting { env with fuel := fuel } e w hnd htr hexit henter hstop t ht n hn
      p hp hw hothers
  · intro s k r hs h
    obtain ⟨a1, a2, started, a3, a4, a5⟩ :=
      Executer.Transition_passes_waiting env.others e hnd t ht n hn p hp hothers s k r hs h
    refine ⟨a1, a2, started, _, a3, rfl, a4, a5, ?_⟩
    intro line hline
    simp only [List.mem_flatMap] at hline
    obtain ⟨ev, ⟨u, _, hev⟩, hl⟩ := hline
    simp only [Executer.Transition_start_calls, List.mem_cons, List.mem_singleton,
      List.not_mem_nil, or_false] at hev
    rcases hev with rfl | rfl | rfl
    · exact absurd hl (List.not_mem_nil _)
    · rw [List.mem_singleton.mp hl]
    · rw [List.mem_singleton.mp hl]
  · intro list c ws s r h hsame
    exact Executer.start_sweep_idle env.others e.Transition_start e.Transition_start_calls
      (Executer.Transition_start_calls_shape e) list c ws s r h hsame

theorem demo_stall_stopped_reachable : Executer.Reachable demo_stall_stopped.1 :=
  Executer.Reachable.tick (demo_env none) demo_stall_polled.1
    (demo_threads demo_stall_polled.2.1) demo_stall_stopped
    (Executer.Reachable.tick (demo_env (some "G1")) demo_stall_boot.1
      (demo_threads demo_stall_boot.2.1) demo_stall_polled
      (Executer.Reachable.boot demo_config_stall demo_node_map _ _ (got_eq _ _ (by decide)))
      (got_eq _ demo_stall_boot (by decide)))
    (got_eq _ demo_stall_polled (by decide))

theorem demo_stall_names_nodup :
    (demo_stall_stopped.1.target_task_set_.map Task.GetTaskName).Nodup :=
  Executer.names_nodup_of_is_task_set _ _ (Executer.Reachable.inv _ demo_stall_stopped_reachable).target_tasks

/-- C21 fails as stated: in `demo_stall_stopped` the task `T1` waits for the node
`D`, which is registered, in state INIT, and made RUNNING by no thread; the
start loop writes no warning, whatever the number of passes it makes (it makes
no call at all). -/
theorem C21_counterexample :
    ¬ ∀ (others : Nat → World → World) (e : Executer) (s : StartState) (t : Task) (n : String)
        (p : NodePtr),
      Executer.Reachable e → t ∈ e.target_task_set_ →
      n ∈ (e.target_task_setting t.GetTaskName).pre_node →
      e.node_map_.GetNodePtr n = Except.ok p →
      (s.w.nodes p).state_ ≠ NodeState.RUNNING →
      (∀ k w', (w'.nodes p).state_ ≠ NodeState.RUNNING →
        ((others k w').nodes p).state_ ≠ NodeState.RUNNING) →
      ∃ k r calls line,
        Executer.start_passes others e.Transition_start k
          (Executer.wait_list e.target_task_set_)
          (0, Executer.wait_set e.target_task_set_, s) = Except.ok r ∧
        r.2.2.2.evs = s.evs ++ calls ∧
        line ∈ calls.flatMap Event.log_lines ∧ line.level = LogLevel.warn := by
  intro h
  have hmem : demo_stall_task ∈ demo_stall_stopped.1.target_task_set_ :=
    List.mem_cons_self _ _
  have hn : "D" ∈
      (demo_stall_stopped.1.target_task_setting demo_stall_task.GetTaskName).pre_node := by
    decide
  have hp : demo_stall_stopped.1.node_map_.GetNodePtr "D" = Except.ok 3 := rfl
  have hs : (demo_stall_start.w.nodes 3).state_ ≠ NodeState.RUNNING := by decide
  have ho : ∀ (k : Nat) (w' : World), (w'.nodes 3).state_ ≠ NodeState.RUNNING →
      (((demo_env none).others k w').nodes 3).state_ ≠ NodeState.RUNNING := fun _ _ h => h
  obtain ⟨k, r, calls, line, h1, h2, h3, _⟩ := h (demo_env none).others demo_stall_stopped.1
    demo_stall_start demo_stall_task "D" 3 demo_stall_stopped_reachable hmem hn hp hs ho
  obtain ⟨_, _, started, a3, a4, a5⟩ := Executer.Transition_passes_waiting (demo_env none).others
    demo_stall_stopped.1 demo_stall_names_nodup demo_stall_task hmem "D" hn 3 hp ho
    demo_stall_start k r hs h1
  have hnil : started = [] := by
    cases started with
    | nil => rfl
    | cons u rest =>
      have hu := a5 u (List.mem_cons_self _ _)
      have hu' : u = demo_stall_task := by
        have : u ∈ [demo_stall_task] := hu
        simpa using this
      rw [hu'] at a4
      exact absurd (List.mem_cons_self _ _) a4
  rw [hnil] at a3
  simp only [List.flatMap_nil, List.append_nil] at a3
  rw [a3] at h2
  have hc : calls = [] := by simpa using h2
  rw [hc] at h3
  simp at h3

/-- C21 (amended) on `demo_stall_stopped`: the activation that enters the start
loop does not return within 2 passes, nor within any other number. -/
theorem C21_witness :
    Executer.Reachable demo_stall_stopped.1 ∧
    demo_stall_stopped.1.is_transition_ = true ∧
    demo_stall_stopped.1.current_group_ = "empty_init" ∧
    demo_stall_stopped.1.target_group_ = "G1" ∧
    fault_of (demo_stall_stopped.1.Run (demo_env none) demo_stall_start.w) =
      some Fault.no_fuel ∧
    ∀ fuel : Nat,
      failed (demo_stall_stopped.1.Run { demo_env none with fuel := fuel } demo_stall_start.w) =
        true :=
  ⟨demo_stall_stopped_reachable, by decide, by decide, by decide, by decide,
   (C21_waiting_start_writes_no_warning (demo_env none) demo_stall_stopped.1 demo_stall_start.w
     demo_stall_stopped_reachable (by decide) (by decide) (by decide) (by decide)
     demo_stall_task (List.mem_cons_self _ _) "D" (by decide) 3 rfl (by decide)
     (fun _ _ h => h)).1⟩

theorem demo_tick_reachable (env : TickEnv) (s : Executer × World × List Event)
    (h : Executer.Reachable s.1) : Executer.Reachable (demo_tick env s).1 := by
  unfold demo_tick
  cases hr : s.1.Run env (env.before s.2.1) with
  | error f => exact h
  | ok r => exact Executer.Reachable.tick env s.1 _ r h hr

theorem demo_ticks_reachable (envs : List TickEnv) (s : Executer × World × List Event)
    (h : Executer.Reachable s.1) : Executer.Reachable (demo_ticks envs s).1 := by
  induction envs generalizing s with
  | nil => exact h
  | cons env rest ih => exact ih _ (demo_tick_reachable env s h)


/-- C5 fails as stated: with `demo_config`, let the group go to `G1`, to `G2` and
back to `G1` while the task threads stay parked (a task that is told to stop
before its start delay is over calls no `Run`).  The second start of `T1` is
made with `force_init_node` empty and `enter_node_set_` holding `B` only, yet
after it the init flag of `C` is set on `T1`: it was raised by the first start
and nothing has lowered it.  `C` is a node of the old group `G2` and not a
`force_init_node`. -/
theorem C5_counterexample :
    Executer.Reachable demo_g1_again_stopped.1 ∧
    demo_g1_again_stopped.1.Run (demo_env_parked none)
      (demo_parked demo_g1_again_stopped.2.1) = Except.ok demo_g1_again ∧
    demo_g1_again_stopped.1.is_transition_ = true ∧
    demo_g1_again.1.is_transition_ = false ∧
    demo_g1_again.1.target_task_set_.map Task.self = [TaskPtr.standby "T1"] ∧
    Event.TaskStart (TaskPtr.standby "T1") ∈ demo_g1_again.2.2 ∧
    (demo_g1_again.1.target_task_setting "T1").force_init_node = [] ∧
    demo_g1_again.1.enter_node_set_ = ["B"] ∧
    demo_g1_again.1.all_init_node_set "T1" = ["B"] ∧
    "C" ∈ demo_g1_again.1.current_node_set_ ∧
    unordered_map.find (demo_g1_again.2.1.tasks (TaskPtr.standby "T1")).node_init_flag_ "C" =
      some true :=
  ⟨demo_ticks_reachable _ _
     (Executer.Reachable.boot demo_config demo_node_map _ _ (got_eq _ _ (by decide))),
   got_eq _ demo_g1_again_stopped (by decide),
   by decide, by decide, by decide, by decide, by decide, by decide, by decide, by decide,
   by decide⟩

/-- C11 fails as stated: in `demo_calls` three init requests are made for the node
`C` at address 2 (an `Init()` on `T1` and two `Init(names)` on `T2` that list
`C`), and `Init()` is called on `C` twice: the two requests on `T2` are made
before its next `Run`, which serves them by one call. -/
theorem C11_counterexample :
    ∃ r, Task.calls demo_calls demo_task_world = Except.ok r ∧
      (demo_task_world.nodes 2).node_name_ = "C" ∧
      (demo_calls.filter (TaskCall.requests_init 2 "C")).length = 3 ∧
      (r.2.flatMap Prod.snd).count (Event.Init 2) = 2 :=
  ⟨_, got_eq _ (demo_task_world, []) (by decide), by decide, by decide, by decide⟩

theorem Executer.CreateTask_group_raising_error (ctor_throws : TaskSetting → Bool)
    (node_map : NodeMap) (address : String → TaskPtr)
    (l : List (String × TaskSetting)) (s : List (String × Task) × World × List Event) :
    (∃ x, Executer.CreateTask_group_raising ctor_throws node_map address l s = Except.error x) ↔
      ∃ t ∈ l, (∃ c ∈ t.2.node_list, unordered_map.find node_map.node_map_ c.node_name = none) ∨
        ctor_throws t.2 = true := by
  induction l generalizing s with
  | nil => simp [Executer.CreateTask_group_raising]
  | cons t rest ih =>
    simp only [Executer.CreateTask_group_raising, List.mem_cons, exists_eq_or_imp]
    rw [← Executer.CreateTask_nodes_failed]
    cases h : Executer.CreateTask_nodes node_map t.2.node_list with
    | error f => simp [failed]
    | ok ps =>
      simp only
      by_cases hc : ctor_throws t.2 = true
      · simp [hc]
      · rw [if_neg hc, ih]
        simp [failed, hc]

theorem Executer.CreateTask_group_raising_never (ctor_throws : TaskSetting → Bool)
    (node_map : NodeMap) (address : String → TaskPtr)
    (l : List (String × TaskSetting)) (s : List (String × Task) × World × List Event)
    (h : ∀ t ∈ l, ctor_throws t.2 = false) :
    Executer.CreateTask_group_raising ctor_throws node_map address l s =
      CreateTaskThrown.lift (Executer.CreateTask_group node_map address l s) := by
  induction l generalizing s with
  | nil => rfl
  | cons t rest ih =>
    simp only [Executer.CreateTask_group_raising, Executer.CreateTask_group]
    cases h1 : Executer.CreateTask_nodes node_map t.2.node_list with
    | error f => rfl
    | ok ps =>
      simp only
      rw [if_neg (by simp [h t (List.mem_cons_self _ _)])]
      exact ih _ (fun u hu => h u (List.mem_cons_of_mem _ hu))

theorem Executer.CreateTask_raising_error (ctor_throws : TaskSetting → Bool) (e : Executer)
    (w : World) :
    (∃ x, e.CreateTask_raising ctor_throws w = Except.error x) ↔
      ∃ t ∈ e.executer_config_.task_list.resident_group ++
          e.executer_config_.task_list.standby_group,
        (∃ c ∈ t.2.node_list, unordered_map.find e.node_map_.node_map_ c.node_name = none) ∨
          ctor_throws t.2 = true := by
  simp only [List.mem_append, or_and_right, exists_or]
  rw [← Executer.CreateTask_group_raising_error ctor_throws e.node_map_ TaskPtr.resident _
    (e.resident_group_task_list_, w, [])]
  unfold Executer.CreateTask_raising
  cases h1 : Executer.CreateTask_group_raising ctor_throws e.node_map_ TaskPtr.resident
      e.executer_config_.task_list.resident_group (e.resident_group_task_list_, w, []) with
  | error f => simp
  | ok r1 =>
    simp only
    rw [← Executer.CreateTask_group_raising_error ctor_throws e.node_map_ TaskPtr.standby _
      (e.standby_group_task_list_, r1.2.1, r1.2.2)]
    cases h2 : Executer.CreateTask_group_raising ctor_throws e.node_map_ TaskPtr.standby
        e.executer_config_.task_list.standby_group
        (e.standby_group_task_list_, r1.2.1, r1.2.2) with
    | error f => simp
    | ok r2 => simp

theorem Executer.CreateTask_raising_never (ctor_throws : TaskSetting → Bool) (e : Executer)
    (w : World)
    (h : ∀ t ∈ e.executer_config_.task_list.resident_group ++
      e.executer_config_.task_list.standby_group, ctor_throws t.2 = false) :
    e.CreateTask_raising ctor_throws w = CreateTaskThrown.lift (e.CreateTask w) := by
  unfold Executer.CreateTask_raising Executer.CreateTask
  rw [Executer.CreateTask_group_raising_never ctor_throws _ _ _ _
    (fun t ht => h t (List.mem_append_left _ ht))]
  cases h1 : Executer.CreateTask_group e.node_map_ TaskPtr.resident
      e.executer_config_.task_list.resident_group (e.resident_group_task_list_, w, []) with
  | error f => rfl
  | ok r1 =>
    simp only [CreateTaskThrown.lift]
    rw [Executer.CreateTask_group_raising_never ctor_throws _ _ _ _
      (fun t ht => h t (List.mem_append_right _ ht))]
    cases h2 : Executer.CreateTask_group e.node_map_ TaskPtr.standby
        e.executer_config_.task_list.standby_group
        (e.standby_group_task_list_, r1.2.1, r1.2.2) with
    | error f => rfl
    | ok r2 => rfl

/-- The readiness check throws at a name that the registry does not hold, when the
names in front of it are registered nodes that are RUNNING. -/
theorem Executer.pre_node_ready_unknown (node_map : NodeMap) (w : World)
    (front : List String) (n : String) (back : List String)
    (hfront : ∀ m ∈ front, ∃ p, node_map.GetNodePtr m = Except.ok p ∧
      (w.nodes p).state_ = NodeState.RUNNING)
    (hn : unordered_map.find node_map.node_map_ n = none) :
    Executer.pre_node_ready node_map w (front ++ n :: back) =
      Except.error (Fault.node_not_found n) := by
  induction front with
  | nil =>
    simp only [List.nil_append, Executer.pre_node_ready]
    simp [NodeMap.GetNodePtr, hn]
  | cons m rest ih =>
    obtain ⟨p, hp, hs⟩ := hfront m (List.mem_cons_self _ _)
    simp only [List.cons_append, Executer.pre_node_ready, hp, hs, if_true]
    exact ih (fun k hk => hfront k (List.mem_cons_of_mem _ hk))

/-- C9 (amended), with task constructors that can throw (`ctor_throws`).
(1) `CreateTask` ends with an exception whenever the node list of some resident
or standby task names a node that the registry does not hold.  (2) It ends with
an exception exactly when some node list names such a node or the constructor
of some task throws; so a name that occurs only in a `pre_node` or
`force_init_node` list is not detected by it.  (3) When no constructor throws,
it is the method `Executer.CreateTask`, (4) which fails exactly when some node
list names a node that the registry does not hold.  (5) A readiness check of a
`pre_node` list throws the exception of `GetNodePtr` for a name that the
registry does not hold, when it reaches it: the names in front of it are
registered nodes in state RUNNING. -/
theorem C9_create_task_fails_iff :
    (∀ (ctor_throws : TaskSetting → Bool) (e : Executer) (w : World),
      (∃ n ∈ spec_node_list_names e.executer_config_,
        unordered_map.find e.node_map_.node_map_ n = none) →
      ∃ x, e.CreateTask_raising ctor_throws w = Except.error x) ∧
    (∀ (ctor_throws : TaskSetting → Bool) (e : Executer) (w : World),
      (∃ x, e.CreateTask_raising ctor_throws w = Except.error x) ↔
        (∃ n ∈ spec_node_list_names e.executer_config_,
          unordered_map.find e.node_map_.node_map_ n = none) ∨
        ∃ t ∈ e.executer_config_.task_list.resident_group ++
            e.executer_config_.task_list.standby_group, ctor_throws t.2 = true) ∧
    (∀ (ctor_throws : TaskSetting → Bool) (e : Executer) (w : World),
      (∀ t ∈ e.executer_config_.task_list.resident_group ++
          e.executer_config_.task_list.standby_group, ctor_throws t.2 = false) →
      e.CreateTask_raising ctor_throws w = CreateTaskThrown.lift (e.CreateTask w)) ∧
    (∀ (e : Executer) (w : World),
      failed (e.CreateTask w) = true ↔
        ∃ n ∈ spec_node_list_names e.executer_config_,
          unordered_map.find e.node_map_.node_map_ n = none) ∧
    (∀ (node_map : NodeMap) (w : World) (front : List String) (n : String)
        (back : List String),
      (∀ m ∈ front, ∃ p, node_map.GetNodePtr m = Except.ok p ∧
        (w.nodes p).state_ = NodeState.RUNNING) →
      unordered_map.find node_map.node_map_ n = none →
      Executer.pre_node_ready node_map w (front ++ n :: back) =
        Except.error (Fault.node_not_found n)) := by
  have key : ∀ (ctor_throws : TaskSetting → Bool) (e : Executer) (w : World),
      (∃ x, e.CreateTask_raising ctor_throws w = Except.error x) ↔
        (∃ n ∈ spec_node_list_names e.executer_config_,
          unordered_map.find e.node_map_.node_map_ n = none) ∨
        ∃ t ∈ e.executer_config_.task_list.resident_group ++
            e.executer_config_.task_list.standby_group, ctor_throws t.2 = true := by
    intro ctor_throws e w
    rw [Executer.CreateTask_raising_error]
    simp only [spec_node_list_names, List.mem_flatMap, List.mem_map]
    constructor
    · rintro ⟨t, ht, ⟨c, hc, hn⟩ | h⟩
      · exact Or.inl ⟨_, ⟨t, ht, c, hc, rfl⟩, hn⟩
      · exact Or.inr ⟨t, ht, h⟩
    · rintro (⟨n, ⟨t, ht, c, hc, rfl⟩, hn⟩ | ⟨t, ht, h⟩)
      · exact ⟨t, ht, Or.inl ⟨c, hc, hn⟩⟩
      · exact ⟨t, ht, Or.inr h⟩
  have never := Executer.CreateTask_raising_never
  refine ⟨fun c e w h => (key c e w).mpr (Or.inl h), key, never, ?_,
    Executer.pre_node_ready_unknown⟩
  intro e w
  have h1 := key (fun _ => false) e w
  rw [never (fun _ => false) e w (fun _ _ => rfl)] at h1
  simp only [Bool.false_eq_true, and_false, exists_false, or_false] at h1
  rw [← h1]
  cases e.CreateTask w with
  | error f => simp [failed, CreateTaskThrown.lift]
  | ok r => simp [failed, CreateTaskThrown.lift]

/-- C9 on `demo_config` with an empty registry and constructors that do not
throw: the node list of the task `R` names `A`, which the registry does not
hold, and `CreateTask` ends with an exception. -/
theorem C9_witness :
    (∃ n ∈ spec_node_list_names (Executer.ctor demo_config {}).executer_config_,
      unordered_map.find (Executer.ctor demo_config {}).node_map_.node_map_ n = none) ∧
    ∃ x, (Executer.ctor demo_config {}).CreateTask_raising (fun _ => false)
      (demo_world []) = Except.error x :=
  ⟨⟨"A", by decide, by decide⟩,
   C9_create_task_fails_iff.1 (fun _ => false) (Executer.ctor demo_config {}) (demo_world [])
     ⟨"A", by decide, by decide⟩⟩

end ocm
